import Mathlib

/-!
# Render graph: access merging, hazard tracking and frame lifecycle

A shallow embedding of `engine/gfx/RenderGraph.cpp` / `RenderGraph.hpp` and of the parts of
`engine/gfx/VulkanContext.cpp` / `VulkanContext.hpp` that the render graph drives.

Conventions of the embedding:

* Vulkan flag words (`VkPipelineStageFlags2`, `VkAccessFlags2`, ...) and enumerators
  (`VkImageLayout`, `VkResult`) are numbers carrying the values of the Vulkan headers;
  flag arithmetic is `&&&` / `|||` on `Nat`.
* Native handles (`VkImage`, `VkBuffer`, `VkCommandBuffer`, ...) are `Nat`, with
  `0` standing for `VK_NULL_HANDLE`.
* `std::vector` is `List`; `v[i]` on a checked index is `v[i]?`.
* A `VkImageLayout*` is a `LayoutPtr`, the address of one of the layout cells owned by the
  device context; the contents of the cells are a function from addresses to layouts.
* Calls into the device context that record commands, and invocations of pass callbacks,
  are appended to an event trace in program order.
* A C++ exception (`vkFail`) is the result `none`.
-/

/-! ## Vulkan header values -/

def VK_NULL_HANDLE : Nat := 0

def VK_PIPELINE_STAGE_2_TOP_OF_PIPE_BIT : Nat := 0x00000001
def VK_PIPELINE_STAGE_2_DRAW_INDIRECT_BIT : Nat := 0x00000002
def VK_PIPELINE_STAGE_2_VERTEX_SHADER_BIT : Nat := 0x00000008
def VK_PIPELINE_STAGE_2_FRAGMENT_SHADER_BIT : Nat := 0x00000080
def VK_PIPELINE_STAGE_2_EARLY_FRAGMENT_TESTS_BIT : Nat := 0x00000100
def VK_PIPELINE_STAGE_2_LATE_FRAGMENT_TESTS_BIT : Nat := 0x00000200
def VK_PIPELINE_STAGE_2_COLOR_ATTACHMENT_OUTPUT_BIT : Nat := 0x00000400
def VK_PIPELINE_STAGE_2_COMPUTE_SHADER_BIT : Nat := 0x00000800
def VK_PIPELINE_STAGE_2_TRANSFER_BIT : Nat := 0x00001000
def VK_PIPELINE_STAGE_2_BOTTOM_OF_PIPE_BIT : Nat := 0x00002000

def VK_ACCESS_2_INDIRECT_COMMAND_READ_BIT : Nat := 0x00000001
def VK_ACCESS_2_UNIFORM_READ_BIT : Nat := 0x00000008
def VK_ACCESS_2_SHADER_READ_BIT : Nat := 0x00000020
def VK_ACCESS_2_SHADER_WRITE_BIT : Nat := 0x00000040
def VK_ACCESS_2_COLOR_ATTACHMENT_READ_BIT : Nat := 0x00000080
def VK_ACCESS_2_COLOR_ATTACHMENT_WRITE_BIT : Nat := 0x00000100
def VK_ACCESS_2_DEPTH_STENCIL_ATTACHMENT_READ_BIT : Nat := 0x00000200
def VK_ACCESS_2_DEPTH_STENCIL_ATTACHMENT_WRITE_BIT : Nat := 0x00000400
def VK_ACCESS_2_TRANSFER_READ_BIT : Nat := 0x00000800
def VK_ACCESS_2_TRANSFER_WRITE_BIT : Nat := 0x00001000
def VK_ACCESS_2_HOST_WRITE_BIT : Nat := 0x00004000
def VK_ACCESS_2_MEMORY_WRITE_BIT : Nat := 0x00010000
def VK_ACCESS_2_SHADER_SAMPLED_READ_BIT : Nat := 0x100000000

def VK_IMAGE_LAYOUT_UNDEFINED : Nat := 0
def VK_IMAGE_LAYOUT_COLOR_ATTACHMENT_OPTIMAL : Nat := 2
def VK_IMAGE_LAYOUT_DEPTH_STENCIL_ATTACHMENT_OPTIMAL : Nat := 3
def VK_IMAGE_LAYOUT_SHADER_READ_ONLY_OPTIMAL : Nat := 5
def VK_IMAGE_LAYOUT_PRESENT_SRC_KHR : Nat := 1000001002

def VK_IMAGE_ASPECT_COLOR_BIT : Nat := 0x00000001
def VK_IMAGE_ASPECT_DEPTH_BIT : Nat := 0x00000002

def VK_FORMAT_UNDEFINED : Nat := 0

def VK_ATTACHMENT_LOAD_OP_CLEAR : Nat := 1
def VK_ATTACHMENT_LOAD_OP_DONT_CARE : Nat := 2
def VK_ATTACHMENT_STORE_OP_DONT_CARE : Nat := 1

def VK_SUCCESS : Int := 0
def VK_SUBOPTIMAL_KHR : Int := 1000001003
def VK_ERROR_OUT_OF_DATE_KHR : Int := -1000001004
def VK_ERROR_SURFACE_LOST_KHR : Int := -1000000000

/-- The value `VkExtent2D`: width and height. -/
structure VkExtent2D where
  width : Nat
  height : Nat
  deriving DecidableEq, Repr

/-- The fields of `VkImageMemoryBarrier2` that `applyBarriers` fills in with
resource-dependent values (the remaining fields are constants). -/
structure VkImageMemoryBarrier2 where
  srcStageMask : Nat
  srcAccessMask : Nat
  dstStageMask : Nat
  dstAccessMask : Nat
  oldLayout : Nat
  newLayout : Nat
  image : Nat
  aspectMask : Nat
  deriving DecidableEq, Repr

/-- The fields of `VkBufferMemoryBarrier2` that `applyBarriers` fills in with
resource-dependent values. -/
structure VkBufferMemoryBarrier2 where
  srcStageMask : Nat
  srcAccessMask : Nat
  dstStageMask : Nat
  dstAccessMask : Nat
  buffer : Nat
  deriving DecidableEq, Repr

/-- One entry of `VkRenderingInfoKHR::pColorAttachments` / `pDepthAttachment`, without its
clear value. The image view is the result of the table lookup `images[id]`, which is `none`
when `id` is not an index of the table. -/
structure VkRenderingAttachmentInfoKHR where
  imageView : Option Nat
  imageLayout : Nat
  loadOp : Nat
  storeOp : Nat
  deriving DecidableEq, Repr

/-! ## Device context -/

/-- Address of a `VkImageLayout` cell owned by the device context:
`&swapImageLayouts[index]` or `&depthLayout`. -/
inductive LayoutPtr where
  | swapImage (index : Nat)
  | depth
  deriving DecidableEq, Repr

/-- Embeds `VulkanContext::TransientImage2D`. -/
structure TransientImage2D where
  format : Nat
  extent : VkExtent2D
  usage : Nat
  aspect : Nat
  image : Nat
  view : Nat
  memory : Nat
  deriving DecidableEq, Repr

/-- Embeds `VulkanContext::TransientBuffer`. -/
structure TransientBuffer where
  size : Nat
  usage : Nat
  memFlags : Nat
  buffer : Nat
  memory : Nat
  deriving DecidableEq, Repr

/-- What the command stream and the pass callbacks observe, in program order. -/
inductive Event where
  | cmdBeginLabel (cmd : Nat) (name : String)
  | cmdEndLabel (cmd : Nat)
  | cmdPipelineBarrier2 (cmd : Nat) (imageBarriers : List VkImageMemoryBarrier2)
      (bufferBarriers : List VkBufferMemoryBarrier2)
  | beginRendering (cmd : Nat) (colorAttachments : List VkRenderingAttachmentInfoKHR)
      (depthAttachment : Option VkRenderingAttachmentInfoKHR)
  | endRendering (cmd : Nat)
  | beginMainPass (cmd : Nat)
  | endMainPass (cmd : Nat)
  | exec (callback : Nat) (cmd : Nat)
  deriving DecidableEq, Repr

/-- An entry of a `DeletionQueue`: the native objects a queued closure destroys. -/
structure Deletion where
  image : Nat
  view : Nat
  buffer : Nat
  memory : Nat
  deriving DecidableEq, Repr

/-- The members of `VulkanContext` that the render graph reads or writes. The vector
`swapImageLayouts` is its size `swapImageLayoutCount` together with the contents of its
cells in `layoutCell`, which also holds `depthLayout`. The arrays indexed by frame slot
(`transientImagesInFlight`, `transientBuffersInFlight`, `frameDeletion`) are functions of
the slot. -/
structure VulkanContext where
  swapFormat : Nat
  swapExtent : VkExtent2D
  swapImages : List Nat
  swapViews : List Nat
  depthFmt : Nat
  depthImg : Nat
  depthIv : Nat
  useDynamicRendering : Bool
  cmdBuffers : List Nat
  frameIndex : Nat
  acquiredImage : Nat
  frameDeletion : Nat → List Deletion
  transientImagesFree : List TransientImage2D
  transientBuffersFree : List TransientBuffer
  transientImagesInFlight : Nat → List TransientImage2D
  transientBuffersInFlight : Nat → List TransientBuffer
  framebufferResized : Bool
  swapImageLayoutCount : Nat
  layoutCell : LayoutPtr → Nat
  trace : List Event

namespace VulkanContext

def MAX_FRAMES : Nat := 2

def swapchainFormat (vk : VulkanContext) : Nat := vk.swapFormat
def swapchainExtent (vk : VulkanContext) : VkExtent2D := vk.swapExtent
def depthView (vk : VulkanContext) : Nat := vk.depthIv
def depthFormat (vk : VulkanContext) : Nat := vk.depthFmt
def depthImage (vk : VulkanContext) : Nat := vk.depthImg
def dynamicRenderingEnabled (vk : VulkanContext) : Bool := vk.useDynamicRendering

/-- Reads `swapImages[acquiredImage]`; a null handle when the index is not one of the vector. -/
def currentSwapchainImage (vk : VulkanContext) : Nat := vk.swapImages.getD vk.acquiredImage 0

/-- Reads `swapViews[acquiredImage]`; a null handle when the index is not one of the vector. -/
def currentSwapchainImageView (vk : VulkanContext) : Nat := vk.swapViews.getD vk.acquiredImage 0

/-- Returns `swapImageLayouts.empty() ? nullptr : &swapImageLayouts[acquiredImage]`. -/
def currentSwapchainImageLayoutPtr (vk : VulkanContext) : Option LayoutPtr :=
  if vk.swapImageLayoutCount = 0 then none else some (LayoutPtr.swapImage vk.acquiredImage)

/-- Returns `&depthLayout`. -/
def depthImageLayoutPtr (_vk : VulkanContext) : Option LayoutPtr := some LayoutPtr.depth

/-- Appends one observed event to the trace. -/
def record (vk : VulkanContext) (e : Event) : VulkanContext :=
  { vk with trace := vk.trace ++ [e] }

/-- Store through a `VkImageLayout*`. -/
def storeLayout (vk : VulkanContext) (p : LayoutPtr) (layout : Nat) : VulkanContext :=
  { vk with layoutCell := Function.update vk.layoutCell p layout }

def cmdBeginLabel (vk : VulkanContext) (cmd : Nat) (name : String) : VulkanContext :=
  vk.record (Event.cmdBeginLabel cmd name)

def cmdEndLabel (vk : VulkanContext) (cmd : Nat) : VulkanContext :=
  vk.record (Event.cmdEndLabel cmd)

def cmdPipelineBarrier2 (vk : VulkanContext) (cmd : Nat)
    (imageBarriers : List VkImageMemoryBarrier2) (bufferBarriers : List VkBufferMemoryBarrier2) :
    VulkanContext :=
  vk.record (Event.cmdPipelineBarrier2 cmd imageBarriers bufferBarriers)

def beginRendering (vk : VulkanContext) (cmd : Nat)
    (colorAttachments : List VkRenderingAttachmentInfoKHR)
    (depthAttachment : Option VkRenderingAttachmentInfoKHR) : VulkanContext :=
  vk.record (Event.beginRendering cmd colorAttachments depthAttachment)

def endRendering (vk : VulkanContext) (cmd : Nat) : VulkanContext :=
  vk.record (Event.endRendering cmd)

/-- Embeds `VulkanContext::beginMainPass`: with dynamic rendering it moves the acquired swapchain
image and the depth image to their attachment layouts itself; on the render-pass path it
only begins the render pass. -/
def beginMainPass (vk : VulkanContext) (cmd : Nat) : VulkanContext :=
  if vk.useDynamicRendering then
    let vk1 :=
      if vk.swapImageLayoutCount ≠ 0 then
        vk.storeLayout (LayoutPtr.swapImage vk.acquiredImage) VK_IMAGE_LAYOUT_COLOR_ATTACHMENT_OPTIMAL
      else vk
    let vk2 := vk1.storeLayout LayoutPtr.depth VK_IMAGE_LAYOUT_DEPTH_STENCIL_ATTACHMENT_OPTIMAL
    vk2.record (Event.beginMainPass cmd)
  else
    vk.record (Event.beginMainPass cmd)

def endMainPass (vk : VulkanContext) (cmd : Nat) : VulkanContext :=
  vk.record (Event.endMainPass cmd)

/-- Embeds `frameDeletionQueue().push(...)`: queue a destruction on the current frame slot. -/
def pushFrameDeletion (vk : VulkanContext) (d : Deletion) : VulkanContext :=
  { vk with
    frameDeletion := Function.update vk.frameDeletion vk.frameIndex (vk.frameDeletion vk.frameIndex ++ [d]) }

/-- What the device answers during `beginFrame`: the result of `vkAcquireNextImageKHR`, the
image index it leaves in `acquiredImage`, and the result of `vkBeginCommandBuffer`. -/
structure BeginFrameDevice where
  acquireResult : Int
  imageIndex : Nat
  beginCommandBufferResult : Int
  deriving DecidableEq, Repr

/-- Embeds `VulkanContext::beginFrame`. Returns the command buffer of the frame slot, a null handle
when no frame is available, and `none` when `vkFail` throws. -/
def beginFrame (vk : VulkanContext) (dev : BeginFrameDevice) : Option (Nat × VulkanContext) :=
  if vk.framebufferResized then
    some (VK_NULL_HANDLE, vk)
  else
    let vk1 :=
      if ¬ (vk.transientImagesInFlight vk.frameIndex).isEmpty then
        { vk with
          transientImagesFree := vk.transientImagesFree ++ vk.transientImagesInFlight vk.frameIndex
          transientImagesInFlight := Function.update vk.transientImagesInFlight vk.frameIndex [] }
      else vk
    let vk2 :=
      if ¬ (vk1.transientBuffersInFlight vk1.frameIndex).isEmpty then
        { vk1 with
          transientBuffersFree := vk1.transientBuffersFree ++ vk1.transientBuffersInFlight vk1.frameIndex
          transientBuffersInFlight := Function.update vk1.transientBuffersInFlight vk1.frameIndex [] }
      else vk1
    let vk3 := { vk2 with frameDeletion := Function.update vk2.frameDeletion vk2.frameIndex [] }
    let vk4 := { vk3 with acquiredImage := dev.imageIndex }
    if dev.acquireResult = VK_ERROR_OUT_OF_DATE_KHR ∨ dev.acquireResult = VK_ERROR_SURFACE_LOST_KHR then
      some (VK_NULL_HANDLE, { vk4 with framebufferResized := true })
    else
      let resized : Option Bool :=
        if dev.acquireResult = VK_SUBOPTIMAL_KHR then some true
        else if dev.acquireResult ≠ VK_SUCCESS then none
        else some vk4.framebufferResized
      match resized with
      | none => none
      | some fr =>
        let vk5 := { vk4 with framebufferResized := fr }
        let cmd := vk5.cmdBuffers.getD vk5.frameIndex 0
        if dev.beginCommandBufferResult ≠ VK_SUCCESS then none
        else some (cmd, vk5)

def retireTransientImage2D (vk : VulkanContext) (img : TransientImage2D) : VulkanContext :=
  if img.image = 0 then vk
  else
    { vk with
      transientImagesInFlight :=
        Function.update vk.transientImagesInFlight vk.frameIndex
          (vk.transientImagesInFlight vk.frameIndex ++ [img]) }

def retireTransientBuffer (vk : VulkanContext) (buf : TransientBuffer) : VulkanContext :=
  if buf.buffer = 0 then vk
  else
    { vk with
      transientBuffersInFlight :=
        Function.update vk.transientBuffersInFlight vk.frameIndex
          (vk.transientBuffersInFlight vk.frameIndex ++ [buf]) }

/-- What the device answers during `endFrame`. -/
structure EndFrameDevice where
  endCommandBufferResult : Int
  queueSubmitResult : Int
  queuePresentResult : Int
  deriving DecidableEq, Repr

/-- Embeds `VulkanContext::endFrame`: submit, present, advance the frame slot; `none` when a
`vkCheck` throws. -/
def endFrame (vk : VulkanContext) (dev : EndFrameDevice) : Option VulkanContext :=
  if dev.endCommandBufferResult ≠ VK_SUCCESS then none
  else if dev.queueSubmitResult ≠ VK_SUCCESS then none
  else
    let pr := dev.queuePresentResult
    if pr = VK_ERROR_OUT_OF_DATE_KHR ∨ pr = VK_SUBOPTIMAL_KHR ∨ pr = VK_ERROR_SURFACE_LOST_KHR then
      some { vk with framebufferResized := true, frameIndex := (vk.frameIndex + 1) % MAX_FRAMES }
    else if pr ≠ VK_SUCCESS then none
    else some { vk with frameIndex := (vk.frameIndex + 1) % MAX_FRAMES }

end VulkanContext

/-! ## Render graph data model -/

namespace RenderGraph

structure ImageHandle where
  id : Nat
  deriving DecidableEq, Repr

structure BufferHandle where
  id : Nat
  deriving DecidableEq, Repr

inductive PassType where
  | Compute
  | Graphics
  deriving DecidableEq, Repr

inductive ImageUse where
  | ColorAttachment
  | DepthAttachment
  | Sampled
  | Present
  deriving DecidableEq, Repr

inductive BufferUse where
  | Uniform
  | Storage
  | Indirect
  | Transfer
  deriving DecidableEq, Repr

structure ImageAccess where
  id : Nat
  use : ImageUse
  write : Bool
  deriving DecidableEq, Repr

structure BufferAccess where
  id : Nat
  use : BufferUse
  write : Bool
  deriving DecidableEq, Repr

/-- One call a setup callback makes on the `PassBuilder` it is handed. The clear value of
an attachment is `some c` for an engaged `std::optional<VkClearValue>`. -/
inductive BuilderCall where
  | readImage (h : ImageHandle) (use : ImageUse)
  | writeImage (h : ImageHandle) (use : ImageUse)
  | readBuffer (h : BufferHandle) (use : BufferUse)
  | writeBuffer (h : BufferHandle) (use : BufferUse)
  | colorAttachment (h : ImageHandle) (loadOp : Nat) (storeOp : Nat) (clear : Option Nat)
  | depthAttachment (h : ImageHandle) (loadOp : Nat) (storeOp : Nat) (clear : Option Nat)
  deriving DecidableEq, Repr

/-- Embeds `RenderGraph::Pass`. The setup callback is the sequence of builder calls it makes, the
exec callback is `none` for an empty `SmallFn` and otherwise the identity of the closure. -/
structure Pass where
  name : String
  type : PassType
  setup : List BuilderCall
  exec : Option Nat
  images : List ImageAccess
  buffers : List BufferAccess
  colorAttachments : List Nat
  colorLoad : List Nat
  colorStore : List Nat
  colorHasClear : List Nat
  colorClear : List Nat
  hasDepth : Bool
  depthAttachment : Nat
  depthLoad : Nat
  depthStore : Nat
  depthHasClear : Nat
  depthClear : Nat
  deriving DecidableEq, Repr

structure ImageResource where
  name : String
  image : Nat
  view : Nat
  memory : Nat
  format : Nat
  extent : VkExtent2D
  aspectMask : Nat
  layout : Nat
  externalLayoutPtr : Option LayoutPtr
  lastStage : Nat
  lastAccess : Nat
  owned : Bool
  pooled : Bool
  deriving DecidableEq, Repr

structure BufferResource where
  buffer : Nat
  memory : Nat
  lastStage : Nat
  lastAccess : Nat
  owned : Bool
  pooled : Bool
  deriving DecidableEq, Repr

structure RetireImage2D where
  format : Nat
  extent : VkExtent2D
  usage : Nat
  aspect : Nat
  image : Nat
  view : Nat
  memory : Nat
  deriving DecidableEq, Repr

structure RetireBuffer where
  size : Nat
  usage : Nat
  memFlags : Nat
  buffer : Nat
  memory : Nat
  deriving DecidableEq, Repr

end RenderGraph

open RenderGraph in
/-- The data members of `class RenderGraph`. -/
structure RenderGraph where
  cmdBuf : Nat
  images : List ImageResource
  buffers : List BufferResource
  passes : List Pass
  scratchImgBarriers : List VkImageMemoryBarrier2
  scratchBufBarriers : List VkBufferMemoryBarrier2
  scratchColorAtts : List VkRenderingAttachmentInfoKHR
  retireImages : List RetireImage2D
  retireBuffers : List RetireBuffer
  backbufferHandle : ImageHandle
  depthHandle : ImageHandle
  deriving DecidableEq, Repr

namespace RenderGraph

/-! ## Access declaration (`PassBuilder`) -/

/-- Embeds `addUniqueImageAccess`: merge into the first entry with the same `(id, use)`, else
append. -/
def addUniqueImageAccess : List ImageAccess → Nat → ImageUse → Bool → List ImageAccess
  | [], id, use, write => [{ id := id, use := use, write := write }]
  | a :: v, id, use, write =>
    if a.id = id ∧ a.use = use then
      { a with write := a.write || write } :: v
    else
      a :: addUniqueImageAccess v id use write

/-- Embeds `addUniqueBufferAccess`: merge into the first entry with the same `(id, use)`, else
append. -/
def addUniqueBufferAccess : List BufferAccess → Nat → BufferUse → Bool → List BufferAccess
  | [], id, use, write => [{ id := id, use := use, write := write }]
  | a :: v, id, use, write =>
    if a.id = id ∧ a.use = use then
      { a with write := a.write || write } :: v
    else
      a :: addUniqueBufferAccess v id use write

namespace PassBuilder

def readImage (pass : Pass) (h : ImageHandle) (use : ImageUse) : Pass :=
  { pass with images := addUniqueImageAccess pass.images h.id use false }

def writeImage (pass : Pass) (h : ImageHandle) (use : ImageUse) : Pass :=
  { pass with images := addUniqueImageAccess pass.images h.id use true }

def readBuffer (pass : Pass) (h : BufferHandle) (use : BufferUse) : Pass :=
  { pass with buffers := addUniqueBufferAccess pass.buffers h.id use false }

def writeBuffer (pass : Pass) (h : BufferHandle) (use : BufferUse) : Pass :=
  { pass with buffers := addUniqueBufferAccess pass.buffers h.id use true }

def colorAttachment (pass : Pass) (h : ImageHandle) (loadOp storeOp : Nat) (clear : Option Nat) :
    Pass :=
  let p1 := { pass with type := PassType.Graphics }
  let p2 := writeImage p1 h ImageUse.ColorAttachment
  { p2 with
    colorAttachments := p2.colorAttachments ++ [h.id]
    colorLoad := p2.colorLoad ++ [loadOp]
    colorStore := p2.colorStore ++ [storeOp]
    colorHasClear := p2.colorHasClear ++ [if clear.isSome then 1 else 0]
    colorClear := p2.colorClear ++ [clear.getD 0] }

def depthAttachment (pass : Pass) (h : ImageHandle) (loadOp storeOp : Nat) (clear : Option Nat) :
    Pass :=
  let p1 := { pass with type := PassType.Graphics }
  let p2 := writeImage p1 h ImageUse.DepthAttachment
  { p2 with
    hasDepth := true
    depthAttachment := h.id
    depthLoad := loadOp
    depthStore := storeOp
    depthHasClear := if clear.isSome then 1 else 0
    depthClear := clear.getD 0 }

/-- Performs one builder call on the pass the builder is bound to. -/
def call (pass : Pass) : BuilderCall → Pass
  | BuilderCall.readImage h use => readImage pass h use
  | BuilderCall.writeImage h use => writeImage pass h use
  | BuilderCall.readBuffer h use => readBuffer pass h use
  | BuilderCall.writeBuffer h use => writeBuffer pass h use
  | BuilderCall.colorAttachment h l s c => colorAttachment pass h l s c
  | BuilderCall.depthAttachment h l s c => depthAttachment pass h l s c

end PassBuilder

/-! ## The fixed usage table -/

/-- The out-parameters of `stagesAccessForImageUse`. -/
structure ImageUsage where
  stage : Nat
  access : Nat
  layout : Nat
  aspect : Nat
  deriving DecidableEq, Repr

def stagesAccessForImageUse (use : ImageUse) (write : Bool) : ImageUsage :=
  match use with
  | ImageUse.ColorAttachment =>
    { stage := VK_PIPELINE_STAGE_2_COLOR_ATTACHMENT_OUTPUT_BIT
      access := if write then VK_ACCESS_2_COLOR_ATTACHMENT_WRITE_BIT
                else VK_ACCESS_2_COLOR_ATTACHMENT_READ_BIT
      layout := VK_IMAGE_LAYOUT_COLOR_ATTACHMENT_OPTIMAL
      aspect := VK_IMAGE_ASPECT_COLOR_BIT }
  | ImageUse.DepthAttachment =>
    { stage := VK_PIPELINE_STAGE_2_EARLY_FRAGMENT_TESTS_BIT ||| VK_PIPELINE_STAGE_2_LATE_FRAGMENT_TESTS_BIT
      access := if write then VK_ACCESS_2_DEPTH_STENCIL_ATTACHMENT_WRITE_BIT
                else VK_ACCESS_2_DEPTH_STENCIL_ATTACHMENT_READ_BIT
      layout := VK_IMAGE_LAYOUT_DEPTH_STENCIL_ATTACHMENT_OPTIMAL
      aspect := VK_IMAGE_ASPECT_DEPTH_BIT }
  | ImageUse.Sampled =>
    { stage := VK_PIPELINE_STAGE_2_FRAGMENT_SHADER_BIT ||| VK_PIPELINE_STAGE_2_COMPUTE_SHADER_BIT
      access := VK_ACCESS_2_SHADER_SAMPLED_READ_BIT ||| VK_ACCESS_2_SHADER_READ_BIT
      layout := VK_IMAGE_LAYOUT_SHADER_READ_ONLY_OPTIMAL
      aspect := VK_IMAGE_ASPECT_COLOR_BIT }
  | ImageUse.Present =>
    { stage := VK_PIPELINE_STAGE_2_BOTTOM_OF_PIPE_BIT
      access := 0
      layout := VK_IMAGE_LAYOUT_PRESENT_SRC_KHR
      aspect := VK_IMAGE_ASPECT_COLOR_BIT }

/-- The out-parameters of `stagesAccessForBufferUse`. -/
structure BufferUsage where
  stage : Nat
  access : Nat
  deriving DecidableEq, Repr

def stagesAccessForBufferUse (use : BufferUse) (write : Bool) : BufferUsage :=
  match use with
  | BufferUse.Uniform =>
    { stage := VK_PIPELINE_STAGE_2_VERTEX_SHADER_BIT ||| VK_PIPELINE_STAGE_2_FRAGMENT_SHADER_BIT
      access := VK_ACCESS_2_UNIFORM_READ_BIT }
  | BufferUse.Storage =>
    { stage := VK_PIPELINE_STAGE_2_COMPUTE_SHADER_BIT ||| VK_PIPELINE_STAGE_2_VERTEX_SHADER_BIT |||
        VK_PIPELINE_STAGE_2_FRAGMENT_SHADER_BIT
      access := if write then VK_ACCESS_2_SHADER_WRITE_BIT ||| VK_ACCESS_2_SHADER_READ_BIT
                else VK_ACCESS_2_SHADER_READ_BIT }
  | BufferUse.Indirect =>
    { stage := VK_PIPELINE_STAGE_2_DRAW_INDIRECT_BIT
      access := VK_ACCESS_2_INDIRECT_COMMAND_READ_BIT }
  | BufferUse.Transfer =>
    { stage := VK_PIPELINE_STAGE_2_TRANSFER_BIT
      access := if write then VK_ACCESS_2_TRANSFER_WRITE_BIT else VK_ACCESS_2_TRANSFER_READ_BIT }

/-! ## Hazard tracking (`applyBarriers`) -/

/-- The `writeBits` mask of the image loop. -/
def imageWriteBits : Nat :=
  VK_ACCESS_2_COLOR_ATTACHMENT_WRITE_BIT ||| VK_ACCESS_2_DEPTH_STENCIL_ATTACHMENT_WRITE_BIT |||
    VK_ACCESS_2_SHADER_WRITE_BIT ||| VK_ACCESS_2_TRANSFER_WRITE_BIT ||| VK_ACCESS_2_HOST_WRITE_BIT |||
    VK_ACCESS_2_MEMORY_WRITE_BIT

/-- The `writeBits` mask of the buffer loop. -/
def bufferWriteBits : Nat :=
  VK_ACCESS_2_SHADER_WRITE_BIT ||| VK_ACCESS_2_TRANSFER_WRITE_BIT ||| VK_ACCESS_2_HOST_WRITE_BIT |||
    VK_ACCESS_2_MEMORY_WRITE_BIT

/-- The reference `curLayout` of the image loop, read: the external cell when the record has
one, else the record's own `layout`. -/
def curLayout (vk : VulkanContext) (res : ImageResource) : Nat :=
  match res.externalLayoutPtr with
  | some p => vk.layoutCell p
  | none => res.layout

/-- Body of the image loop of `applyBarriers` for one declared access. -/
def applyImageAccess (st : RenderGraph × VulkanContext) (ia : ImageAccess) :
    RenderGraph × VulkanContext :=
  let g := st.1
  let vk := st.2
  match g.images[ia.id]? with
  | none => st
  | some res =>
    let u := stagesAccessForImageUse ia.use ia.write
    let oldLayout := curLayout vk res
    let needsMemoryBarrier : Bool :=
      decide (res.lastAccess &&& imageWriteBits ≠ 0) || decide (u.access &&& imageWriteBits ≠ 0)
    let sameLayout : Bool := decide (oldLayout = u.layout)
    if sameLayout && !needsMemoryBarrier then
      let res1 := { res with lastStage := u.stage, lastAccess := u.access, aspectMask := u.aspect }
      ({ g with images := g.images.set ia.id res1 }, vk)
    else
      let b : VkImageMemoryBarrier2 :=
        { srcStageMask := res.lastStage
          srcAccessMask := res.lastAccess
          dstStageMask := u.stage
          dstAccessMask := u.access
          oldLayout := oldLayout
          newLayout := u.layout
          image := res.image
          aspectMask := u.aspect }
      let res1 :=
        match res.externalLayoutPtr with
        | some _ => res
        | none => { res with layout := u.layout }
      let vk1 :=
        match res.externalLayoutPtr with
        | some p => vk.storeLayout p u.layout
        | none => vk
      let res2 := { res1 with lastStage := u.stage, lastAccess := u.access, aspectMask := u.aspect }
      ({ g with
          images := g.images.set ia.id res2
          scratchImgBarriers := g.scratchImgBarriers ++ [b] }, vk1)

/-- Body of the buffer loop of `applyBarriers` for one declared access. -/
def applyBufferAccess (g : RenderGraph) (ba : BufferAccess) : RenderGraph :=
  match g.buffers[ba.id]? with
  | none => g
  | some res =>
    let u := stagesAccessForBufferUse ba.use ba.write
    if res.lastAccess = 0 then
      { g with buffers := g.buffers.set ba.id { res with lastStage := u.stage, lastAccess := u.access } }
    else
      let needsMemoryBarrier : Bool :=
        decide (res.lastAccess &&& bufferWriteBits ≠ 0) || decide (u.access &&& bufferWriteBits ≠ 0)
      if !needsMemoryBarrier && decide (res.lastStage = u.stage) && decide (res.lastAccess = u.access) then
        g
      else
        let b : VkBufferMemoryBarrier2 :=
          { srcStageMask := res.lastStage
            srcAccessMask := res.lastAccess
            dstStageMask := u.stage
            dstAccessMask := u.access
            buffer := res.buffer }
        { g with
          buffers := g.buffers.set ba.id { res with lastStage := u.stage, lastAccess := u.access }
          scratchBufBarriers := g.scratchBufBarriers ++ [b] }

/-- The image loop of `applyBarriers`. -/
def applyImageAccesses (st : RenderGraph × VulkanContext) (accesses : List ImageAccess) :
    RenderGraph × VulkanContext :=
  accesses.foldl applyImageAccess st

/-- The buffer loop of `applyBarriers`. -/
def applyBufferAccesses (g : RenderGraph) (accesses : List BufferAccess) : RenderGraph :=
  accesses.foldl applyBufferAccess g

/-- Embeds `RenderGraph::applyBarriers`: the scratch lists are cleared, the image loop and
the buffer loop run, and one `cmdPipelineBarrier2` call is made unless both lists are
empty. -/
def applyBarriers (g : RenderGraph) (vk : VulkanContext) (cmd : Nat) (pass : Pass) :
    RenderGraph × VulkanContext :=
  let g0 := { g with scratchImgBarriers := [], scratchBufBarriers := [] }
  let st1 := applyImageAccesses (g0, vk) pass.images
  let g2 := applyBufferAccesses st1.1 pass.buffers
  if g2.scratchImgBarriers.isEmpty && g2.scratchBufBarriers.isEmpty then
    (g2, st1.2)
  else
    (g2, st1.2.cmdPipelineBarrier2 cmd g2.scratchImgBarriers g2.scratchBufBarriers)

/-! ## Frame lifecycle -/

def importBackbuffer (g : RenderGraph) (vk : VulkanContext) : ImageHandle × RenderGraph :=
  let r : ImageResource :=
    { name := "backbuffer"
      image := vk.currentSwapchainImage
      view := vk.currentSwapchainImageView
      memory := VK_NULL_HANDLE
      format := vk.swapchainFormat
      extent := vk.swapchainExtent
      aspectMask := VK_IMAGE_ASPECT_COLOR_BIT
      layout := VK_IMAGE_LAYOUT_UNDEFINED
      externalLayoutPtr := vk.currentSwapchainImageLayoutPtr
      lastStage := VK_PIPELINE_STAGE_2_TOP_OF_PIPE_BIT
      lastAccess := 0
      owned := false
      pooled := false }
  let id := g.images.length % 2 ^ 32
  ({ id := id }, { g with images := g.images ++ [r] })

def importDepth (g : RenderGraph) (vk : VulkanContext) : ImageHandle × RenderGraph :=
  let r : ImageResource :=
    { name := "depth"
      image := vk.depthImage
      view := vk.depthView
      memory := VK_NULL_HANDLE
      format := vk.depthFormat
      extent := vk.swapchainExtent
      aspectMask := VK_IMAGE_ASPECT_DEPTH_BIT
      layout := VK_IMAGE_LAYOUT_UNDEFINED
      externalLayoutPtr := vk.depthImageLayoutPtr
      lastStage := VK_PIPELINE_STAGE_2_TOP_OF_PIPE_BIT
      lastAccess := 0
      owned := false
      pooled := false }
  let id := g.images.length % 2 ^ 32
  ({ id := id }, { g with images := g.images ++ [r] })

/-- Embeds `RenderGraph::begin`. Returns the command target together with the new graph and
context; `none` when `beginFrame` throws. -/
def begin (g : RenderGraph) (vk : VulkanContext) (dev : VulkanContext.BeginFrameDevice) :
    Option (Nat × RenderGraph × VulkanContext) :=
  let g1 := { g with passes := [], images := [], buffers := [], retireImages := [], retireBuffers := [] }
  match vk.beginFrame dev with
  | none => none
  | some (cmd, vk1) =>
    let g2 := { g1 with cmdBuf := cmd }
    if cmd = 0 then
      some (VK_NULL_HANDLE, g2, vk1)
    else
      let bb := importBackbuffer g2 vk1
      let g3 := { bb.2 with backbufferHandle := bb.1 }
      let d := importDepth g3 vk1
      let g4 := { d.2 with depthHandle := d.1 }
      some (g4.cmdBuf, g4, vk1)

def importBuffer (g : RenderGraph) (buffer : Nat) : BufferHandle × RenderGraph :=
  let r : BufferResource :=
    { buffer := buffer
      memory := VK_NULL_HANDLE
      lastStage := VK_PIPELINE_STAGE_2_TOP_OF_PIPE_BIT
      lastAccess := 0
      owned := false
      pooled := false }
  let id := g.buffers.length % 2 ^ 32
  ({ id := id }, { g with buffers := g.buffers ++ [r] })

/-- A default-constructed `Pass` with the given name, type and callbacks. -/
def Pass.fresh (name : String) (type : PassType) (setup : List BuilderCall) (exec : Option Nat) :
    Pass :=
  { name := name
    type := type
    setup := setup
    exec := exec
    images := []
    buffers := []
    colorAttachments := []
    colorLoad := []
    colorStore := []
    colorHasClear := []
    colorClear := []
    hasDepth := false
    depthAttachment := 0
    depthLoad := VK_ATTACHMENT_LOAD_OP_DONT_CARE
    depthStore := VK_ATTACHMENT_STORE_OP_DONT_CARE
    depthHasClear := 0
    depthClear := 0 }

/-- Embeds `RenderGraph::addPass`: the setup callback runs at once, on a builder bound to the new
pass. -/
def addPass (g : RenderGraph) (name : String) (type : PassType) (setup : List BuilderCall)
    (exec : Option Nat) : RenderGraph :=
  let p := Pass.fresh name type setup exec
  let p1 := p.setup.foldl PassBuilder.call p
  { g with passes := g.passes ++ [p1] }

/-- Embeds `if (p.exec) p.exec(cmdBuf)`. -/
def invokeExec (vk : VulkanContext) (p : Pass) (cmd : Nat) : VulkanContext :=
  match p.exec with
  | some callback => vk.record (Event.exec callback cmd)
  | none => vk

/-- The colour attachment descriptions `execute` builds for a pass under dynamic
rendering. -/
def colorAttachmentInfos (g : RenderGraph) (p : Pass) : List VkRenderingAttachmentInfoKHR :=
  (List.range p.colorAttachments.length).map fun ci =>
    let imgId := p.colorAttachments.getD ci 0
    { imageView := (g.images[imgId]?).map fun img => img.view
      imageLayout := VK_IMAGE_LAYOUT_COLOR_ATTACHMENT_OPTIMAL
      loadOp := p.colorLoad.getD ci 0
      storeOp := p.colorStore.getD ci 0 }

/-- The depth attachment description `execute` builds for a pass under dynamic rendering. -/
def depthAttachmentInfo (g : RenderGraph) (p : Pass) : Option VkRenderingAttachmentInfoKHR :=
  if p.hasDepth then
    some
      { imageView := (g.images[p.depthAttachment]?).map fun img => img.view
        imageLayout := VK_IMAGE_LAYOUT_DEPTH_STENCIL_ATTACHMENT_OPTIMAL
        loadOp := p.depthLoad
        storeOp := p.depthStore }
  else none

/-- State of the loop of `execute`: the graph, the context and `legacyRenderPassOpen`. -/
structure ExecState where
  graph : RenderGraph
  vk : VulkanContext
  legacyRenderPassOpen : Bool

/-- Body of the `for` loop of `execute` at index `i`; `dyn` is
`vk.dynamicRenderingEnabled()` as read before the loop. -/
def executePass (dyn : Bool) (st : ExecState) (i : Nat) : ExecState :=
  match st.graph.passes[i]? with
  | none => st
  | some p =>
    let cmdBuf := st.graph.cmdBuf
    let vk1 := st.vk.cmdBeginLabel cmdBuf p.name
    let ab := applyBarriers st.graph vk1 cmdBuf p
    let g := ab.1
    let vk2 := ab.2
    if p.type = PassType.Graphics then
      if dyn then
        let colorAtts := colorAttachmentInfos g p
        let g1 := { g with scratchColorAtts := colorAtts }
        let vk3 := vk2.beginRendering cmdBuf colorAtts (depthAttachmentInfo g1 p)
        let vk4 := invokeExec vk3 p cmdBuf
        let vk5 := vk4.endRendering cmdBuf
        { graph := g1, vk := vk5.cmdEndLabel cmdBuf, legacyRenderPassOpen := st.legacyRenderPassOpen }
      else
        let vk3 := if !st.legacyRenderPassOpen then vk2.beginMainPass cmdBuf else vk2
        let vk4 := invokeExec vk3 p cmdBuf
        let nextIsGraphics : Bool :=
          match g.passes[i + 1]? with
          | some q => decide (q.type = PassType.Graphics)
          | none => false
        if !nextIsGraphics then
          let vk5 := vk4.endMainPass cmdBuf
          { graph := g, vk := vk5.cmdEndLabel cmdBuf, legacyRenderPassOpen := false }
        else
          { graph := g, vk := vk4.cmdEndLabel cmdBuf, legacyRenderPassOpen := true }
    else
      let vk3 := invokeExec vk2 p cmdBuf
      { graph := g, vk := vk3.cmdEndLabel cmdBuf, legacyRenderPassOpen := st.legacyRenderPassOpen }

/-- The state of `execute` after the loop has run its first `n` iterations. -/
def executeUpTo (g : RenderGraph) (vk : VulkanContext) (n : Nat) : ExecState :=
  (List.range n).foldl (executePass vk.dynamicRenderingEnabled)
    { graph := g, vk := vk, legacyRenderPassOpen := false }

/-- Embeds `RenderGraph::execute`: nothing happens on a null command target, else the loop
runs over all passes. -/
def execute (g : RenderGraph) (vk : VulkanContext) : RenderGraph × VulkanContext :=
  if g.cmdBuf = 0 then (g, vk)
  else
    let st := executeUpTo g vk g.passes.length
    (st.graph, st.vk)

/-- The pass `end` builds to move the backbuffer to its presentation layout: a
default-constructed `Pass` of type `Graphics` whose only access is a `Present` read. -/
def presentPass (backbufferId : Nat) : Pass :=
  { Pass.fresh "" PassType.Graphics [] none with
    images := [{ id := backbufferId, use := ImageUse.Present, write := false }] }

/-- The two loops of `end` that queue the deferred destruction of graph-owned images and
buffers on the deletion queue of the frame slot. -/
def queueOwnedDeletions (g : RenderGraph) (vk : VulkanContext) : VulkanContext :=
  let vk1 := g.images.foldl
    (fun v r =>
      if !r.owned then v
      else v.pushFrameDeletion { image := r.image, view := r.view, buffer := 0, memory := r.memory })
    vk
  g.buffers.foldl
    (fun v r =>
      if !r.owned then v
      else v.pushFrameDeletion { image := 0, view := 0, buffer := r.buffer, memory := r.memory })
    vk1

/-- The two loops of `end` that hand the pooled resources of the frame to the pool's retire
operations. -/
def retirePooled (g : RenderGraph) (vk : VulkanContext) : VulkanContext :=
  let vk1 := g.retireImages.foldl
    (fun v ri =>
      v.retireTransientImage2D
        { format := ri.format, extent := ri.extent, usage := ri.usage, aspect := ri.aspect,
          image := ri.image, view := ri.view, memory := ri.memory })
    vk
  g.retireBuffers.foldl
    (fun v rb =>
      v.retireTransientBuffer
        { size := rb.size, usage := rb.usage, memFlags := rb.memFlags, buffer := rb.buffer,
          memory := rb.memory })
    vk1

/-- Embeds `RenderGraph::end`. The result is `none` when `endFrame` throws. -/
def «end» (g : RenderGraph) (vk : VulkanContext) (dev : VulkanContext.EndFrameDevice) :
    Option (RenderGraph × VulkanContext) :=
  if g.cmdBuf = 0 then some (g, vk)
  else
    let ab :=
      if g.backbufferHandle.id < g.images.length then
        applyBarriers g vk g.cmdBuf (presentPass g.backbufferHandle.id)
      else (g, vk)
    let g1 := ab.1
    let vk1 := queueOwnedDeletions g1 ab.2
    let vk2 := retirePooled g1 vk1
    match vk2.endFrame dev with
    | none => none
    | some vk3 => some ({ g1 with cmdBuf := VK_NULL_HANDLE }, vk3)

end RenderGraph

/-! ## Vocabulary of the statements -/

namespace RenderGraph

section MergeByKey

variable {K : Type} [DecidableEq K]

/-- The merge performed by `addUniqueImageAccess` / `addUniqueBufferAccess`, on entries seen
as a key and a write flag. -/
def mergeKey : List (K × Bool) → K → Bool → List (K × Bool)
  | [], k, w => [(k, w)]
  | a :: v, k, w => if a.1 = k then (a.1, a.2 || w) :: v else a :: mergeKey v k w

/-- Folding `mergeKey` over a sequence of declarations. -/
def mergeAll (v : List (K × Bool)) (ds : List (K × Bool)) : List (K × Bool) :=
  ds.foldl (fun acc d => mergeKey acc d.1 d.2) v

/-- The keys of a sequence, each once, ordered by first occurrence. -/
def firstOccurrences (ks : List K) : List K := ks.reverse.dedup.reverse

end MergeByKey

/-- An image access seen as a key and a write flag. -/
def ImageAccess.toEntry (a : ImageAccess) : (Nat × ImageUse) × Bool := ((a.id, a.use), a.write)

/-- A buffer access seen as a key and a write flag. -/
def BufferAccess.toEntry (a : BufferAccess) : (Nat × BufferUse) × Bool := ((a.id, a.use), a.write)

/-- The current layout of the tracked image `R`, if `R` is an index of the image table. -/
def currentLayoutOf (st : RenderGraph × VulkanContext) (R : Nat) : Option Nat :=
  (st.1.images[R]?).map (curLayout st.2)

/-- The recorded stage and access masks of the tracked buffer `R`, if `R` is an index of the
buffer table. -/
def recordedMasksOf (g : RenderGraph) (R : Nat) : Option (Nat × Nat) :=
  (g.buffers[R]?).map fun r => (r.lastStage, r.lastAccess)

/-- The image `R` is tracked and its recorded access mask contains no write bit. -/
def ImageLastAccessIsRead (g : RenderGraph) (R : Nat) : Prop :=
  ∃ res, g.images[R]? = some res ∧ res.lastAccess &&& imageWriteBits = 0

/-- The buffer `R` is tracked and its recorded access mask contains no write bit. -/
def BufferLastAccessIsRead (g : RenderGraph) (R : Nat) : Prop :=
  ∃ res, g.buffers[R]? = some res ∧ res.lastAccess &&& bufferWriteBits = 0

/-- The image access a builder call declares, as handed to `addUniqueImageAccess`. -/
def BuilderCall.imageAccess : BuilderCall → Option ImageAccess
  | BuilderCall.readImage h use => some { id := h.id, use := use, write := false }
  | BuilderCall.writeImage h use => some { id := h.id, use := use, write := true }
  | BuilderCall.colorAttachment h _ _ _ =>
    some { id := h.id, use := ImageUse.ColorAttachment, write := true }
  | BuilderCall.depthAttachment h _ _ _ =>
    some { id := h.id, use := ImageUse.DepthAttachment, write := true }
  | BuilderCall.readBuffer _ _ => none
  | BuilderCall.writeBuffer _ _ => none

/-- The buffer access a builder call declares, as handed to `addUniqueBufferAccess`. -/
def BuilderCall.bufferAccess : BuilderCall → Option BufferAccess
  | BuilderCall.readBuffer h use => some { id := h.id, use := use, write := false }
  | BuilderCall.writeBuffer h use => some { id := h.id, use := use, write := true }
  | _ => none

/-- The members of the graph that hazard tracking never writes. -/
def staticPart (g : RenderGraph) :
    Nat × List Pass × ImageHandle × ImageHandle × List RetireImage2D × List RetireBuffer :=
  (g.cmdBuf, g.passes, g.backbufferHandle, g.depthHandle, g.retireImages, g.retireBuffers)

/-- The graph is in a begun frame with command target `cmd`, and its backbuffer handle names
a record of native image `image` whose layout lives in the external cell `ptr`. -/
def BackbufferTracked (g : RenderGraph) (cmd : Nat) (ptr : LayoutPtr) (image : Nat) : Prop :=
  g.cmdBuf = cmd ∧ g.backbufferHandle.id = 0 ∧
    ∃ bb, g.images[0]? = some bb ∧ bb.externalLayoutPtr = some ptr ∧ bb.image = image

/-! ## Frames and traces -/

/-- What the caller does between `begin` and `end`: declare a pass, import a buffer, or
run `execute`. -/
inductive FrameStep where
  | addPass (name : String) (type : PassType) (setup : List BuilderCall) (exec : Option Nat)
  | importBuffer (buffer : Nat)
  | execute
  deriving DecidableEq, Repr

/-- Performs one step of a frame. -/
def runFrameStep (st : RenderGraph × VulkanContext) : FrameStep → RenderGraph × VulkanContext
  | FrameStep.addPass name type setup exec => (addPass st.1 name type setup exec, st.2)
  | FrameStep.importBuffer buffer => ((importBuffer st.1 buffer).2, st.2)
  | FrameStep.execute => execute st.1 st.2

/-- Performs the steps of a frame in order. -/
def runFrameSteps (st : RenderGraph × VulkanContext) (steps : List FrameStep) :
    RenderGraph × VulkanContext :=
  steps.foldl runFrameStep st

/-- The event is a synchronization call. -/
def isBarrierEvent : Event → Bool
  | Event.cmdPipelineBarrier2 _ _ _ => true
  | _ => false

/-- The callback an event invokes, if the event is the invocation of an exec callback. -/
def execCallbackOf : Event → Option Nat
  | Event.exec callback _ => some callback
  | _ => none

/-- The synchronization call `applyBarriers` issues for barrier lists: none when both are
empty, else one call that carries both lists whole. -/
def barrierEvents (cmd : Nat) (imageBarriers : List VkImageMemoryBarrier2)
    (bufferBarriers : List VkBufferMemoryBarrier2) : List Event :=
  if imageBarriers.isEmpty && bufferBarriers.isEmpty then []
  else [Event.cmdPipelineBarrier2 cmd imageBarriers bufferBarriers]

/-! ## Sample inputs -/

/-- A default-constructed `RenderGraph`. -/
def init : RenderGraph :=
  { cmdBuf := VK_NULL_HANDLE
    images := []
    buffers := []
    passes := []
    scratchImgBarriers := []
    scratchBufBarriers := []
    scratchColorAtts := []
    retireImages := []
    retireBuffers := []
    backbufferHandle := { id := 0 }
    depthHandle := { id := 0 } }

/-- A device context with a swapchain of two images, both frame slots idle and every
image layout undefined. -/
def sampleContext : VulkanContext :=
  { swapFormat := 44
    swapExtent := { width := 800, height := 600 }
    swapImages := [101, 102]
    swapViews := [201, 202]
    depthFmt := 126
    depthImg := 301
    depthIv := 302
    useDynamicRendering := true
    cmdBuffers := [11, 12]
    frameIndex := 0
    acquiredImage := 0
    frameDeletion := fun _ => []
    transientImagesFree := []
    transientBuffersFree := []
    transientImagesInFlight := fun _ => []
    transientBuffersInFlight := fun _ => []
    framebufferResized := false
    swapImageLayoutCount := 2
    layoutCell := fun _ => VK_IMAGE_LAYOUT_UNDEFINED
    trace := [] }

/-- A device that acquires swapchain image 1 and reports success. -/
def sampleBeginDevice : VulkanContext.BeginFrameDevice :=
  { acquireResult := VK_SUCCESS, imageIndex := 1, beginCommandBufferResult := VK_SUCCESS }

/-- A device on which submission and presentation succeed. -/
def sampleEndDevice : VulkanContext.EndFrameDevice :=
  { endCommandBufferResult := VK_SUCCESS, queueSubmitResult := VK_SUCCESS,
    queuePresentResult := VK_SUCCESS }

/-- An image record as `createTransientImage2D` leaves it: own layout, never accessed. -/
def sampleImage : ImageResource :=
  { name := "scene"
    image := 401
    view := 402
    memory := 403
    format := 44
    extent := { width := 800, height := 600 }
    aspectMask := VK_IMAGE_ASPECT_COLOR_BIT
    layout := VK_IMAGE_LAYOUT_UNDEFINED
    externalLayoutPtr := none
    lastStage := VK_PIPELINE_STAGE_2_TOP_OF_PIPE_BIT
    lastAccess := 0
    owned := false
    pooled := true }

/-- A graph in a begun frame that tracks one transient image and one imported buffer. -/
def sampleGraph : RenderGraph :=
  (importBuffer { init with cmdBuf := 11, images := [sampleImage] } 501).2

/-- The graph and the device context as `begin` leaves them when it is called on a
default-constructed graph and the sample context, with the sample device. -/
def sampleFrame : RenderGraph × VulkanContext :=
  ((begin init sampleContext sampleBeginDevice).getD (VK_NULL_HANDLE, init, sampleContext)).2

/-- A frame body: a compute pass that writes an imported buffer, a graphics pass that
draws to the backbuffer and the depth image, then `execute`. -/
def sampleSteps : List FrameStep :=
  [ FrameStep.importBuffer 501,
    FrameStep.addPass "cull" PassType.Compute
      [BuilderCall.writeBuffer { id := 0 } BufferUse.Storage] (some 1),
    FrameStep.addPass "opaque" PassType.Graphics
      [BuilderCall.colorAttachment { id := 0 } VK_ATTACHMENT_LOAD_OP_CLEAR 0 (some 9),
       BuilderCall.depthAttachment { id := 1 } VK_ATTACHMENT_LOAD_OP_CLEAR
         VK_ATTACHMENT_STORE_OP_DONT_CARE none,
       BuilderCall.readBuffer { id := 0 } BufferUse.Indirect] (some 2),
    FrameStep.execute ]

/-- The sample frame after its body has run. -/
def sampleExecutedFrame : RenderGraph × VulkanContext :=
  runFrameSteps sampleFrame sampleSteps

/-- The sample frame after `end`. -/
def sampleEndedFrame : RenderGraph × VulkanContext :=
  («end» sampleExecutedFrame.1 sampleExecutedFrame.2 sampleEndDevice).getD sampleExecutedFrame

end RenderGraph

/-! ## The transient pool -/

namespace VulkanContext

/-- Embeds `transientImageKeyMatch`: the shape key of a pooled image is its format, extent,
usage and aspect. -/
def transientImageKeyMatch (a : TransientImage2D) (format : Nat) (extent : VkExtent2D)
    (usage aspect : Nat) : Bool :=
  a.format == format && a.extent.width == extent.width && a.extent.height == extent.height &&
    a.usage == usage && a.aspect == aspect

/-- The test `f.size == size && f.usage == usage && f.memFlags == memFlags` of
`acquireTransientBuffer`. -/
def transientBufferKeyMatch (f : TransientBuffer) (size usage memFlags : Nat) : Bool :=
  f.size == size && f.usage == usage && f.memFlags == memFlags

/-- The search loop `for (size_t i = 0; i < v.size(); ++i)` of the acquire functions: the
first index whose entry passes the test, with that entry. -/
def findFirst {α : Type} (p : α → Bool) : List α → Option (Nat × α)
  | [] => none
  | a :: l => if p a then some (0, a) else (findFirst p l).map fun r => (r.1 + 1, r.2)

/-- The removal `v[i] = v.back(); v.pop_back();`: the last entry takes the place of entry
`i`, and the vector loses its last cell. -/
def swapRemove {α : Type} (v : List α) (i : Nat) : List α :=
  match v.getLast? with
  | none => v
  | some last => (v.set i last).dropLast

/-- The native objects `createImage2D` and `createImageView2D` hand back when a new pooled
image is allocated. -/
structure CreatedImage where
  image : Nat
  memory : Nat
  view : Nat
  deriving DecidableEq, Repr

/-- The native objects `createBuffer` hands back when a new pooled buffer is allocated. -/
structure CreatedBuffer where
  buffer : Nat
  memory : Nat
  deriving DecidableEq, Repr

/-- Embeds `VulkanContext::acquireTransientImage2D`. The device answer `dev` is consulted
only when no free entry matches; it is `none` when `createImage2D` or `createImageView2D`
throws, and then so is the result. The debug name only labels the native objects. -/
def acquireTransientImage2D (vk : VulkanContext) (_debugName : String) (format : Nat)
    (extent : VkExtent2D) (usage aspect : Nat) (dev : Option CreatedImage) :
    Option (TransientImage2D × VulkanContext) :=
  match findFirst (fun a => transientImageKeyMatch a format extent usage aspect)
      vk.transientImagesFree with
  | some (i, r) =>
    some (r, { vk with transientImagesFree := swapRemove vk.transientImagesFree i })
  | none =>
    match dev with
    | none => none
    | some c =>
      some ({ format := format, extent := extent, usage := usage, aspect := aspect,
              image := c.image, view := c.view, memory := c.memory }, vk)

/-- Embeds `VulkanContext::acquireTransientBuffer`; `dev` is `none` when `createBuffer`
throws. -/
def acquireTransientBuffer (vk : VulkanContext) (_debugName : String) (size usage memFlags : Nat)
    (dev : Option CreatedBuffer) : Option (TransientBuffer × VulkanContext) :=
  match findFirst (fun f => transientBufferKeyMatch f size usage memFlags)
      vk.transientBuffersFree with
  | some (i, r) =>
    some (r, { vk with transientBuffersFree := swapRemove vk.transientBuffersFree i })
  | none =>
    match dev with
    | none => none
    | some c =>
      some ({ size := size, usage := usage, memFlags := memFlags, buffer := c.buffer,
              memory := c.memory }, vk)

end VulkanContext

namespace RenderGraph

/-- Embeds `RenderGraph::createTransientImage2D`; `none` when the acquisition throws. -/
def createTransientImage2D (g : RenderGraph) (vk : VulkanContext) (name : String) (format : Nat)
    (extent : VkExtent2D) (usage aspect : Nat) (dev : Option VulkanContext.CreatedImage) :
    Option (ImageHandle × RenderGraph × VulkanContext) :=
  match vk.acquireTransientImage2D name format extent usage aspect dev with
  | none => none
  | some (t, vk1) =>
    let r : ImageResource :=
      { name := name
        image := t.image
        view := t.view
        memory := t.memory
        format := format
        extent := extent
        aspectMask := aspect
        layout := VK_IMAGE_LAYOUT_UNDEFINED
        externalLayoutPtr := none
        lastStage := VK_PIPELINE_STAGE_2_TOP_OF_PIPE_BIT
        lastAccess := 0
        owned := false
        pooled := true }
    let ri : RetireImage2D :=
      { format := format, extent := extent, usage := usage, aspect := aspect,
        image := r.image, view := r.view, memory := r.memory }
    let id := g.images.length % 2 ^ 32
    some ({ id := id },
      { g with retireImages := g.retireImages ++ [ri], images := g.images ++ [r] }, vk1)

/-- Embeds `RenderGraph::createTransientBuffer`; `none` when the acquisition throws. -/
def createTransientBuffer (g : RenderGraph) (vk : VulkanContext) (name : String)
    (size usage memFlags : Nat) (dev : Option VulkanContext.CreatedBuffer) :
    Option (BufferHandle × RenderGraph × VulkanContext) :=
  match vk.acquireTransientBuffer name size usage memFlags dev with
  | none => none
  | some (t, vk1) =>
    let r : BufferResource :=
      { buffer := t.buffer
        memory := t.memory
        lastStage := VK_PIPELINE_STAGE_2_TOP_OF_PIPE_BIT
        lastAccess := 0
        owned := false
        pooled := true }
    let rb : RetireBuffer :=
      { size := size, usage := usage, memFlags := memFlags, buffer := r.buffer,
        memory := r.memory }
    let id := g.buffers.length % 2 ^ 32
    some ({ id := id },
      { g with retireBuffers := g.retireBuffers ++ [rb], buffers := g.buffers ++ [r] }, vk1)

end RenderGraph

/-! ## Frames that create transient resources, and pool histories -/

namespace RenderGraph

/-- What the caller does between `begin` and `end` when it also creates transient resources. -/
inductive FrameOp where
  | step (s : FrameStep)
  | createTransientImage2D (name : String) (format : Nat) (extent : VkExtent2D)
      (usage aspect : Nat) (dev : Option VulkanContext.CreatedImage)
  | createTransientBuffer (name : String) (size usage memFlags : Nat)
      (dev : Option VulkanContext.CreatedBuffer)
  deriving DecidableEq, Repr

/-- A frame in progress: the graph, the device context, and a log of what the pool has
returned to the `createTransient*` calls of the frame so far, in call order. -/
structure FrameRun where
  graph : RenderGraph
  vk : VulkanContext
  acquiredImages : List TransientImage2D
  acquiredBuffers : List TransientBuffer

/-- Performs one operation of a frame and logs what the pool returned to it; `none` when the
operation throws. -/
def runFrameOp (r : FrameRun) : FrameOp → Option FrameRun
  | FrameOp.step s =>
    let st := runFrameStep (r.graph, r.vk) s
    some { r with graph := st.1, vk := st.2 }
  | FrameOp.createTransientImage2D name format extent usage aspect dev =>
    match r.vk.acquireTransientImage2D name format extent usage aspect dev,
        createTransientImage2D r.graph r.vk name format extent usage aspect dev with
    | some (t, _), some (_, g, vk) =>
      some { r with graph := g, vk := vk, acquiredImages := r.acquiredImages ++ [t] }
    | _, _ => none
  | FrameOp.createTransientBuffer name size usage memFlags dev =>
    match r.vk.acquireTransientBuffer name size usage memFlags dev,
        createTransientBuffer r.graph r.vk name size usage memFlags dev with
    | some (t, _), some (_, g, vk) =>
      some { r with graph := g, vk := vk, acquiredBuffers := r.acquiredBuffers ++ [t] }
    | _, _ => none

/-- Performs the operations of a frame in order. -/
def runFrameOps (r : FrameRun) : List FrameOp → Option FrameRun
  | [] => some r
  | op :: ops =>
    match runFrameOp r op with
    | none => none
    | some r1 => runFrameOps r1 ops

/-- The frame as `begin` leaves it, with an empty log. -/
def FrameRun.start (g : RenderGraph) (vk : VulkanContext) : FrameRun :=
  { graph := g, vk := vk, acquiredImages := [], acquiredBuffers := [] }

end RenderGraph

namespace VulkanContext

/-- The operations of the device context that touch the transient pool. -/
inductive PoolOp where
  | beginFrame (dev : BeginFrameDevice)
  | endFrame (dev : EndFrameDevice)
  | acquireImage (name : String) (format : Nat) (extent : VkExtent2D) (usage aspect : Nat)
      (dev : Option CreatedImage)
  | retireImage (img : TransientImage2D)
  | acquireBuffer (name : String) (size usage memFlags : Nat) (dev : Option CreatedBuffer)
  | retireBuffer (buf : TransientBuffer)
  deriving DecidableEq, Repr

/-- Performs one pool operation; `none` when it throws. -/
def runPoolOp (vk : VulkanContext) : PoolOp → Option VulkanContext
  | PoolOp.beginFrame dev => (vk.beginFrame dev).map Prod.snd
  | PoolOp.endFrame dev => vk.endFrame dev
  | PoolOp.acquireImage name format extent usage aspect dev =>
    (vk.acquireTransientImage2D name format extent usage aspect dev).map Prod.snd
  | PoolOp.retireImage img => some (vk.retireTransientImage2D img)
  | PoolOp.acquireBuffer name size usage memFlags dev =>
    (vk.acquireTransientBuffer name size usage memFlags dev).map Prod.snd
  | PoolOp.retireBuffer buf => some (vk.retireTransientBuffer buf)

/-- Performs pool operations in order. -/
def runPoolOps (vk : VulkanContext) : List PoolOp → Option VulkanContext
  | [] => some vk
  | op :: ops =>
    match runPoolOp vk op with
    | none => none
    | some vk1 => runPoolOps vk1 ops

/-- Some `beginFrame` of the history runs while frame slot `slot` is the current one. -/
def beginsSlot (slot : Nat) (vk : VulkanContext) : List PoolOp → Bool
  | [] => false
  | op :: ops =>
    (match op with
      | PoolOp.beginFrame _ => vk.frameIndex == slot
      | _ => false) ||
    (match runPoolOp vk op with
      | none => false
      | some vk1 => beginsSlot slot vk1 ops)

/-- The operation works inside a frame: it is an acquire or a retire. -/
def PoolOp.inFrame : PoolOp → Bool
  | PoolOp.beginFrame _ => false
  | PoolOp.endFrame _ => false
  | _ => true

/-- The operation acquires an image of the given shape, or retires one. -/
def PoolOp.touchesImageKey (format : Nat) (extent : VkExtent2D) (usage aspect : Nat) :
    PoolOp → Bool
  | PoolOp.acquireImage _ f e u a _ =>
    f == format && e.width == extent.width && e.height == extent.height && u == usage &&
      a == aspect
  | PoolOp.retireImage img => transientImageKeyMatch img format extent usage aspect
  | _ => false

/-- The operation acquires a buffer of the given shape, or retires one. -/
def PoolOp.touchesBufferKey (size usage memFlags : Nat) : PoolOp → Bool
  | PoolOp.acquireBuffer _ s u m _ => s == size && u == usage && m == memFlags
  | PoolOp.retireBuffer buf => transientBufferKeyMatch buf size usage memFlags
  | _ => false

end VulkanContext

namespace VulkanContext

/-- The members of the context that make up the transient pool and the deferred deletions:
the frame slot, the free lists, the in-flight lists and the deletion queues. -/
def poolPart (vk : VulkanContext) :
    Nat × List TransientImage2D × List TransientBuffer × (Nat → List TransientImage2D) ×
      (Nat → List TransientBuffer) × (Nat → List Deletion) :=
  (vk.frameIndex, vk.transientImagesFree, vk.transientBuffersFree, vk.transientImagesInFlight,
    vk.transientBuffersInFlight, vk.frameDeletion)

end VulkanContext

namespace RenderGraph

/-- No record of the graph is flagged `owned`. -/
def NoOwned (g : RenderGraph) : Prop :=
  (∀ r ∈ g.images, r.owned = false) ∧ ∀ r ∈ g.buffers, r.owned = false

/-- The pool entry `end` builds from a retire record of an image. -/
def RetireImage2D.toTransient (ri : RetireImage2D) : TransientImage2D :=
  { format := ri.format, extent := ri.extent, usage := ri.usage, aspect := ri.aspect,
    image := ri.image, view := ri.view, memory := ri.memory }

/-- The pool entry `end` builds from a retire record of a buffer. -/
def RetireBuffer.toTransient (rb : RetireBuffer) : TransientBuffer :=
  { size := rb.size, usage := rb.usage, memFlags := rb.memFlags, buffer := rb.buffer,
    memory := rb.memory }

end RenderGraph

namespace RenderGraph

/-- The log of the frame agrees with the retire records of the graph, and no record of the
graph is flagged `owned`. -/
def FrameRun.Logged (r : FrameRun) : Prop :=
  r.graph.retireImages.map RetireImage2D.toTransient = r.acquiredImages ∧
    r.graph.retireBuffers.map RetireBuffer.toTransient = r.acquiredBuffers ∧ NoOwned r.graph

/-- What stays fixed from `begin` to `end`: the command target, the frame slot and the
in-flight lists. -/
def FrameRun.slotPart (r : FrameRun) :
    Nat × Nat × (Nat → List TransientImage2D) × (Nat → List TransientBuffer) :=
  (r.graph.cmdBuf, r.vk.frameIndex, r.vk.transientImagesInFlight, r.vk.transientBuffersInFlight)

end RenderGraph

namespace RenderGraph

/-- A pooled colour target of 800 x 600. -/
def samplePooledImage : TransientImage2D :=
  { format := 97, extent := { width := 800, height := 600 }, usage := 0x14,
    aspect := VK_IMAGE_ASPECT_COLOR_BIT, image := 601, view := 602, memory := 603 }

/-- A pooled depth target of 800 x 600. -/
def samplePooledDepth : TransientImage2D :=
  { format := 126, extent := { width := 800, height := 600 }, usage := 0x20,
    aspect := VK_IMAGE_ASPECT_DEPTH_BIT, image := 611, view := 612, memory := 613 }

/-- A pooled buffer of 4096 bytes. -/
def samplePooledBuffer : TransientBuffer :=
  { size := 4096, usage := 0x20, memFlags := 1, buffer := 621, memory := 622 }

/-- The sample context with a stocked pool: a depth target and a colour target are free,
and a buffer retired by the previous frame waits on frame slot 1. -/
def samplePoolContext : VulkanContext :=
  { sampleContext with
    transientImagesFree := [samplePooledDepth, samplePooledImage]
    transientBuffersInFlight := fun s => if s = 1 then [samplePooledBuffer] else [] }

/-- The frame `begin` opens on the stocked pool. -/
def samplePoolFrame : RenderGraph × VulkanContext :=
  ((begin init samplePoolContext sampleBeginDevice).getD
    (VK_NULL_HANDLE, init, samplePoolContext)).2

/-- A frame body that takes the pooled colour target, allocates a second colour target of
another size and a buffer, and then runs the sample passes. -/
def samplePoolOps : List FrameOp :=
  [ FrameOp.createTransientImage2D "hdr" 97 { width := 800, height := 600 } 0x14
      VK_IMAGE_ASPECT_COLOR_BIT none,
    FrameOp.createTransientImage2D "bloom" 97 { width := 400, height := 300 } 0x14
      VK_IMAGE_ASPECT_COLOR_BIT (some { image := 701, memory := 703, view := 702 }),
    FrameOp.createTransientBuffer "scratch" 4096 0x20 1 (some { buffer := 711, memory := 712 }) ] ++
  sampleSteps.map FrameOp.step

/-- The frame on the stocked pool after its body has run. -/
def samplePoolRun : FrameRun :=
  (runFrameOps (FrameRun.start samplePoolFrame.1 samplePoolFrame.2) samplePoolOps).getD
    (FrameRun.start samplePoolFrame.1 samplePoolFrame.2)

/-- The frame on the stocked pool after `end`. -/
def samplePoolEnded : RenderGraph × VulkanContext :=
  («end» samplePoolRun.graph samplePoolRun.vk sampleEndDevice).getD
    (samplePoolRun.graph, samplePoolRun.vk)

end RenderGraph

/-! ## Sample pool histories -/

namespace VulkanContext

open RenderGraph in
/-- A pool history on the sample context: frame slot 0 allocates a colour target and
retires it, and frame slot 1 begins. -/
def sampleHistoryStart : VulkanContext :=
  (runPoolOps sampleContext
    [ PoolOp.beginFrame sampleBeginDevice,
      PoolOp.acquireImage "a" 97 { width := 800, height := 600 } 0x14 VK_IMAGE_ASPECT_COLOR_BIT
        (some { image := 601, memory := 603, view := 602 }),
      PoolOp.retireImage samplePooledImage,
      PoolOp.endFrame sampleEndDevice,
      PoolOp.beginFrame sampleBeginDevice ]).getD sampleContext

/-- A second colour target of the shape of the first one. -/
def sampleSecondImage : TransientImage2D :=
  { format := 97, extent := { width := 800, height := 600 }, usage := 0x14,
    aspect := VK_IMAGE_ASPECT_COLOR_BIT, image := 701, view := 702, memory := 703 }

open RenderGraph in
/-- Retire in frame slot 1, then two frames later: slot 0 has begun and ended, and slot 1
has begun again. -/
def sampleRingOps (r : TransientImage2D) : List PoolOp :=
  [ PoolOp.retireImage r,
    PoolOp.endFrame sampleEndDevice,
    PoolOp.beginFrame sampleBeginDevice,
    PoolOp.endFrame sampleEndDevice,
    PoolOp.beginFrame sampleBeginDevice ]

/-- The history after the second colour target has gone round the ring. -/
def sampleHistoryEnd : VulkanContext :=
  (runPoolOps sampleHistoryStart (sampleRingOps sampleSecondImage)).getD sampleHistoryStart

open RenderGraph in
/-- A frame body that allocates a depth target and retires it. -/
def sampleTripBody : List PoolOp :=
  [ PoolOp.acquireImage "d" 126 { width := 800, height := 600 } 0x20 VK_IMAGE_ASPECT_DEPTH_BIT
      (some { image := 611, memory := 613, view := 612 }),
    PoolOp.retireImage samplePooledDepth ]

open RenderGraph in
/-- The sample context after the colour target has been retired in frame slot 0 and the
frame body has run. -/
def sampleTripA : VulkanContext :=
  (runPoolOps (sampleContext.retireTransientImage2D samplePooledImage) sampleTripBody).getD
    sampleContext

open RenderGraph in
/-- After the end of that frame. -/
def sampleTripE1 : VulkanContext := (sampleTripA.endFrame sampleEndDevice).getD sampleTripA

open RenderGraph in
/-- After frame slot 1 has begun. -/
def sampleTripB1 : VulkanContext :=
  ((sampleTripE1.beginFrame sampleBeginDevice).getD (0, sampleTripE1)).2

open RenderGraph in
/-- After frame slot 1 has ended. -/
def sampleTripE2 : VulkanContext := (sampleTripB1.endFrame sampleEndDevice).getD sampleTripB1

open RenderGraph in
/-- After frame slot 0 has begun again. -/
def sampleTripB2 : VulkanContext :=
  ((sampleTripE2.beginFrame sampleBeginDevice).getD (0, sampleTripE2)).2

open RenderGraph in
/-- The frame after a retire in slot 0: the frame ends and slot 1 begins. -/
def sampleWaitOps : List PoolOp :=
  [ PoolOp.endFrame sampleEndDevice, PoolOp.beginFrame sampleBeginDevice ]

open RenderGraph in
/-- The sample context after the colour target was retired in slot 0 and slot 1 has begun. -/
def sampleWaiting : VulkanContext :=
  (runPoolOps (sampleContext.retireTransientImage2D samplePooledImage) sampleWaitOps).getD
    sampleContext

end VulkanContext

/-! ## Frustum culling on the host (`engine/render/Frustum.hpp`)

The C++ code computes in `float`. This section gives the real-number reading of its
functions: the same expressions over an arbitrary linearly ordered field `F` (exact
arithmetic: no rounding, no NaN, no infinities), with the rationals for the executable
samples. The camera scenario and the host draw path are stated in this reading. The
embedding in binary32, with the rounding of every operation, is the section on binary32
arithmetic below. The GLM types are records of their components. -/

namespace glm

/-- A `glm::vec3`. -/
structure vec3 (F : Type) where
  x : F
  y : F
  z : F
  deriving DecidableEq, Repr

/-- A `glm::vec4`. -/
structure vec4 (F : Type) where
  x : F
  y : F
  z : F
  w : F
  deriving DecidableEq, Repr

/-- A `glm::mat4`, column-major as in GLM: `m[i]` is column `ci`, and `m[i][j]` is its
component number `j` (`x`, `y`, `z`, `w`). -/
structure mat4 (F : Type) where
  c0 : vec4 F
  c1 : vec4 F
  c2 : vec4 F
  c3 : vec4 F
  deriving DecidableEq, Repr

section
variable {F : Type} [LinearOrderedField F]

/-- The function `glm::dot` on `vec3`. -/
def dot (a b : vec3 F) : F := a.x * b.x + a.y * b.y + a.z * b.z

/-- The operator `pl /= len` on a `vec4`. -/
def vec4.divScalar (v : vec4 F) (s : F) : vec4 F :=
  { x := v.x / s, y := v.y / s, z := v.z / s, w := v.w / s }

/-- The expression `glm::vec3(m * glm::vec4(c, 1.0f))`: the point `c` under the affine part
of `m`. -/
def mulPoint (m : mat4 F) (c : vec3 F) : vec3 F :=
  { x := m.c0.x * c.x + m.c1.x * c.y + m.c2.x * c.z + m.c3.x * 1
    y := m.c0.y * c.x + m.c1.y * c.y + m.c2.y * c.z + m.c3.y * 1
    z := m.c0.z * c.x + m.c1.z * c.y + m.c2.z * c.z + m.c3.z * 1 }

/-- Componentwise `glm::min` on `vec3`. -/
def min (a b : vec3 F) : vec3 F :=
  { x := Min.min a.x b.x, y := Min.min a.y b.y, z := Min.min a.z b.z }

/-- Componentwise `glm::max` on `vec3`. -/
def max (a b : vec3 F) : vec3 F :=
  { x := Max.max a.x b.x, y := Max.max a.y b.y, z := Max.max a.z b.z }

/-- The matrix `glm::perspective` builds (right-handed; clip depth from -1 to 1, or from 0
to 1 when `zeroToOne` is set), as a function of `tan (fovy / 2)`. GLM is not part of the
sources; this follows its documented formula. -/
def perspective (zeroToOne : Bool) (tanHalfFovy aspect zNear zFar : F) : mat4 F :=
  { c0 := { x := 1 / (aspect * tanHalfFovy), y := 0, z := 0, w := 0 }
    c1 := { x := 0, y := 1 / tanHalfFovy, z := 0, w := 0 }
    c2 := { x := 0, y := 0,
            z := if zeroToOne then zFar / (zNear - zFar) else -(zFar + zNear) / (zFar - zNear),
            w := -1 }
    c3 := { x := 0, y := 0,
            z := if zeroToOne then -(zFar * zNear) / (zFar - zNear)
                 else -(2 * zFar * zNear) / (zFar - zNear),
            w := 0 } }

end

end glm

section Frustum
variable {F : Type} [LinearOrderedField F]

/-- Embeds `struct FrustumPlanes`; the array of six planes is the list of its entries. -/
structure FrustumPlanes (F : Type) where
  p : List (glm.vec4 F)

/-- The six rows `makeFrustumPlanes` extracts from the matrix, before it normalizes them:
left, right, bottom, top, near, far. -/
def extractedPlanes (m : glm.mat4 F) : List (glm.vec4 F) :=
  [ { x := m.c0.w + m.c0.x, y := m.c1.w + m.c1.x, z := m.c2.w + m.c2.x, w := m.c3.w + m.c3.x },
    { x := m.c0.w - m.c0.x, y := m.c1.w - m.c1.x, z := m.c2.w - m.c2.x, w := m.c3.w - m.c3.x },
    { x := m.c0.w + m.c0.y, y := m.c1.w + m.c1.y, z := m.c2.w + m.c2.y, w := m.c3.w + m.c3.y },
    { x := m.c0.w - m.c0.y, y := m.c1.w - m.c1.y, z := m.c2.w - m.c2.y, w := m.c3.w - m.c3.y },
    { x := m.c0.w + m.c0.z, y := m.c1.w + m.c1.z, z := m.c2.w + m.c2.z, w := m.c3.w + m.c3.z },
    { x := m.c0.w - m.c0.z, y := m.c1.w - m.c1.z, z := m.c2.w - m.c2.z, w := m.c3.w - m.c3.z } ]

/-- Body of the normalization loop of `makeFrustumPlanes`; `length` stands for
`glm::length`. -/
def normalizePlane (length : glm.vec3 F → F) (pl : glm.vec4 F) : glm.vec4 F :=
  let n : glm.vec3 F := { x := pl.x, y := pl.y, z := pl.z }
  let len := length n
  if len > 0 then pl.divScalar len else pl

/-- The real-number reading of `makeFrustumPlanes` (`Binary32.makeFrustumPlanes` is the
embedding in binary32). The function `glm::length` is a parameter: the field need not have
square roots. -/
def makeFrustumPlanes (length : glm.vec3 F → F) (viewProj : glm.mat4 F) : FrustumPlanes F :=
  { p := (extractedPlanes viewProj).map (normalizePlane length) }

/-- The corner of the box that `frustumIntersectsAABB` tests against a plane: per axis the
maximum where the normal is non-negative, else the minimum. -/
def positiveVertex (pl : glm.vec4 F) (bmin bmax : glm.vec3 F) : glm.vec3 F :=
  { x := if pl.x ≥ 0 then bmax.x else bmin.x
    y := if pl.y ≥ 0 then bmax.y else bmin.y
    z := if pl.z ≥ 0 then bmax.z else bmin.z }

/-- Body of the loop of `frustumIntersectsAABB`: the plane makes the function return
`false`. -/
def planeRejects (pl : glm.vec4 F) (bmin bmax : glm.vec3 F) : Bool :=
  let n : glm.vec3 F := { x := pl.x, y := pl.y, z := pl.z }
  decide (glm.dot n (positiveVertex pl bmin bmax) + pl.w < 0)

/-- The real-number reading of `frustumIntersectsAABB` (`Binary32.frustumIntersectsAABB` is
the embedding in binary32): `false` at the first plane that rejects the box, `true` when no
plane does. -/
def frustumIntersectsAABB (f : FrustumPlanes F) (bmin bmax : glm.vec3 F) : Bool :=
  f.p.all fun pl => !planeRejects pl bmin bmax

/-- The eight corners `transformAABB` enumerates. -/
def aabbCorners (inMin inMax : glm.vec3 F) : List (glm.vec3 F) :=
  [ { x := inMin.x, y := inMin.y, z := inMin.z }, { x := inMax.x, y := inMin.y, z := inMin.z },
    { x := inMin.x, y := inMax.y, z := inMin.z }, { x := inMax.x, y := inMax.y, z := inMin.z },
    { x := inMin.x, y := inMin.y, z := inMax.z }, { x := inMax.x, y := inMin.y, z := inMax.z },
    { x := inMin.x, y := inMax.y, z := inMax.z }, { x := inMax.x, y := inMax.y, z := inMax.z } ]

/-- The real-number reading of `transformAABB` (`Binary32.transformAABB` is the embedding
in binary32): the pair `(outMin, outMax)`. -/
def transformAABB (m : glm.mat4 F) (inMin inMax : glm.vec3 F) : glm.vec3 F × glm.vec3 F :=
  let first := glm.mulPoint m { x := inMin.x, y := inMin.y, z := inMin.z }
  ((aabbCorners inMin inMax).tail).foldl
    (fun out c => (glm.min out.1 (glm.mulPoint m c), glm.max out.2 (glm.mulPoint m c)))
    (first, first)

/-- The point lies in the closed box. -/
def InBox (bmin bmax q : glm.vec3 F) : Prop :=
  bmin.x ≤ q.x ∧ q.x ≤ bmax.x ∧ bmin.y ≤ q.y ∧ q.y ≤ bmax.y ∧ bmin.z ≤ q.z ∧ q.z ≤ bmax.z

/-- The signed distance expression `n.q + d` of a plane at a point. -/
def planeValue (pl : glm.vec4 F) (q : glm.vec3 F) : F :=
  pl.x * q.x + pl.y * q.y + pl.z * q.z + pl.w

end Frustum

/-- The box with edge length 1 centred at `c`. -/
def unitBoxAt (c : glm.vec3 ℚ) : glm.vec3 ℚ × glm.vec3 ℚ :=
  ({ x := c.x - 1 / 2, y := c.y - 1 / 2, z := c.z - 1 / 2 },
   { x := c.x + 1 / 2, y := c.y + 1 / 2, z := c.z + 1 / 2 })

/-- The view-projection matrix of a camera at the origin that looks down -Z (its view matrix
is the identity) with a symmetric perspective frustum of 90 degrees (`tan 45° = 1`), aspect
1, near 0.1 and far 100; `flipY` negates `p[1][1]` as `Camera::projMatrix` does. -/
def scenarioViewProj (zeroToOne flipY : Bool) : glm.mat4 ℚ :=
  let p := glm.perspective zeroToOne (1 : ℚ) 1 (1 / 10) 100
  if flipY then { p with c1 := { p.c1 with y := p.c1.y * -1 } } else p

/-- A stand-in for `glm::length` on the rationals: the sum of the absolute values of the
components. -/
def sampleLength (n : glm.vec3 ℚ) : ℚ := |n.x| + |n.y| + |n.z|

/-- The planes of the scenario camera (clip depth from 0 to 1, Y flipped). -/
def sampleFrustum : FrustumPlanes ℚ := makeFrustumPlanes sampleLength (scenarioViewProj true true)

/-! ## The culling step and the host draw path (`engine/gfx/Renderer.cpp`) -/

/-- Embeds `struct DrawItem`: the three ids. The material factors and the padding take no
part in culling, sorting or drawing and are left out. -/
structure DrawItem where
  meshId : Nat
  materialId : Nat
  transformIndex : Nat
  deriving DecidableEq, Repr

/-- The members of `struct RenderScene` that the renderer's culling and draw code reads:
the camera matrices, the transforms and the draws. -/
structure RenderScene (F : Type) where
  view : glm.mat4 F
  proj : glm.mat4 F
  transforms : List (glm.mat4 F)
  draws : List DrawItem

namespace Renderer

/-- The members of `Renderer::FrameResources` that the culling step touches. The mapped
memory of the per-draw transform-index buffer is the list of its `uint32_t` cells. -/
structure FrameResources where
  drawTransformSsbo : Nat
  drawTransformSsboMem : Nat
  drawTransformSsboMapped : List Nat
  indirectCmdBuffer : Nat
  indirectCmdMem : Nat
  indirectMaxDraws : Nat
  deriving DecidableEq, Repr

/-- What the device answers when the culling step grows its buffers: the objects of the two
`createBuffer` calls, `none` where the call (or the `mapMemory` after it) throws. -/
structure GrowDevice where
  drawTransforms : Option VulkanContext.CreatedBuffer
  indirect : Option VulkanContext.CreatedBuffer
  deriving DecidableEq, Repr

/-- Embeds `struct CullPush`. -/
structure CullPush where
  drawCount : Nat
  indexCount : Nat
  deriving DecidableEq, Repr

/-- The expression `std::max(drawCount, fr.indirectMaxDraws * 2u)` in `uint32_t`. -/
def grownCapacity (drawCount indirectMaxDraws : Nat) : Nat :=
  max drawCount ((indirectMaxDraws * 2) % 2 ^ 32)

/-- The growth step of `recordGpuCulling`: the frame resources after it and the handles the
closure pushed on the deletion queue will destroy; `none` when buffer creation throws. The
cells of newly mapped memory hold zero here (the program does not read them before writing
them). -/
def growBuffers (fr : FrameResources) (drawCount : Nat) (dev : GrowDevice) :
    Option (FrameResources × List Nat) :=
  if drawCount > fr.indirectMaxDraws then
    let newMax := grownCapacity drawCount fr.indirectMaxDraws
    match dev.drawTransforms, dev.indirect with
    | some d, some i =>
      some ({ drawTransformSsbo := d.buffer
              drawTransformSsboMem := d.memory
              drawTransformSsboMapped := List.replicate newMax 0
              indirectCmdBuffer := i.buffer
              indirectCmdMem := i.memory
              indirectMaxDraws := newMax },
            [fr.drawTransformSsbo, fr.drawTransformSsboMem, fr.indirectCmdBuffer,
              fr.indirectCmdMem])
    | _, _ => none
  else some (fr, [])

/-- State of the pre-filter loop: the counter `written`, the mapped cells, and whether every
write so far fell inside the mapped cells. -/
structure FilterState where
  written : Nat
  mapped : List Nat
  inBounds : Bool
  deriving DecidableEq, Repr

/-- Body of the pre-filter loop of `recordGpuCulling` for one draw;
`transformCount` is `scene.transforms.size()`. -/
def preFilterStep (transformCount : Nat) (st : FilterState) (d : DrawItem) : FilterState :=
  if d.meshId ≠ 0 then st
  else if d.transformIndex ≥ transformCount then st
  else
    { written := (st.written + 1) % 2 ^ 32
      mapped := st.mapped.set st.written d.transformIndex
      inBounds := st.inBounds && decide (st.written < st.mapped.length) }

/-- The pre-filter loop of `recordGpuCulling`. -/
def preFilter (transformCount : Nat) (mapped : List Nat) (draws : List DrawItem) : FilterState :=
  draws.foldl (preFilterStep transformCount) { written := 0, mapped := mapped, inBounds := true }

/-- The expression `(finalDrawCount + 63u) / 64u` in `uint32_t`. -/
def dispatchGroups (finalDrawCount : Nat) : Nat := ((finalDrawCount + 63) % 2 ^ 32) / 64

/-- What a call of `recordGpuCulling` leaves behind: the value it returns, the frame
resources, the handles queued for deferred destruction, whether every write of the
pre-filter fell inside the mapped buffer, and the push constants and the group count of the
dispatch it records (`none` when it returns before recording). -/
structure CullRecord where
  returned : Nat
  frame : FrameResources
  queuedForDeletion : List Nat
  writesInBounds : Bool
  pushConstants : Option CullPush
  dispatch : Option Nat
  deriving DecidableEq, Repr

/-- Embeds `Renderer::recordGpuCulling` for the frame resources `fr` of the current frame
slot; `indexCount` is `sceneMesh.indexCount()`. The result is `none` when the growth step
throws. The upload of the frustum planes and the commands recorded before the dispatch (fill,
barrier, binds) are not part of the model. -/
def recordGpuCulling {F : Type} (gpuDriven : Bool) (fr : FrameResources) (indexCount : Nat)
    (scene : RenderScene F) (dev : GrowDevice) : Option CullRecord :=
  if !gpuDriven then
    some { returned := 0, frame := fr, queuedForDeletion := [], writesInBounds := true,
           pushConstants := none, dispatch := none }
  else
    let drawCount := scene.draws.length % 2 ^ 32
    if drawCount = 0 then
      some { returned := 0, frame := fr, queuedForDeletion := [], writesInBounds := true,
             pushConstants := none, dispatch := none }
    else
      match growBuffers fr drawCount dev with
      | none => none
      | some (fr1, queued) =>
        let st := preFilter scene.transforms.length fr1.drawTransformSsboMapped scene.draws
        let fr2 := { fr1 with drawTransformSsboMapped := st.mapped }
        let finalDrawCount := st.written
        if finalDrawCount = 0 then
          some { returned := 0, frame := fr2, queuedForDeletion := queued,
                 writesInBounds := st.inBounds, pushConstants := none, dispatch := none }
        else
          some { returned := finalDrawCount, frame := fr2, queuedForDeletion := queued,
                 writesInBounds := st.inBounds,
                 pushConstants := some { drawCount := finalDrawCount, indexCount := indexCount },
                 dispatch := some (dispatchGroups finalDrawCount) }

/-- The validity filter: the mesh id is the one mesh of the scene and the transform index
is inside `scene.transforms`. -/
def isCandidate (transformCount : Nat) (d : DrawItem) : Bool :=
  d.meshId == 0 && decide (d.transformIndex < transformCount)

/-- The transform indices of the draws that pass the validity filter, in draw-list order. -/
def candidates {F : Type} (scene : RenderScene F) : List Nat :=
  (scene.draws.filter (isCandidate scene.transforms.length)).map fun d => d.transformIndex

end Renderer

/-! ## Sample scenes -/

namespace Renderer

/-- Frame resources as `createGpuDrivenResources` leaves them: room for 1024 draws. -/
def sampleFrameResources : FrameResources :=
  { drawTransformSsbo := 901
    drawTransformSsboMem := 902
    drawTransformSsboMapped := List.replicate 1024 0
    indirectCmdBuffer := 903
    indirectCmdMem := 904
    indirectMaxDraws := 1024 }

/-- A device on which both buffers of the growth step are created. -/
def sampleGrowDevice : GrowDevice :=
  { drawTransforms := some { buffer := 911, memory := 912 }
    indirect := some { buffer := 913, memory := 914 } }

/-- The identity matrix. -/
def identity : glm.mat4 ℚ :=
  { c0 := { x := 1, y := 0, z := 0, w := 0 }
    c1 := { x := 0, y := 1, z := 0, w := 0 }
    c2 := { x := 0, y := 0, z := 1, w := 0 }
    c3 := { x := 0, y := 0, z := 0, w := 1 } }

/-- The translation by `(x, y, z)`. -/
def translation (x y z : ℚ) : glm.mat4 ℚ :=
  { identity with c3 := { x := x, y := y, z := z, w := 1 } }

/-- A scene seen by the scenario camera: three transforms (in front of the camera, far to
the side, in front again) and six draws, of which one has another mesh id and one a
transform index outside the scene. -/
def sampleScene : RenderScene ℚ :=
  { view := identity
    proj := scenarioViewProj true true
    transforms := [translation 0 0 (-5), translation 1000 0 (-5), translation 0 0 (-7)]
    draws :=
      [ { meshId := 0, materialId := 2, transformIndex := 2 },
        { meshId := 1, materialId := 0, transformIndex := 0 },
        { meshId := 0, materialId := 1, transformIndex := 0 },
        { meshId := 0, materialId := 0, transformIndex := 7 },
        { meshId := 0, materialId := 1, transformIndex := 1 },
        { meshId := 0, materialId := 1, transformIndex := 0 } ] }

end Renderer

namespace Renderer

/-- A scene of 1025 draws, none of which has the mesh id of the scene mesh. -/
def sampleRejectedScene : RenderScene ℚ :=
  { sampleScene with
    draws := List.replicate 1025 { meshId := 1, materialId := 0, transformIndex := 0 } }

/-- A scene of 1500 draws of the scene mesh. -/
def sampleLargeScene : RenderScene ℚ :=
  { sampleScene with
    draws := List.replicate 1500 { meshId := 0, materialId := 0, transformIndex := 0 } }

end Renderer

/-! ## The host draw path of `Renderer::drawFrame` -/

namespace Renderer

/-- The arguments of one `vkCmdDrawIndexed` call. -/
structure DrawIndexedCall where
  indexCount : Nat
  instanceCount : Nat
  firstIndex : Nat
  vertexOffset : Int
  firstInstance : Nat
  deriving DecidableEq, Repr

/-- A `const DrawItem*` into `scene.draws`: the position it points at, with the item
there. -/
abbrev DrawPtr := Nat × DrawItem

/-- The comparator lambda handed to `std::sort`. -/
def drawPtrLess (a b : DrawPtr) : Bool :=
  if a.2.materialId ≠ b.2.materialId then decide (a.2.materialId < b.2.materialId)
  else if a.2.meshId ≠ b.2.meshId then decide (a.2.meshId < b.2.meshId)
  else decide (a.2.transformIndex < b.2.transformIndex)

section
variable {F : Type} [LinearOrderedField F]

/-- The product `m * v` of a `glm::mat4` and a `glm::vec4`. -/
def mulVec (m : glm.mat4 F) (v : glm.vec4 F) : glm.vec4 F :=
  { x := m.c0.x * v.x + m.c1.x * v.y + m.c2.x * v.z + m.c3.x * v.w
    y := m.c0.y * v.x + m.c1.y * v.y + m.c2.y * v.z + m.c3.y * v.w
    z := m.c0.z * v.x + m.c1.z * v.y + m.c2.z * v.z + m.c3.z * v.w
    w := m.c0.w * v.x + m.c1.w * v.y + m.c2.w * v.z + m.c3.w * v.w }

/-- The product `a * b` of two `glm::mat4`: column by column. -/
def mulMat (a b : glm.mat4 F) : glm.mat4 F :=
  { c0 := mulVec a b.c0, c1 := mulVec a b.c1, c2 := mulVec a b.c2, c3 := mulVec a b.c3 }

/-- The tests of the culling loop of the host path for one draw: mesh id, transform index,
and the frustum test of the world-space box of the mesh. -/
def hostVisibleTest (fr : FrustumPlanes F) (scene : RenderScene F)
    (boundsMin boundsMax : glm.vec3 F) (d : DrawItem) : Bool :=
  if d.meshId ≠ 0 then false
  else
    match scene.transforms[d.transformIndex]? with
    | none => false
    | some m =>
      let w := transformAABB m boundsMin boundsMax
      frustumIntersectsAABB fr w.1 w.2

/-- The vector `visible` the host path builds: pointers to the draws that pass the tests, in
draw-list order. The planes are those of `proj * view`; `boundsMin` and `boundsMax` are the
bounds of the scene mesh. -/
def hostVisible (length : glm.vec3 F → F) (scene : RenderScene F)
    (boundsMin boundsMax : glm.vec3 F) : List DrawPtr :=
  let vp := mulMat scene.proj scene.view
  let fr := makeFrustumPlanes length vp
  scene.draws.enum.filter fun pd => hostVisibleTest fr scene boundsMin boundsMax pd.2

/-- The draw calls the host path of the opaque pass records. The function `std::sort` is a
parameter `stdSort`; `indexCount` is `sceneMesh.indexCount()`. -/
def hostOpaqueDraws (stdSort : (DrawPtr → DrawPtr → Bool) → List DrawPtr → List DrawPtr)
    (length : glm.vec3 F → F) (scene : RenderScene F) (indexCount : Nat)
    (boundsMin boundsMax : glm.vec3 F) : List DrawIndexedCall :=
  (stdSort drawPtrLess (hostVisible length scene boundsMin boundsMax)).map fun pd =>
    { indexCount := indexCount, instanceCount := 1, firstIndex := 0, vertexOffset := 0,
      firstInstance := pd.2.transformIndex }

end

/-- The sort key of the host path: material id, then mesh id, then transform index, in
lexicographic order. -/
def sortKey (pd : DrawPtr) : Nat ×ₗ Nat ×ₗ Nat :=
  toLex (pd.2.materialId, toLex (pd.2.meshId, pd.2.transformIndex))

/-- A stable sort of draw pointers by the sort key (insertion sort: an entry is put before
the first entry that does not precede it, and the list is inserted back to front, so entries
of equal key keep their order). -/
def stableSortByKey (l : List DrawPtr) : List DrawPtr :=
  l.insertionSort fun a b => sortKey a ≤ sortKey b

/-- A sorting function that meets the contract of `std::sort` and does not keep the order of
equal entries: the stable sort of the reversed input. -/
def sampleStdSort (lt : DrawPtr → DrawPtr → Bool) (l : List DrawPtr) : List DrawPtr :=
  l.reverse.insertionSort fun a b => lt b a = false

/-- Bounds of a mesh: the cube of edge 1 about the origin. -/
def sampleBoundsMin : glm.vec3 ℚ := { x := -1 / 2, y := -1 / 2, z := -1 / 2 }

/-- The upper corner of that cube. -/
def sampleBoundsMax : glm.vec3 ℚ := { x := 1 / 2, y := 1 / 2, z := 1 / 2 }

end Renderer

/-! ## Staging uploads (`engine/gfx/UploadManager.cpp`, `Mesh.cpp`, `Renderer.cpp`)

`VkDeviceSize` is a 64-bit unsigned integer: sums, products and the complement are taken modulo
`2 ^ 64`. Addresses are natural numbers with `0` for `nullptr`. -/

/-- How a routine ends that may throw or call `std::abort`: it returns, an exception leaves
it, or the process is aborted after the diagnostic was printed. -/
inductive Outcome (α : Type) where
  | returned (value : α)
  | threw
  | aborted (diagnostic : String)
  deriving DecidableEq, Repr

namespace UploadManager

/-- Embeds `UploadManager::alignUp`: `(v + a - 1) & ~(a - 1)` on 64-bit unsigned integers. -/
def alignUp (v a : Nat) : Nat :=
  ((v + a + (2 ^ 64 - 1)) % 2 ^ 64) &&& (2 ^ 64 - 1 - (a + (2 ^ 64 - 1)) % 2 ^ 64)

/-- The members of `UploadManager::Frame` that `alloc` and `copyToBuffer` use. -/
structure Frame where
  mapped : Nat
  capacity : Nat
  head : Nat
  recorded : Bool
  deriving DecidableEq, Repr

/-- Embeds `UploadManager::Allocation`; `cpu = 0` is the empty allocation. -/
structure Allocation where
  cpu : Nat
  srcOffset : Nat
  size : Nat
  deriving DecidableEq, Repr

/-- The arguments of one `vkCmdCopyBuffer` call recorded by `copyToBuffer`. -/
structure BufferCopy where
  dst : Nat
  srcOffset : Nat
  dstOffset : Nat
  size : Nat
  deriving DecidableEq, Repr

/-- The upload manager between `beginFrame` and `endFrame`: the frame `cur` points at (`none`
for a null pointer) and the buffer copies recorded so far. -/
structure State where
  cur : Option Frame
  copies : List BufferCopy
  deriving DecidableEq, Repr

/-- Embeds `UploadManager::alloc`: the allocation and the manager afterwards. -/
def alloc (up : State) (size alignment : Nat) : Allocation × State :=
  match up.cur with
  | none => ({ cpu := 0, srcOffset := 0, size := 0 }, up)
  | some f =>
    let off := alignUp f.head alignment
    if (off + size) % 2 ^ 64 > f.capacity then ({ cpu := 0, srcOffset := 0, size := 0 }, up)
    else
      ({ cpu := f.mapped + off, srcOffset := off, size := size },
       { up with cur := some { f with head := (off + size) % 2 ^ 64 } })

/-- Embeds `UploadManager::copyToBuffer`. -/
def copyToBuffer (up : State) (dst dstOffset srcOffset size : Nat) : State :=
  match up.cur with
  | none => up
  | some f =>
    { cur := some { f with recorded := true }
      copies := up.copies ++
        [{ dst := dst, srcOffset := srcOffset, dstOffset := dstOffset, size := size }] }

/-- Embeds `UploadManager::uploadToBuffer`: the returned flag and the manager afterwards. -/
def uploadToBuffer (up : State) (dst dstOffset size alignment : Nat) : Bool × State :=
  let a := alloc up size alignment
  if a.1.cpu = 0 then (false, a.2)
  else (true, copyToBuffer a.2 dst dstOffset a.1.srcOffset size)

end UploadManager

/-- The members of `class Mesh` other than the bounds. -/
structure Mesh where
  vb : Nat
  vbMem : Nat
  ib : Nat
  ibMem : Nat
  idxCount : Nat
  deriving DecidableEq, Repr

namespace Mesh

/-- The value of `sizeof(Vertex)`: twelve floats. -/
def sizeofVertex : Nat := 48

/-- The value of `alignof(Vertex)`. -/
def alignofVertex : Nat := 4

/-- What the device answers to the two `createBuffer` calls of `Mesh::create`: the buffer and
its memory, or `none` when the call throws. -/
structure CreateDevice where
  vertexBuffer : Option (Nat × Nat)
  indexBuffer : Option (Nat × Nat)
  deriving DecidableEq, Repr

/-- Embeds the assignments of `Mesh::destroy` (the deferred destruction of the old buffers is
not part of the model). -/
def destroy (_m : Mesh) : Mesh :=
  { vb := 0, vbMem := 0, ib := 0, ibMem := 0, idxCount := 0 }

/-- Embeds `Mesh::create` for `vertexCount` vertices and `indexCount` indices: the returned
flag, the mesh and the upload manager afterwards; `Outcome.threw` when `createBuffer`
throws. -/
def create (m : Mesh) (up : UploadManager.State) (vertexCount indexCount : Nat)
    (dev : CreateDevice) : Outcome (Bool × Mesh × UploadManager.State) :=
  let m0 := destroy m
  if vertexCount = 0 ∨ indexCount = 0 then Outcome.returned (false, m0, up)
  else
    let vbytes := (sizeofVertex * vertexCount) % 2 ^ 64
    let ibytes := (4 * indexCount) % 2 ^ 64
    match dev.vertexBuffer with
    | none => Outcome.threw
    | some v =>
      let m1 := { m0 with vb := v.1, vbMem := v.2 }
      match dev.indexBuffer with
      | none => Outcome.threw
      | some i =>
        let m2 := { m1 with ib := i.1, ibMem := i.2 }
        let u1 := UploadManager.uploadToBuffer up m2.vb 0 vbytes alignofVertex
        if !u1.1 then Outcome.returned (false, m2, u1.2)
        else
          let u2 := UploadManager.uploadToBuffer u1.2 m2.ib 0 ibytes 4
          if !u2.1 then Outcome.returned (false, m2, u2.2)
          else Outcome.returned (true, { m2 with idxCount := indexCount % 2 ^ 32 }, u2.2)

end Mesh

namespace Renderer

/-- The diagnostic `createTexture2D` prints before it aborts. -/
def stagingDiagnostic (w h byteSize : Nat) : String :=
  "[upload] Out of staging memory while uploading texture " ++ toString w ++ "x" ++
    toString h ++ " (need " ++ toString byteSize ++ " bytes)\n"

/-- Embeds the staging part of `createTexture2D` for a texture of `w` by `h` texels: the
allocation it copies the texels to and the upload manager afterwards. `imageCreated` tells
whether the image and its memory were created (else `vkCheck` throws). The commands recorded
after the allocation are not part of the model. -/
def createTexture2D (up : UploadManager.State) (w h : Nat) (imageCreated : Bool) :
    Outcome (UploadManager.Allocation × UploadManager.State) :=
  if !imageCreated then Outcome.threw
  else
    let byteSize := (w * h * 4) % 2 ^ 64
    let a := UploadManager.alloc up byteSize 4
    if a.1.cpu = 0 then Outcome.aborted (stagingDiagnostic w h byteSize)
    else Outcome.returned a

/-- Embeds the end of `Renderer::createScene`: `sceneMesh.create(vk, upload, verts, idx)` is
called as a statement, so the flag it returns is dropped, and the routine goes on to
`upload.endFrame`. The result is the scene mesh and the upload manager before `endFrame`. -/
def createSceneMesh (sceneMesh : Mesh) (up : UploadManager.State) (vertexCount indexCount : Nat)
    (dev : Mesh.CreateDevice) : Outcome (Mesh × UploadManager.State) :=
  match Mesh.create sceneMesh up vertexCount indexCount dev with
  | Outcome.returned r => Outcome.returned r.2
  | Outcome.threw => Outcome.threw
  | Outcome.aborted d => Outcome.aborted d

/-- An upload manager in a begun frame: 64 MiB of staging memory (the default of
`UploadManager::init`), nothing allocated yet. -/
def sampleUpload : UploadManager.State :=
  { cur := some { mapped := 4096, capacity := 64 * 1024 * 1024, head := 0, recorded := false }
    copies := [] }

/-- A device on which both buffers of a mesh are created. -/
def sampleMeshDevice : Mesh.CreateDevice :=
  { vertexBuffer := some (701, 702), indexBuffer := some (703, 704) }

/-- A mesh that was never created. -/
def sampleEmptyMesh : Mesh := { vb := 0, vbMem := 0, ib := 0, ibMem := 0, idxCount := 0 }

end Renderer

/-! ## Scopes of `RenderGraph::execute` -/

namespace RenderGraph

/-- The event opens or closes a native render-pass or attachment scope. -/
def isScopeEvent : Event → Bool
  | Event.beginRendering _ _ _ => true
  | Event.endRendering _ => true
  | Event.beginMainPass _ => true
  | Event.endMainPass _ => true
  | _ => false

/-- The event begins or ends the main render pass of the legacy path. -/
def isMainPassEvent : Event → Bool
  | Event.beginMainPass _ => true
  | Event.endMainPass _ => true
  | _ => false

/-- The invocation of the exec callback of a pass on the command target `cmd`: no event for
an empty callback. -/
def execEvents (p : Pass) (cmd : Nat) : List Event :=
  p.exec.toList.map fun cb => Event.exec cb cmd

/-- Pass number `i` of the list exists and is a Graphics pass. -/
def isGraphicsAt (passes : List Pass) (i : Nat) : Bool :=
  match passes[i]? with
  | some q => decide (q.type = PassType.Graphics)
  | none => false

/-- Pass `i` is the first pass of a maximal run of adjacent Graphics passes. -/
def startsRun (passes : List Pass) (i : Nat) : Bool :=
  isGraphicsAt passes i && (i == 0 || !isGraphicsAt passes (i - 1))

/-- Pass `i` is the last pass of a maximal run of adjacent Graphics passes. -/
def endsRun (passes : List Pass) (i : Nat) : Bool :=
  isGraphicsAt passes i && !isGraphicsAt passes (i + 1)

/-- The number of maximal runs of adjacent Graphics passes in the list. -/
def runCount (passes : List Pass) : Nat :=
  ((List.range passes.length).filter (startsRun passes)).length

/-- The sequence begin, end, begin, end, ... of `k` main render passes on `cmd`. -/
def mainPassPairs (cmd : Nat) : Nat → List Event
  | 0 => []
  | k + 1 => Event.beginMainPass cmd :: Event.endMainPass cmd :: mainPassPairs cmd k

/-- A main render pass is open after the events: the last call that begins or ends the main
render pass is a begin. -/
def mainPassOpen (events : List Event) : Bool :=
  match (events.filter isMainPassEvent).getLast? with
  | some (Event.beginMainPass _) => true
  | _ => false

/-- Every table lookup `images[id]` that produced an attachment view of the event was in
range. -/
def attachmentLookupsInRange : Event → Bool
  | Event.beginRendering _ colorAttachments depthAttachment =>
    colorAttachments.all (fun a => a.imageView.isSome) &&
      (match depthAttachment with
       | some a => a.imageView.isSome
       | none => true)
  | _ => true

/-- The sample frame with a Graphics pass that declares no attachment and a Compute pass. -/
def sampleBareGraph : RenderGraph :=
  addPass (addPass sampleFrame.1 "ui" PassType.Graphics [] (some 5)) "sim" PassType.Compute []
    (some 6)

/-- The sample context after `begin`, on a device without dynamic rendering. -/
def sampleLegacyContext : VulkanContext :=
  { sampleFrame.2 with useDynamicRendering := false }

/-- The sample frame with a pass whose colour attachment is a handle that is not in the image
table (the table holds the backbuffer and the depth image). -/
def sampleBadHandleGraph : RenderGraph :=
  addPass sampleFrame.1 "stale" PassType.Graphics
    [BuilderCall.colorAttachment { id := 7 } VK_ATTACHMENT_LOAD_OP_CLEAR 0 none] (some 3)

/-- The sample frame with two runs of Graphics passes around a Compute pass. -/
def sampleRunsGraph : RenderGraph :=
  addPass
    (addPass
      (addPass (addPass sampleFrame.1 "sky" PassType.Graphics [] (some 1)) "opaque"
        PassType.Graphics [] (some 2))
      "post" PassType.Compute [] (some 3))
    "ui" PassType.Graphics [] (some 4)

end RenderGraph

/-! ## Plane extraction and box transformation: the properties in the words of the
specification -/

section
variable {F : Type} [LinearOrderedField F]

/-- The clip coordinates `viewProj * vec4(x, 1)` of a point. -/
def clipCoordinates (viewProj : glm.mat4 F) (x : glm.vec3 F) : glm.vec4 F :=
  Renderer.mulVec viewProj { x := x.x, y := x.y, z := x.z, w := 1 }

/-- The six clip-space expressions of the standard plane extraction, in the order left,
right, bottom, top, near, far. -/
def clipRows (c : glm.vec4 F) : List F :=
  [c.w + c.x, c.w - c.x, c.w + c.y, c.w - c.y, c.w + c.z, c.w - c.z]

/-- The normal `(x, y, z)` of a plane. -/
def planeNormal (pl : glm.vec4 F) : glm.vec3 F := { x := pl.x, y := pl.y, z := pl.z }

/-- The factor by which the normalization loop of `makeFrustumPlanes` rescales a plane. -/
def normalizeFactor (length : glm.vec3 F → F) (pl : glm.vec4 F) : F :=
  if length (planeNormal pl) > 0 then 1 / length (planeNormal pl) else 1

end

namespace Renderer

/-- A transform with non-uniform scale, a shear and a translation. -/
def sampleShear : glm.mat4 ℚ :=
  { c0 := { x := 2, y := 0, z := 0, w := 0 }
    c1 := { x := 1, y := 3, z := 0, w := 0 }
    c2 := { x := 0, y := 0, z := -1, w := 0 }
    c3 := { x := 5, y := 0, z := 0, w := 1 } }

end Renderer

/-! ## The transform upload of `Renderer::drawFrame` -/

namespace Renderer

/-- The constant `kMaxTransforms` of `Renderer::drawFrame`. -/
def kMaxTransforms : Nat := 4096

/-- The value `transformCount` of `Renderer::drawFrame`: the number of matrices it copies
from `scene.transforms` into the per-frame transform buffer,
`(uint32_t)std::min<size_t>(scene.transforms.size(), kMaxTransforms)`. -/
def uploadedTransformCount {F : Type} (scene : RenderScene F) : Nat :=
  (min scene.transforms.length kMaxTransforms) % 2 ^ 32

/-- A scene of 4097 transforms whose only draw uses the last of them. -/
def sampleManyTransformsScene : RenderScene ℚ :=
  { sampleScene with
    transforms := List.replicate 4097 (translation 0 0 (-5))
    draws := [{ meshId := 0, materialId := 0, transformIndex := 4096 }] }

end Renderer

/-! ## OBJ loading (`engine/assets/ObjLoader.cpp`)

The text of the file is taken line by line, each line already split by the input stream
into its operator and its operands; face tokens are kept as text. The conversion
`(int)pos.size()` is the identity (sizes below `2 ^ 31`). -/

namespace ObjLoader

/-- Embeds `struct Key`. -/
structure Key where
  v : Int
  vt : Int
  vn : Int
  deriving DecidableEq, Repr

/-- Embeds `fixIndex`. -/
def fixIndex (idx count : Int) : Int :=
  if idx > 0 then idx - 1
  else if idx < 0 then count + idx
  else -1

/-- Embeds `parseVertexTriplet`: the three numbers of a face token, `none` when the function
returns `false`. The function `parseInt` (a wrapper of `std::from_chars`) is a parameter:
`none` stands for a reported error. -/
def parseVertexTriplet (parseInt : List Char → Option Int) (token : List Char) : Option Key :=
  match token.span (fun ch => ch != '/') with
  | (_, []) => (parseInt token).map fun v => { v := v, vt := 0, vn := 0 }
  | (a, _ :: rest) =>
    let b := (rest.span (fun ch => ch != '/')).1
    let c := ((rest.span (fun ch => ch != '/')).2).drop 1
    match (if a.isEmpty then some 0 else parseInt a) with
    | none => none
    | some v =>
      match (if b.isEmpty then some 0 else parseInt b) with
      | none => none
      | some vt =>
        match (if c.isEmpty then some 0 else parseInt c) with
        | none => none
        | some vn => some { v := v, vt := vt, vn := vn }

/-- Embeds `struct ObjVertex`; a `glm::vec2` is a pair. -/
structure ObjVertex (F : Type) where
  pos : glm.vec3 F
  nrm : glm.vec3 F
  uv : F × F
  deriving DecidableEq, Repr

/-- The three arrays `emit` reads. -/
inductive ObjArray where
  | pos
  | uv
  | nrm
  deriving DecidableEq, Repr

/-- One element read `array[index]` on an array of `size` elements. -/
structure ArrayRead where
  array : ObjArray
  index : Nat
  size : Nat
  deriving DecidableEq, Repr

/-- The read is inside the array. -/
def ArrayRead.inBounds (r : ArrayRead) : Bool := decide (r.index < r.size)

/-- The locals of `loadObj` and its output: the three arrays, the map `dedup` (as the list of
its entries in insertion order), `out.vertices` and `out.indices`, and the element reads
`emit` has performed so far. -/
structure LoadState (F : Type) where
  pos : List (glm.vec3 F)
  nrm : List (glm.vec3 F)
  uv : List (F × F)
  dedup : List (Key × Nat)
  vertices : List (ObjVertex F)
  indices : List Nat
  reads : List ArrayRead

/-- One line of the file after `iss >> op` and the reads of its operands. -/
inductive ObjLine (F : Type) where
  | v (p : glm.vec3 F)
  | vn (n : glm.vec3 F)
  | vt (x y : F)
  | f (toks : List (List Char))
  | other

section
variable {F : Type} [LinearOrderedField F]

/-- The reads of `emit` for a key that is not in `dedup`: one per index that `fixIndex` maps
to a non-negative position. -/
def emitReads (st : LoadState F) (k : Key) : List ArrayRead :=
  (if fixIndex k.v st.pos.length ≥ 0 then
    [{ array := ObjArray.pos, index := (fixIndex k.v st.pos.length).toNat,
       size := st.pos.length }] else []) ++
  (if fixIndex k.vt st.uv.length ≥ 0 then
    [{ array := ObjArray.uv, index := (fixIndex k.vt st.uv.length).toNat,
       size := st.uv.length }] else []) ++
  (if fixIndex k.vn st.nrm.length ≥ 0 then
    [{ array := ObjArray.nrm, index := (fixIndex k.vn st.nrm.length).toNat,
       size := st.nrm.length }] else [])

/-- Embeds the lambda `emit` of `loadObj`: the index it returns and the state afterwards,
`none` when it throws. An element read outside its array yields the value-initialized
element here; the read itself is recorded in `reads`. -/
def emit (parseInt : List Char → Option Int) (st : LoadState F) (t : List Char) :
    Option (Nat × LoadState F) :=
  match parseVertexTriplet parseInt t with
  | none => none
  | some k =>
    match st.dedup.lookup k with
    | some idx => some (idx, st)
    | none =>
      let pv := fixIndex k.v st.pos.length
      let pt := fixIndex k.vt st.uv.length
      let pn := fixIndex k.vn st.nrm.length
      let vtx : ObjVertex F :=
        { pos := if pv ≥ 0 then st.pos.getD pv.toNat { x := 0, y := 0, z := 0 }
                 else { x := 0, y := 0, z := 0 }
          uv := if pt ≥ 0 then st.uv.getD pt.toNat (0, 0) else (0, 0)
          nrm := if pn ≥ 0 then st.nrm.getD pn.toNat { x := 0, y := 0, z := 0 }
                 else { x := 0, y := 1, z := 0 } }
      let idx := st.vertices.length % 2 ^ 32
      some (idx,
        { st with
          vertices := st.vertices ++ [vtx]
          dedup := st.dedup ++ [(k, idx)]
          reads := st.reads ++ emitReads st k })

/-- One iteration of the triangle-fan loop of a face line: `emit` for `toks[i]` and
`toks[i + 1]`, then the three indices are appended. -/
def fanStep (parseInt : List Char → Option Int) (i0 : Nat) (acc : Option (LoadState F))
    (pair : List Char × List Char) : Option (LoadState F) :=
  match acc with
  | none => none
  | some st =>
    match emit parseInt st pair.1 with
    | none => none
    | some (i1, st1) =>
      match emit parseInt st1 pair.2 with
      | none => none
      | some (i2, st2) => some { st2 with indices := st2.indices ++ [i0, i1, i2] }

/-- Embeds the branch `op == "f"` of `loadObj`. -/
def face (parseInt : List Char → Option Int) (st : LoadState F) (toks : List (List Char)) :
    Option (LoadState F) :=
  if toks.length < 3 then some st
  else
    match toks with
    | [] => some st
    | t0 :: rest =>
      match emit parseInt st t0 with
      | none => none
      | some (i0, st1) => (rest.zip rest.tail).foldl (fanStep parseInt i0) (some st1)

/-- Body of the line loop of `loadObj`; `none` when `emit` throws. -/
def lineStep (parseInt : List Char → Option Int) (acc : Option (LoadState F))
    (line : ObjLine F) : Option (LoadState F) :=
  match acc with
  | none => none
  | some st =>
    match line with
    | ObjLine.v p => some { st with pos := st.pos ++ [p] }
    | ObjLine.vn n => some { st with nrm := st.nrm ++ [n] }
    | ObjLine.vt x y => some { st with uv := st.uv ++ [(x, 1 - y)] }
    | ObjLine.f toks => face parseInt st toks
    | ObjLine.other => some st

/-- Embeds `loadObj` on the lines of a file that could be opened: the returned flag and the
state at the end, `none` when an exception leaves the function. -/
def loadObj (parseInt : List Char → Option Int) (lines : List (ObjLine F)) :
    Option (Bool × LoadState F) :=
  (lines.foldl (lineStep parseInt)
    (some { pos := [], nrm := [], uv := [], dedup := [], vertices := [], indices := [],
            reads := [] })).map
    fun st => (!(st.vertices.isEmpty || st.indices.isEmpty), st)

end

/-- The value of a string of decimal digits. -/
def digitsValue (cs : List Char) : Nat := cs.foldl (fun n c => 10 * n + (c.toNat - 48)) 0

/-- A stand-in for `parseInt` on decimal numbers: an optional minus sign and the digits that
follow; an error when there is no digit or the value does not fit an `int`. -/
def sampleParseInt (s : List Char) : Option Int :=
  match s with
  | '-' :: rest =>
    if (rest.takeWhile Char.isDigit).isEmpty then none
    else if digitsValue (rest.takeWhile Char.isDigit) > 2 ^ 31 then none
    else some (-(digitsValue (rest.takeWhile Char.isDigit) : Int))
  | _ =>
    if (s.takeWhile Char.isDigit).isEmpty then none
    else if digitsValue (s.takeWhile Char.isDigit) ≥ 2 ^ 31 then none
    else some (digitsValue (s.takeWhile Char.isDigit) : Int)

/-- The file `v 0 0 0`, `f 2 2 2`: a face that names a second vertex where one is defined. -/
def sampleObjLines : List (ObjLine ℚ) :=
  [ ObjLine.v { x := 0, y := 0, z := 0 },
    ObjLine.f [['2'], ['2'], ['2']] ]

/-- The state of `loadObj` after the line `v 0 0 0`. -/
def sampleObjState : LoadState ℚ :=
  { pos := [{ x := 0, y := 0, z := 0 }], nrm := [], uv := [], dedup := [], vertices := [],
    indices := [], reads := [] }

end ObjLoader

/-! ## glTF scene traversal (`engine/assets/GltfLoader.cpp`)

The recursion of `gatherNodeRecursive` is embedded with a bound on its depth: the result is
`none` when the recursion is still descending at that depth. A call of the C++ function
returns exactly when some bound yields a result. -/

namespace GltfLoader

/-- What `gatherNodeRecursive` reads of one entry of the node table: whether it is a JSON
object, whether gathering the primitives of its mesh succeeds (`true` for a node without a
mesh; `false` when that part sets `ok = false` and returns), and its `children` member when
that is an array, each entry being its number `(int)c.as_num()` or `none` when it is not a
number. -/
structure Node where
  isObj : Bool
  meshOk : Bool
  children : Option (List (Option Int))
  deriving DecidableEq, Repr

/-- The flag `ok` and, in order, the nodes whose geometry has been gathered. -/
structure GatherState where
  ok : Bool
  visited : List Nat
  deriving DecidableEq, Repr

/-- Embeds `gatherNodeRecursive` with recursion depth at most `depth`. -/
def gatherNodeRecursive (nodes : List Node) : Nat → Int → GatherState → Option GatherState
  | 0, _, _ => none
  | depth + 1, nodeIndex, st =>
    if !st.ok then some st
    else if nodeIndex < 0 ∨ nodeIndex.toNat ≥ nodes.length then some st
    else
      match nodes[nodeIndex.toNat]? with
      | none => some st
      | some node =>
        if !node.isObj then some st
        else if !node.meshOk then some { ok := false, visited := st.visited }
        else
          let st1 : GatherState := { ok := st.ok, visited := st.visited ++ [nodeIndex.toNat] }
          match node.children with
          | none => some st1
          | some cs =>
            cs.foldl
              (fun acc c =>
                match acc, c with
                | none, _ => none
                | some s, none => some s
                | some s, some ci => gatherNodeRecursive nodes depth ci s)
              (some st1)

/-- Embeds the loop of `loadGltfScene` over the root nodes of the scene, with the same
bound; entries that are not numbers are `none`. -/
def gatherRoots (nodes : List Node) (depth : Nat) (roots : List (Option Int)) :
    Option GatherState :=
  roots.foldl
    (fun acc n =>
      match acc, n with
      | none, _ => none
      | some s, none => some s
      | some s, some ni => gatherNodeRecursive nodes depth ni s)
    (some { ok := true, visited := [] })

/-- A node table of one node that lists itself as its child. -/
def sampleCyclicNodes : List Node :=
  [{ isObj := true, meshOk := true, children := some [some 0] }]

/-- A node table of a tree: node 0 with the children 1 and 2, node 1 with the child 3. -/
def sampleTreeNodes : List Node :=
  [ { isObj := true, meshOk := true, children := some [some 1, some 2] },
    { isObj := true, meshOk := true, children := some [some 3] },
    { isObj := true, meshOk := true, children := none },
    { isObj := true, meshOk := true, children := some [] } ]

end GltfLoader

namespace RenderGraph

/-- A first sampled read of image 0. -/
def sampleSampledRead : ImageAccess := { id := 0, use := ImageUse.Sampled, write := false }

/-- A pass whose only declared access is a sampled read of image 0. -/
def sampleReadPass : Pass :=
  PassBuilder.readImage (Pass.fresh "read" PassType.Graphics [] none) { id := 0 } ImageUse.Sampled

/-- The state of the image loop of `applyBarriers` on the sample graph before its first
access. -/
def sampleLoopStart : RenderGraph × VulkanContext :=
  ({ sampleGraph with scratchImgBarriers := [], scratchBufBarriers := [] }, sampleContext)

/-- A storage write of buffer 0. -/
def sampleStorageWrite : BufferAccess := { id := 0, use := BufferUse.Storage, write := true }

/-- An indirect read of buffer 0. -/
def sampleIndirectRead : BufferAccess := { id := 0, use := BufferUse.Indirect, write := false }

/-- A compute pass whose only declared access is a storage write of buffer 0. -/
def sampleWritePass : Pass :=
  PassBuilder.writeBuffer (Pass.fresh "cull" PassType.Compute [] none) { id := 0 }
    BufferUse.Storage

/-- A pass whose only declared access is an indirect read of buffer 0. -/
def sampleIndirectPass : Pass :=
  PassBuilder.readBuffer (Pass.fresh "draw" PassType.Graphics [] none) { id := 0 }
    BufferUse.Indirect

end RenderGraph

namespace RenderGraph

/-- A colour-attachment write of image 0. -/
def sampleColorWrite : ImageAccess :=
  { id := 0, use := ImageUse.ColorAttachment, write := true }

/-- A pass whose only declared access is a colour-attachment write of image 0. -/
def sampleColorPass : Pass :=
  PassBuilder.writeImage (Pass.fresh "color" PassType.Graphics [] none) { id := 0 }
    ImageUse.ColorAttachment

end RenderGraph

namespace VulkanContext

/-- A pooled buffer of another size than `samplePooledBuffer`. -/
def samplePooledSmallBuffer : TransientBuffer :=
  { size := 256, usage := 0x20, memFlags := 1, buffer := 641, memory := 642 }

/-- A second pooled buffer of the shape of `samplePooledBuffer`. -/
def sampleSecondBuffer : TransientBuffer :=
  { size := 4096, usage := 0x20, memFlags := 1, buffer := 631, memory := 632 }

open RenderGraph in
/-- A pool whose free lists hold an entry of another shape followed by two entries of one
shape. -/
def sampleFreePool : VulkanContext :=
  { sampleContext with
    transientImagesFree := [samplePooledDepth, samplePooledImage, sampleSecondImage]
    transientBuffersFree := [samplePooledSmallBuffer, samplePooledBuffer, sampleSecondBuffer] }

end VulkanContext

namespace Renderer

/-- A scene of `2^32` draws of the scene mesh: its size does not fit `uint32_t`. -/
def sampleWrapScene : RenderScene ℚ :=
  { sampleScene with
    draws := List.replicate (2 ^ 32) { meshId := 0, materialId := 0, transformIndex := 0 } }

/-- A scene of `2^32 + 1024` draws of the scene mesh. -/
def sampleOverflowScene : RenderScene ℚ :=
  { sampleScene with
    draws := List.replicate (2 ^ 32 + 1024)
      { meshId := 0, materialId := 0, transformIndex := 0 } }

end Renderer

/-! ## Binary32 arithmetic

The functions of `engine/render/Frustum.hpp` compute in `float`. This section models IEEE 754
binary32 with round to nearest, ties to even: every operation returns the correctly rounded
value of the exact result. A finite value is a sign and a magnitude counted in units of
`2^-149` (the smallest subnormal; every finite binary32 value is a whole number of such
units), so both zeros are values. NaN payloads are not kept. Each C++ operation rounds
once, in the order the expression is written (no fused multiply-add, no wider
intermediates). -/

/-- A binary32 value: `finite s m` is `(-1)^s * m * 2^-149`. The magnitudes of binary32 are
those below `2^24` and the multiples `k * 2^e` with `k < 2^24` up to `(2^24 - 1) * 2^253`;
the operations below return such magnitudes, and the theorems hold for every magnitude. -/
inductive Binary32 where
  | finite (negative : Bool) (mag : Nat)
  | inf (negative : Bool)
  | nan
  deriving DecidableEq, Repr

namespace Binary32

/-- The exponent of the spacing of the binary32 values around `f` units: the spacing is one
unit below `2^24` units (subnormals and the first binade of normals) and doubles with every
binade above. -/
def ulpExpAux : Nat → Nat → Nat
  | 0, _ => 0
  | fuel + 1, f => if f < 2 ^ 24 then 0 else ulpExpAux fuel (f / 2) + 1

/-- The spacing exponent of `f`; 254 halvings bring every magnitude below the overflow
threshold under `2^24`. -/
def ulpExp (f : Nat) : Nat := ulpExpAux 254 f

/-- The multiple of `2^e` units nearest to `a / b` units (`b > 0`), ties to the even
multiple. -/
def nearest (a b e : Nat) : Nat :=
  let s := b * 2 ^ e
  let k := a / s
  let r := a % s
  (if 2 * r < s then k else if s < 2 * r then k + 1 else if k % 2 = 0 then k else k + 1) * 2 ^ e

/-- The magnitude `a / b` (in units, `b > 0`) rounded to nearest, ties to even, at the
spacing of its binade; `none` when the rounded magnitude reaches `2^128`, that is
`2^128 * 2^149` units (overflow). -/
def roundMag (a b : Nat) : Option Nat :=
  let m := nearest a b (ulpExp (a / b))
  if m < 2 ^ 128 * 2 ^ 149 then some m else none

/-- The value `(-1)^negative * a / b` units, rounded. -/
def round (negative : Bool) (a b : Nat) : Binary32 :=
  match roundMag a b with
  | some m => finite negative m
  | none => inf negative

/-- The finite value as a signed number of units. -/
def units (negative : Bool) (mag : Nat) : Int := if negative then -(mag : Int) else mag

/-- The operator `-x`. -/
def neg : Binary32 → Binary32
  | finite s m => finite (!s) m
  | inf s => inf (!s)
  | nan => nan

/-- The operator `x + y`. An exact sum of zero is `+0` unless both operands are negative. -/
def add : Binary32 → Binary32 → Binary32
  | finite s m, finite t n =>
    let z := units s m + units t n
    if z = 0 then finite (s && t) 0 else round (decide (z < 0)) z.natAbs 1
  | finite _ _, inf t => inf t
  | inf s, finite _ _ => inf s
  | inf s, inf t => if s = t then inf s else nan
  | _, _ => nan

/-- The operator `x - y`. -/
def sub (x y : Binary32) : Binary32 := add x (neg y)

/-- The operator `x * y`. -/
def mul : Binary32 → Binary32 → Binary32
  | finite s m, finite t n => round (xor s t) (m * n) (2 ^ 149)
  | finite s m, inf t => if m = 0 then nan else inf (xor s t)
  | inf s, finite t n => if n = 0 then nan else inf (xor s t)
  | inf s, inf t => inf (xor s t)
  | _, _ => nan

/-- The operator `x / y`. -/
def div : Binary32 → Binary32 → Binary32
  | finite s m, finite t n =>
    if n = 0 then (if m = 0 then nan else inf (xor s t))
    else round (xor s t) (m * 2 ^ 149) n
  | finite s _, inf t => finite (xor s t) 0
  | inf s, finite t _ => inf (xor s t)
  | _, _ => nan

/-- The integer square root by the digit method: `sqrtAux fuel n` is the floor of the
square root of `n` for `n < 4 ^ fuel`. -/
def sqrtAux : Nat → Nat → Nat
  | 0, _ => 0
  | fuel + 1, n =>
    if n = 0 then 0
    else
      let r := 2 * sqrtAux fuel (n / 4)
      if (r + 1) * (r + 1) ≤ n then r + 1 else r

/-- The function `std::sqrt`. The square root of `m` units is `sqrt (m * 2^149)` units; its
floor in quarter units, with a sticky bit for an inexact root, rounds like the root. -/
def sqrt : Binary32 → Binary32
  | finite s m =>
    if m = 0 then finite s 0
    else if s then nan
    else
      let n := 16 * (m * 2 ^ 149)
      let t := sqrtAux 256 n
      round false (if t * t = n then 2 * t else 2 * t + 1) 8
  | inf s => if s then nan else inf false
  | nan => nan

/-- The comparison `x < y`: false when an operand is NaN; the zeros are equal. -/
def lt : Binary32 → Binary32 → Bool
  | finite s m, finite t n => decide (units s m < units t n)
  | finite _ _, inf t => !t
  | inf s, finite _ _ => s
  | inf s, inf t => s && !t
  | _, _ => false

/-- The comparison `x <= y`: false when an operand is NaN. -/
def le : Binary32 → Binary32 → Bool
  | finite s m, finite t n => decide (units s m ≤ units t n)
  | finite _ _, inf t => !t
  | inf s, finite _ _ => s
  | inf s, inf t => s || !t
  | _, _ => false

/-- The constant `0.0f`. -/
def zero : Binary32 := finite false 0

/-- The constant `1.0f`: `2^149` units. -/
def one : Binary32 := finite false (2 ^ 149)

/-- The value is finite (neither an infinity nor NaN). -/
def IsFinite : Binary32 → Prop
  | finite _ _ => True
  | _ => False

instance (x : Binary32) : Decidable (IsFinite x) := by
  cases x <;> unfold IsFinite <;> infer_instance

/-- The real value of a finite binary32 value (zero for the infinities and NaN). -/
def toRat : Binary32 → ℚ
  | finite s m => (units s m : ℚ) / 2 ^ 149
  | _ => 0

/-- The dyadic value `(-1)^negative * k * 2^e` for `-149 ≤ e`. -/
def ofScaled (negative : Bool) (k : Nat) (e : Int) : Binary32 :=
  finite negative (k * 2 ^ (e + 149).toNat)

end Binary32

/-! ## The frustum functions in binary32 (`engine/render/Frustum.hpp`)

GLM is not part of the sources. The vector operations below follow the scalar code of GLM:
`dot` on `vec3` multiplies componentwise and adds `x + y`, then `z`; `length` is the square
root of `dot (v, v)`; `mat4 * vec4` adds `m[0] * v.x + m[1] * v.y` and
`m[2] * v.z + m[3] * v.w` and then the two sums; `min (x, y)` is `(y < x) ? y : x` and
`max (x, y)` is `(x < y) ? y : x`; `vec4 /= scalar` divides every component. -/

namespace Binary32

/-- All three components are finite. -/
def vec3Finite (v : glm.vec3 Binary32) : Prop := IsFinite v.x ∧ IsFinite v.y ∧ IsFinite v.z

instance (v : glm.vec3 Binary32) : Decidable (vec3Finite v) := by
  unfold vec3Finite
  infer_instance

/-- The real values of the components. -/
def vec3ToRat (v : glm.vec3 Binary32) : glm.vec3 ℚ :=
  { x := toRat v.x, y := toRat v.y, z := toRat v.z }

/-- The real values of the components. -/
def vec4ToRat (v : glm.vec4 Binary32) : glm.vec4 ℚ :=
  { x := toRat v.x, y := toRat v.y, z := toRat v.z, w := toRat v.w }

/-- The function `glm::dot` on `vec3`. -/
def dot (a b : glm.vec3 Binary32) : Binary32 :=
  add (add (mul a.x b.x) (mul a.y b.y)) (mul a.z b.z)

/-- The corner of the box that `frustumIntersectsAABB` tests against a plane: `p = bmin`,
then per axis `if (n.x >= 0) p.x = bmax.x`. -/
def positiveVertex (pl : glm.vec4 Binary32) (bmin bmax : glm.vec3 Binary32) :
    glm.vec3 Binary32 :=
  { x := if le zero pl.x then bmax.x else bmin.x
    y := if le zero pl.y then bmax.y else bmin.y
    z := if le zero pl.z then bmax.z else bmin.z }

/-- The expression `glm::dot(n, p) + pl.w` with `n` the first three components of the
plane. -/
def planeValue (pl : glm.vec4 Binary32) (q : glm.vec3 Binary32) : Binary32 :=
  add (dot { x := pl.x, y := pl.y, z := pl.z } q) pl.w

/-- Body of the loop of `frustumIntersectsAABB`: the test
`glm::dot(n, p) + pl.w < 0.0f` that makes the function return `false`. -/
def planeRejects (pl : glm.vec4 Binary32) (bmin bmax : glm.vec3 Binary32) : Bool :=
  lt (planeValue pl (positiveVertex pl bmin bmax)) zero

/-- Embeds `frustumIntersectsAABB`: `false` at the first plane that rejects the box, `true`
when no plane does. -/
def frustumIntersectsAABB (f : FrustumPlanes Binary32) (bmin bmax : glm.vec3 Binary32) : Bool :=
  f.p.all fun pl => !planeRejects pl bmin bmax

/-- The point lies in the closed box, by the comparison `<=` of binary32. -/
def InBox (bmin bmax q : glm.vec3 Binary32) : Prop :=
  le bmin.x q.x = true ∧ le q.x bmax.x = true ∧ le bmin.y q.y = true ∧ le q.y bmax.y = true ∧
    le bmin.z q.z = true ∧ le q.z bmax.z = true

instance (bmin bmax q : glm.vec3 Binary32) : Decidable (InBox bmin bmax q) := by
  unfold InBox
  infer_instance

end Binary32

namespace Binary32

/-- The relation the plane value keeps between a point of the box and the tested corner:
the value at the corner is NaN or `+inf`, or it is at least the value at the point. -/
def Below (x y : Binary32) : Prop := y = nan ∨ y = inf false ∨ le x y = true

end Binary32

namespace Binary32

/-- The plane `x + y - (1 + 2^-23) = 0`. -/
def sampleRoundingPlane : glm.vec4 Binary32 :=
  { x := one, y := one, z := zero, w := ofScaled true (2 ^ 23 + 1) (-23) }

/-- The plane `0 x + 0 y + 0 z + 1`, which no box is outside of. -/
def sampleOpenPlane : glm.vec4 Binary32 := { x := zero, y := zero, z := zero, w := one }

/-- Six planes: the plane `x + y - (1 + 2^-23) = 0` and five planes that reject nothing. -/
def sampleRoundingFrustum : FrustumPlanes Binary32 :=
  { p := [sampleRoundingPlane, sampleOpenPlane, sampleOpenPlane, sampleOpenPlane,
          sampleOpenPlane, sampleOpenPlane] }

/-- The corner `(0, 0, 0)`. -/
def sampleOrigin : glm.vec3 Binary32 := { x := zero, y := zero, z := zero }

/-- The corner `(1, 3 * 2^-25, 0)`. -/
def sampleThinCorner : glm.vec3 Binary32 := { x := one, y := ofScaled false 3 (-25), z := zero }

/-- The plane `x - 2 = 0`. -/
def sampleFarPlane : glm.vec4 Binary32 :=
  { x := one, y := zero, z := zero, w := ofScaled true 2 0 }

/-- Six planes: the plane `x - 2 = 0` and five planes that reject nothing. -/
def sampleFarFrustum : FrustumPlanes Binary32 :=
  { p := [sampleOpenPlane, sampleOpenPlane, sampleFarPlane, sampleOpenPlane, sampleOpenPlane,
          sampleOpenPlane] }

/-- The corner `(1, 1, 1)`. -/
def sampleUnitCorner : glm.vec3 Binary32 := { x := one, y := one, z := one }

end Binary32

namespace Binary32

/-- The expression `glm::vec3(m * glm::vec4(c, 1.0f))`: per component GLM adds
`m[0] * c.x + m[1] * c.y` and `m[2] * c.z + m[3] * 1.0f`, then the two sums. -/
def mulPoint (m : glm.mat4 Binary32) (c : glm.vec3 Binary32) : glm.vec3 Binary32 :=
  { x := add (add (mul m.c0.x c.x) (mul m.c1.x c.y)) (add (mul m.c2.x c.z) (mul m.c3.x one))
    y := add (add (mul m.c0.y c.x) (mul m.c1.y c.y)) (add (mul m.c2.y c.z) (mul m.c3.y one))
    z := add (add (mul m.c0.z c.x) (mul m.c1.z c.y)) (add (mul m.c2.z c.z) (mul m.c3.z one)) }

/-- One component of `mulPoint`: the row `(a, b, c, d)` of the matrix applied to `(q, 1)`. -/
def rowPoint (a b c d : Binary32) (q : glm.vec3 Binary32) : Binary32 :=
  add (add (mul a q.x) (mul b q.y)) (add (mul c q.z) (mul d one))

/-- The function `glm::min` on scalars: `(y < x) ? y : x`. -/
def min (x y : Binary32) : Binary32 := if lt y x then y else x

/-- The function `glm::max` on scalars: `(x < y) ? y : x`. -/
def max (x y : Binary32) : Binary32 := if lt x y then y else x

/-- Componentwise `glm::min` on `vec3`. -/
def vec3Min (a b : glm.vec3 Binary32) : glm.vec3 Binary32 :=
  { x := min a.x b.x, y := min a.y b.y, z := min a.z b.z }

/-- Componentwise `glm::max` on `vec3`. -/
def vec3Max (a b : glm.vec3 Binary32) : glm.vec3 Binary32 :=
  { x := max a.x b.x, y := max a.y b.y, z := max a.z b.z }

/-- The eight corners `transformAABB` enumerates. -/
def aabbCorners (inMin inMax : glm.vec3 Binary32) : List (glm.vec3 Binary32) :=
  [ { x := inMin.x, y := inMin.y, z := inMin.z }, { x := inMax.x, y := inMin.y, z := inMin.z },
    { x := inMin.x, y := inMax.y, z := inMin.z }, { x := inMax.x, y := inMax.y, z := inMin.z },
    { x := inMin.x, y := inMin.y, z := inMax.z }, { x := inMax.x, y := inMin.y, z := inMax.z },
    { x := inMin.x, y := inMax.y, z := inMax.z }, { x := inMax.x, y := inMax.y, z := inMax.z } ]

/-- Embeds `transformAABB`: the pair `(outMin, outMax)`. -/
def transformAABB (m : glm.mat4 Binary32) (inMin inMax : glm.vec3 Binary32) :
    glm.vec3 Binary32 × glm.vec3 Binary32 :=
  let first := mulPoint m { x := inMin.x, y := inMin.y, z := inMin.z }
  ((aabbCorners inMin inMax).tail).foldl
    (fun out c => (vec3Min out.1 (mulPoint m c), vec3Max out.2 (mulPoint m c)))
    (first, first)

/-- The value `x` lies between the finite values `lo` and `hi`. -/
def Between (lo x hi : Binary32) : Prop :=
  IsFinite lo ∧ IsFinite hi ∧ le lo x = true ∧ le x hi = true

/-- The real values of the entries. -/
def mat4ToRat (m : glm.mat4 Binary32) : glm.mat4 ℚ :=
  { c0 := vec4ToRat m.c0, c1 := vec4ToRat m.c1, c2 := vec4ToRat m.c2, c3 := vec4ToRat m.c3 }

end Binary32

namespace Binary32

/-- A transform with non-uniform scale, a shear and a translation. -/
def sampleShear : glm.mat4 Binary32 :=
  { c0 := { x := ofScaled false 2 0, y := zero, z := zero, w := zero }
    c1 := { x := one, y := ofScaled false 3 0, z := zero, w := zero }
    c2 := { x := zero, y := zero, z := ofScaled true 1 0, w := zero }
    c3 := { x := ofScaled false 5 0, y := zero, z := zero, w := one } }

/-- The corner `(-1/2, -1/2, -1/2)`. -/
def sampleBoundsMin : glm.vec3 Binary32 :=
  { x := ofScaled true 1 (-1), y := ofScaled true 1 (-1), z := ofScaled true 1 (-1) }

/-- The corner `(1/2, 1/2, 1/2)`. -/
def sampleBoundsMax : glm.vec3 Binary32 :=
  { x := ofScaled false 1 (-1), y := ofScaled false 1 (-1), z := ofScaled false 1 (-1) }

/-- The translation by `(1, 0, 0)`. -/
def sampleShift : glm.mat4 Binary32 :=
  { c0 := { x := one, y := zero, z := zero, w := zero }
    c1 := { x := zero, y := one, z := zero, w := zero }
    c2 := { x := zero, y := zero, z := one, w := zero }
    c3 := { x := one, y := zero, z := zero, w := one } }

/-- The corner `(2^-24, 0, 0)`. -/
def sampleSliverCorner : glm.vec3 Binary32 := { x := ofScaled false 1 (-24), y := zero, z := zero }

/-- A matrix with the entries `2^100` and `-2^100` in its first row. -/
def sampleHugeRow : glm.mat4 Binary32 :=
  { c0 := { x := ofScaled false 1 100, y := zero, z := zero, w := zero }
    c1 := { x := ofScaled true 1 100, y := one, z := zero, w := zero }
    c2 := { x := zero, y := zero, z := one, w := zero }
    c3 := { x := zero, y := zero, z := zero, w := one } }

/-- The corner `(2^30, 2^30, 0)`. -/
def sampleFarCorner : glm.vec3 Binary32 :=
  { x := ofScaled false 1 30, y := ofScaled false 1 30, z := zero }

/-- The corner `(2^31, 2^31, 0)`. -/
def sampleFartherCorner : glm.vec3 Binary32 :=
  { x := ofScaled false 1 31, y := ofScaled false 1 31, z := zero }

end Binary32

namespace Binary32

/-- The six rows `makeFrustumPlanes` extracts from the matrix, before it normalizes them:
left, right, bottom, top, near, far; `m[i][j]` is component `j` of column `i`. -/
def extractedRows (m : glm.mat4 Binary32) : List (glm.vec4 Binary32) :=
  [ { x := add m.c0.w m.c0.x, y := add m.c1.w m.c1.x, z := add m.c2.w m.c2.x,
      w := add m.c3.w m.c3.x },
    { x := sub m.c0.w m.c0.x, y := sub m.c1.w m.c1.x, z := sub m.c2.w m.c2.x,
      w := sub m.c3.w m.c3.x },
    { x := add m.c0.w m.c0.y, y := add m.c1.w m.c1.y, z := add m.c2.w m.c2.y,
      w := add m.c3.w m.c3.y },
    { x := sub m.c0.w m.c0.y, y := sub m.c1.w m.c1.y, z := sub m.c2.w m.c2.y,
      w := sub m.c3.w m.c3.y },
    { x := add m.c0.w m.c0.z, y := add m.c1.w m.c1.z, z := add m.c2.w m.c2.z,
      w := add m.c3.w m.c3.z },
    { x := sub m.c0.w m.c0.z, y := sub m.c1.w m.c1.z, z := sub m.c2.w m.c2.z,
      w := sub m.c3.w m.c3.z } ]

/-- The function `glm::length` on `vec3`: the square root of `dot (v, v)`. -/
def length (v : glm.vec3 Binary32) : Binary32 := sqrt (dot v v)

/-- The operator `pl /= len` on a `vec4`: every component is divided by the scalar. -/
def divScalar (v : glm.vec4 Binary32) (s : Binary32) : glm.vec4 Binary32 :=
  { x := div v.x s, y := div v.y s, z := div v.z s, w := div v.w s }

/-- Body of the normalization loop of `makeFrustumPlanes`:
`len = glm::length(n); if (len > 0.0f) pl /= len;`. -/
def normalizePlane (pl : glm.vec4 Binary32) : glm.vec4 Binary32 :=
  let n : glm.vec3 Binary32 := { x := pl.x, y := pl.y, z := pl.z }
  let len := length n
  if lt zero len then divScalar pl len else pl

/-- Embeds `makeFrustumPlanes`. -/
def makeFrustumPlanes (viewProj : glm.mat4 Binary32) : FrustumPlanes Binary32 :=
  { p := (extractedRows viewProj).map normalizePlane }

/-- All four components are finite. -/
def vec4Finite (v : glm.vec4 Binary32) : Prop :=
  IsFinite v.x ∧ IsFinite v.y ∧ IsFinite v.z ∧ IsFinite v.w

instance (v : glm.vec4 Binary32) : Decidable (vec4Finite v) := by
  unfold vec4Finite
  infer_instance

/-- The value as a signed number of units of `2^-149` (zero for the infinities and NaN). -/
def unitsOf : Binary32 → Int
  | finite s m => units s m
  | _ => 0

/-- The sum `a + b` is finite and was not rounded. -/
def ExactAdd (a b : Binary32) : Prop :=
  IsFinite (add a b) ∧ unitsOf (add a b) = unitsOf a + unitsOf b

/-- The difference `a - b` is finite and was not rounded. -/
def ExactSub (a b : Binary32) : Prop :=
  IsFinite (sub a b) ∧ unitsOf (sub a b) = unitsOf a - unitsOf b

/-- The product `a * b` is finite and was not rounded: in units of `2^-149` the product of
the operands is `2^149` times the result. -/
def ExactMul (a b : Binary32) : Prop :=
  IsFinite (mul a b) ∧ unitsOf (mul a b) * ((2 ^ 149 : Nat) : Int) = unitsOf a * unitsOf b

/-- The quotient `a / b` is finite and was not rounded. -/
def ExactDiv (a b : Binary32) : Prop :=
  IsFinite (div a b) ∧ unitsOf (div a b) * unitsOf b = unitsOf a * ((2 ^ 149 : Nat) : Int)

/-- The square root of `a` is finite and was not rounded. -/
def ExactSqrt (a : Binary32) : Prop :=
  IsFinite (sqrt a) ∧ unitsOf (sqrt a) * unitsOf (sqrt a) = unitsOf a * ((2 ^ 149 : Nat) : Int)

instance (a b : Binary32) : Decidable (ExactAdd a b) := by
  unfold ExactAdd
  infer_instance

instance (a b : Binary32) : Decidable (ExactSub a b) := by
  unfold ExactSub
  infer_instance

instance (a b : Binary32) : Decidable (ExactMul a b) := by
  unfold ExactMul
  infer_instance

instance (a b : Binary32) : Decidable (ExactDiv a b) := by
  unfold ExactDiv
  infer_instance

instance (a : Binary32) : Decidable (ExactSqrt a) := by
  unfold ExactSqrt
  infer_instance

/-- No sum or difference of the row extraction of `makeFrustumPlanes` rounds: for every
column of the matrix the sums and differences of its `w` component with its `x`, `y` and
`z` components are exact. -/
def RowsExact (m : glm.mat4 Binary32) : Prop :=
  ∀ col ∈ [m.c0, m.c1, m.c2, m.c3],
    ExactAdd col.w col.x ∧ ExactSub col.w col.x ∧ ExactAdd col.w col.y ∧ ExactSub col.w col.y ∧
      ExactAdd col.w col.z ∧ ExactSub col.w col.z

instance (m : glm.mat4 Binary32) : Decidable (RowsExact m) := by
  unfold RowsExact
  infer_instance

/-- No operation of the normalization of the plane rounds: the three squares and the two
sums of the dot product, the square root, and, when the length is positive, the four
quotients are exact; the fourth component is finite. -/
def NormalizeExact (pl : glm.vec4 Binary32) : Prop :=
  ExactMul pl.x pl.x ∧ ExactMul pl.y pl.y ∧ ExactMul pl.z pl.z ∧
    ExactAdd (mul pl.x pl.x) (mul pl.y pl.y) ∧
    ExactAdd (add (mul pl.x pl.x) (mul pl.y pl.y)) (mul pl.z pl.z) ∧
    ExactSqrt (dot { x := pl.x, y := pl.y, z := pl.z } { x := pl.x, y := pl.y, z := pl.z }) ∧
    IsFinite pl.w ∧
    (lt zero (length { x := pl.x, y := pl.y, z := pl.z }) = true →
      ExactDiv pl.x (length { x := pl.x, y := pl.y, z := pl.z }) ∧
        ExactDiv pl.y (length { x := pl.x, y := pl.y, z := pl.z }) ∧
        ExactDiv pl.z (length { x := pl.x, y := pl.y, z := pl.z }) ∧
        ExactDiv pl.w (length { x := pl.x, y := pl.y, z := pl.z }))

instance (pl : glm.vec4 Binary32) : Decidable (NormalizeExact pl) := by
  unfold NormalizeExact
  infer_instance

/-- A matrix that scales by 2 on every axis. -/
def sampleScale : glm.mat4 Binary32 :=
  { c0 := { x := ofScaled false 2 0, y := zero, z := zero, w := zero }
    c1 := { x := zero, y := ofScaled false 2 0, z := zero, w := zero }
    c2 := { x := zero, y := zero, z := ofScaled false 2 0, w := zero }
    c3 := { x := zero, y := zero, z := zero, w := one } }

/-- A matrix whose left and right planes have the normal `(2^-100, 0, 0)` up to sign and
whose bottom and top planes have the normal `(3, 4, 0)` up to sign. -/
def sampleTinyRow : glm.mat4 Binary32 :=
  { c0 := { x := ofScaled false 1 (-100), y := ofScaled false 3 0, z := zero, w := zero }
    c1 := { x := zero, y := ofScaled false 4 0, z := zero, w := zero }
    c2 := { x := zero, y := zero, z := zero, w := zero }
    c3 := { x := zero, y := zero, z := zero, w := one } }

end Binary32

namespace Binary32

/-- The plane `(2^-100, 0, 0, 1)`. -/
def sampleTinyPlane : glm.vec4 Binary32 :=
  { x := ofScaled false 1 (-100), y := zero, z := zero, w := one }

/-- The plane `(3, 4, 0, 1)` divided by 5 in binary32: the quotients `3 / 5`, `4 / 5` and
`1 / 5` rounded to nearest. -/
def sampleRoundedPlane : glm.vec4 Binary32 :=
  { x := ofScaled false 5033165 (-23), y := ofScaled false 13421773 (-24), z := zero,
    w := ofScaled false 13421773 (-26) }

end Binary32

namespace RenderGraph

/-- The graph and the context after the barriers of a compute pass that writes the imported
buffer as a storage buffer. -/
def sampleAfterWrite : RenderGraph × VulkanContext :=
  applyBarriers sampleGraph sampleContext 11 sampleWritePass

/-- The graph and the context after the barriers of a graphics pass that writes the sample
image as a colour attachment. -/
def sampleAfterColor : RenderGraph × VulkanContext :=
  applyBarriers sampleGraph sampleContext 11 sampleColorPass

end RenderGraph

/-! ## Access merging: proofs -/

namespace RenderGraph

section MergeByKey

variable {K : Type} [DecidableEq K]

theorem mergeKey_keys (v : List (K × Bool)) (k : K) (w : Bool) :
    (mergeKey v k w).map Prod.fst =
      if k ∈ v.map Prod.fst then v.map Prod.fst else v.map Prod.fst ++ [k] := by
  induction v with
  | nil => simp [mergeKey]
  | cons a v ih =>
    by_cases h : a.1 = k
    · simp [mergeKey, h]
    · have h2 : ¬ k = a.1 := fun e => h e.symm
      by_cases hm : k ∈ v.map Prod.fst
      · simp only [mergeKey, h, if_false, List.map_cons, ih, hm, if_true, List.mem_cons, or_true]
      · simp only [mergeKey, h, if_false, List.map_cons, ih, hm, List.mem_cons, h2, or_self,
          List.cons_append]

theorem mem_mergeKey (v : List (K × Bool)) (hnd : (v.map Prod.fst).Nodup) (k : K) (w : Bool)
    (a : K × Bool) (ha : a ∈ mergeKey v k w) :
    (a ∈ v ∧ a.1 ≠ k) ∨ (a.1 = k ∧ ∃ b, (k, b) ∈ v ∧ a.2 = (b || w)) ∨
      (a = (k, w) ∧ k ∉ v.map Prod.fst) := by
  induction v with
  | nil =>
    simp only [mergeKey, List.mem_singleton] at ha
    right; right
    exact ⟨ha, by simp⟩
  | cons x v ih =>
    have hnd2 : (v.map Prod.fst).Nodup := (List.nodup_cons.mp (by simpa using hnd)).2
    have hx : x.1 ∉ v.map Prod.fst := (List.nodup_cons.mp (by simpa using hnd)).1
    by_cases h : x.1 = k
    · simp only [mergeKey, h, if_true, List.mem_cons] at ha
      rcases ha with ha | ha
      · right; left
        refine ⟨by rw [ha], x.2, ?_, by rw [ha]⟩
        rw [← h]
        exact List.mem_cons_self _ _
      · left
        refine ⟨List.mem_cons_of_mem _ ha, ?_⟩
        intro e
        apply hx
        rw [h, ← e]
        exact List.mem_map_of_mem Prod.fst ha
    · simp only [mergeKey, h, if_false, List.mem_cons] at ha
      rcases ha with ha | ha
      · left
        exact ⟨by rw [ha]; exact List.mem_cons_self _ _, by rw [ha]; exact h⟩
      · rcases ih hnd2 ha with h1 | h1 | h1
        · left
          exact ⟨List.mem_cons_of_mem _ h1.1, h1.2⟩
        · right; left
          obtain ⟨e, b, hb, hw⟩ := h1
          exact ⟨e, b, List.mem_cons_of_mem _ hb, hw⟩
        · right; right
          refine ⟨h1.1, ?_⟩
          simp only [List.map_cons, List.mem_cons, not_or]
          exact ⟨fun e => h e.symm, h1.2⟩

theorem firstOccurrences_append_singleton (ks : List K) (k : K) :
    firstOccurrences (ks ++ [k]) =
      if k ∈ firstOccurrences ks then firstOccurrences ks else firstOccurrences ks ++ [k] := by
  unfold firstOccurrences
  rw [List.reverse_append, List.reverse_singleton, List.singleton_append]
  by_cases h : k ∈ ks
  · have h1 : k ∈ ks.reverse := List.mem_reverse.mpr h
    rw [List.dedup_cons_of_mem h1]
    simp [h]
  · have h1 : k ∉ ks.reverse := fun e => h (List.mem_reverse.mp e)
    rw [List.dedup_cons_of_not_mem h1]
    simp [h]

theorem mem_firstOccurrences (ks : List K) (k : K) : k ∈ firstOccurrences ks ↔ k ∈ ks := by
  simp [firstOccurrences]

theorem nodup_firstOccurrences (ks : List K) : (firstOccurrences ks).Nodup := by
  unfold firstOccurrences
  exact List.nodup_reverse.mpr (List.nodup_dedup _)

/-- The invariant of a sequence of merges that starts from the empty list. -/
theorem mergeAll_spec (ds : List (K × Bool)) :
    (mergeAll [] ds).map Prod.fst = firstOccurrences (ds.map Prod.fst) ∧
      ∀ a ∈ mergeAll [] ds, a.2 = ds.any (fun d => decide (d.1 = a.1) && d.2) := by
  induction ds using List.reverseRecOn with
  | nil => simp [mergeAll, firstOccurrences]
  | append_singleton ds d ih =>
    obtain ⟨ihk, ihw⟩ := ih
    have hstep : mergeAll [] (ds ++ [d]) = mergeKey (mergeAll [] ds) d.1 d.2 := by
      simp [mergeAll, List.foldl_append]
    have hnd : ((mergeAll [] ds).map Prod.fst).Nodup := by
      rw [ihk]; exact nodup_firstOccurrences _
    refine ⟨?_, ?_⟩
    · rw [hstep, mergeKey_keys, ihk, List.map_append, List.map_singleton,
        firstOccurrences_append_singleton]
    · intro a ha
      rw [hstep] at ha
      rw [List.any_append]
      rcases mem_mergeKey _ hnd _ _ a ha with h1 | h1 | h1
      · rw [ihw a h1.1]
        have : decide (d.1 = a.1) = false := decide_eq_false (fun e => h1.2 e.symm)
        simp [this]
      · obtain ⟨e, b, hb, hw⟩ := h1
        have hb2 := ihw (d.1, b) hb
        simp only at hb2
        rw [hw, hb2, e]
        simp
      · obtain ⟨e, hk⟩ := h1
        rw [ihk, mem_firstOccurrences] at hk
        have hnone : ds.any (fun x => decide (x.1 = a.1) && x.2) = false := by
          rw [List.any_eq_false]
          intro x hx
          have : x.1 ≠ a.1 := by
            intro e2
            apply hk
            rw [e] at e2
            simp only at e2
            rw [← e2]
            exact List.mem_map_of_mem Prod.fst hx
          simp [this]
        rw [hnone, e]
        simp

theorem mergeKey_idem (v : List (K × Bool)) (k : K) (w : Bool) :
    mergeKey (mergeKey v k w) k w = mergeKey v k w := by
  induction v with
  | nil => simp [mergeKey]
  | cons a v ih =>
    by_cases h : a.1 = k
    · simp [mergeKey, h, Bool.or_assoc]
    · simp [mergeKey, h, ih]

end MergeByKey

theorem addUniqueImageAccess_toEntry (v : List ImageAccess) (id : Nat) (use : ImageUse) (w : Bool) :
    (addUniqueImageAccess v id use w).map ImageAccess.toEntry =
      mergeKey (v.map ImageAccess.toEntry) (id, use) w := by
  induction v with
  | nil => simp [addUniqueImageAccess, mergeKey, ImageAccess.toEntry]
  | cons a v ih =>
    by_cases h : a.id = id ∧ a.use = use
    · simp [addUniqueImageAccess, mergeKey, ImageAccess.toEntry, h]
    · have h2 : ¬ ((a.id, a.use) = (id, use)) := by
        intro e
        exact h (by simpa using e)
      simp only [addUniqueImageAccess, h, if_false, List.map_cons, ih, mergeKey]
      simp only [ImageAccess.toEntry, h2, if_false]

theorem addUniqueBufferAccess_toEntry (v : List BufferAccess) (id : Nat) (use : BufferUse) (w : Bool) :
    (addUniqueBufferAccess v id use w).map BufferAccess.toEntry =
      mergeKey (v.map BufferAccess.toEntry) (id, use) w := by
  induction v with
  | nil => simp [addUniqueBufferAccess, mergeKey, BufferAccess.toEntry]
  | cons a v ih =>
    by_cases h : a.id = id ∧ a.use = use
    · simp [addUniqueBufferAccess, mergeKey, BufferAccess.toEntry, h]
    · have h2 : ¬ ((a.id, a.use) = (id, use)) := by
        intro e
        exact h (by simpa using e)
      simp only [addUniqueBufferAccess, h, if_false, List.map_cons, ih, mergeKey]
      simp only [BufferAccess.toEntry, h2, if_false]

end RenderGraph

namespace RenderGraph

theorem any_map_apply {α β : Type} (l : List α) (f : α → β) (p : β → Bool) :
    (l.map f).any p = l.any (fun x => p (f x)) := by
  induction l with
  | nil => rfl
  | cons x l ih => simp [List.any_cons, ih]

theorem call_images (p : Pass) (c : BuilderCall) :
    (PassBuilder.call p c).images =
      match c.imageAccess with
      | some a => addUniqueImageAccess p.images a.id a.use a.write
      | none => p.images := by
  cases c <;> rfl

theorem call_buffers (p : Pass) (c : BuilderCall) :
    (PassBuilder.call p c).buffers =
      match c.bufferAccess with
      | some a => addUniqueBufferAccess p.buffers a.id a.use a.write
      | none => p.buffers := by
  cases c <;> rfl

theorem foldl_call_images (cs : List BuilderCall) (p : Pass) :
    (cs.foldl PassBuilder.call p).images.map ImageAccess.toEntry =
      mergeAll (p.images.map ImageAccess.toEntry)
        ((cs.filterMap BuilderCall.imageAccess).map ImageAccess.toEntry) := by
  induction cs generalizing p with
  | nil => simp [mergeAll]
  | cons c cs ih =>
    rw [List.foldl_cons, ih, call_images]
    cases hc : c.imageAccess with
    | none => simp [List.filterMap_cons, hc]
    | some a =>
      simp only [List.filterMap_cons, hc, List.map_cons, mergeAll, List.foldl_cons,
        addUniqueImageAccess_toEntry]
      rfl

theorem foldl_call_buffers (cs : List BuilderCall) (p : Pass) :
    (cs.foldl PassBuilder.call p).buffers.map BufferAccess.toEntry =
      mergeAll (p.buffers.map BufferAccess.toEntry)
        ((cs.filterMap BuilderCall.bufferAccess).map BufferAccess.toEntry) := by
  induction cs generalizing p with
  | nil => simp [mergeAll]
  | cons c cs ih =>
    rw [List.foldl_cons, ih, call_buffers]
    cases hc : c.bufferAccess with
    | none => simp [List.filterMap_cons, hc]
    | some a =>
      simp only [List.filterMap_cons, hc, List.map_cons, mergeAll, List.foldl_cons,
        addUniqueBufferAccess_toEntry]
      rfl

theorem addUniqueImageAccess_idem (v : List ImageAccess) (id : Nat) (use : ImageUse) (w : Bool) :
    addUniqueImageAccess (addUniqueImageAccess v id use w) id use w =
      addUniqueImageAccess v id use w := by
  induction v with
  | nil => simp [addUniqueImageAccess]
  | cons a v ih =>
    by_cases h : a.id = id ∧ a.use = use
    · simp [addUniqueImageAccess, h, Bool.or_assoc]
    · simp [addUniqueImageAccess, h, ih]

theorem addUniqueBufferAccess_idem (v : List BufferAccess) (id : Nat) (use : BufferUse) (w : Bool) :
    addUniqueBufferAccess (addUniqueBufferAccess v id use w) id use w =
      addUniqueBufferAccess v id use w := by
  induction v with
  | nil => simp [addUniqueBufferAccess]
  | cons a v ih =>
    by_cases h : a.id = id ∧ a.use = use
    · simp [addUniqueBufferAccess, h, Bool.or_assoc]
    · simp [addUniqueBufferAccess, h, ih]

theorem mergeKey_eq_self {K : Type} [DecidableEq K] (v : List (K × Bool))
    (hnd : (v.map Prod.fst).Nodup) (k : K) (b w : Bool) (hmem : (k, b) ∈ v)
    (hb : (b || w) = b) : mergeKey v k w = v := by
  induction v with
  | nil => exact absurd hmem (List.not_mem_nil _)
  | cons x v ih =>
    have hnd2 : (v.map Prod.fst).Nodup := (List.nodup_cons.mp (by simpa using hnd)).2
    have hx : x.1 ∉ v.map Prod.fst := (List.nodup_cons.mp (by simpa using hnd)).1
    by_cases h : x.1 = k
    · have hxe : x = (k, b) := by
        rcases List.mem_cons.mp hmem with e | e
        · exact e.symm
        · exfalso
          apply hx
          rw [h]
          exact List.mem_map_of_mem Prod.fst e
      subst hxe
      simp [mergeKey, hb]
    · have hm : (k, b) ∈ v := by
        rcases List.mem_cons.mp hmem with e | e
        · exact absurd (by rw [← e]) h
        · exact e
      simp only [mergeKey, h, if_false]
      rw [ih hnd2 hm]

theorem imageAccess_toEntry_injective : Function.Injective ImageAccess.toEntry := by
  intro a b h
  cases a
  cases b
  simp only [ImageAccess.toEntry, Prod.mk.injEq] at h
  obtain ⟨⟨h1, h2⟩, h3⟩ := h
  subst h1 h2 h3
  rfl

theorem bufferAccess_toEntry_injective : Function.Injective BufferAccess.toEntry := by
  intro a b h
  cases a
  cases b
  simp only [BufferAccess.toEntry, Prod.mk.injEq] at h
  obtain ⟨⟨h1, h2⟩, h3⟩ := h
  subst h1 h2 h3
  rfl

/-- A declaration that was already merged into a list built from the empty list merges
into it again without changing it. -/
theorem mergeAll_absorbs {K : Type} [DecidableEq K] (ds : List (K × Bool)) (d : K × Bool)
    (hd : d ∈ ds) : mergeKey (mergeAll [] ds) d.1 d.2 = mergeAll [] ds := by
  obtain ⟨hk, hw⟩ := mergeAll_spec ds
  have hnd : ((mergeAll [] ds).map Prod.fst).Nodup := by
    rw [hk]; exact nodup_firstOccurrences _
  have hin : d.1 ∈ (mergeAll [] ds).map Prod.fst := by
    rw [hk, mem_firstOccurrences]
    exact List.mem_map_of_mem Prod.fst hd
  obtain ⟨e, he, hek⟩ := List.mem_map.mp hin
  have hflag := hw e he
  have hb : (e.2 || d.2) = e.2 := by
    cases hd2 : d.2 with
    | false => simp
    | true =>
      have : ds.any (fun x => decide (x.1 = e.1) && x.2) = true := by
        rw [List.any_eq_true]
        exact ⟨d, hd, by simp [hek, hd2]⟩
      rw [hflag, this]
      rfl
  have hmem : (d.1, e.2) ∈ mergeAll [] ds := by
    rw [← hek]
    exact he
  exact mergeKey_eq_self _ hnd d.1 e.2 d.2 hmem hb

/-- C6. Whatever sequence of builder calls a setup callback makes on the builder of a new
pass, the image access list of the pass holds each declared `(id, use)` pair once, in the
order of first declaration, and the write flag of an entry is the disjunction of the write
flags of all declarations of its pair; the same holds of the buffer access list; making any
call of the sequence once more afterwards leaves both access lists as they were, and so does
making any call twice in a row on any pass. -/
theorem PassBuilder.access_lists_merged (name : String) (type : PassType) (exec : Option Nat)
    (cs : List BuilderCall) :
    (((cs.foldl PassBuilder.call (Pass.fresh name type cs exec)).images.map
          fun a => (a.id, a.use)) =
        firstOccurrences ((cs.filterMap BuilderCall.imageAccess).map fun a => (a.id, a.use))) ∧
    (((cs.foldl PassBuilder.call (Pass.fresh name type cs exec)).images.map
          fun a => (a.id, a.use)).Nodup) ∧
    (∀ a ∈ (cs.foldl PassBuilder.call (Pass.fresh name type cs exec)).images,
        a.write = (cs.filterMap BuilderCall.imageAccess).any
          fun d => decide (d.id = a.id ∧ d.use = a.use) && d.write) ∧
    (((cs.foldl PassBuilder.call (Pass.fresh name type cs exec)).buffers.map
          fun a => (a.id, a.use)) =
        firstOccurrences ((cs.filterMap BuilderCall.bufferAccess).map fun a => (a.id, a.use))) ∧
    (((cs.foldl PassBuilder.call (Pass.fresh name type cs exec)).buffers.map
          fun a => (a.id, a.use)).Nodup) ∧
    (∀ a ∈ (cs.foldl PassBuilder.call (Pass.fresh name type cs exec)).buffers,
        a.write = (cs.filterMap BuilderCall.bufferAccess).any
          fun d => decide (d.id = a.id ∧ d.use = a.use) && d.write) ∧
    (∀ c ∈ cs,
        (PassBuilder.call (cs.foldl PassBuilder.call (Pass.fresh name type cs exec)) c).images =
          (cs.foldl PassBuilder.call (Pass.fresh name type cs exec)).images ∧
        (PassBuilder.call (cs.foldl PassBuilder.call (Pass.fresh name type cs exec)) c).buffers =
          (cs.foldl PassBuilder.call (Pass.fresh name type cs exec)).buffers) ∧
    (∀ (p : Pass) (c : BuilderCall),
        (PassBuilder.call (PassBuilder.call p c) c).images = (PassBuilder.call p c).images ∧
        (PassBuilder.call (PassBuilder.call p c) c).buffers = (PassBuilder.call p c).buffers) := by
  have hi := foldl_call_images cs (Pass.fresh name type cs exec)
  have hb := foldl_call_buffers cs (Pass.fresh name type cs exec)
  have hi0 : (Pass.fresh name type cs exec).images = [] := rfl
  have hb0 : (Pass.fresh name type cs exec).buffers = [] := rfl
  rw [hi0, List.map_nil] at hi
  rw [hb0, List.map_nil] at hb
  generalize cs.foldl PassBuilder.call (Pass.fresh name type cs exec) = p at hi hb
  have hsi := mergeAll_spec ((cs.filterMap BuilderCall.imageAccess).map ImageAccess.toEntry)
  have hsb := mergeAll_spec ((cs.filterMap BuilderCall.bufferAccess).map BufferAccess.toEntry)
  rw [← hi] at hsi
  rw [← hb] at hsb
  have hki : (p.images.map fun a => (a.id, a.use)) =
      firstOccurrences ((cs.filterMap BuilderCall.imageAccess).map fun a => (a.id, a.use)) := by
    have := hsi.1
    simpa [List.map_map, Function.comp_def, ImageAccess.toEntry] using this
  have hkb : (p.buffers.map fun a => (a.id, a.use)) =
      firstOccurrences ((cs.filterMap BuilderCall.bufferAccess).map fun a => (a.id, a.use)) := by
    have := hsb.1
    simpa [List.map_map, Function.comp_def, BufferAccess.toEntry] using this
  refine ⟨hki, ?_, ?_, hkb, ?_, ?_, ?_, ?_⟩
  · rw [hki]; exact nodup_firstOccurrences _
  · intro a ha
    have h := hsi.2 a.toEntry (List.mem_map_of_mem _ ha)
    rw [any_map_apply] at h
    rw [show a.write = a.toEntry.2 from rfl, h]
    congr 1
    funext d
    simp [ImageAccess.toEntry]
  · rw [hkb]; exact nodup_firstOccurrences _
  · intro a ha
    have h := hsb.2 a.toEntry (List.mem_map_of_mem _ ha)
    rw [any_map_apply] at h
    rw [show a.write = a.toEntry.2 from rfl, h]
    congr 1
    funext d
    simp [BufferAccess.toEntry]
  · intro c hc
    rw [call_images p c, call_buffers p c]
    refine ⟨?_, ?_⟩
    · cases hca : c.imageAccess with
      | none => rfl
      | some a =>
        have hmem : a ∈ cs.filterMap BuilderCall.imageAccess :=
          List.mem_filterMap.mpr ⟨c, hc, hca⟩
        apply List.map_injective_iff.mpr imageAccess_toEntry_injective
        simp only
        rw [addUniqueImageAccess_toEntry, hi]
        exact mergeAll_absorbs _ a.toEntry (List.mem_map_of_mem _ hmem)
    · cases hca : c.bufferAccess with
      | none => rfl
      | some a =>
        have hmem : a ∈ cs.filterMap BuilderCall.bufferAccess :=
          List.mem_filterMap.mpr ⟨c, hc, hca⟩
        apply List.map_injective_iff.mpr bufferAccess_toEntry_injective
        simp only
        rw [addUniqueBufferAccess_toEntry, hb]
        exact mergeAll_absorbs _ a.toEntry (List.mem_map_of_mem _ hmem)
  · intro q c
    rw [call_images (PassBuilder.call q c) c, call_buffers (PassBuilder.call q c) c,
      call_images q c, call_buffers q c]
    cases c <;>
      simp [BuilderCall.imageAccess, BuilderCall.bufferAccess, addUniqueImageAccess_idem,
        addUniqueBufferAccess_idem]

/-- Witness of C6: a setup callback that first reads and then writes the same image as
colour attachment, and reads it once more. -/
theorem PassBuilder.access_lists_merged_witness :
    BuilderCall.readImage { id := 0 } ImageUse.ColorAttachment ∈
      [BuilderCall.readImage { id := 0 } ImageUse.ColorAttachment,
       BuilderCall.writeImage { id := 0 } ImageUse.ColorAttachment] ∧
    (PassBuilder.call
        ([BuilderCall.readImage { id := 0 } ImageUse.ColorAttachment,
          BuilderCall.writeImage { id := 0 } ImageUse.ColorAttachment].foldl PassBuilder.call
          (Pass.fresh "p" PassType.Graphics
            [BuilderCall.readImage { id := 0 } ImageUse.ColorAttachment,
             BuilderCall.writeImage { id := 0 } ImageUse.ColorAttachment] none))
        (BuilderCall.readImage { id := 0 } ImageUse.ColorAttachment)).images =
      ([BuilderCall.readImage { id := 0 } ImageUse.ColorAttachment,
        BuilderCall.writeImage { id := 0 } ImageUse.ColorAttachment].foldl PassBuilder.call
        (Pass.fresh "p" PassType.Graphics
          [BuilderCall.readImage { id := 0 } ImageUse.ColorAttachment,
           BuilderCall.writeImage { id := 0 } ImageUse.ColorAttachment] none)).images :=
  ⟨by decide,
    ((PassBuilder.access_lists_merged "p" PassType.Graphics none
      [BuilderCall.readImage { id := 0 } ImageUse.ColorAttachment,
       BuilderCall.writeImage { id := 0 } ImageUse.ColorAttachment]).2.2.2.2.2.2.1
      (BuilderCall.readImage { id := 0 } ImageUse.ColorAttachment) (by decide)).1⟩

end RenderGraph

/-! ## Hazard tracking: proofs -/

namespace RenderGraph

theorem applyImageAccess_in_range (st : RenderGraph × VulkanContext) (ia : ImageAccess)
    (res : ImageResource) (hres : st.1.images[ia.id]? = some res) :
    applyImageAccess st ia =
      if curLayout st.2 res = (stagesAccessForImageUse ia.use ia.write).layout ∧
          ¬ (res.lastAccess &&& imageWriteBits ≠ 0 ∨
              (stagesAccessForImageUse ia.use ia.write).access &&& imageWriteBits ≠ 0) then
        ({ st.1 with
            images := st.1.images.set ia.id
              { res with
                lastStage := (stagesAccessForImageUse ia.use ia.write).stage
                lastAccess := (stagesAccessForImageUse ia.use ia.write).access
                aspectMask := (stagesAccessForImageUse ia.use ia.write).aspect } }, st.2)
      else
        ({ st.1 with
            images := st.1.images.set ia.id
              { (match res.externalLayoutPtr with
                  | some _ => res
                  | none => { res with layout := (stagesAccessForImageUse ia.use ia.write).layout }) with
                lastStage := (stagesAccessForImageUse ia.use ia.write).stage
                lastAccess := (stagesAccessForImageUse ia.use ia.write).access
                aspectMask := (stagesAccessForImageUse ia.use ia.write).aspect }
            scratchImgBarriers := st.1.scratchImgBarriers ++
              [{ srcStageMask := res.lastStage
                 srcAccessMask := res.lastAccess
                 dstStageMask := (stagesAccessForImageUse ia.use ia.write).stage
                 dstAccessMask := (stagesAccessForImageUse ia.use ia.write).access
                 oldLayout := curLayout st.2 res
                 newLayout := (stagesAccessForImageUse ia.use ia.write).layout
                 image := res.image
                 aspectMask := (stagesAccessForImageUse ia.use ia.write).aspect }] },
          match res.externalLayoutPtr with
          | some p => st.2.storeLayout p (stagesAccessForImageUse ia.use ia.write).layout
          | none => st.2) := by
  unfold applyImageAccess
  simp only [hres]
  by_cases h1 : curLayout st.2 res = (stagesAccessForImageUse ia.use ia.write).layout <;>
  by_cases h2 : res.lastAccess &&& imageWriteBits ≠ 0 <;>
  by_cases h3 : (stagesAccessForImageUse ia.use ia.write).access &&& imageWriteBits ≠ 0 <;>
  simp [h1, h2, h3]

theorem applyImageAccess_out_of_range (st : RenderGraph × VulkanContext) (ia : ImageAccess)
    (h : st.1.images.length ≤ ia.id) : applyImageAccess st ia = st := by
  have hn : st.1.images[ia.id]? = none := List.getElem?_eq_none h
  unfold applyImageAccess
  simp only [hn]

theorem applyBufferAccess_in_range (g : RenderGraph) (ba : BufferAccess) (res : BufferResource)
    (hres : g.buffers[ba.id]? = some res) :
    applyBufferAccess g ba =
      if res.lastAccess = 0 then
        { g with
          buffers := g.buffers.set ba.id
            { res with
              lastStage := (stagesAccessForBufferUse ba.use ba.write).stage
              lastAccess := (stagesAccessForBufferUse ba.use ba.write).access } }
      else if ¬ (res.lastAccess &&& bufferWriteBits ≠ 0 ∨
            (stagesAccessForBufferUse ba.use ba.write).access &&& bufferWriteBits ≠ 0) ∧
          res.lastStage = (stagesAccessForBufferUse ba.use ba.write).stage ∧
          res.lastAccess = (stagesAccessForBufferUse ba.use ba.write).access then
        g
      else
        { g with
          buffers := g.buffers.set ba.id
            { res with
              lastStage := (stagesAccessForBufferUse ba.use ba.write).stage
              lastAccess := (stagesAccessForBufferUse ba.use ba.write).access }
          scratchBufBarriers := g.scratchBufBarriers ++
            [{ srcStageMask := res.lastStage
               srcAccessMask := res.lastAccess
               dstStageMask := (stagesAccessForBufferUse ba.use ba.write).stage
               dstAccessMask := (stagesAccessForBufferUse ba.use ba.write).access
               buffer := res.buffer }] } := by
  unfold applyBufferAccess
  simp only [hres]
  by_cases h0 : res.lastAccess = 0
  · simp [h0]
  · by_cases h1 : res.lastStage = (stagesAccessForBufferUse ba.use ba.write).stage <;>
    by_cases h2 : res.lastAccess &&& bufferWriteBits ≠ 0 <;>
    by_cases h3 : (stagesAccessForBufferUse ba.use ba.write).access &&& bufferWriteBits ≠ 0 <;>
    by_cases h4 : res.lastAccess = (stagesAccessForBufferUse ba.use ba.write).access <;>
    simp [h0, h1, h2, h3, h4]

theorem applyBufferAccess_out_of_range (g : RenderGraph) (ba : BufferAccess)
    (h : g.buffers.length ≤ ba.id) : applyBufferAccess g ba = g := by
  have hn : g.buffers[ba.id]? = none := List.getElem?_eq_none h
  unfold applyBufferAccess
  simp only [hn]

end RenderGraph

namespace RenderGraph

theorem applyBufferAccess_scratchImgBarriers (g : RenderGraph) (ba : BufferAccess) :
    (applyBufferAccess g ba).scratchImgBarriers = g.scratchImgBarriers := by
  cases hres : g.buffers[ba.id]? with
  | none =>
    unfold applyBufferAccess
    simp only [hres]
  | some res =>
    rw [applyBufferAccess_in_range g ba res hres]
    split_ifs <;> rfl

theorem applyBufferAccesses_scratchImgBarriers (accesses : List BufferAccess) (g : RenderGraph) :
    (applyBufferAccesses g accesses).scratchImgBarriers = g.scratchImgBarriers := by
  induction accesses generalizing g with
  | nil => rfl
  | cons a l ih =>
    unfold applyBufferAccesses at ih ⊢
    rw [List.foldl_cons, ih, applyBufferAccess_scratchImgBarriers]

theorem applyBarriers_graph (g : RenderGraph) (vk : VulkanContext) (cmd : Nat) (pass : Pass) :
    (applyBarriers g vk cmd pass).1 =
      applyBufferAccesses
        (applyImageAccesses ({ g with scratchImgBarriers := [], scratchBufBarriers := [] }, vk)
          pass.images).1 pass.buffers := by
  unfold applyBarriers
  simp only
  split_ifs <;> rfl

/-- One iteration of the image loop of `applyBarriers` on an access whose id is an index of
the image table: when it appends a barrier, and which one. -/
theorem applyImageAccess_barrier_iff (st : RenderGraph × VulkanContext) (ia : ImageAccess)
    (res : ImageResource) (hres : st.1.images[ia.id]? = some res) :
    ((∃ b, (applyImageAccess st ia).1.scratchImgBarriers = st.1.scratchImgBarriers ++ [b]) ↔
      (curLayout st.2 res ≠ (stagesAccessForImageUse ia.use ia.write).layout ∨
        res.lastAccess &&& imageWriteBits ≠ 0 ∨
        (stagesAccessForImageUse ia.use ia.write).access &&& imageWriteBits ≠ 0)) ∧
    ((applyImageAccess st ia).1.scratchImgBarriers = st.1.scratchImgBarriers ↔
      (curLayout st.2 res = (stagesAccessForImageUse ia.use ia.write).layout ∧
        res.lastAccess &&& imageWriteBits = 0 ∧
        (stagesAccessForImageUse ia.use ia.write).access &&& imageWriteBits = 0)) ∧
    (∀ b, (applyImageAccess st ia).1.scratchImgBarriers = st.1.scratchImgBarriers ++ [b] →
      b = { srcStageMask := res.lastStage
            srcAccessMask := res.lastAccess
            dstStageMask := (stagesAccessForImageUse ia.use ia.write).stage
            dstAccessMask := (stagesAccessForImageUse ia.use ia.write).access
            oldLayout := curLayout st.2 res
            newLayout := (stagesAccessForImageUse ia.use ia.write).layout
            image := res.image
            aspectMask := (stagesAccessForImageUse ia.use ia.write).aspect }) ∧
    (∀ (g : RenderGraph) (vk : VulkanContext) (cmd : Nat) (pass : Pass),
      (applyBarriers g vk cmd pass).1.scratchImgBarriers =
        (pass.images.foldl applyImageAccess
          ({ g with scratchImgBarriers := [], scratchBufBarriers := [] }, vk)).1.scratchImgBarriers) := by
  rw [applyImageAccess_in_range st ia res hres]
  refine ⟨?_, ?_, ?_, ?_⟩
  · by_cases h1 : curLayout st.2 res = (stagesAccessForImageUse ia.use ia.write).layout <;>
    by_cases h2 : res.lastAccess &&& imageWriteBits = 0 <;>
    by_cases h3 : (stagesAccessForImageUse ia.use ia.write).access &&& imageWriteBits = 0 <;>
    simp [h1, h2, h3]
  · by_cases h1 : curLayout st.2 res = (stagesAccessForImageUse ia.use ia.write).layout <;>
    by_cases h2 : res.lastAccess &&& imageWriteBits = 0 <;>
    by_cases h3 : (stagesAccessForImageUse ia.use ia.write).access &&& imageWriteBits = 0 <;>
    simp [h1, h2, h3]
  · intro b
    by_cases h1 : curLayout st.2 res = (stagesAccessForImageUse ia.use ia.write).layout <;>
    by_cases h2 : res.lastAccess &&& imageWriteBits = 0 <;>
    by_cases h3 : (stagesAccessForImageUse ia.use ia.write).access &&& imageWriteBits = 0 <;>
    simp [h1, h2, h3] <;>
    exact fun e => e.symm
  · intro g vk cmd pass
    rw [applyBarriers_graph, applyBufferAccesses_scratchImgBarriers]
    rfl

/-- C2, as stated, fails: a buffer last read as a uniform buffer and now read as an indirect
buffer gets a barrier although neither access mask contains a write bit. -/
theorem applyBarriers_buffer_read_after_read_barrier :
    (applyBufferAccess sampleGraph { id := 0, use := BufferUse.Uniform, write := false }).buffers[0]? =
      some { buffer := 501, memory := 0, lastStage := 0x88, lastAccess := 8, owned := false,
             pooled := false } ∧
    (8 : Nat) ≠ 0 ∧
    (8 : Nat) &&& bufferWriteBits = 0 ∧
    (stagesAccessForBufferUse BufferUse.Indirect false).access &&& bufferWriteBits = 0 ∧
    (applyBufferAccess
        (applyBufferAccess sampleGraph { id := 0, use := BufferUse.Uniform, write := false })
        { id := 0, use := BufferUse.Indirect, write := false }).scratchBufBarriers =
      (applyBufferAccess sampleGraph
          { id := 0, use := BufferUse.Uniform, write := false }).scratchBufBarriers ++
        [{ srcStageMask := 0x88, srcAccessMask := 8, dstStageMask := 2, dstAccessMask := 1,
           buffer := 501 }] := by
  decide

/-- When the buffer loop of `applyBarriers` processes an access whose id is an
index of the buffer table: a buffer whose recorded access mask is zero gets no barrier and
its record takes the requested stage and access masks; a buffer whose recorded access mask
is not zero gets one barrier exactly when the recorded or the requested access mask
contains a write bit, or the requested stage mask or access mask differs from the recorded
one, and otherwise the barrier list is left as it was. -/
theorem applyBufferAccess_barrier_iff (g : RenderGraph) (ba : BufferAccess)
    (res : BufferResource) (hres : g.buffers[ba.id]? = some res) :
    (res.lastAccess = 0 →
      (applyBufferAccess g ba).scratchBufBarriers = g.scratchBufBarriers ∧
      (applyBufferAccess g ba).buffers = g.buffers.set ba.id
        { res with
          lastStage := (stagesAccessForBufferUse ba.use ba.write).stage
          lastAccess := (stagesAccessForBufferUse ba.use ba.write).access }) ∧
    (res.lastAccess ≠ 0 →
      ((applyBufferAccess g ba).scratchBufBarriers = g.scratchBufBarriers ++
          [{ srcStageMask := res.lastStage
             srcAccessMask := res.lastAccess
             dstStageMask := (stagesAccessForBufferUse ba.use ba.write).stage
             dstAccessMask := (stagesAccessForBufferUse ba.use ba.write).access
             buffer := res.buffer }] ↔
        (res.lastAccess &&& bufferWriteBits ≠ 0 ∨
          (stagesAccessForBufferUse ba.use ba.write).access &&& bufferWriteBits ≠ 0 ∨
          res.lastStage ≠ (stagesAccessForBufferUse ba.use ba.write).stage ∨
          res.lastAccess ≠ (stagesAccessForBufferUse ba.use ba.write).access)) ∧
      ((applyBufferAccess g ba).scratchBufBarriers = g.scratchBufBarriers ↔
        (res.lastAccess &&& bufferWriteBits = 0 ∧
          (stagesAccessForBufferUse ba.use ba.write).access &&& bufferWriteBits = 0 ∧
          res.lastStage = (stagesAccessForBufferUse ba.use ba.write).stage ∧
          res.lastAccess = (stagesAccessForBufferUse ba.use ba.write).access))) := by
  rw [applyBufferAccess_in_range g ba res hres]
  refine ⟨?_, ?_⟩
  · intro h0
    simp [h0]
  · intro h0
    rw [if_neg h0]
    by_cases hc : ¬ (res.lastAccess &&& bufferWriteBits ≠ 0 ∨
          (stagesAccessForBufferUse ba.use ba.write).access &&& bufferWriteBits ≠ 0) ∧
        res.lastStage = (stagesAccessForBufferUse ba.use ba.write).stage ∧
        res.lastAccess = (stagesAccessForBufferUse ba.use ba.write).access
    · rw [if_pos hc]
      obtain ⟨hw, hs, ha⟩ := hc
      have hw1 : res.lastAccess &&& bufferWriteBits = 0 := by
        by_contra h; exact hw (Or.inl h)
      have hw2 : (stagesAccessForBufferUse ba.use ba.write).access &&& bufferWriteBits = 0 := by
        by_contra h; exact hw (Or.inr h)
      refine ⟨?_, ?_⟩
      · constructor
        · intro e
          have := congrArg List.length e
          simp at this
        · rintro (h | h | h | h)
          · exact absurd hw1 h
          · exact absurd hw2 h
          · exact absurd hs h
          · exact absurd ha h
      · constructor
        · intro _
          exact ⟨hw1, hw2, hs, ha⟩
        · intro _
          rfl
    · rw [if_neg hc]
      refine ⟨?_, ?_⟩
      · constructor
        · intro _
          by_contra hn
          apply hc
          simp only [not_or, not_not] at hn ⊢
          exact ⟨⟨hn.1, hn.2.1⟩, hn.2.2.1, hn.2.2.2⟩
        · intro _
          rfl
      · constructor
        · intro e
          have := congrArg List.length e
          simp at this
        · rintro ⟨hw1, hw2, hs, ha⟩
          exfalso
          apply hc
          refine ⟨?_, hs, ha⟩
          rintro (h | h)
          · exact h hw1
          · exact h hw2

end RenderGraph

namespace RenderGraph

theorem lt_length_of_getElem?_eq_some {α : Type} {l : List α} {i : Nat} {a : α}
    (h : l[i]? = some a) : i < l.length := by
  rcases List.getElem?_eq_some.mp h with ⟨hlt, _⟩
  exact hlt

/-- One iteration of the image loop, and of the buffer loop, of `applyBarriers` on an access
whose id is an index of the table: the record and the current layout afterwards. -/
theorem applyAccess_records_state :
    (∀ (st : RenderGraph × VulkanContext) (ia : ImageAccess) (res : ImageResource),
      st.1.images[ia.id]? = some res →
      ∃ res1, (applyImageAccess st ia).1.images[ia.id]? = some res1 ∧
        res1.lastStage = (stagesAccessForImageUse ia.use ia.write).stage ∧
        res1.lastAccess = (stagesAccessForImageUse ia.use ia.write).access ∧
        res1.aspectMask = (stagesAccessForImageUse ia.use ia.write).aspect ∧
        curLayout (applyImageAccess st ia).2 res1 = (stagesAccessForImageUse ia.use ia.write).layout) ∧
    (∀ (g : RenderGraph) (ba : BufferAccess) (res : BufferResource),
      g.buffers[ba.id]? = some res →
      ∃ res1, (applyBufferAccess g ba).buffers[ba.id]? = some res1 ∧
        res1.lastStage = (stagesAccessForBufferUse ba.use ba.write).stage ∧
        res1.lastAccess = (stagesAccessForBufferUse ba.use ba.write).access) := by
  refine ⟨?_, ?_⟩
  · intro st ia res hres
    have hlt := lt_length_of_getElem?_eq_some hres
    rw [applyImageAccess_in_range st ia res hres]
    split_ifs with hc
    · refine ⟨_, List.getElem?_set_self hlt, rfl, rfl, rfl, ?_⟩
      have := hc.1
      simpa [curLayout] using this
    · refine ⟨_, List.getElem?_set_self hlt, rfl, rfl, rfl, ?_⟩
      cases hp : res.externalLayoutPtr with
      | none => simp [curLayout, hp]
      | some p => simp [curLayout, hp, VulkanContext.storeLayout]
  · intro g ba res hres
    have hlt := lt_length_of_getElem?_eq_some hres
    rw [applyBufferAccess_in_range g ba res hres]
    split_ifs with h0 hc
    · exact ⟨_, List.getElem?_set_self hlt, rfl, rfl⟩
    · exact ⟨res, hres, hc.2.1, hc.2.2⟩
    · exact ⟨_, List.getElem?_set_self hlt, rfl, rfl⟩

theorem applyImageAccess_images_length (st : RenderGraph × VulkanContext) (ia : ImageAccess) :
    (applyImageAccess st ia).1.images.length = st.1.images.length := by
  cases hres : st.1.images[ia.id]? with
  | none =>
    rw [applyImageAccess_out_of_range st ia (List.getElem?_eq_none_iff.mp hres)]
  | some res =>
    rw [applyImageAccess_in_range st ia res hres]
    split_ifs <;> simp

theorem applyBufferAccess_buffers_length (g : RenderGraph) (ba : BufferAccess) :
    (applyBufferAccess g ba).buffers.length = g.buffers.length := by
  cases hres : g.buffers[ba.id]? with
  | none =>
    rw [applyBufferAccess_out_of_range g ba (List.getElem?_eq_none_iff.mp hres)]
  | some res =>
    rw [applyBufferAccess_in_range g ba res hres]
    split_ifs <;> simp

theorem applyImageAccesses_filter (accesses : List ImageAccess) (n : Nat)
    (st : RenderGraph × VulkanContext) (hn : st.1.images.length = n) :
    applyImageAccesses st (accesses.filter fun ia => decide (ia.id < n)) =
      applyImageAccesses st accesses := by
  induction accesses generalizing st with
  | nil => rfl
  | cons a l ih =>
    unfold applyImageAccesses at ih ⊢
    by_cases h : a.id < n
    · rw [List.filter_cons_of_pos (by simpa using h), List.foldl_cons, List.foldl_cons]
      exact ih _ (by rw [applyImageAccess_images_length, hn])
    · rw [List.filter_cons_of_neg (by simpa using h), List.foldl_cons,
        applyImageAccess_out_of_range st a (by omega)]
      exact ih st hn

theorem applyBufferAccesses_filter (accesses : List BufferAccess) (n : Nat)
    (g : RenderGraph) (hn : g.buffers.length = n) :
    applyBufferAccesses g (accesses.filter fun ba => decide (ba.id < n)) =
      applyBufferAccesses g accesses := by
  induction accesses generalizing g with
  | nil => rfl
  | cons a l ih =>
    unfold applyBufferAccesses at ih ⊢
    by_cases h : a.id < n
    · rw [List.filter_cons_of_pos (by simpa using h), List.foldl_cons, List.foldl_cons]
      exact ih _ (by rw [applyBufferAccess_buffers_length, hn])
    · rw [List.filter_cons_of_neg (by simpa using h), List.foldl_cons,
        applyBufferAccess_out_of_range g a (by omega)]
      exact ih g hn

theorem applyImageAccess_buffers (st : RenderGraph × VulkanContext) (ia : ImageAccess) :
    (applyImageAccess st ia).1.buffers = st.1.buffers := by
  cases hres : st.1.images[ia.id]? with
  | none =>
    rw [applyImageAccess_out_of_range st ia (List.getElem?_eq_none_iff.mp hres)]
  | some res =>
    rw [applyImageAccess_in_range st ia res hres]
    split_ifs <;> rfl

theorem applyImageAccesses_buffers (accesses : List ImageAccess) (st : RenderGraph × VulkanContext) :
    (applyImageAccesses st accesses).1.buffers = st.1.buffers := by
  induction accesses generalizing st with
  | nil => rfl
  | cons a l ih =>
    unfold applyImageAccesses at ih ⊢
    rw [List.foldl_cons, ih, applyImageAccess_buffers]

/-- C7. An access whose id is not an index of its table is a no-op: the loop body returns
the graph and the device context exactly as they were, so nothing is appended to the barrier
lists and no record changes. For a whole pass, `applyBarriers` does exactly what it does for
the pass with the out-of-range accesses removed, so the in-range accesses are processed as
if the others were not there. -/
theorem applyBarriers_skips_out_of_range :
    (∀ (st : RenderGraph × VulkanContext) (ia : ImageAccess),
      st.1.images.length ≤ ia.id → applyImageAccess st ia = st) ∧
    (∀ (g : RenderGraph) (ba : BufferAccess),
      g.buffers.length ≤ ba.id → applyBufferAccess g ba = g) ∧
    (∀ (g : RenderGraph) (vk : VulkanContext) (cmd : Nat) (pass : Pass),
      applyBarriers g vk cmd pass =
        applyBarriers g vk cmd
          { pass with
            images := pass.images.filter fun ia => decide (ia.id < g.images.length)
            buffers := pass.buffers.filter fun ba => decide (ba.id < g.buffers.length) }) := by
  refine ⟨applyImageAccess_out_of_range, applyBufferAccess_out_of_range, ?_⟩
  intro g vk cmd pass
  unfold applyBarriers
  simp only
  rw [applyImageAccesses_filter pass.images g.images.length _ rfl,
    applyBufferAccesses_filter pass.buffers g.buffers.length _
      (by rw [applyImageAccesses_buffers])]

/-- Witness of C7: an access to image id 7 in a graph that tracks one image. -/
theorem applyBarriers_skips_out_of_range_witness :
    (sampleGraph, sampleContext).1.images.length ≤ 7 ∧
    applyImageAccess (sampleGraph, sampleContext)
        { id := 7, use := ImageUse.ColorAttachment, write := true } =
      (sampleGraph, sampleContext) :=
  ⟨by decide, applyBarriers_skips_out_of_range.1 (sampleGraph, sampleContext)
    { id := 7, use := ImageUse.ColorAttachment, write := true } (by decide)⟩

end RenderGraph

/-! ## Consecutive passes: proofs -/

namespace RenderGraph

theorem applyImageAccess_getElem?_ne (st : RenderGraph × VulkanContext) (a : ImageAccess) (i : Nat)
    (h : a.id ≠ i) : (applyImageAccess st a).1.images[i]? = st.1.images[i]? := by
  cases hres : st.1.images[a.id]? with
  | none =>
    rw [applyImageAccess_out_of_range st a (List.getElem?_eq_none_iff.mp hres)]
  | some res =>
    rw [applyImageAccess_in_range st a res hres]
    split_ifs <;> exact List.getElem?_set_ne h

theorem applyImageAccesses_getElem?_ne (l : List ImageAccess) (st : RenderGraph × VulkanContext)
    (i : Nat) (h : ∀ a ∈ l, a.id ≠ i) :
    (applyImageAccesses st l).1.images[i]? = st.1.images[i]? := by
  induction l generalizing st with
  | nil => rfl
  | cons a l ih =>
    unfold applyImageAccesses at ih ⊢
    rw [List.foldl_cons, ih _ (fun x hx => h x (List.mem_cons_of_mem _ hx)),
      applyImageAccess_getElem?_ne st a i (h a (List.mem_cons_self _ _))]

theorem applyImageAccess_at (st : RenderGraph × VulkanContext) (a : ImageAccess)
    (res : ImageResource) (hres : st.1.images[a.id]? = some res) :
    ∃ res1, (applyImageAccess st a).1.images[a.id]? = some res1 ∧ res1.image = res.image ∧
      res1.lastAccess = (stagesAccessForImageUse a.use a.write).access := by
  have hlt := lt_length_of_getElem?_eq_some hres
  rw [applyImageAccess_in_range st a res hres]
  split_ifs
  · exact ⟨_, List.getElem?_set_self hlt, rfl, rfl⟩
  · refine ⟨_, List.getElem?_set_self hlt, ?_, rfl⟩
    cases res.externalLayoutPtr <;> rfl

theorem applyImageAccess_image (st : RenderGraph × VulkanContext) (a : ImageAccess) (i : Nat)
    (res : ImageResource) (hres : st.1.images[i]? = some res) :
    ∃ res1, (applyImageAccess st a).1.images[i]? = some res1 ∧ res1.image = res.image := by
  by_cases h : a.id = i
  · subst h
    obtain ⟨res1, h1, h2, _⟩ := applyImageAccess_at st a res hres
    exact ⟨res1, h1, h2⟩
  · exact ⟨res, by rw [applyImageAccess_getElem?_ne st a i h, hres], rfl⟩

theorem applyImageAccesses_image (l : List ImageAccess) (st : RenderGraph × VulkanContext) (i : Nat)
    (res : ImageResource) (hres : st.1.images[i]? = some res) :
    ∃ res1, (applyImageAccesses st l).1.images[i]? = some res1 ∧ res1.image = res.image := by
  induction l generalizing st res with
  | nil => exact ⟨res, hres, rfl⟩
  | cons a l ih =>
    obtain ⟨res1, h1, h2⟩ := applyImageAccess_image st a i res hres
    obtain ⟨res2, h3, h4⟩ := ih (applyImageAccess st a) res1 h1
    refine ⟨res2, ?_, by rw [h4, h2]⟩
    unfold applyImageAccesses at h3 ⊢
    rw [List.foldl_cons]
    exact h3

theorem applyImageAccess_scratch_mono (st : RenderGraph × VulkanContext) (a : ImageAccess)
    (b : VkImageMemoryBarrier2) (hb : b ∈ st.1.scratchImgBarriers) :
    b ∈ (applyImageAccess st a).1.scratchImgBarriers := by
  cases hres : st.1.images[a.id]? with
  | none =>
    rw [applyImageAccess_out_of_range st a (List.getElem?_eq_none_iff.mp hres)]
    exact hb
  | some res =>
    rw [applyImageAccess_in_range st a res hres]
    split_ifs
    · exact hb
    · exact List.mem_append_left _ hb

theorem applyImageAccesses_scratch_mono (l : List ImageAccess) (st : RenderGraph × VulkanContext)
    (b : VkImageMemoryBarrier2) (hb : b ∈ st.1.scratchImgBarriers) :
    b ∈ (applyImageAccesses st l).1.scratchImgBarriers := by
  induction l generalizing st with
  | nil => exact hb
  | cons a l ih =>
    unfold applyImageAccesses at ih ⊢
    rw [List.foldl_cons]
    exact ih _ (applyImageAccess_scratch_mono st a b hb)

theorem applyImageAccesses_append (st : RenderGraph × VulkanContext) (l1 l2 : List ImageAccess) :
    applyImageAccesses st (l1 ++ l2) = applyImageAccesses (applyImageAccesses st l1) l2 := by
  unfold applyImageAccesses
  rw [List.foldl_append]

theorem applyImageAccesses_cons (st : RenderGraph × VulkanContext) (a : ImageAccess)
    (l : List ImageAccess) :
    applyImageAccesses st (a :: l) = applyImageAccesses (applyImageAccess st a) l := rfl

theorem applyBufferAccess_images (g : RenderGraph) (ba : BufferAccess) :
    (applyBufferAccess g ba).images = g.images := by
  cases hres : g.buffers[ba.id]? with
  | none =>
    rw [applyBufferAccess_out_of_range g ba (List.getElem?_eq_none_iff.mp hres)]
  | some res =>
    rw [applyBufferAccess_in_range g ba res hres]
    split_ifs <;> rfl

theorem applyBufferAccesses_images (l : List BufferAccess) (g : RenderGraph) :
    (applyBufferAccesses g l).images = g.images := by
  induction l generalizing g with
  | nil => rfl
  | cons a l ih =>
    unfold applyBufferAccesses at ih ⊢
    rw [List.foldl_cons, ih, applyBufferAccess_images]

theorem applyBarriers_images (g : RenderGraph) (vk : VulkanContext) (cmd : Nat) (pass : Pass) :
    (applyBarriers g vk cmd pass).1.images =
      (applyImageAccesses ({ g with scratchImgBarriers := [], scratchBufBarriers := [] }, vk)
        pass.images).1.images := by
  rw [applyBarriers_graph, applyBufferAccesses_images]

theorem applyBarriers_scratchImgBarriers (g : RenderGraph) (vk : VulkanContext) (cmd : Nat)
    (pass : Pass) :
    (applyBarriers g vk cmd pass).1.scratchImgBarriers =
      (applyImageAccesses ({ g with scratchImgBarriers := [], scratchBufBarriers := [] }, vk)
        pass.images).1.scratchImgBarriers := by
  rw [applyBarriers_graph, applyBufferAccesses_scratchImgBarriers]

theorem applyBarriers_vk_layoutCell (g : RenderGraph) (vk : VulkanContext) (cmd : Nat) (pass : Pass) :
    (applyBarriers g vk cmd pass).2.layoutCell =
      (applyImageAccesses ({ g with scratchImgBarriers := [], scratchBufBarriers := [] }, vk)
        pass.images).2.layoutCell := by
  unfold applyBarriers
  simp only
  split_ifs <;> rfl

end RenderGraph

namespace RenderGraph

theorem applyBufferAccess_getElem?_ne (g : RenderGraph) (a : BufferAccess) (i : Nat)
    (h : a.id ≠ i) : (applyBufferAccess g a).buffers[i]? = g.buffers[i]? := by
  cases hres : g.buffers[a.id]? with
  | none =>
    rw [applyBufferAccess_out_of_range g a (List.getElem?_eq_none_iff.mp hres)]
  | some res =>
    rw [applyBufferAccess_in_range g a res hres]
    split_ifs
    · exact List.getElem?_set_ne h
    · rfl
    · exact List.getElem?_set_ne h

theorem applyBufferAccesses_getElem?_ne (l : List BufferAccess) (g : RenderGraph)
    (i : Nat) (h : ∀ a ∈ l, a.id ≠ i) :
    (applyBufferAccesses g l).buffers[i]? = g.buffers[i]? := by
  induction l generalizing g with
  | nil => rfl
  | cons a l ih =>
    unfold applyBufferAccesses at ih ⊢
    rw [List.foldl_cons, ih _ (fun x hx => h x (List.mem_cons_of_mem _ hx)),
      applyBufferAccess_getElem?_ne g a i (h a (List.mem_cons_self _ _))]

theorem applyBufferAccess_at (g : RenderGraph) (a : BufferAccess)
    (res : BufferResource) (hres : g.buffers[a.id]? = some res) :
    ∃ res1, (applyBufferAccess g a).buffers[a.id]? = some res1 ∧ res1.buffer = res.buffer ∧
      res1.lastStage = (stagesAccessForBufferUse a.use a.write).stage ∧
      res1.lastAccess = (stagesAccessForBufferUse a.use a.write).access := by
  have hlt := lt_length_of_getElem?_eq_some hres
  rw [applyBufferAccess_in_range g a res hres]
  split_ifs with h0 hc
  · exact ⟨_, List.getElem?_set_self hlt, rfl, rfl, rfl⟩
  · exact ⟨res, hres, rfl, hc.2.1, hc.2.2⟩
  · exact ⟨_, List.getElem?_set_self hlt, rfl, rfl, rfl⟩

theorem applyBufferAccess_buffer (g : RenderGraph) (a : BufferAccess) (i : Nat)
    (res : BufferResource) (hres : g.buffers[i]? = some res) :
    ∃ res1, (applyBufferAccess g a).buffers[i]? = some res1 ∧ res1.buffer = res.buffer := by
  by_cases h : a.id = i
  · subst h
    obtain ⟨res1, h1, h2, _⟩ := applyBufferAccess_at g a res hres
    exact ⟨res1, h1, h2⟩
  · exact ⟨res, by rw [applyBufferAccess_getElem?_ne g a i h, hres], rfl⟩

theorem applyBufferAccesses_buffer (l : List BufferAccess) (g : RenderGraph) (i : Nat)
    (res : BufferResource) (hres : g.buffers[i]? = some res) :
    ∃ res1, (applyBufferAccesses g l).buffers[i]? = some res1 ∧ res1.buffer = res.buffer := by
  induction l generalizing g res with
  | nil => exact ⟨res, hres, rfl⟩
  | cons a l ih =>
    obtain ⟨res1, h1, h2⟩ := applyBufferAccess_buffer g a i res hres
    obtain ⟨res2, h3, h4⟩ := ih (applyBufferAccess g a) res1 h1
    refine ⟨res2, ?_, by rw [h4, h2]⟩
    unfold applyBufferAccesses at h3 ⊢
    rw [List.foldl_cons]
    exact h3

theorem applyBufferAccess_scratch_mono (g : RenderGraph) (a : BufferAccess)
    (b : VkBufferMemoryBarrier2) (hb : b ∈ g.scratchBufBarriers) :
    b ∈ (applyBufferAccess g a).scratchBufBarriers := by
  cases hres : g.buffers[a.id]? with
  | none =>
    rw [applyBufferAccess_out_of_range g a (List.getElem?_eq_none_iff.mp hres)]
    exact hb
  | some res =>
    rw [applyBufferAccess_in_range g a res hres]
    split_ifs
    · exact hb
    · exact hb
    · exact List.mem_append_left _ hb

theorem applyBufferAccesses_scratch_mono (l : List BufferAccess) (g : RenderGraph)
    (b : VkBufferMemoryBarrier2) (hb : b ∈ g.scratchBufBarriers) :
    b ∈ (applyBufferAccesses g l).scratchBufBarriers := by
  induction l generalizing g with
  | nil => exact hb
  | cons a l ih =>
    unfold applyBufferAccesses at ih ⊢
    rw [List.foldl_cons]
    exact ih _ (applyBufferAccess_scratch_mono g a b hb)

theorem applyBufferAccesses_append (g : RenderGraph) (l1 l2 : List BufferAccess) :
    applyBufferAccesses g (l1 ++ l2) = applyBufferAccesses (applyBufferAccesses g l1) l2 := by
  unfold applyBufferAccesses
  rw [List.foldl_append]

theorem applyBufferAccesses_cons (g : RenderGraph) (a : BufferAccess) (l : List BufferAccess) :
    applyBufferAccesses g (a :: l) = applyBufferAccesses (applyBufferAccess g a) l := rfl

/-- The write access of a colour or depth attachment contains a write bit of the image
loop. -/
theorem image_write_access_has_write_bit (use : ImageUse)
    (h : use = ImageUse.ColorAttachment ∨ use = ImageUse.DepthAttachment) :
    (stagesAccessForImageUse use true).access &&& imageWriteBits ≠ 0 := by
  rcases h with h | h <;> subst h <;> decide

/-- The write access of a storage or transfer buffer contains a write bit of the buffer
loop. -/
theorem buffer_write_access_has_write_bit (use : BufferUse)
    (h : use = BufferUse.Storage ∨ use = BufferUse.Transfer) :
    (stagesAccessForBufferUse use true).access &&& bufferWriteBits ≠ 0 := by
  rcases h with h | h <;> subst h <;> decide

/-- No read access of the usage table contains a write bit of the image loop. -/
theorem image_read_access_no_write_bit (use : ImageUse) :
    (stagesAccessForImageUse use false).access &&& imageWriteBits = 0 := by
  cases use <;> decide

/-- No read access of the usage table contains a write bit of the buffer loop. -/
theorem buffer_read_access_no_write_bit (use : BufferUse) :
    (stagesAccessForBufferUse use false).access &&& bufferWriteBits = 0 := by
  cases use <;> decide

/-- The state of the tracked image `R` after a pass whose last access of `R` is given. -/
theorem applyBarriers_image_after_last_access (g : RenderGraph) (vk : VulkanContext) (cmd : Nat)
    (pass : Pass) (R : Nat) (res0 : ImageResource) (a : ImageAccess)
    (pre post : List ImageAccess)
    (hres : g.images[R]? = some res0) (hsplit : pass.images = pre ++ a :: post) (ha : a.id = R)
    (hpost : ∀ x ∈ post, x.id ≠ R) :
    ∃ res1, (applyBarriers g vk cmd pass).1.images[R]? = some res1 ∧ res1.image = res0.image ∧
      res1.lastAccess = (stagesAccessForImageUse a.use a.write).access := by
  rw [applyBarriers_images, hsplit, applyImageAccesses_append, applyImageAccesses_cons,
    applyImageAccesses_getElem?_ne post _ R hpost]
  obtain ⟨resa, h1, h2⟩ := applyImageAccesses_image pre
    ({ g with scratchImgBarriers := [], scratchBufBarriers := [] }, vk) R res0 hres
  subst ha
  obtain ⟨resb, h3, h4, h5⟩ := applyImageAccess_at _ a resa h1
  exact ⟨resb, h3, by rw [h4, h2], h5⟩

/-- The state of the tracked buffer `R` after a pass whose last access of `R` is given. -/
theorem applyBarriers_buffer_after_last_access (g : RenderGraph) (vk : VulkanContext) (cmd : Nat)
    (pass : Pass) (R : Nat) (res0 : BufferResource) (a : BufferAccess)
    (pre post : List BufferAccess)
    (hres : g.buffers[R]? = some res0) (hsplit : pass.buffers = pre ++ a :: post) (ha : a.id = R)
    (hpost : ∀ x ∈ post, x.id ≠ R) :
    ∃ res1, (applyBarriers g vk cmd pass).1.buffers[R]? = some res1 ∧ res1.buffer = res0.buffer ∧
      res1.lastStage = (stagesAccessForBufferUse a.use a.write).stage ∧
      res1.lastAccess = (stagesAccessForBufferUse a.use a.write).access := by
  rw [applyBarriers_graph, hsplit, applyBufferAccesses_append, applyBufferAccesses_cons,
    applyBufferAccesses_getElem?_ne post _ R hpost]
  have hres' : (applyImageAccesses ({ g with scratchImgBarriers := [], scratchBufBarriers := [] }, vk)
      pass.images).1.buffers[R]? = some res0 := by
    rw [applyImageAccesses_buffers]; exact hres
  obtain ⟨resa, h1, h2⟩ := applyBufferAccesses_buffer pre _ R res0 hres'
  subst ha
  obtain ⟨resb, h3, h4, h5, h6⟩ := applyBufferAccess_at _ a resa h1
  exact ⟨resb, h3, by rw [h4, h2], h5, h6⟩

end RenderGraph

namespace RenderGraph

theorem applyImageAccess_emits_after_write (st : RenderGraph × VulkanContext) (a : ImageAccess)
    (res : ImageResource) (hres : st.1.images[a.id]? = some res)
    (hw : res.lastAccess &&& imageWriteBits ≠ 0) :
    ∃ b ∈ (applyImageAccess st a).1.scratchImgBarriers,
      b.image = res.image ∧ b.srcAccessMask = res.lastAccess ∧
      b.dstAccessMask = (stagesAccessForImageUse a.use a.write).access ∧
      b.newLayout = (stagesAccessForImageUse a.use a.write).layout := by
  rw [applyImageAccess_in_range st a res hres]
  have hcond : ¬ (curLayout st.2 res = (stagesAccessForImageUse a.use a.write).layout ∧
      ¬ (res.lastAccess &&& imageWriteBits ≠ 0 ∨
          (stagesAccessForImageUse a.use a.write).access &&& imageWriteBits ≠ 0)) := by
    rintro ⟨_, hn⟩
    exact hn (Or.inl hw)
  rw [if_neg hcond]
  exact ⟨_, List.mem_append_right _ (List.mem_singleton_self _), rfl, rfl, rfl, rfl⟩

theorem applyBufferAccess_emits_after_write (g : RenderGraph) (a : BufferAccess)
    (res : BufferResource) (hres : g.buffers[a.id]? = some res)
    (hw : res.lastAccess &&& bufferWriteBits ≠ 0) :
    ∃ b ∈ (applyBufferAccess g a).scratchBufBarriers,
      b.buffer = res.buffer ∧ b.srcAccessMask = res.lastAccess ∧
      b.dstAccessMask = (stagesAccessForBufferUse a.use a.write).access := by
  rw [applyBufferAccess_in_range g a res hres]
  have h0 : res.lastAccess ≠ 0 := by
    intro e
    rw [e] at hw
    exact hw (by simp)
  have hcond : ¬ (¬ (res.lastAccess &&& bufferWriteBits ≠ 0 ∨
        (stagesAccessForBufferUse a.use a.write).access &&& bufferWriteBits ≠ 0) ∧
      res.lastStage = (stagesAccessForBufferUse a.use a.write).stage ∧
      res.lastAccess = (stagesAccessForBufferUse a.use a.write).access) := by
    rintro ⟨hn, _⟩
    exact hn (Or.inl hw)
  rw [if_neg h0, if_neg hcond]
  exact ⟨_, List.mem_append_right _ (List.mem_singleton_self _), rfl, rfl, rfl⟩

/-- C3, as stated, fails for the usage categories that have no write access: a pass that
declares `writeImage(R, Sampled)` leaves `R` in the shader-read-only layout with a read-only
access mask, and a following pass that declares `readImage(R, Sampled)` gets no barrier. -/
theorem write_then_read_sampled_no_barrier :
    (PassBuilder.writeImage (Pass.fresh "p1" PassType.Graphics [] none) { id := 0 }
        ImageUse.Sampled).images = [{ id := 0, use := ImageUse.Sampled, write := true }] ∧
    (PassBuilder.readImage (Pass.fresh "p2" PassType.Graphics [] none) { id := 0 }
        ImageUse.Sampled).images = [{ id := 0, use := ImageUse.Sampled, write := false }] ∧
    ((applyBarriers sampleGraph sampleContext 11
        (PassBuilder.writeImage (Pass.fresh "p1" PassType.Graphics [] none) { id := 0 }
          ImageUse.Sampled)).1.images.map fun r => r.layout) =
      [(stagesAccessForImageUse ImageUse.Sampled false).layout] ∧
    (applyBarriers
        (applyBarriers sampleGraph sampleContext 11
          (PassBuilder.writeImage (Pass.fresh "p1" PassType.Graphics [] none) { id := 0 }
            ImageUse.Sampled)).1
        (applyBarriers sampleGraph sampleContext 11
          (PassBuilder.writeImage (Pass.fresh "p1" PassType.Graphics [] none) { id := 0 }
            ImageUse.Sampled)).2
        11
        (PassBuilder.readImage (Pass.fresh "p2" PassType.Graphics [] none) { id := 0 }
          ImageUse.Sampled)).1.scratchImgBarriers = [] := by
  decide

/-- Let `R` be a tracked image and let the last access of `R` that pass `P1`
declares be a write as colour or depth attachment; if the next pass `P2` declares an access
of `R` (a read, also one whose required layout is the one `P1` left `R` in), then the image
barriers of `P2` contain a barrier for `R` whose source access mask is the write access of
`P1`. Likewise let `R` be a tracked buffer and let the last access of `R` that `P1` declares
be a write as storage or transfer buffer; if `P2` declares an access of `R`, the buffer
barriers of `P2` contain a barrier for `R` whose source access mask is that write access. -/
theorem write_then_read_barrier_lists :
    (∀ (g : RenderGraph) (vk : VulkanContext) (cmd : Nat) (P1 P2 : Pass) (R : Nat)
        (res0 : ImageResource) (use1 : ImageUse) (pre1 post1 : List ImageAccess)
        (a2 : ImageAccess) (pre2 post2 : List ImageAccess),
      g.images[R]? = some res0 →
      (use1 = ImageUse.ColorAttachment ∨ use1 = ImageUse.DepthAttachment) →
      P1.images = pre1 ++ { id := R, use := use1, write := true } :: post1 →
      (∀ x ∈ post1, x.id ≠ R) →
      P2.images = pre2 ++ a2 :: post2 →
      a2.id = R →
      (∀ x ∈ pre2, x.id ≠ R) →
      ∃ b ∈ (applyBarriers (applyBarriers g vk cmd P1).1 (applyBarriers g vk cmd P1).2 cmd
          P2).1.scratchImgBarriers,
        b.image = res0.image ∧
        b.srcAccessMask = (stagesAccessForImageUse use1 true).access ∧
        b.dstAccessMask = (stagesAccessForImageUse a2.use a2.write).access ∧
        b.newLayout = (stagesAccessForImageUse a2.use a2.write).layout) ∧
    (∀ (g : RenderGraph) (vk : VulkanContext) (cmd : Nat) (P1 P2 : Pass) (R : Nat)
        (res0 : BufferResource) (use1 : BufferUse) (pre1 post1 : List BufferAccess)
        (a2 : BufferAccess) (pre2 post2 : List BufferAccess),
      g.buffers[R]? = some res0 →
      (use1 = BufferUse.Storage ∨ use1 = BufferUse.Transfer) →
      P1.buffers = pre1 ++ { id := R, use := use1, write := true } :: post1 →
      (∀ x ∈ post1, x.id ≠ R) →
      P2.buffers = pre2 ++ a2 :: post2 →
      a2.id = R →
      (∀ x ∈ pre2, x.id ≠ R) →
      ∃ b ∈ (applyBarriers (applyBarriers g vk cmd P1).1 (applyBarriers g vk cmd P1).2 cmd
          P2).1.scratchBufBarriers,
        b.buffer = res0.buffer ∧
        b.srcAccessMask = (stagesAccessForBufferUse use1 true).access ∧
        b.dstAccessMask = (stagesAccessForBufferUse a2.use a2.write).access) := by
  refine ⟨?_, ?_⟩
  · intro g vk cmd P1 P2 R res0 use1 pre1 post1 a2 pre2 post2 hres huse h1 hpost1 h2 ha2 hpre2
    obtain ⟨res1, hr1, himg, hacc⟩ := applyBarriers_image_after_last_access g vk cmd P1 R res0
      { id := R, use := use1, write := true } pre1 post1 hres h1 rfl hpost1
    simp only at hacc
    have hw := image_write_access_has_write_bit use1 huse
    rw [← hacc] at hw
    rw [applyBarriers_scratchImgBarriers, h2, applyImageAccesses_append, applyImageAccesses_cons]
    have hr2 : (applyImageAccesses
        ({ (applyBarriers g vk cmd P1).1 with scratchImgBarriers := [], scratchBufBarriers := [] },
          (applyBarriers g vk cmd P1).2) pre2).1.images[a2.id]? = some res1 := by
      rw [ha2, applyImageAccesses_getElem?_ne pre2 _ R hpre2]
      exact hr1
    obtain ⟨b, hb, e1, e2, e3, e4⟩ := applyImageAccess_emits_after_write _ a2 res1 hr2 hw
    exact ⟨b, applyImageAccesses_scratch_mono post2 _ b hb, by rw [e1, himg], by rw [e2, hacc],
      e3, e4⟩
  · intro g vk cmd P1 P2 R res0 use1 pre1 post1 a2 pre2 post2 hres huse h1 hpost1 h2 ha2 hpre2
    obtain ⟨res1, hr1, hbuf, _, hacc⟩ := applyBarriers_buffer_after_last_access g vk cmd P1 R res0
      { id := R, use := use1, write := true } pre1 post1 hres h1 rfl hpost1
    simp only at hacc
    have hw := buffer_write_access_has_write_bit use1 huse
    rw [← hacc] at hw
    rw [applyBarriers_graph, h2, applyBufferAccesses_append, applyBufferAccesses_cons]
    have hr2 : (applyBufferAccesses
        (applyImageAccesses
          ({ (applyBarriers g vk cmd P1).1 with scratchImgBarriers := [], scratchBufBarriers := [] },
            (applyBarriers g vk cmd P1).2) P2.images).1 pre2).buffers[a2.id]? = some res1 := by
      rw [ha2, applyBufferAccesses_getElem?_ne pre2 _ R hpre2, applyImageAccesses_buffers]
      exact hr1
    obtain ⟨b, hb, e1, e2, e3⟩ := applyBufferAccess_emits_after_write _ a2 res1 hr2 hw
    exact ⟨b, applyBufferAccesses_scratch_mono post2 _ b hb, by rw [e1, hbuf], by rw [e2, hacc],
      e3⟩

end RenderGraph

namespace RenderGraph

theorem imageLastAccessIsRead_step (st : RenderGraph × VulkanContext) (a : ImageAccess) (R : Nat)
    (hq : ImageLastAccessIsRead st.1 R) (hr : a.id = R → a.write = false) :
    ImageLastAccessIsRead (applyImageAccess st a).1 R := by
  obtain ⟨res, h1, h2⟩ := hq
  by_cases h : a.id = R
  · subst h
    obtain ⟨res1, h3, _, h5⟩ := applyImageAccess_at st a res h1
    refine ⟨res1, h3, ?_⟩
    rw [h5, hr rfl]
    exact image_read_access_no_write_bit a.use
  · exact ⟨res, by rw [applyImageAccess_getElem?_ne st a R h, h1], h2⟩

theorem imageLastAccessIsRead_steps (l : List ImageAccess) (st : RenderGraph × VulkanContext)
    (R : Nat) (hq : ImageLastAccessIsRead st.1 R) (hr : ∀ a ∈ l, a.id = R → a.write = false) :
    ImageLastAccessIsRead (applyImageAccesses st l).1 R := by
  induction l generalizing st with
  | nil => exact hq
  | cons a l ih =>
    rw [applyImageAccesses_cons]
    exact ih _ (imageLastAccessIsRead_step st a R hq (hr a (List.mem_cons_self _ _)))
      (fun x hx => hr x (List.mem_cons_of_mem _ hx))

theorem imageLastAccessIsRead_after_reads (l : List ImageAccess) (st : RenderGraph × VulkanContext)
    (R : Nat) (res : ImageResource) (hres : st.1.images[R]? = some res)
    (he : ∃ a ∈ l, a.id = R) (hr : ∀ a ∈ l, a.id = R → a.write = false) :
    ImageLastAccessIsRead (applyImageAccesses st l).1 R := by
  induction l generalizing st res with
  | nil =>
    obtain ⟨a, ha, _⟩ := he
    exact absurd ha (List.not_mem_nil a)
  | cons a l ih =>
    rw [applyImageAccesses_cons]
    have hrl : ∀ x ∈ l, x.id = R → x.write = false := fun x hx => hr x (List.mem_cons_of_mem _ hx)
    by_cases h : a.id = R
    · subst h
      obtain ⟨res1, h3, _, h5⟩ := applyImageAccess_at st a res hres
      apply imageLastAccessIsRead_steps l _ _ _ hrl
      refine ⟨res1, h3, ?_⟩
      rw [h5, hr a (List.mem_cons_self _ _) rfl]
      exact image_read_access_no_write_bit a.use
    · have hres1 : (applyImageAccess st a).1.images[R]? = some res := by
        rw [applyImageAccess_getElem?_ne st a R h, hres]
      refine ih _ res hres1 ?_ hrl
      obtain ⟨x, hx, hxR⟩ := he
      rcases List.mem_cons.mp hx with e | hx'
      · exact absurd (e ▸ hxR) h
      · exact ⟨x, hx', hxR⟩

theorem bufferLastAccessIsRead_step (g : RenderGraph) (a : BufferAccess) (R : Nat)
    (hq : BufferLastAccessIsRead g R) (hr : a.id = R → a.write = false) :
    BufferLastAccessIsRead (applyBufferAccess g a) R := by
  obtain ⟨res, h1, h2⟩ := hq
  by_cases h : a.id = R
  · subst h
    obtain ⟨res1, h3, _, _, h5⟩ := applyBufferAccess_at g a res h1
    refine ⟨res1, h3, ?_⟩
    rw [h5, hr rfl]
    exact buffer_read_access_no_write_bit a.use
  · exact ⟨res, by rw [applyBufferAccess_getElem?_ne g a R h, h1], h2⟩

theorem bufferLastAccessIsRead_steps (l : List BufferAccess) (g : RenderGraph)
    (R : Nat) (hq : BufferLastAccessIsRead g R) (hr : ∀ a ∈ l, a.id = R → a.write = false) :
    BufferLastAccessIsRead (applyBufferAccesses g l) R := by
  induction l generalizing g with
  | nil => exact hq
  | cons a l ih =>
    rw [applyBufferAccesses_cons]
    exact ih _ (bufferLastAccessIsRead_step g a R hq (hr a (List.mem_cons_self _ _)))
      (fun x hx => hr x (List.mem_cons_of_mem _ hx))

theorem bufferLastAccessIsRead_after_reads (l : List BufferAccess) (g : RenderGraph)
    (R : Nat) (res : BufferResource) (hres : g.buffers[R]? = some res)
    (he : ∃ a ∈ l, a.id = R) (hr : ∀ a ∈ l, a.id = R → a.write = false) :
    BufferLastAccessIsRead (applyBufferAccesses g l) R := by
  induction l generalizing g res with
  | nil =>
    obtain ⟨a, ha, _⟩ := he
    exact absurd ha (List.not_mem_nil a)
  | cons a l ih =>
    rw [applyBufferAccesses_cons]
    have hrl : ∀ x ∈ l, x.id = R → x.write = false := fun x hx => hr x (List.mem_cons_of_mem _ hx)
    by_cases h : a.id = R
    · subst h
      obtain ⟨res1, h3, _, _, h5⟩ := applyBufferAccess_at g a res hres
      apply bufferLastAccessIsRead_steps l _ _ _ hrl
      refine ⟨res1, h3, ?_⟩
      rw [h5, hr a (List.mem_cons_self _ _) rfl]
      exact buffer_read_access_no_write_bit a.use
    · have hres1 : (applyBufferAccess g a).buffers[R]? = some res := by
        rw [applyBufferAccess_getElem?_ne g a R h, hres]
      refine ih _ res hres1 ?_ hrl
      obtain ⟨x, hx, hxR⟩ := he
      rcases List.mem_cons.mp hx with e | hx'
      · exact absurd (e ▸ hxR) h
      · exact ⟨x, hx', hxR⟩

/-- C4, as stated, fails for buffers: a pass that reads buffer `R` as a uniform buffer
followed by a pass that reads `R` as an indirect buffer, both only reading and with no
layout involved, gets a buffer barrier for `R`. -/
theorem read_then_read_buffer_barrier :
    (PassBuilder.readBuffer (Pass.fresh "p1" PassType.Graphics [] none) { id := 0 }
        BufferUse.Uniform).buffers = [{ id := 0, use := BufferUse.Uniform, write := false }] ∧
    (PassBuilder.readBuffer (Pass.fresh "p2" PassType.Graphics [] none) { id := 0 }
        BufferUse.Indirect).buffers = [{ id := 0, use := BufferUse.Indirect, write := false }] ∧
    (applyBarriers
        (applyBarriers sampleGraph sampleContext 11
          (PassBuilder.readBuffer (Pass.fresh "p1" PassType.Graphics [] none) { id := 0 }
            BufferUse.Uniform)).1
        (applyBarriers sampleGraph sampleContext 11
          (PassBuilder.readBuffer (Pass.fresh "p1" PassType.Graphics [] none) { id := 0 }
            BufferUse.Uniform)).2
        11
        (PassBuilder.readBuffer (Pass.fresh "p2" PassType.Graphics [] none) { id := 0 }
          BufferUse.Indirect)).1.scratchBufBarriers =
      [{ srcStageMask := 0x88, srcAccessMask := 8, dstStageMask := 2, dstAccessMask := 1,
         buffer := 501 }] := by
  decide

end RenderGraph

namespace RenderGraph

theorem currentLayoutOf_applyBarriers (g : RenderGraph) (vk : VulkanContext) (cmd : Nat)
    (pass : Pass) (R : Nat) :
    currentLayoutOf (applyBarriers g vk cmd pass) R =
      currentLayoutOf
        (applyImageAccesses ({ g with scratchImgBarriers := [], scratchBufBarriers := [] }, vk)
          pass.images) R := by
  unfold currentLayoutOf
  rw [applyBarriers_images]
  have hc : ∀ res, curLayout (applyBarriers g vk cmd pass).2 res =
      curLayout (applyImageAccesses
        ({ g with scratchImgBarriers := [], scratchBufBarriers := [] }, vk) pass.images).2 res := by
    intro res
    unfold curLayout
    rw [applyBarriers_vk_layoutCell]
  cases (applyImageAccesses ({ g with scratchImgBarriers := [], scratchBufBarriers := [] }, vk)
      pass.images).1.images[R]? with
  | none => rfl
  | some res => simp [hc]

theorem applyImageAccesses_scratchBufBarriers (l : List ImageAccess)
    (st : RenderGraph × VulkanContext) :
    (applyImageAccesses st l).1.scratchBufBarriers = st.1.scratchBufBarriers := by
  induction l generalizing st with
  | nil => rfl
  | cons a l ih =>
    rw [applyImageAccesses_cons, ih]
    cases hres : st.1.images[a.id]? with
    | none =>
      rw [applyImageAccess_out_of_range st a (List.getElem?_eq_none_iff.mp hres)]
    | some res =>
      rw [applyImageAccess_in_range st a res hres]
      split_ifs <;> rfl

/-- C4, amended. Let `R` be a tracked image of which pass `P1` declares at least one access
and only reads, and of which the next pass `P2` declares only reads. Then an access of `R`
in `P2` that needs no layout change (when the image loop reaches it, the current layout of
`R` is the layout its usage requires) adds no image barrier. Let `R` be a tracked buffer of
which `P1` declares at least one access and only reads, and of which `P2` declares only
reads. Then an access of `R` in `P2` whose stage and access masks are the ones recorded for
`R` when the buffer loop reaches it (a read in the same usage category as the previous one)
adds no buffer barrier. -/
theorem read_then_read_no_barrier :
    (∀ (g : RenderGraph) (vk : VulkanContext) (cmd : Nat) (P1 P2 : Pass) (R : Nat)
        (res0 : ImageResource) (a2 : ImageAccess) (pre2 post2 : List ImageAccess),
      g.images[R]? = some res0 →
      (∃ a ∈ P1.images, a.id = R) →
      (∀ a ∈ P1.images, a.id = R → a.write = false) →
      P2.images = pre2 ++ a2 :: post2 →
      a2.id = R →
      (∀ a ∈ P2.images, a.id = R → a.write = false) →
      currentLayoutOf
          (applyBarriers (applyBarriers g vk cmd P1).1 (applyBarriers g vk cmd P1).2 cmd
            { P2 with images := pre2 }) R =
        some (stagesAccessForImageUse a2.use a2.write).layout →
      (applyBarriers (applyBarriers g vk cmd P1).1 (applyBarriers g vk cmd P1).2 cmd
          { P2 with images := pre2 ++ [a2] }).1.scratchImgBarriers =
        (applyBarriers (applyBarriers g vk cmd P1).1 (applyBarriers g vk cmd P1).2 cmd
          { P2 with images := pre2 }).1.scratchImgBarriers) ∧
    (∀ (g : RenderGraph) (vk : VulkanContext) (cmd : Nat) (P1 P2 : Pass) (R : Nat)
        (res0 : BufferResource) (a2 : BufferAccess) (pre2 post2 : List BufferAccess),
      g.buffers[R]? = some res0 →
      (∃ a ∈ P1.buffers, a.id = R) →
      (∀ a ∈ P1.buffers, a.id = R → a.write = false) →
      P2.buffers = pre2 ++ a2 :: post2 →
      a2.id = R →
      (∀ a ∈ P2.buffers, a.id = R → a.write = false) →
      recordedMasksOf
          (applyBarriers (applyBarriers g vk cmd P1).1 (applyBarriers g vk cmd P1).2 cmd
            { P2 with buffers := pre2 }).1 R =
        some ((stagesAccessForBufferUse a2.use a2.write).stage,
          (stagesAccessForBufferUse a2.use a2.write).access) →
      (applyBarriers (applyBarriers g vk cmd P1).1 (applyBarriers g vk cmd P1).2 cmd
          { P2 with buffers := pre2 ++ [a2] }).1.scratchBufBarriers =
        (applyBarriers (applyBarriers g vk cmd P1).1 (applyBarriers g vk cmd P1).2 cmd
          { P2 with buffers := pre2 }).1.scratchBufBarriers) := by
  refine ⟨?_, ?_⟩
  · intro g vk cmd P1 P2 R res0 a2 pre2 post2 hres he hr h2 ha2 hr2 hlay
    have hq1 : ImageLastAccessIsRead (applyBarriers g vk cmd P1).1 R := by
      have := imageLastAccessIsRead_after_reads P1.images
        ({ g with scratchImgBarriers := [], scratchBufBarriers := [] }, vk) R res0 hres he hr
      unfold ImageLastAccessIsRead at this ⊢
      rw [applyBarriers_images]
      exact this
    have hpre : ∀ a ∈ pre2, a.id = R → a.write = false := by
      intro a ha
      apply hr2
      rw [h2]
      exact List.mem_append_left _ ha
    have ha2r : a2.write = false := by
      apply hr2 a2 _ ha2
      rw [h2]
      exact List.mem_append_right _ (List.mem_cons_self _ _)
    generalize applyBarriers g vk cmd P1 = s1 at hq1 hlay ⊢
    have hq2 := imageLastAccessIsRead_steps pre2
      ({ s1.1 with scratchImgBarriers := [], scratchBufBarriers := [] }, s1.2) R hq1 hpre
    obtain ⟨res, hres2, hnw⟩ := hq2
    rw [currentLayoutOf_applyBarriers] at hlay
    simp only [currentLayoutOf] at hlay
    rw [hres2] at hlay
    simp only [Option.map_some', Option.some.injEq] at hlay
    rw [applyBarriers_scratchImgBarriers, applyBarriers_scratchImgBarriers]
    simp only
    rw [applyImageAccesses_append]
    show (applyImageAccess _ a2).1.scratchImgBarriers = _
    rw [← ha2] at hres2
    rw [applyImageAccess_in_range _ a2 res hres2, if_pos]
    refine ⟨hlay, ?_⟩
    rintro (h | h)
    · exact h hnw
    · apply h
      rw [ha2r]
      exact image_read_access_no_write_bit a2.use
  · intro g vk cmd P1 P2 R res0 a2 pre2 post2 hres he hr h2 ha2 hr2 hmask
    have hq1 : BufferLastAccessIsRead (applyBarriers g vk cmd P1).1 R := by
      have hres' : (applyImageAccesses
          ({ g with scratchImgBarriers := [], scratchBufBarriers := [] }, vk)
          P1.images).1.buffers[R]? = some res0 := by
        rw [applyImageAccesses_buffers]; exact hres
      have := bufferLastAccessIsRead_after_reads P1.buffers _ R res0 hres' he hr
      rw [applyBarriers_graph]
      exact this
    have hpre : ∀ a ∈ pre2, a.id = R → a.write = false := by
      intro a ha
      apply hr2
      rw [h2]
      exact List.mem_append_left _ ha
    have ha2r : a2.write = false := by
      apply hr2 a2 _ ha2
      rw [h2]
      exact List.mem_append_right _ (List.mem_cons_self _ _)
    generalize applyBarriers g vk cmd P1 = s1 at hq1 hmask ⊢
    have hq1' : BufferLastAccessIsRead (applyImageAccesses
        ({ s1.1 with scratchImgBarriers := [], scratchBufBarriers := [] }, s1.2) P2.images).1 R := by
      unfold BufferLastAccessIsRead at hq1 ⊢
      rw [applyImageAccesses_buffers]
      exact hq1
    have hq2 := bufferLastAccessIsRead_steps pre2 _ R hq1' hpre
    obtain ⟨res, hres2, hnw⟩ := hq2
    rw [applyBarriers_graph] at hmask
    simp only [recordedMasksOf] at hmask
    rw [hres2] at hmask
    simp only [Option.map_some', Option.some.injEq, Prod.mk.injEq] at hmask
    rw [applyBarriers_graph, applyBarriers_graph]
    simp only
    rw [applyBufferAccesses_append]
    show (applyBufferAccess _ a2).scratchBufBarriers = _
    rw [← ha2] at hres2
    rw [applyBufferAccess_in_range _ a2 res hres2]
    split_ifs with h0 hc
    · rfl
    · rfl
    · exfalso
      apply hc
      refine ⟨?_, hmask.1, hmask.2⟩
      rintro (h | h)
      · exact h hnw
      · apply h
        rw [ha2r]
        exact buffer_read_access_no_write_bit a2.use

end RenderGraph

namespace RenderGraph

/-- Witness of C4, amended: two consecutive passes that sample the same image. -/
theorem read_then_read_no_barrier_witness :
    sampleGraph.images[(0 : Nat)]? = some sampleImage ∧
    currentLayoutOf
        (applyBarriers
          (applyBarriers sampleGraph sampleContext 11
            (PassBuilder.readImage (Pass.fresh "p1" PassType.Graphics [] none) { id := 0 }
              ImageUse.Sampled)).1
          (applyBarriers sampleGraph sampleContext 11
            (PassBuilder.readImage (Pass.fresh "p1" PassType.Graphics [] none) { id := 0 }
              ImageUse.Sampled)).2
          11
          { PassBuilder.readImage (Pass.fresh "p2" PassType.Graphics [] none) { id := 0 }
              ImageUse.Sampled with images := [] }) 0 =
      some (stagesAccessForImageUse ImageUse.Sampled false).layout ∧
    (applyBarriers
        (applyBarriers sampleGraph sampleContext 11
          (PassBuilder.readImage (Pass.fresh "p1" PassType.Graphics [] none) { id := 0 }
            ImageUse.Sampled)).1
        (applyBarriers sampleGraph sampleContext 11
          (PassBuilder.readImage (Pass.fresh "p1" PassType.Graphics [] none) { id := 0 }
            ImageUse.Sampled)).2
        11
        { PassBuilder.readImage (Pass.fresh "p2" PassType.Graphics [] none) { id := 0 }
            ImageUse.Sampled with
          images := [] ++ [{ id := 0, use := ImageUse.Sampled, write := false }] }).1.scratchImgBarriers =
      (applyBarriers
        (applyBarriers sampleGraph sampleContext 11
          (PassBuilder.readImage (Pass.fresh "p1" PassType.Graphics [] none) { id := 0 }
            ImageUse.Sampled)).1
        (applyBarriers sampleGraph sampleContext 11
          (PassBuilder.readImage (Pass.fresh "p1" PassType.Graphics [] none) { id := 0 }
            ImageUse.Sampled)).2
        11
        { PassBuilder.readImage (Pass.fresh "p2" PassType.Graphics [] none) { id := 0 }
            ImageUse.Sampled with images := [] }).1.scratchImgBarriers :=
  ⟨rfl, by decide, read_then_read_no_barrier.1 sampleGraph sampleContext 11
    (PassBuilder.readImage (Pass.fresh "p1" PassType.Graphics [] none) { id := 0 } ImageUse.Sampled)
    (PassBuilder.readImage (Pass.fresh "p2" PassType.Graphics [] none) { id := 0 } ImageUse.Sampled)
    0 sampleImage { id := 0, use := ImageUse.Sampled, write := false } [] []
    rfl ⟨_, List.mem_singleton_self _, rfl⟩ (by decide) rfl rfl (by decide) (by decide)⟩

end RenderGraph

/-! ## Frame lifecycle: proofs -/

namespace RenderGraph

/-- C9. `begin` returns what `beginFrame` returns (a null command target exactly when
`beginFrame` gives none, and it throws exactly when `beginFrame` throws). When the target is
null, the image table, the buffer table and the pass list are empty. When it is not null,
whatever the graph held before, the image table holds exactly two records, the backbuffer
under handle id 0 and the depth image under handle id 1, both with access mask 0 and with the
layout pointers the device context hands out (`&depthLayout` for depth, the cell of the
acquired swapchain image for the backbuffer, which exists whenever the swapchain has an
image), and the buffer table and the pass list are empty. -/
theorem begin_imports :
    (∀ (g : RenderGraph) (vk : VulkanContext) (dev : VulkanContext.BeginFrameDevice),
      (begin g vk dev).map (fun r => r.1) = (vk.beginFrame dev).map (fun r => r.1)) ∧
    (∀ (g : RenderGraph) (vk : VulkanContext) (dev : VulkanContext.BeginFrameDevice)
        (cmd : Nat) (g1 : RenderGraph) (vk1 : VulkanContext),
      begin g vk dev = some (cmd, g1, vk1) → cmd = VK_NULL_HANDLE →
      g1.images = [] ∧ g1.buffers = [] ∧ g1.passes = []) ∧
    (∀ (g : RenderGraph) (vk : VulkanContext) (dev : VulkanContext.BeginFrameDevice)
        (cmd : Nat) (g1 : RenderGraph) (vk1 : VulkanContext),
      begin g vk dev = some (cmd, g1, vk1) → cmd ≠ VK_NULL_HANDLE →
      ∃ bb d, g1.images = [bb, d] ∧
        g1.backbufferHandle = { id := 0 } ∧ g1.depthHandle = { id := 1 } ∧
        bb.lastAccess = 0 ∧ d.lastAccess = 0 ∧
        bb.image = vk1.currentSwapchainImage ∧ d.image = vk1.depthImage ∧
        bb.externalLayoutPtr = vk1.currentSwapchainImageLayoutPtr ∧
        (vk1.swapImageLayoutCount ≠ 0 →
          bb.externalLayoutPtr = some (LayoutPtr.swapImage vk1.acquiredImage)) ∧
        d.externalLayoutPtr = some LayoutPtr.depth ∧
        g1.buffers = [] ∧ g1.passes = [] ∧ g1.cmdBuf = cmd ∧
        vk.beginFrame dev = some (cmd, vk1)) := by
  refine ⟨?_, ?_, ?_⟩
  · intro g vk dev
    unfold begin
    cases hb : vk.beginFrame dev with
    | none => rfl
    | some r =>
      obtain ⟨cmd, vk1⟩ := r
      by_cases hc : cmd = 0
      · simp [hc, VK_NULL_HANDLE]
      · simp [hc, importDepth, importBackbuffer]
  · intro g vk dev cmd g1 vk1 hb hc
    unfold begin at hb
    cases hbf : vk.beginFrame dev with
    | none => simp [hbf] at hb
    | some r =>
      obtain ⟨c, v⟩ := r
      simp only [hbf] at hb
      by_cases hc0 : c = 0
      · simp only [hc0, if_true, Option.some.injEq, Prod.mk.injEq] at hb
        obtain ⟨_, hg, _⟩ := hb
        subst hg
        exact ⟨rfl, rfl, rfl⟩
      · simp only [hc0, if_false, Option.some.injEq, Prod.mk.injEq] at hb
        obtain ⟨he, _, _⟩ := hb
        exact absurd ((show c = cmd from he).trans hc) hc0
  · intro g vk dev cmd g1 vk1 hb hc
    unfold begin at hb
    cases hbf : vk.beginFrame dev with
    | none => simp [hbf] at hb
    | some r =>
      obtain ⟨c, v⟩ := r
      simp only [hbf] at hb
      by_cases hc0 : c = 0
      · simp only [hc0, if_true, Option.some.injEq, Prod.mk.injEq] at hb
        exact absurd hb.1.symm hc
      · simp only [hc0, if_false, Option.some.injEq, Prod.mk.injEq] at hb
        obtain ⟨he, hg, hv⟩ := hb
        have hce : c = cmd := he
        subst hg hv hce
        refine ⟨_, _, rfl, rfl, rfl, rfl, rfl, rfl, rfl, rfl, ?_, rfl, rfl, rfl, rfl, rfl⟩
        intro hsc
        simp [VulkanContext.currentSwapchainImageLayoutPtr, hsc]

/-- Witness of C9: a frame begun on a context whose device acquires swapchain image 1. -/
theorem begin_imports_witness :
    begin init sampleContext sampleBeginDevice = some (11, sampleFrame.1, sampleFrame.2) ∧
    (11 : Nat) ≠ VK_NULL_HANDLE ∧
    ∃ bb d, sampleFrame.1.images = [bb, d] ∧
      bb.externalLayoutPtr = some (LayoutPtr.swapImage 1) ∧
      d.externalLayoutPtr = some LayoutPtr.depth ∧ bb.lastAccess = 0 ∧ d.lastAccess = 0 := by
  have h := begin_imports.2.2 init sampleContext sampleBeginDevice 11
    sampleFrame.1 sampleFrame.2 rfl (by decide)
  obtain ⟨bb, d, h1, _, _, h4, h5, _, _, _, h9, h10, _⟩ := h
  exact ⟨rfl, by decide, bb, d, h1, h9 (by decide), h10, h4, h5⟩

end RenderGraph

namespace RenderGraph

theorem foldl_preserves {α β γ : Type} (f : β → α → β) (proj : β → γ)
    (h : ∀ b a, proj (f b a) = proj b) (l : List α) (b : β) :
    proj (l.foldl f b) = proj b := by
  induction l generalizing b with
  | nil => rfl
  | cons a l ih => rw [List.foldl_cons, ih, h]

theorem applyImageAccess_staticPart (st : RenderGraph × VulkanContext) (a : ImageAccess) :
    staticPart (applyImageAccess st a).1 = staticPart st.1 := by
  cases hres : st.1.images[a.id]? with
  | none =>
    rw [applyImageAccess_out_of_range st a (List.getElem?_eq_none_iff.mp hres)]
  | some res =>
    rw [applyImageAccess_in_range st a res hres]
    split_ifs <;> rfl

theorem applyBufferAccess_staticPart (g : RenderGraph) (a : BufferAccess) :
    staticPart (applyBufferAccess g a) = staticPart g := by
  cases hres : g.buffers[a.id]? with
  | none =>
    rw [applyBufferAccess_out_of_range g a (List.getElem?_eq_none_iff.mp hres)]
  | some res =>
    rw [applyBufferAccess_in_range g a res hres]
    split_ifs <;> rfl

theorem applyBarriers_staticPart (g : RenderGraph) (vk : VulkanContext) (cmd : Nat) (pass : Pass) :
    staticPart (applyBarriers g vk cmd pass).1 = staticPart g := by
  rw [applyBarriers_graph]
  unfold applyBufferAccesses applyImageAccesses
  rw [foldl_preserves applyBufferAccess staticPart applyBufferAccess_staticPart,
    foldl_preserves applyImageAccess (fun st => staticPart st.1) applyImageAccess_staticPart]
  rfl

theorem applyImageAccess_trace (st : RenderGraph × VulkanContext) (a : ImageAccess) :
    (applyImageAccess st a).2.trace = st.2.trace := by
  cases hres : st.1.images[a.id]? with
  | none =>
    rw [applyImageAccess_out_of_range st a (List.getElem?_eq_none_iff.mp hres)]
  | some res =>
    rw [applyImageAccess_in_range st a res hres]
    split_ifs
    · rfl
    · cases res.externalLayoutPtr <;> rfl

theorem applyBarriers_trace (g : RenderGraph) (vk : VulkanContext) (cmd : Nat) (pass : Pass) :
    (applyBarriers g vk cmd pass).2.trace =
      vk.trace ++ barrierEvents cmd (applyBarriers g vk cmd pass).1.scratchImgBarriers
        (applyBarriers g vk cmd pass).1.scratchBufBarriers := by
  have ht : (applyImageAccesses ({ g with scratchImgBarriers := [], scratchBufBarriers := [] }, vk)
      pass.images).2.trace = vk.trace := by
    unfold applyImageAccesses
    rw [foldl_preserves applyImageAccess (fun st => st.2.trace) applyImageAccess_trace]
  unfold applyBarriers barrierEvents
  simp only
  split_ifs with h
  · simp [ht]
  · simp [ht, VulkanContext.cmdPipelineBarrier2, VulkanContext.record]

theorem applyImageAccess_pointer (st : RenderGraph × VulkanContext) (a : ImageAccess) (i : Nat)
    (res : ImageResource) (hres : st.1.images[i]? = some res) :
    ∃ res1, (applyImageAccess st a).1.images[i]? = some res1 ∧ res1.image = res.image ∧
      res1.externalLayoutPtr = res.externalLayoutPtr := by
  by_cases h : a.id = i
  · subst h
    have hlt := lt_length_of_getElem?_eq_some hres
    rw [applyImageAccess_in_range st a res hres]
    split_ifs
    · exact ⟨_, List.getElem?_set_self hlt, rfl, rfl⟩
    · refine ⟨_, List.getElem?_set_self hlt, ?_, ?_⟩
      · cases res.externalLayoutPtr <;> rfl
      · cases hp : res.externalLayoutPtr
        · simp
        · simp [hp]
  · exact ⟨res, by rw [applyImageAccess_getElem?_ne st a i h, hres], rfl, rfl⟩

theorem applyImageAccesses_pointer (l : List ImageAccess) (st : RenderGraph × VulkanContext)
    (i : Nat) (res : ImageResource) (hres : st.1.images[i]? = some res) :
    ∃ res1, (applyImageAccesses st l).1.images[i]? = some res1 ∧ res1.image = res.image ∧
      res1.externalLayoutPtr = res.externalLayoutPtr := by
  induction l generalizing st res with
  | nil => exact ⟨res, hres, rfl, rfl⟩
  | cons a l ih =>
    obtain ⟨res1, h1, h2, h3⟩ := applyImageAccess_pointer st a i res hres
    obtain ⟨res2, h4, h5, h6⟩ := ih (applyImageAccess st a) res1 h1
    exact ⟨res2, by rw [applyImageAccesses_cons]; exact h4, by rw [h5, h2], by rw [h6, h3]⟩

theorem applyBarriers_backbufferTracked (g : RenderGraph) (vk : VulkanContext) (cmd : Nat)
    (pass : Pass) (c : Nat) (ptr : LayoutPtr) (image : Nat) (h : BackbufferTracked g c ptr image) :
    BackbufferTracked (applyBarriers g vk cmd pass).1 c ptr image := by
  obtain ⟨h1, h2, bb, h3, h4, h5⟩ := h
  have hs := applyBarriers_staticPart g vk cmd pass
  simp only [staticPart, Prod.mk.injEq] at hs
  obtain ⟨res1, h6, h7, h8⟩ := applyImageAccesses_pointer pass.images
    ({ g with scratchImgBarriers := [], scratchBufBarriers := [] }, vk) 0 bb h3
  refine ⟨by rw [hs.1, h1], by rw [hs.2.2.1, h2], res1, ?_, by rw [h8, h4], by rw [h7, h5]⟩
  rw [applyBarriers_images]
  exact h6

end RenderGraph

namespace RenderGraph

theorem executePass_backbufferTracked (dyn : Bool) (st : ExecState) (i : Nat) (c : Nat)
    (ptr : LayoutPtr) (image : Nat) (h : BackbufferTracked st.graph c ptr image) :
    BackbufferTracked (executePass dyn st i).graph c ptr image := by
  unfold executePass
  cases hp : st.graph.passes[i]? with
  | none => exact h
  | some p =>
    have hab := applyBarriers_backbufferTracked st.graph
      (st.vk.cmdBeginLabel st.graph.cmdBuf p.name) st.graph.cmdBuf p c ptr image h
    simp only
    split_ifs <;> exact hab

theorem executePass_staticPart (dyn : Bool) (st : ExecState) (i : Nat) :
    staticPart (executePass dyn st i).graph = staticPart st.graph := by
  unfold executePass
  cases hp : st.graph.passes[i]? with
  | none => rfl
  | some p =>
    have hab := applyBarriers_staticPart st.graph
      (st.vk.cmdBeginLabel st.graph.cmdBuf p.name) st.graph.cmdBuf p
    simp only
    split_ifs <;> exact hab

theorem executeUpTo_succ (g : RenderGraph) (vk : VulkanContext) (n : Nat) :
    executeUpTo g vk (n + 1) = executePass vk.dynamicRenderingEnabled (executeUpTo g vk n) n := by
  unfold executeUpTo
  rw [List.range_succ, List.foldl_append]
  rfl

theorem executeUpTo_backbufferTracked (g : RenderGraph) (vk : VulkanContext) (n : Nat) (c : Nat)
    (ptr : LayoutPtr) (image : Nat) (h : BackbufferTracked g c ptr image) :
    BackbufferTracked (executeUpTo g vk n).graph c ptr image := by
  induction n with
  | zero => exact h
  | succ n ih =>
    rw [executeUpTo_succ]
    exact executePass_backbufferTracked _ _ _ _ _ _ ih

theorem executeUpTo_staticPart (g : RenderGraph) (vk : VulkanContext) (n : Nat) :
    staticPart (executeUpTo g vk n).graph = staticPart g := by
  induction n with
  | zero => rfl
  | succ n ih => rw [executeUpTo_succ, executePass_staticPart, ih]

theorem runFrameStep_backbufferTracked (st : RenderGraph × VulkanContext) (s : FrameStep)
    (c : Nat) (ptr : LayoutPtr) (image : Nat) (h : BackbufferTracked st.1 c ptr image) :
    BackbufferTracked (runFrameStep st s).1 c ptr image := by
  cases s with
  | addPass name type setup exec => exact h
  | importBuffer buffer => exact h
  | execute =>
    unfold runFrameStep execute
    split_ifs
    · exact h
    · exact executeUpTo_backbufferTracked _ _ _ _ _ _ h

theorem runFrameSteps_backbufferTracked (steps : List FrameStep) (st : RenderGraph × VulkanContext)
    (c : Nat) (ptr : LayoutPtr) (image : Nat) (h : BackbufferTracked st.1 c ptr image) :
    BackbufferTracked (runFrameSteps st steps).1 c ptr image := by
  induction steps generalizing st with
  | nil => exact h
  | cons s steps ih =>
    unfold runFrameSteps at ih ⊢
    rw [List.foldl_cons]
    exact ih _ (runFrameStep_backbufferTracked st s c ptr image h)

theorem begin_backbufferTracked (g : RenderGraph) (vk : VulkanContext)
    (dev : VulkanContext.BeginFrameDevice) (cmd : Nat) (g1 : RenderGraph) (vk1 : VulkanContext)
    (hb : begin g vk dev = some (cmd, g1, vk1)) (hc : cmd ≠ VK_NULL_HANDLE)
    (hsc : vk1.swapImageLayoutCount ≠ 0) :
    BackbufferTracked g1 cmd (LayoutPtr.swapImage vk1.acquiredImage) vk1.currentSwapchainImage := by
  unfold begin at hb
  cases hbf : vk.beginFrame dev with
  | none => simp [hbf] at hb
  | some r =>
    obtain ⟨c, v⟩ := r
    simp only [hbf] at hb
    by_cases hc0 : c = 0
    · simp only [hc0, if_true, Option.some.injEq, Prod.mk.injEq] at hb
      exact absurd hb.1.symm hc
    · simp only [hc0, if_false, Option.some.injEq, Prod.mk.injEq] at hb
      obtain ⟨he, hg, hv⟩ := hb
      have hce : c = cmd := he
      subst hg hv hce
      unfold BackbufferTracked
      refine ⟨rfl, rfl, ?_⟩
      simp [importDepth, importBackbuffer, VulkanContext.currentSwapchainImageLayoutPtr, hsc]

theorem endFrame_preserves (vk vk1 : VulkanContext) (dev : VulkanContext.EndFrameDevice)
    (h : vk.endFrame dev = some vk1) :
    vk1.layoutCell = vk.layoutCell ∧ vk1.trace = vk.trace := by
  unfold VulkanContext.endFrame at h
  by_cases h1 : dev.endCommandBufferResult ≠ VK_SUCCESS
  · rw [if_pos h1] at h
    exact absurd h (by simp)
  · rw [if_neg h1] at h
    by_cases h2 : dev.queueSubmitResult ≠ VK_SUCCESS
    · rw [if_pos h2] at h
      exact absurd h (by simp)
    · rw [if_neg h2] at h
      simp only at h
      by_cases h3 : dev.queuePresentResult = VK_ERROR_OUT_OF_DATE_KHR ∨
          dev.queuePresentResult = VK_SUBOPTIMAL_KHR ∨
          dev.queuePresentResult = VK_ERROR_SURFACE_LOST_KHR
      · rw [if_pos h3] at h
        simp only [Option.some.injEq] at h
        subst h
        exact ⟨rfl, rfl⟩
      · rw [if_neg h3] at h
        by_cases h4 : dev.queuePresentResult ≠ VK_SUCCESS
        · rw [if_pos h4] at h
          exact absurd h (by simp)
        · rw [if_neg h4] at h
          simp only [Option.some.injEq] at h
          subst h
          exact ⟨rfl, rfl⟩

theorem queueOwnedDeletions_preserves (g : RenderGraph) (vk : VulkanContext) :
    (queueOwnedDeletions g vk).layoutCell = vk.layoutCell ∧
      (queueOwnedDeletions g vk).trace = vk.trace := by
  have h : (fun v : VulkanContext => (v.layoutCell, v.trace)) (queueOwnedDeletions g vk) =
      (fun v : VulkanContext => (v.layoutCell, v.trace)) vk := by
    unfold queueOwnedDeletions
    simp only
    rw [foldl_preserves _ (fun v : VulkanContext => (v.layoutCell, v.trace))
      (fun v r => by split_ifs <;> rfl)]
    rw [foldl_preserves _ (fun v : VulkanContext => (v.layoutCell, v.trace))
      (fun v r => by split_ifs <;> rfl)]
  simp only [Prod.mk.injEq] at h
  exact h

theorem retirePooled_preserves (g : RenderGraph) (vk : VulkanContext) :
    (retirePooled g vk).layoutCell = vk.layoutCell ∧ (retirePooled g vk).trace = vk.trace := by
  have h : (fun v : VulkanContext => (v.layoutCell, v.trace)) (retirePooled g vk) =
      (fun v : VulkanContext => (v.layoutCell, v.trace)) vk := by
    unfold retirePooled
    simp only
    rw [foldl_preserves _ (fun v : VulkanContext => (v.layoutCell, v.trace))
      (fun v rb => by
        unfold VulkanContext.retireTransientBuffer
        split_ifs <;> rfl)]
    rw [foldl_preserves _ (fun v : VulkanContext => (v.layoutCell, v.trace))
      (fun v ri => by
        unfold VulkanContext.retireTransientImage2D
        split_ifs <;> rfl)]
  simp only [Prod.mk.injEq] at h
  exact h

/-- What `end` leaves of the effect of its call to `applyBarriers`. -/
theorem end_eq_some (g : RenderGraph) (vk : VulkanContext) (dev : VulkanContext.EndFrameDevice)
    (g1 : RenderGraph) (vk1 : VulkanContext) (hc : g.cmdBuf ≠ 0)
    (hlt : g.backbufferHandle.id < g.images.length) (he : «end» g vk dev = some (g1, vk1)) :
    g1 = { (applyBarriers g vk g.cmdBuf (presentPass g.backbufferHandle.id)).1 with
            cmdBuf := VK_NULL_HANDLE } ∧
      vk1.layoutCell =
        (applyBarriers g vk g.cmdBuf (presentPass g.backbufferHandle.id)).2.layoutCell ∧
      vk1.trace = (applyBarriers g vk g.cmdBuf (presentPass g.backbufferHandle.id)).2.trace := by
  unfold «end» at he
  rw [if_neg hc] at he
  simp only [if_pos hlt] at he
  generalize applyBarriers g vk g.cmdBuf (presentPass g.backbufferHandle.id) = ab at he ⊢
  cases hef : (retirePooled ab.1 (queueOwnedDeletions ab.1 ab.2)).endFrame dev with
  | none => simp [hef] at he
  | some vk5 =>
    simp only [hef, Option.some.injEq, Prod.mk.injEq] at he
    obtain ⟨hg, hv5⟩ := he
    subst hg hv5
    obtain ⟨h1, h2⟩ := endFrame_preserves _ vk5 dev hef
    obtain ⟨h3, h4⟩ := retirePooled_preserves ab.1 (queueOwnedDeletions ab.1 ab.2)
    obtain ⟨h5, h6⟩ := queueOwnedDeletions_preserves ab.1 ab.2
    exact ⟨rfl, by rw [h1, h3, h5], by rw [h2, h4, h6]⟩

end RenderGraph

namespace RenderGraph

/-- The effect of the `Present` access `end` declares for the backbuffer. -/
theorem applyBarriers_presentPass (g : RenderGraph) (vk : VulkanContext) (cmd : Nat) (id : Nat)
    (bb : ImageResource) (hbb : g.images[id]? = some bb) :
    (∃ bb1, (applyBarriers g vk cmd (presentPass id)).1.images[id]? = some bb1 ∧
      curLayout (applyBarriers g vk cmd (presentPass id)).2 bb1 = VK_IMAGE_LAYOUT_PRESENT_SRC_KHR ∧
      bb1.externalLayoutPtr = bb.externalLayoutPtr) ∧
    (curLayout vk bb ≠ VK_IMAGE_LAYOUT_PRESENT_SRC_KHR →
      (applyBarriers g vk cmd (presentPass id)).1.scratchImgBarriers =
        [{ srcStageMask := bb.lastStage
           srcAccessMask := bb.lastAccess
           dstStageMask := VK_PIPELINE_STAGE_2_BOTTOM_OF_PIPE_BIT
           dstAccessMask := 0
           oldLayout := curLayout vk bb
           newLayout := VK_IMAGE_LAYOUT_PRESENT_SRC_KHR
           image := bb.image
           aspectMask := VK_IMAGE_ASPECT_COLOR_BIT }] ∧
      (applyBarriers g vk cmd (presentPass id)).2.trace = vk.trace ++
        [Event.cmdPipelineBarrier2 cmd
          [{ srcStageMask := bb.lastStage
             srcAccessMask := bb.lastAccess
             dstStageMask := VK_PIPELINE_STAGE_2_BOTTOM_OF_PIPE_BIT
             dstAccessMask := 0
             oldLayout := curLayout vk bb
             newLayout := VK_IMAGE_LAYOUT_PRESENT_SRC_KHR
             image := bb.image
             aspectMask := VK_IMAGE_ASPECT_COLOR_BIT }] []]) := by
  have hg : (applyBarriers g vk cmd (presentPass id)).1 =
      (applyImageAccess ({ g with scratchImgBarriers := [], scratchBufBarriers := [] }, vk)
        { id := id, use := ImageUse.Present, write := false }).1 := by
    rw [applyBarriers_graph]; rfl
  have hl : (applyBarriers g vk cmd (presentPass id)).2.layoutCell =
      (applyImageAccess ({ g with scratchImgBarriers := [], scratchBufBarriers := [] }, vk)
        { id := id, use := ImageUse.Present, write := false }).2.layoutCell := by
    rw [applyBarriers_vk_layoutCell]; rfl
  have ht := applyBarriers_trace g vk cmd (presentPass id)
  have hsb : (applyBarriers g vk cmd (presentPass id)).1.scratchBufBarriers = [] := by
    rw [hg]
    exact applyImageAccesses_scratchBufBarriers
      [{ id := id, use := ImageUse.Present, write := false }]
      ({ g with scratchImgBarriers := [], scratchBufBarriers := [] }, vk)
  have hlt := lt_length_of_getElem?_eq_some hbb
  have hstep := applyImageAccess_in_range
    ({ g with scratchImgBarriers := [], scratchBufBarriers := [] }, vk)
    { id := id, use := ImageUse.Present, write := false } bb hbb
  refine ⟨?_, ?_⟩
  · rw [hg]
    have hcur : ∀ r, curLayout (applyBarriers g vk cmd (presentPass id)).2 r =
        curLayout (applyImageAccess ({ g with scratchImgBarriers := [], scratchBufBarriers := [] }, vk)
          { id := id, use := ImageUse.Present, write := false }).2 r := by
      intro r
      unfold curLayout
      rw [hl]
    simp only [hcur]
    rw [hstep]
    split_ifs with hc
    · refine ⟨_, List.getElem?_set_self hlt, ?_, rfl⟩
      have := hc.1
      simpa [curLayout] using this
    · refine ⟨_, List.getElem?_set_self hlt, ?_, ?_⟩
      · cases hp : bb.externalLayoutPtr with
        | none => simp [curLayout, hp, stagesAccessForImageUse]
        | some p => simp [curLayout, hp, VulkanContext.storeLayout, stagesAccessForImageUse]
      · cases hp : bb.externalLayoutPtr with
        | none => simp
        | some p => simp [hp]
  · intro hne
    have hcond : ¬ (curLayout vk bb = (stagesAccessForImageUse ImageUse.Present false).layout ∧
        ¬ (bb.lastAccess &&& imageWriteBits ≠ 0 ∨
            (stagesAccessForImageUse ImageUse.Present false).access &&& imageWriteBits ≠ 0)) := by
      rintro ⟨h, _⟩
      exact hne h
    rw [if_neg hcond] at hstep
    have hsi : (applyBarriers g vk cmd (presentPass id)).1.scratchImgBarriers =
        [{ srcStageMask := bb.lastStage
           srcAccessMask := bb.lastAccess
           dstStageMask := VK_PIPELINE_STAGE_2_BOTTOM_OF_PIPE_BIT
           dstAccessMask := 0
           oldLayout := curLayout vk bb
           newLayout := VK_IMAGE_LAYOUT_PRESENT_SRC_KHR
           image := bb.image
           aspectMask := VK_IMAGE_ASPECT_COLOR_BIT }] := by
      rw [hg, hstep]
      rfl
    refine ⟨hsi, ?_⟩
    rw [ht, hsi, hsb]
    rfl

theorem endFrame_isSome (vk : VulkanContext) (dev : VulkanContext.EndFrameDevice)
    (h1 : dev.endCommandBufferResult = VK_SUCCESS) (h2 : dev.queueSubmitResult = VK_SUCCESS)
    (h3 : dev.queuePresentResult = VK_SUCCESS) : (vk.endFrame dev).isSome = true := by
  unfold VulkanContext.endFrame
  simp [h1, h2, h3, VK_SUCCESS, VK_ERROR_OUT_OF_DATE_KHR, VK_SUBOPTIMAL_KHR,
    VK_ERROR_SURFACE_LOST_KHR]

/-- C10. Let `end` be called on a graph in a begun frame whose backbuffer handle names a
tracked record, and let it return. Then the current layout of the backbuffer is
`PRESENT_SRC`, and if it was not before, `end` issued exactly one synchronization call,
carrying exactly one image barrier, for the backbuffer image, from the layout the backbuffer
was in to `PRESENT_SRC`. In particular, for a frame that `begin` opened on a swapchain with
at least one image, followed by any sequence of pass declarations, buffer imports and
`execute` calls, `end` leaves `PRESENT_SRC` in the layout cell of the acquired swapchain
image, and the old layout of the barrier is the content the last step left in that cell.
`end` returns whenever the device reports success. -/
theorem end_presents_backbuffer :
    (∀ (g : RenderGraph) (vk : VulkanContext) (dev : VulkanContext.EndFrameDevice)
        (bb : ImageResource) (g1 : RenderGraph) (vk1 : VulkanContext),
      g.cmdBuf ≠ 0 → g.images[g.backbufferHandle.id]? = some bb →
      «end» g vk dev = some (g1, vk1) →
      (∃ bb1, g1.images[g.backbufferHandle.id]? = some bb1 ∧
        curLayout vk1 bb1 = VK_IMAGE_LAYOUT_PRESENT_SRC_KHR ∧
        bb1.externalLayoutPtr = bb.externalLayoutPtr) ∧
      (curLayout vk bb ≠ VK_IMAGE_LAYOUT_PRESENT_SRC_KHR →
        g1.scratchImgBarriers =
          [{ srcStageMask := bb.lastStage
             srcAccessMask := bb.lastAccess
             dstStageMask := VK_PIPELINE_STAGE_2_BOTTOM_OF_PIPE_BIT
             dstAccessMask := 0
             oldLayout := curLayout vk bb
             newLayout := VK_IMAGE_LAYOUT_PRESENT_SRC_KHR
             image := bb.image
             aspectMask := VK_IMAGE_ASPECT_COLOR_BIT }] ∧
        vk1.trace = vk.trace ++ [Event.cmdPipelineBarrier2 g.cmdBuf g1.scratchImgBarriers []])) ∧
    (∀ (g0 : RenderGraph) (vk0 : VulkanContext) (bdev : VulkanContext.BeginFrameDevice)
        (cmd : Nat) (g1 : RenderGraph) (vk1 : VulkanContext) (steps : List FrameStep)
        (edev : VulkanContext.EndFrameDevice) (g3 : RenderGraph) (vk3 : VulkanContext),
      begin g0 vk0 bdev = some (cmd, g1, vk1) → cmd ≠ VK_NULL_HANDLE →
      vk1.swapImageLayoutCount ≠ 0 →
      «end» (runFrameSteps (g1, vk1) steps).1 (runFrameSteps (g1, vk1) steps).2 edev =
        some (g3, vk3) →
      vk3.layoutCell (LayoutPtr.swapImage vk1.acquiredImage) = VK_IMAGE_LAYOUT_PRESENT_SRC_KHR ∧
      ((runFrameSteps (g1, vk1) steps).2.layoutCell (LayoutPtr.swapImage vk1.acquiredImage) ≠
          VK_IMAGE_LAYOUT_PRESENT_SRC_KHR →
        ∃ b, g3.scratchImgBarriers = [b] ∧
          vk3.trace = (runFrameSteps (g1, vk1) steps).2.trace ++
            [Event.cmdPipelineBarrier2 cmd [b] []] ∧
          b.newLayout = VK_IMAGE_LAYOUT_PRESENT_SRC_KHR ∧
          b.oldLayout =
            (runFrameSteps (g1, vk1) steps).2.layoutCell (LayoutPtr.swapImage vk1.acquiredImage) ∧
          b.image = vk1.currentSwapchainImage)) ∧
    (∀ (g : RenderGraph) (vk : VulkanContext) (dev : VulkanContext.EndFrameDevice),
      dev.endCommandBufferResult = VK_SUCCESS → dev.queueSubmitResult = VK_SUCCESS →
      dev.queuePresentResult = VK_SUCCESS → («end» g vk dev).isSome = true) := by
  have hA : ∀ (g : RenderGraph) (vk : VulkanContext) (dev : VulkanContext.EndFrameDevice)
      (bb : ImageResource) (g1 : RenderGraph) (vk1 : VulkanContext),
      g.cmdBuf ≠ 0 → g.images[g.backbufferHandle.id]? = some bb →
      «end» g vk dev = some (g1, vk1) →
      (∃ bb1, g1.images[g.backbufferHandle.id]? = some bb1 ∧
        curLayout vk1 bb1 = VK_IMAGE_LAYOUT_PRESENT_SRC_KHR ∧
        bb1.externalLayoutPtr = bb.externalLayoutPtr) ∧
      (curLayout vk bb ≠ VK_IMAGE_LAYOUT_PRESENT_SRC_KHR →
        g1.scratchImgBarriers =
          [{ srcStageMask := bb.lastStage
             srcAccessMask := bb.lastAccess
             dstStageMask := VK_PIPELINE_STAGE_2_BOTTOM_OF_PIPE_BIT
             dstAccessMask := 0
             oldLayout := curLayout vk bb
             newLayout := VK_IMAGE_LAYOUT_PRESENT_SRC_KHR
             image := bb.image
             aspectMask := VK_IMAGE_ASPECT_COLOR_BIT }] ∧
        vk1.trace = vk.trace ++ [Event.cmdPipelineBarrier2 g.cmdBuf g1.scratchImgBarriers []]) := by
    intro g vk dev bb g1 vk1 hc hbb he
    obtain ⟨hg, hl, ht⟩ := end_eq_some g vk dev g1 vk1 hc (lt_length_of_getElem?_eq_some hbb) he
    obtain ⟨⟨bb1, h1, h2, h3⟩, h4⟩ := applyBarriers_presentPass g vk g.cmdBuf _ bb hbb
    refine ⟨⟨bb1, by rw [hg]; exact h1, ?_, h3⟩, ?_⟩
    · rw [← h2]
      unfold curLayout
      rw [hl]
    · intro hne
      obtain ⟨h5, h6⟩ := h4 hne
      have hs : g1.scratchImgBarriers =
          (applyBarriers g vk g.cmdBuf (presentPass g.backbufferHandle.id)).1.scratchImgBarriers := by
        rw [hg]
      exact ⟨by rw [hs, h5], by rw [ht, h6, hs, h5]⟩
  refine ⟨hA, ?_, ?_⟩
  · intro g0 vk0 bdev cmd g1 vk1 steps edev g3 vk3 hb hc hsc he
    have hinv := runFrameSteps_backbufferTracked steps (g1, vk1) cmd
      (LayoutPtr.swapImage vk1.acquiredImage) vk1.currentSwapchainImage
      (begin_backbufferTracked g0 vk0 bdev cmd g1 vk1 hb hc hsc)
    obtain ⟨h1, h2, bb, h3, h4, h5⟩ := hinv
    have hbb : (runFrameSteps (g1, vk1) steps).1.images[
        (runFrameSteps (g1, vk1) steps).1.backbufferHandle.id]? = some bb := by
      rw [h2]; exact h3
    have hc2 : (runFrameSteps (g1, vk1) steps).1.cmdBuf ≠ 0 := by
      rw [h1]; exact hc
    obtain ⟨⟨bb1, h6, h7, h8⟩, h9⟩ := hA _ _ edev bb g3 vk3 hc2 hbb he
    have hcur : curLayout (runFrameSteps (g1, vk1) steps).2 bb =
        (runFrameSteps (g1, vk1) steps).2.layoutCell (LayoutPtr.swapImage vk1.acquiredImage) := by
      simp [curLayout, h4]
    refine ⟨?_, ?_⟩
    · rw [← h7]
      simp [curLayout, h8, h4]
    · intro hne
      rw [← hcur] at hne
      obtain ⟨h10, h11⟩ := h9 hne
      refine ⟨_, h10, ?_, rfl, hcur, h5⟩
      rw [h11, h10, h1]
  · intro g vk dev h1 h2 h3
    unfold «end»
    by_cases hc : g.cmdBuf = 0
    · rw [if_pos hc]
      rfl
    · rw [if_neg hc]
      simp only
      generalize (if g.backbufferHandle.id < g.images.length then
        applyBarriers g vk g.cmdBuf (presentPass g.backbufferHandle.id) else (g, vk)) = ab
      have := endFrame_isSome (retirePooled ab.1 (queueOwnedDeletions ab.1 ab.2)) dev h1 h2 h3
      cases hef : (retirePooled ab.1 (queueOwnedDeletions ab.1 ab.2)).endFrame dev with
      | none =>
        rw [hef] at this
        exact absurd this (by simp)
      | some v => rfl

end RenderGraph

namespace RenderGraph

/-- Witness of C10: the sample frame, whose last pass leaves the backbuffer in the colour
attachment layout. -/
theorem end_presents_backbuffer_witness :
    begin init sampleContext sampleBeginDevice = some (11, sampleFrame.1, sampleFrame.2) ∧
    (11 : Nat) ≠ VK_NULL_HANDLE ∧
    sampleFrame.2.swapImageLayoutCount ≠ 0 ∧
    «end» (runFrameSteps (sampleFrame.1, sampleFrame.2) sampleSteps).1
        (runFrameSteps (sampleFrame.1, sampleFrame.2) sampleSteps).2 sampleEndDevice =
      some (sampleEndedFrame.1, sampleEndedFrame.2) ∧
    sampleExecutedFrame.2.layoutCell (LayoutPtr.swapImage 1) =
      VK_IMAGE_LAYOUT_COLOR_ATTACHMENT_OPTIMAL ∧
    sampleEndedFrame.2.layoutCell (LayoutPtr.swapImage 1) = VK_IMAGE_LAYOUT_PRESENT_SRC_KHR :=
  ⟨rfl, by decide, by decide, rfl, by decide,
    (end_presents_backbuffer.2.1 init sampleContext sampleBeginDevice 11 sampleFrame.1
      sampleFrame.2 sampleSteps sampleEndDevice sampleEndedFrame.1 sampleEndedFrame.2
      rfl (by decide) (by decide) rfl).1⟩

end RenderGraph

/-! ## Execution order: proofs -/

namespace RenderGraph

theorem invokeExec_trace (vk : VulkanContext) (p : Pass) (cmd : Nat) :
    (invokeExec vk p cmd).trace = vk.trace ++ p.exec.toList.map fun cb => Event.exec cb cmd := by
  unfold invokeExec
  cases p.exec <;> simp [VulkanContext.record]

theorem beginMainPass_trace (vk : VulkanContext) (cmd : Nat) :
    (vk.beginMainPass cmd).trace = vk.trace ++ [Event.beginMainPass cmd] := by
  unfold VulkanContext.beginMainPass
  split_ifs <;> rfl

theorem filterMap_eq_nil_of_forall {α β : Type} (f : α → Option β) (l : List α)
    (h : ∀ e ∈ l, f e = none) : l.filterMap f = [] := by
  induction l with
  | nil => rfl
  | cons a l ih =>
    rw [List.filterMap_cons, h a (List.mem_cons_self _ _)]
    exact ih (fun e he => h e (List.mem_cons_of_mem _ he))

theorem filter_eq_nil_of_forall {α : Type} (f : α → Bool) (l : List α)
    (h : ∀ e ∈ l, f e = false) : l.filter f = [] := by
  induction l with
  | nil => rfl
  | cons a l ih =>
    rw [List.filter_cons_of_neg (by rw [h a (List.mem_cons_self _ _)]; simp)]
    exact ih (fun e he => h e (List.mem_cons_of_mem _ he))

theorem barrierEvents_isBarrier (cmd : Nat) (ib : List VkImageMemoryBarrier2)
    (bb : List VkBufferMemoryBarrier2) :
    (∀ e ∈ barrierEvents cmd ib bb, isBarrierEvent e = true ∧ execCallbackOf e = none) ∧
      (barrierEvents cmd ib bb).length ≤ 1 := by
  unfold barrierEvents
  split_ifs
  · simp
  · simp [isBarrierEvent, execCallbackOf]

/-- The events one iteration of the loop of `execute` appends to the trace. -/
theorem executePass_trace (dyn : Bool) (st : ExecState) (i : Nat) (p : Pass)
    (hp : st.graph.passes[i]? = some p) :
    ∃ mid post,
      (executePass dyn st i).vk.trace =
        st.vk.trace ++
          ([Event.cmdBeginLabel st.graph.cmdBuf p.name] ++
            barrierEvents st.graph.cmdBuf
              (applyBarriers st.graph (st.vk.cmdBeginLabel st.graph.cmdBuf p.name)
                st.graph.cmdBuf p).1.scratchImgBarriers
              (applyBarriers st.graph (st.vk.cmdBeginLabel st.graph.cmdBuf p.name)
                st.graph.cmdBuf p).1.scratchBufBarriers ++ mid) ++
          (p.exec.toList.map fun cb => Event.exec cb st.graph.cmdBuf) ++ post ∧
      (∀ e ∈ mid, isBarrierEvent e = false ∧ execCallbackOf e = none) ∧
      (∀ e ∈ post, isBarrierEvent e = false ∧ execCallbackOf e = none) := by
  have hab := applyBarriers_trace st.graph (st.vk.cmdBeginLabel st.graph.cmdBuf p.name)
    st.graph.cmdBuf p
  have hbl : (st.vk.cmdBeginLabel st.graph.cmdBuf p.name).trace =
      st.vk.trace ++ [Event.cmdBeginLabel st.graph.cmdBuf p.name] := rfl
  rw [hbl] at hab
  unfold executePass
  simp only [hp]
  generalize applyBarriers st.graph (st.vk.cmdBeginLabel st.graph.cmdBuf p.name)
    st.graph.cmdBuf p = AB at hab ⊢
  by_cases hty : p.type = PassType.Graphics
  · simp only [hty, if_true]
    by_cases hdyn : dyn = true
    · simp only [hdyn, if_true]
      refine ⟨[Event.beginRendering st.graph.cmdBuf (colorAttachmentInfos AB.1 p)
          (depthAttachmentInfo { AB.1 with scratchColorAtts := colorAttachmentInfos AB.1 p } p)],
        [Event.endRendering st.graph.cmdBuf, Event.cmdEndLabel st.graph.cmdBuf], ?_, ?_, ?_⟩
      · simp only [VulkanContext.cmdEndLabel, VulkanContext.endRendering, VulkanContext.record,
          invokeExec_trace, VulkanContext.beginRendering, hab, List.append_assoc,
          List.cons_append, List.nil_append]
      · intro e he
        rw [List.mem_singleton] at he
        subst he
        exact ⟨rfl, rfl⟩
      · intro e he
        simp only [List.mem_cons, List.mem_singleton, List.not_mem_nil, or_false] at he
        rcases he with he | he <;> subst he <;> exact ⟨rfl, rfl⟩
    · simp only [hdyn, if_false]
      by_cases hopen : st.legacyRenderPassOpen = true
      · by_cases hnext : (match AB.1.passes[i + 1]? with
            | some q => decide (q.type = PassType.Graphics)
            | none => false) = true
        · refine ⟨[], [Event.cmdEndLabel st.graph.cmdBuf], ?_, ?_, ?_⟩
          · simp only [hopen, hnext, Bool.not_true, if_false, Bool.false_eq_true]
            simp only [VulkanContext.cmdEndLabel, VulkanContext.record, invokeExec_trace, hab,
              List.append_assoc, List.cons_append, List.nil_append, List.append_nil]
          · intro e he
            exact absurd he (List.not_mem_nil e)
          · intro e he
            rw [List.mem_singleton] at he
            subst he
            exact ⟨rfl, rfl⟩
        · refine ⟨[], [Event.endMainPass st.graph.cmdBuf, Event.cmdEndLabel st.graph.cmdBuf],
            ?_, ?_, ?_⟩
          · simp only [hopen, hnext, Bool.not_true, Bool.not_false, if_false, if_true,
              Bool.false_eq_true]
            simp only [VulkanContext.cmdEndLabel, VulkanContext.endMainPass, VulkanContext.record,
              invokeExec_trace, hab, List.append_assoc, List.cons_append, List.nil_append,
              List.append_nil]
          · intro e he
            exact absurd he (List.not_mem_nil e)
          · intro e he
            simp only [List.mem_cons, List.mem_singleton, List.not_mem_nil, or_false] at he
            rcases he with he | he <;> subst he <;> exact ⟨rfl, rfl⟩
      · by_cases hnext : (match AB.1.passes[i + 1]? with
            | some q => decide (q.type = PassType.Graphics)
            | none => false) = true
        · refine ⟨[Event.beginMainPass st.graph.cmdBuf], [Event.cmdEndLabel st.graph.cmdBuf],
            ?_, ?_, ?_⟩
          · simp only [hopen, hnext, Bool.not_true, Bool.not_false, if_false, if_true,
              Bool.false_eq_true]
            simp only [VulkanContext.cmdEndLabel, VulkanContext.record, invokeExec_trace,
              beginMainPass_trace, hab, List.append_assoc, List.cons_append, List.nil_append,
              List.append_nil]
          · intro e he
            rw [List.mem_singleton] at he
            subst he
            exact ⟨rfl, rfl⟩
          · intro e he
            rw [List.mem_singleton] at he
            subst he
            exact ⟨rfl, rfl⟩
        · refine ⟨[Event.beginMainPass st.graph.cmdBuf],
            [Event.endMainPass st.graph.cmdBuf, Event.cmdEndLabel st.graph.cmdBuf], ?_, ?_, ?_⟩
          · simp only [hopen, hnext, Bool.not_true, Bool.not_false, if_false, if_true,
              Bool.false_eq_true]
            simp only [VulkanContext.cmdEndLabel, VulkanContext.endMainPass, VulkanContext.record,
              invokeExec_trace, beginMainPass_trace, hab, List.append_assoc, List.cons_append,
              List.nil_append, List.append_nil]
          · intro e he
            rw [List.mem_singleton] at he
            subst he
            exact ⟨rfl, rfl⟩
          · intro e he
            simp only [List.mem_cons, List.mem_singleton, List.not_mem_nil, or_false] at he
            rcases he with he | he <;> subst he <;> exact ⟨rfl, rfl⟩
  · simp only [hty, if_false]
    refine ⟨[], [Event.cmdEndLabel st.graph.cmdBuf], ?_, ?_, ?_⟩
    · simp only [VulkanContext.cmdEndLabel, VulkanContext.record, invokeExec_trace, hab,
        List.append_assoc, List.cons_append, List.nil_append, List.append_nil]
    · intro e he
      exact absurd he (List.not_mem_nil e)
    · intro e he
      rw [List.mem_singleton] at he
      subst he
      exact ⟨rfl, rfl⟩

end RenderGraph

namespace RenderGraph

theorem executeUpTo_passes (g : RenderGraph) (vk : VulkanContext) (n : Nat) :
    (executeUpTo g vk n).graph.passes = g.passes ∧ (executeUpTo g vk n).graph.cmdBuf = g.cmdBuf := by
  have h := executeUpTo_staticPart g vk n
  simp only [staticPart, Prod.mk.injEq] at h
  exact ⟨h.2.1, h.1⟩

theorem executePass_trace_execs (dyn : Bool) (st : ExecState) (i : Nat) (p : Pass)
    (hp : st.graph.passes[i]? = some p) :
    ∃ pre post,
      (executePass dyn st i).vk.trace =
        st.vk.trace ++ pre ++ (p.exec.toList.map fun cb => Event.exec cb st.graph.cmdBuf) ++
          post ∧
      (∀ e ∈ pre, execCallbackOf e = none) ∧ (∀ e ∈ post, execCallbackOf e = none) := by
  obtain ⟨mid, post, h3, h4, h5⟩ := executePass_trace dyn st i p hp
  refine ⟨_, post, h3, ?_, fun e he => (h5 e he).2⟩
  intro e he
  rcases List.mem_append.mp he with he | he
  · rcases List.mem_append.mp he with he | he
    · rw [List.mem_singleton] at he
      subst he
      rfl
    · exact ((barrierEvents_isBarrier _ _ _).1 e he).2
  · exact (h4 e he).2

/-- The exec callbacks the first `n` iterations of the loop of `execute` invoke. -/
theorem executeUpTo_execs (g : RenderGraph) (vk : VulkanContext) (n : Nat) :
    ∃ new, (executeUpTo g vk n).vk.trace = vk.trace ++ new ∧
      new.filterMap execCallbackOf = (g.passes.take n).filterMap fun p => p.exec := by
  induction n with
  | zero => exact ⟨[], by simp [executeUpTo], by simp⟩
  | succ n ih =>
    obtain ⟨new, h1, h2⟩ := ih
    rw [executeUpTo_succ]
    cases hp : g.passes[n]? with
    | none =>
      have hp' : (executeUpTo g vk n).graph.passes[n]? = none := by
        rw [(executeUpTo_passes g vk n).1]; exact hp
      refine ⟨new, ?_, ?_⟩
      · unfold executePass
        simp only [hp']
        exact h1
      · rw [h2, List.take_succ, hp]
        simp
    | some p =>
      have hp' : (executeUpTo g vk n).graph.passes[n]? = some p := by
        rw [(executeUpTo_passes g vk n).1]; exact hp
      obtain ⟨pre, post, h3, h4, h5⟩ :=
        executePass_trace_execs vk.dynamicRenderingEnabled (executeUpTo g vk n) n p hp'
      refine ⟨new ++ (pre ++
          (p.exec.toList.map fun cb => Event.exec cb (executeUpTo g vk n).graph.cmdBuf) ++ post),
        ?_, ?_⟩
      · rw [h3, h1]
        simp only [List.append_assoc]
      · rw [List.take_succ, hp]
        simp only [List.filterMap_append, h2]
        rw [filterMap_eq_nil_of_forall execCallbackOf pre h4,
          filterMap_eq_nil_of_forall execCallbackOf post h5]
        cases hpe : p.exec <;> simp [execCallbackOf, hpe]

/-- C8, as stated, fails on a graph whose frame was not begun: `execute` returns at once and
invokes no callback of the declared passes. -/
theorem execute_without_frame_invokes_nothing :
    ((addPass init "cull" PassType.Compute [] (some 7)).passes.map fun p => p.exec) = [some 7] ∧
    (addPass init "cull" PassType.Compute [] (some 7)).cmdBuf = VK_NULL_HANDLE ∧
    (execute (addPass init "cull" PassType.Compute [] (some 7)) sampleContext).2.trace =
      sampleContext.trace := by
  decide

/-- C8, amended. In a begun frame (the command target of the graph is not null), `execute`
invokes the exec callbacks of the declared passes, each once, in declaration order (a pass
with an empty callback has none to invoke). Iteration `i` of its loop appends to the trace
the events of pass `i` only: first events that invoke no callback, among which the only
synchronization call is the one `applyBarriers` issues for the pass (none when the pass
needs no barrier, else one call carrying all image and buffer barriers of the pass), then
the invocation of the pass's callback, then events that are neither synchronization calls
nor callbacks. On a graph whose command target is null, `execute` does nothing. -/
theorem execute_order :
    (∀ (g : RenderGraph) (vk : VulkanContext), g.cmdBuf ≠ 0 →
      (execute g vk = ((executeUpTo g vk g.passes.length).graph,
          (executeUpTo g vk g.passes.length).vk)) ∧
      (executeUpTo g vk 0).vk.trace = vk.trace ∧
      (∃ new, (execute g vk).2.trace = vk.trace ++ new ∧
        new.filterMap execCallbackOf = g.passes.filterMap fun p => p.exec) ∧
      (∀ (i : Nat) (p : Pass), g.passes[i]? = some p →
        ∃ pre post,
          (executeUpTo g vk (i + 1)).vk.trace =
            (executeUpTo g vk i).vk.trace ++ pre ++
              (p.exec.toList.map fun cb => Event.exec cb g.cmdBuf) ++ post ∧
          pre.filter isBarrierEvent =
            barrierEvents g.cmdBuf
              (applyBarriers (executeUpTo g vk i).graph
                ((executeUpTo g vk i).vk.cmdBeginLabel g.cmdBuf p.name) g.cmdBuf
                p).1.scratchImgBarriers
              (applyBarriers (executeUpTo g vk i).graph
                ((executeUpTo g vk i).vk.cmdBeginLabel g.cmdBuf p.name) g.cmdBuf
                p).1.scratchBufBarriers ∧
          (pre.filter isBarrierEvent).length ≤ 1 ∧
          (∀ e ∈ pre, execCallbackOf e = none) ∧
          (∀ e ∈ post, isBarrierEvent e = false ∧ execCallbackOf e = none))) ∧
    (∀ (g : RenderGraph) (vk : VulkanContext), g.cmdBuf = 0 → execute g vk = (g, vk)) := by
  refine ⟨?_, ?_⟩
  · intro g vk hc
    have hex : execute g vk = ((executeUpTo g vk g.passes.length).graph,
        (executeUpTo g vk g.passes.length).vk) := by
      unfold execute
      rw [if_neg hc]
    refine ⟨hex, rfl, ?_, ?_⟩
    · obtain ⟨new, h1, h2⟩ := executeUpTo_execs g vk g.passes.length
      refine ⟨new, by rw [hex]; exact h1, ?_⟩
      rw [h2, List.take_length]
    · intro i p hp
      obtain ⟨hps, hcb⟩ := executeUpTo_passes g vk i
      have hp' : (executeUpTo g vk i).graph.passes[i]? = some p := by
        rw [hps]; exact hp
      obtain ⟨mid, post, h3, h4, h5⟩ :=
        executePass_trace vk.dynamicRenderingEnabled (executeUpTo g vk i) i p hp'
      rw [hcb] at h3
      obtain ⟨hb1, hb2⟩ := barrierEvents_isBarrier g.cmdBuf
        (applyBarriers (executeUpTo g vk i).graph
          ((executeUpTo g vk i).vk.cmdBeginLabel g.cmdBuf p.name) g.cmdBuf p).1.scratchImgBarriers
        (applyBarriers (executeUpTo g vk i).graph
          ((executeUpTo g vk i).vk.cmdBeginLabel g.cmdBuf p.name) g.cmdBuf p).1.scratchBufBarriers
      have hfilter : ([Event.cmdBeginLabel g.cmdBuf p.name] ++
            barrierEvents g.cmdBuf
              (applyBarriers (executeUpTo g vk i).graph
                ((executeUpTo g vk i).vk.cmdBeginLabel g.cmdBuf p.name) g.cmdBuf
                p).1.scratchImgBarriers
              (applyBarriers (executeUpTo g vk i).graph
                ((executeUpTo g vk i).vk.cmdBeginLabel g.cmdBuf p.name) g.cmdBuf
                p).1.scratchBufBarriers ++ mid).filter isBarrierEvent =
          barrierEvents g.cmdBuf
              (applyBarriers (executeUpTo g vk i).graph
                ((executeUpTo g vk i).vk.cmdBeginLabel g.cmdBuf p.name) g.cmdBuf
                p).1.scratchImgBarriers
              (applyBarriers (executeUpTo g vk i).graph
                ((executeUpTo g vk i).vk.cmdBeginLabel g.cmdBuf p.name) g.cmdBuf
                p).1.scratchBufBarriers := by
        rw [List.filter_append, List.filter_append,
          filter_eq_nil_of_forall isBarrierEvent mid (fun e he => (h4 e he).1),
          List.append_nil]
        rw [List.filter_eq_self.mpr (fun e he => (hb1 e he).1)]
        rfl
      refine ⟨_, post, ?_, hfilter, ?_, ?_, h5⟩
      · rw [executeUpTo_succ, h3]
      · rw [hfilter]
        exact hb2
      · intro e he
        rcases List.mem_append.mp he with he | he
        · rcases List.mem_append.mp he with he | he
          · rw [List.mem_singleton] at he
            subst he
            rfl
          · exact (hb1 e he).2
        · exact (h4 e he).2
  · intro g vk hc
    unfold execute
    rw [if_pos hc]

/-- Witness of C8, amended: the sample frame with its two declared passes. -/
theorem execute_order_witness :
    (runFrameSteps sampleFrame (sampleSteps.take 3)).1.cmdBuf ≠ 0 ∧
    ∃ new,
      (execute (runFrameSteps sampleFrame (sampleSteps.take 3)).1
          (runFrameSteps sampleFrame (sampleSteps.take 3)).2).2.trace =
        (runFrameSteps sampleFrame (sampleSteps.take 3)).2.trace ++ new ∧
      new.filterMap execCallbackOf =
        (runFrameSteps sampleFrame (sampleSteps.take 3)).1.passes.filterMap fun p => p.exec :=
  ⟨by decide, (execute_order.1 (runFrameSteps sampleFrame (sampleSteps.take 3)).1
    (runFrameSteps sampleFrame (sampleSteps.take 3)).2 (by decide)).2.2.1⟩

end RenderGraph

namespace VulkanContext

theorem findFirst_eq_some_iff {α : Type} (p : α → Bool) (l : List α) (i : Nat) (r : α) :
    findFirst p l = some (i, r) ↔
      l[i]? = some r ∧ p r = true ∧ ∀ j x, j < i → l[j]? = some x → p x = false := by
  induction l generalizing i with
  | nil => simp [findFirst]
  | cons a l ih =>
    unfold findFirst
    by_cases ha : p a = true
    · rw [if_pos ha]
      constructor
      · intro h
        simp only [Option.some.injEq, Prod.mk.injEq] at h
        obtain ⟨rfl, rfl⟩ := h
        exact ⟨by simp, ha, fun j x hj => absurd hj (Nat.not_lt_zero j)⟩
      · rintro ⟨h1, h2, h3⟩
        cases i with
        | zero => simp at h1; subst h1; rfl
        | succ k =>
          have := h3 0 a (Nat.succ_pos k) (by simp)
          rw [ha] at this
          exact absurd this (by simp)
    · rw [if_neg ha]
      have ha2 : p a = false := by simpa using ha
      constructor
      · intro h
        cases hf : findFirst p l with
        | none => rw [hf] at h; simp at h
        | some q =>
          rw [hf] at h
          simp only [Option.map_some', Option.some.injEq, Prod.mk.injEq] at h
          obtain ⟨h1, h2⟩ := h
          have hq : findFirst p l = some (q.1, q.2) := hf
          obtain ⟨e1, e2, e3⟩ := (ih q.1).1 (h2 ▸ hq)
          subst h1
          refine ⟨by simpa using e1, e2, ?_⟩
          intro j x hj hx
          cases j with
          | zero => simp at hx; subst hx; exact ha2
          | succ k => exact e3 k x (by omega) (by simpa using hx)
      · rintro ⟨h1, h2, h3⟩
        cases i with
        | zero => simp at h1; subst h1; rw [h2] at ha2; exact absurd ha2 (by simp)
        | succ k =>
          have hk := (ih k).2 ⟨by simpa using h1, h2, fun j x hj hx =>
            h3 (j + 1) x (by omega) (by simpa using hx)⟩
          rw [hk]; rfl

theorem findFirst_eq_none_iff {α : Type} (p : α → Bool) (l : List α) :
    findFirst p l = none ↔ ∀ x ∈ l, p x = false := by
  induction l with
  | nil => simp [findFirst]
  | cons a l ih =>
    unfold findFirst
    by_cases ha : p a = true
    · rw [if_pos ha]
      simp [ha]
    · rw [if_neg ha]
      have ha2 : p a = false := by simpa using ha
      simp only [Option.map_eq_none', ih, List.mem_cons, forall_eq_or_imp, ha2, true_and]

theorem lt_length_of_getElem?_some {α : Type} {l : List α} {i : Nat} {a : α}
    (h : l[i]? = some a) : i < l.length := by
  by_contra hc
  rw [List.getElem?_eq_none (by omega)] at h
  exact absurd h (by simp)

theorem swapRemove_perm {α : Type} (v : List α) (i : Nat) (hi : i < v.length) :
    (swapRemove v i).Perm (v.eraseIdx i) := by
  induction v using List.reverseRecOn with
  | nil => simp at hi
  | append_singleton w last _ =>
    have hl : (w ++ [last]).getLast? = some last := by simp
    unfold swapRemove
    rw [hl]
    simp only
    by_cases hw : i < w.length
    · rw [List.set_append_left _ _ hw, List.dropLast_concat, List.eraseIdx_append_of_lt_length hw]
      rw [List.set_eq_take_append_cons_drop, if_pos hw, List.eraseIdx_eq_take_drop_succ]
      rw [List.append_assoc]
      refine List.Perm.append_left _ ?_
      exact (List.perm_append_singleton last _).symm
    · have hiw : i = w.length := by simp at hi; omega
      subst hiw
      rw [List.set_append_right _ _ (le_refl _)]
      simp [List.eraseIdx_append_of_length_le]

theorem swapRemove_subset {α : Type} (v : List α) (i : Nat) (x : α) (hx : x ∈ swapRemove v i) :
    x ∈ v := by
  by_cases hi : i < v.length
  · exact List.mem_of_mem_eraseIdx ((swapRemove_perm v i hi).mem_iff.1 hx)
  · unfold swapRemove at hx
    cases hl : v.getLast? with
    | none => rw [hl] at hx; exact hx
    | some last =>
      rw [hl] at hx
      simp only at hx
      rw [List.set_eq_of_length_le (by omega)] at hx
      exact List.mem_of_mem_dropLast hx

theorem mem_swapRemove {α : Type} (v : List α) (i : Nat) (r x : α) (hr : v[i]? = some r)
    (hx : x ∈ v) (hne : x ≠ r) : x ∈ swapRemove v i := by
  have hi : i < v.length := by
    by_contra hc
    rw [List.getElem?_eq_none (by omega)] at hr
    exact absurd hr (by simp)
  rw [(swapRemove_perm v i hi).mem_iff, List.eraseIdx_eq_take_drop_succ]
  obtain ⟨k, hk, rfl⟩ := List.getElem_of_mem hx
  have hki : k ≠ i := by
    intro h; subst h
    rw [List.getElem?_eq_getElem hk] at hr
    exact hne (by simpa using hr)
  rw [List.mem_append]
  rcases Nat.lt_or_gt_of_ne hki with h | h
  · left
    exact List.mem_take_iff_getElem.2 ⟨k, by omega, rfl⟩
  · right
    rw [List.mem_drop_iff_getElem]
    exact ⟨k - (i + 1), by omega, by congr 1; omega⟩

end VulkanContext
namespace VulkanContext

theorem acquireTransientImage2D_cases (vk : VulkanContext) (name : String) (format : Nat)
    (extent : VkExtent2D) (usage aspect : Nat) (dev : Option CreatedImage)
    (t : TransientImage2D) (vk1 : VulkanContext)
    (h : vk.acquireTransientImage2D name format extent usage aspect dev = some (t, vk1)) :
    (∃ i, findFirst (fun a => transientImageKeyMatch a format extent usage aspect)
          vk.transientImagesFree = some (i, t) ∧
        vk1 = { vk with transientImagesFree := swapRemove vk.transientImagesFree i }) ∨
      (findFirst (fun a => transientImageKeyMatch a format extent usage aspect)
          vk.transientImagesFree = none ∧
        ∃ c, dev = some c ∧
          t = { format := format, extent := extent, usage := usage, aspect := aspect,
                image := c.image, view := c.view, memory := c.memory } ∧ vk1 = vk) := by
  unfold acquireTransientImage2D at h
  cases hf : findFirst (fun a => transientImageKeyMatch a format extent usage aspect)
      vk.transientImagesFree with
  | some q =>
    obtain ⟨i, r⟩ := q
    rw [hf] at h
    simp only [Option.some.injEq, Prod.mk.injEq] at h
    obtain ⟨rfl, rfl⟩ := h
    exact Or.inl ⟨i, rfl, rfl⟩
  | none =>
    rw [hf] at h
    cases dev with
    | none => simp at h
    | some c =>
      simp only [Option.some.injEq, Prod.mk.injEq] at h
      obtain ⟨rfl, rfl⟩ := h
      exact Or.inr ⟨rfl, c, rfl, rfl, rfl⟩

theorem acquireTransientBuffer_cases (vk : VulkanContext) (name : String)
    (size usage memFlags : Nat) (dev : Option CreatedBuffer)
    (t : TransientBuffer) (vk1 : VulkanContext)
    (h : vk.acquireTransientBuffer name size usage memFlags dev = some (t, vk1)) :
    (∃ i, findFirst (fun f => transientBufferKeyMatch f size usage memFlags)
          vk.transientBuffersFree = some (i, t) ∧
        vk1 = { vk with transientBuffersFree := swapRemove vk.transientBuffersFree i }) ∨
      (findFirst (fun f => transientBufferKeyMatch f size usage memFlags)
          vk.transientBuffersFree = none ∧
        ∃ c, dev = some c ∧
          t = { size := size, usage := usage, memFlags := memFlags, buffer := c.buffer,
                memory := c.memory } ∧ vk1 = vk) := by
  unfold acquireTransientBuffer at h
  cases hf : findFirst (fun f => transientBufferKeyMatch f size usage memFlags)
      vk.transientBuffersFree with
  | some q =>
    obtain ⟨i, r⟩ := q
    rw [hf] at h
    simp only [Option.some.injEq, Prod.mk.injEq] at h
    obtain ⟨rfl, rfl⟩ := h
    exact Or.inl ⟨i, rfl, rfl⟩
  | none =>
    rw [hf] at h
    cases dev with
    | none => simp at h
    | some c =>
      simp only [Option.some.injEq, Prod.mk.injEq] at h
      obtain ⟨rfl, rfl⟩ := h
      exact Or.inr ⟨rfl, c, rfl, rfl, rfl⟩

theorem transientImageKeyMatch_iff (a : TransientImage2D) (format : Nat) (extent : VkExtent2D)
    (usage aspect : Nat) :
    transientImageKeyMatch a format extent usage aspect = true ↔
      a.format = format ∧ a.extent = extent ∧ a.usage = usage ∧ a.aspect = aspect := by
  unfold transientImageKeyMatch
  simp only [Bool.and_eq_true, beq_iff_eq]
  constructor
  · rintro ⟨⟨⟨⟨h1, h2⟩, h3⟩, h4⟩, h5⟩
    refine ⟨h1, ?_, h4, h5⟩
    cases hx : a.extent
    cases extent
    rw [hx] at h2 h3
    simp only at h2 h3
    rw [h2, h3]
  · rintro ⟨h1, h2, h3, h4⟩
    rw [h1, h2, h3, h4]
    exact ⟨⟨⟨⟨rfl, rfl⟩, rfl⟩, rfl⟩, rfl⟩

theorem transientBufferKeyMatch_iff (f : TransientBuffer) (size usage memFlags : Nat) :
    transientBufferKeyMatch f size usage memFlags = true ↔
      f.size = size ∧ f.usage = usage ∧ f.memFlags = memFlags := by
  unfold transientBufferKeyMatch
  simp only [Bool.and_eq_true, beq_iff_eq]
  tauto

theorem acquireTransientImage2D_key (vk : VulkanContext) (name : String) (format : Nat)
    (extent : VkExtent2D) (usage aspect : Nat) (dev : Option CreatedImage)
    (t : TransientImage2D) (vk1 : VulkanContext)
    (h : vk.acquireTransientImage2D name format extent usage aspect dev = some (t, vk1)) :
    transientImageKeyMatch t format extent usage aspect = true := by
  rcases acquireTransientImage2D_cases vk name format extent usage aspect dev t vk1 h with
    ⟨i, hf, _⟩ | ⟨_, c, _, ht, _⟩
  · exact ((findFirst_eq_some_iff _ _ _ _).1 hf).2.1
  · rw [transientImageKeyMatch_iff, ht]
    exact ⟨rfl, rfl, rfl, rfl⟩

theorem acquireTransientBuffer_key (vk : VulkanContext) (name : String)
    (size usage memFlags : Nat) (dev : Option CreatedBuffer)
    (t : TransientBuffer) (vk1 : VulkanContext)
    (h : vk.acquireTransientBuffer name size usage memFlags dev = some (t, vk1)) :
    transientBufferKeyMatch t size usage memFlags = true := by
  rcases acquireTransientBuffer_cases vk name size usage memFlags dev t vk1 h with
    ⟨i, hf, _⟩ | ⟨_, c, _, ht, _⟩
  · exact ((findFirst_eq_some_iff _ _ _ _).1 hf).2.1
  · rw [transientBufferKeyMatch_iff, ht]
    exact ⟨rfl, rfl, rfl⟩

/-- The two outcomes of `acquireTransientImage2D` and of `acquireTransientBuffer`, in terms
of the key predicates of the source. -/
theorem acquireTransient_match_cases (vk : VulkanContext) (name : String) :
    (∀ (format : Nat) (extent : VkExtent2D) (usage aspect : Nat) (dev : Option CreatedImage),
      (∀ i r, vk.transientImagesFree[i]? = some r →
        transientImageKeyMatch r format extent usage aspect = true →
        (∀ j x, j < i → vk.transientImagesFree[j]? = some x →
          transientImageKeyMatch x format extent usage aspect = false) →
        vk.acquireTransientImage2D name format extent usage aspect dev =
            some (r, { vk with transientImagesFree := swapRemove vk.transientImagesFree i }) ∧
          (swapRemove vk.transientImagesFree i).Perm (vk.transientImagesFree.eraseIdx i)) ∧
      ((∀ x ∈ vk.transientImagesFree,
          transientImageKeyMatch x format extent usage aspect = false) →
        vk.acquireTransientImage2D name format extent usage aspect dev =
          dev.map fun c =>
            ({ format := format, extent := extent, usage := usage, aspect := aspect,
               image := c.image, view := c.view, memory := c.memory }, vk)) ∧
      (∀ t vk1, vk.acquireTransientImage2D name format extent usage aspect dev = some (t, vk1) →
        t.format = format ∧ t.extent = extent ∧ t.usage = usage ∧ t.aspect = aspect)) ∧
    (∀ (size usage memFlags : Nat) (dev : Option CreatedBuffer),
      (∀ i r, vk.transientBuffersFree[i]? = some r →
        transientBufferKeyMatch r size usage memFlags = true →
        (∀ j x, j < i → vk.transientBuffersFree[j]? = some x →
          transientBufferKeyMatch x size usage memFlags = false) →
        vk.acquireTransientBuffer name size usage memFlags dev =
            some (r, { vk with transientBuffersFree := swapRemove vk.transientBuffersFree i }) ∧
          (swapRemove vk.transientBuffersFree i).Perm (vk.transientBuffersFree.eraseIdx i)) ∧
      ((∀ x ∈ vk.transientBuffersFree, transientBufferKeyMatch x size usage memFlags = false) →
        vk.acquireTransientBuffer name size usage memFlags dev =
          dev.map fun c =>
            ({ size := size, usage := usage, memFlags := memFlags, buffer := c.buffer,
               memory := c.memory }, vk)) ∧
      (∀ t vk1, vk.acquireTransientBuffer name size usage memFlags dev = some (t, vk1) →
        t.size = size ∧ t.usage = usage ∧ t.memFlags = memFlags)) := by
  refine ⟨fun format extent usage aspect dev => ⟨?_, ?_, ?_⟩,
    fun size usage memFlags dev => ⟨?_, ?_, ?_⟩⟩
  · intro i r h1 h2 h3
    have hf := (findFirst_eq_some_iff
      (fun a => transientImageKeyMatch a format extent usage aspect) _ i r).2 ⟨h1, h2, h3⟩
    refine ⟨?_, swapRemove_perm _ _ (lt_length_of_getElem?_some h1)⟩
    unfold acquireTransientImage2D
    rw [hf]
  · intro h
    have hf := (findFirst_eq_none_iff
      (fun a => transientImageKeyMatch a format extent usage aspect) _).2 h
    unfold acquireTransientImage2D
    rw [hf]
    cases dev <;> rfl
  · intro t vk1 h
    exact (transientImageKeyMatch_iff _ _ _ _ _).1
      (acquireTransientImage2D_key vk name format extent usage aspect dev t vk1 h)
  · intro i r h1 h2 h3
    have hf := (findFirst_eq_some_iff
      (fun f => transientBufferKeyMatch f size usage memFlags) _ i r).2 ⟨h1, h2, h3⟩
    refine ⟨?_, swapRemove_perm _ _ (lt_length_of_getElem?_some h1)⟩
    unfold acquireTransientBuffer
    rw [hf]
  · intro h
    have hf := (findFirst_eq_none_iff
      (fun f => transientBufferKeyMatch f size usage memFlags) _).2 h
    unfold acquireTransientBuffer
    rw [hf]
    cases dev <;> rfl
  · intro t vk1 h
    exact (transientBufferKeyMatch_iff _ _ _ _).1
      (acquireTransientBuffer_key vk name size usage memFlags dev t vk1 h)

end VulkanContext

namespace RenderGraph

theorem applyImageAccess_poolPart (st : RenderGraph × VulkanContext) (a : ImageAccess) :
    (applyImageAccess st a).2.poolPart = st.2.poolPart := by
  cases hres : st.1.images[a.id]? with
  | none =>
    rw [applyImageAccess_out_of_range st a (List.getElem?_eq_none_iff.mp hres)]
  | some res =>
    rw [applyImageAccess_in_range st a res hres]
    split_ifs
    · rfl
    · cases res.externalLayoutPtr <;> rfl

theorem applyBarriers_poolPart (g : RenderGraph) (vk : VulkanContext) (cmd : Nat) (pass : Pass) :
    (applyBarriers g vk cmd pass).2.poolPart = vk.poolPart := by
  have ht : (applyImageAccesses ({ g with scratchImgBarriers := [], scratchBufBarriers := [] }, vk)
      pass.images).2.poolPart = vk.poolPart := by
    unfold applyImageAccesses
    rw [foldl_preserves applyImageAccess (fun st => st.2.poolPart) applyImageAccess_poolPart]
  unfold applyBarriers
  simp only
  split_ifs with h
  · exact ht
  · exact ht

theorem invokeExec_poolPart (vk : VulkanContext) (p : Pass) (cmd : Nat) :
    (invokeExec vk p cmd).poolPart = vk.poolPart := by
  unfold invokeExec
  cases p.exec <;> rfl

theorem beginMainPass_poolPart (vk : VulkanContext) (cmd : Nat) :
    (vk.beginMainPass cmd).poolPart = vk.poolPart := by
  unfold VulkanContext.beginMainPass
  split_ifs <;> rfl

theorem executePass_poolPart (dyn : Bool) (st : ExecState) (i : Nat) :
    (executePass dyn st i).vk.poolPart = st.vk.poolPart := by
  unfold executePass
  cases hp : st.graph.passes[i]? with
  | none => rfl
  | some p =>
    have hab := applyBarriers_poolPart st.graph
      (st.vk.cmdBeginLabel st.graph.cmdBuf p.name) st.graph.cmdBuf p
    have h0 : (st.vk.cmdBeginLabel st.graph.cmdBuf p.name).poolPart = st.vk.poolPart := rfl
    rw [h0] at hab
    have hEnd : ∀ (v : VulkanContext) (c : Nat), (v.cmdEndLabel c).poolPart = v.poolPart :=
      fun _ _ => rfl
    have hER : ∀ (v : VulkanContext) (c : Nat), (v.endRendering c).poolPart = v.poolPart :=
      fun _ _ => rfl
    have hEM : ∀ (v : VulkanContext) (c : Nat), (v.endMainPass c).poolPart = v.poolPart :=
      fun _ _ => rfl
    have hBR : ∀ (v : VulkanContext) (c : Nat) ca da,
        (v.beginRendering c ca da).poolPart = v.poolPart := fun _ _ _ _ => rfl
    simp only
    split_ifs <;>
      simp only [hEnd, hER, hEM, hBR, invokeExec_poolPart, beginMainPass_poolPart, hab]

theorem executeUpTo_poolPart (g : RenderGraph) (vk : VulkanContext) (n : Nat) :
    (executeUpTo g vk n).vk.poolPart = vk.poolPart := by
  induction n with
  | zero => rfl
  | succ n ih => rw [executeUpTo_succ, executePass_poolPart, ih]

theorem execute_poolPart (g : RenderGraph) (vk : VulkanContext) :
    (execute g vk).2.poolPart = vk.poolPart := by
  unfold execute
  split_ifs
  · rfl
  · exact executeUpTo_poolPart g vk _

theorem execute_staticPart (g : RenderGraph) (vk : VulkanContext) :
    staticPart (execute g vk).1 = staticPart g := by
  unfold execute
  split_ifs
  · rfl
  · exact executeUpTo_staticPart g vk _

theorem mem_set_owned {α : Type} (l : List α) (i : Nat) (a : α) (P : α → Prop)
    (hl : ∀ r ∈ l, P r) (ha : P a) : ∀ r ∈ l.set i a, P r := by
  intro r hr
  rcases List.mem_or_eq_of_mem_set hr with h | h
  · exact hl r h
  · rw [h]; exact ha

theorem applyImageAccess_noOwned (st : RenderGraph × VulkanContext) (a : ImageAccess)
    (h : NoOwned st.1) : NoOwned (applyImageAccess st a).1 := by
  cases hres : st.1.images[a.id]? with
  | none =>
    rw [applyImageAccess_out_of_range st a (List.getElem?_eq_none_iff.mp hres)]
    exact h
  | some res =>
    have hr : res.owned = false := h.1 res (List.getElem?_mem hres)
    rw [applyImageAccess_in_range st a res hres]
    split_ifs
    · exact ⟨mem_set_owned _ _ _ _ h.1 hr, h.2⟩
    · refine ⟨mem_set_owned _ _ _ _ h.1 ?_, h.2⟩
      cases res.externalLayoutPtr <;> exact hr

theorem applyBufferAccess_noOwned (g : RenderGraph) (a : BufferAccess)
    (h : NoOwned g) : NoOwned (applyBufferAccess g a) := by
  cases hres : g.buffers[a.id]? with
  | none =>
    rw [applyBufferAccess_out_of_range g a (List.getElem?_eq_none_iff.mp hres)]
    exact h
  | some res =>
    have hr : res.owned = false := h.2 res (List.getElem?_mem hres)
    rw [applyBufferAccess_in_range g a res hres]
    split_ifs
    · exact ⟨h.1, mem_set_owned _ _ _ _ h.2 hr⟩
    · exact h
    · exact ⟨h.1, mem_set_owned _ _ _ _ h.2 hr⟩

theorem foldl_invariant {α β : Type} (f : β → α → β) (P : β → Prop)
    (h : ∀ b a, P b → P (f b a)) (l : List α) (b : β) (hb : P b) : P (l.foldl f b) := by
  induction l generalizing b with
  | nil => exact hb
  | cons a l ih => exact ih _ (h b a hb)

theorem applyBarriers_noOwned (g : RenderGraph) (vk : VulkanContext) (cmd : Nat) (pass : Pass)
    (h : NoOwned g) : NoOwned (applyBarriers g vk cmd pass).1 := by
  rw [applyBarriers_graph]
  unfold applyBufferAccesses applyImageAccesses
  refine foldl_invariant applyBufferAccess NoOwned applyBufferAccess_noOwned _ _ ?_
  exact foldl_invariant applyImageAccess (fun st => NoOwned st.1) applyImageAccess_noOwned _ _ h

theorem executePass_noOwned (dyn : Bool) (st : ExecState) (i : Nat) (h : NoOwned st.graph) :
    NoOwned (executePass dyn st i).graph := by
  unfold executePass
  cases hp : st.graph.passes[i]? with
  | none => exact h
  | some p =>
    have hab := applyBarriers_noOwned st.graph
      (st.vk.cmdBeginLabel st.graph.cmdBuf p.name) st.graph.cmdBuf p h
    simp only
    split_ifs <;> exact hab

theorem executeUpTo_noOwned (g : RenderGraph) (vk : VulkanContext) (n : Nat) (h : NoOwned g) :
    NoOwned (executeUpTo g vk n).graph := by
  induction n with
  | zero => exact h
  | succ n ih =>
    rw [executeUpTo_succ]
    exact executePass_noOwned _ _ _ ih

theorem execute_noOwned (g : RenderGraph) (vk : VulkanContext) (h : NoOwned g) :
    NoOwned (execute g vk).1 := by
  unfold execute
  split_ifs
  · exact h
  · exact executeUpTo_noOwned g vk _ h

end RenderGraph
namespace VulkanContext

theorem update_nil_of_isEmpty {α : Type} (f : Nat → List α) (i : Nat)
    (h : (f i).isEmpty = true) : Function.update f i [] = f := by
  funext s
  by_cases hs : s = i
  · subst hs
    rw [Function.update_same]
    exact (List.isEmpty_iff.1 h).symm
  · rw [Function.update_noteq hs]

/-- What `beginFrame` does to the pool when it gets past the resize test: the in-flight lists
of the current frame slot move to the end of the free lists. -/
theorem beginFrame_not_resized (vk : VulkanContext) (dev : BeginFrameDevice) (cmd : Nat)
    (vk1 : VulkanContext) (h : vk.beginFrame dev = some (cmd, vk1))
    (hr : vk.framebufferResized = false) :
    vk1.frameIndex = vk.frameIndex ∧
      vk1.transientImagesFree =
        vk.transientImagesFree ++ vk.transientImagesInFlight vk.frameIndex ∧
      vk1.transientImagesInFlight = Function.update vk.transientImagesInFlight vk.frameIndex [] ∧
      vk1.transientBuffersFree =
        vk.transientBuffersFree ++ vk.transientBuffersInFlight vk.frameIndex ∧
      vk1.transientBuffersInFlight =
        Function.update vk.transientBuffersInFlight vk.frameIndex [] := by
  unfold beginFrame at h
  rw [hr] at h
  simp only [Bool.false_eq_true, if_false] at h
  by_cases hi : (vk.transientImagesInFlight vk.frameIndex).isEmpty = true <;>
  by_cases hb : (vk.transientBuffersInFlight vk.frameIndex).isEmpty = true <;>
  simp only [hi, hb, not_true_eq_false, not_false_eq_true, if_true, if_false] at h <;>
  split_ifs at h <;>
  simp only [Option.some.injEq, Prod.mk.injEq, reduceCtorEq] at h <;>
  obtain ⟨-, rfl⟩ := h <;>
  first | contradiction | simp [update_nil_of_isEmpty, hi, hb, List.isEmpty_iff.1]

theorem beginFrame_resized (vk : VulkanContext) (dev : BeginFrameDevice) (cmd : Nat)
    (vk1 : VulkanContext) (h : vk.beginFrame dev = some (cmd, vk1))
    (hr : vk.framebufferResized = true) : cmd = 0 ∧ vk1 = vk := by
  unfold beginFrame at h
  rw [if_pos hr] at h
  simp only [Option.some.injEq, Prod.mk.injEq] at h
  exact ⟨h.1.symm, h.2.symm⟩

theorem endFrame_poolPart (vk vk1 : VulkanContext) (dev : EndFrameDevice)
    (h : vk.endFrame dev = some vk1) :
    vk1.frameIndex = (vk.frameIndex + 1) % MAX_FRAMES ∧
      vk1.transientImagesFree = vk.transientImagesFree ∧
      vk1.transientBuffersFree = vk.transientBuffersFree ∧
      vk1.transientImagesInFlight = vk.transientImagesInFlight ∧
      vk1.transientBuffersInFlight = vk.transientBuffersInFlight ∧
      vk1.frameDeletion = vk.frameDeletion := by
  unfold endFrame at h
  by_cases h1 : dev.endCommandBufferResult ≠ VK_SUCCESS
  · rw [if_pos h1] at h
    exact absurd h (by simp)
  · rw [if_neg h1] at h
    by_cases h2 : dev.queueSubmitResult ≠ VK_SUCCESS
    · rw [if_pos h2] at h
      exact absurd h (by simp)
    · rw [if_neg h2] at h
      simp only at h
      by_cases h3 : dev.queuePresentResult = VK_ERROR_OUT_OF_DATE_KHR ∨
          dev.queuePresentResult = VK_SUBOPTIMAL_KHR ∨
          dev.queuePresentResult = VK_ERROR_SURFACE_LOST_KHR
      · rw [if_pos h3] at h
        simp only [Option.some.injEq] at h
        subst h
        exact ⟨rfl, rfl, rfl, rfl, rfl, rfl⟩
      · rw [if_neg h3] at h
        by_cases h4 : dev.queuePresentResult ≠ VK_SUCCESS
        · rw [if_pos h4] at h
          exact absurd h (by simp)
        · rw [if_neg h4] at h
          simp only [Option.some.injEq] at h
          subst h
          exact ⟨rfl, rfl, rfl, rfl, rfl, rfl⟩

theorem acquireTransientImage2D_rest (vk : VulkanContext) (name : String) (format : Nat)
    (extent : VkExtent2D) (usage aspect : Nat) (dev : Option CreatedImage)
    (t : TransientImage2D) (vk1 : VulkanContext)
    (h : vk.acquireTransientImage2D name format extent usage aspect dev = some (t, vk1)) :
    vk1.frameIndex = vk.frameIndex ∧ vk1.framebufferResized = vk.framebufferResized ∧
      vk1.transientBuffersFree = vk.transientBuffersFree ∧
      vk1.transientImagesInFlight = vk.transientImagesInFlight ∧
      vk1.transientBuffersInFlight = vk.transientBuffersInFlight ∧
      vk1.frameDeletion = vk.frameDeletion := by
  rcases acquireTransientImage2D_cases vk name format extent usage aspect dev t vk1 h with
    ⟨i, _, rfl⟩ | ⟨_, c, _, _, rfl⟩
  · exact ⟨rfl, rfl, rfl, rfl, rfl, rfl⟩
  · exact ⟨rfl, rfl, rfl, rfl, rfl, rfl⟩

theorem acquireTransientBuffer_rest (vk : VulkanContext) (name : String)
    (size usage memFlags : Nat) (dev : Option CreatedBuffer)
    (t : TransientBuffer) (vk1 : VulkanContext)
    (h : vk.acquireTransientBuffer name size usage memFlags dev = some (t, vk1)) :
    vk1.frameIndex = vk.frameIndex ∧ vk1.framebufferResized = vk.framebufferResized ∧
      vk1.transientImagesFree = vk.transientImagesFree ∧
      vk1.transientImagesInFlight = vk.transientImagesInFlight ∧
      vk1.transientBuffersInFlight = vk.transientBuffersInFlight ∧
      vk1.frameDeletion = vk.frameDeletion := by
  rcases acquireTransientBuffer_cases vk name size usage memFlags dev t vk1 h with
    ⟨i, _, rfl⟩ | ⟨_, c, _, _, rfl⟩
  · exact ⟨rfl, rfl, rfl, rfl, rfl, rfl⟩
  · exact ⟨rfl, rfl, rfl, rfl, rfl, rfl⟩

end VulkanContext

namespace RenderGraph

theorem queueOwnedDeletions_noOwned (g : RenderGraph) (vk : VulkanContext) (h : NoOwned g) :
    queueOwnedDeletions g vk = vk := by
  have key : ∀ {α : Type} (l : List α) (f : VulkanContext → α → VulkanContext)
      (v : VulkanContext), (∀ r ∈ l, ∀ w, f w r = w) → l.foldl f v = v := by
    intro α l f v hl
    induction l generalizing v with
    | nil => rfl
    | cons a l ih =>
      rw [List.foldl_cons, hl a (List.mem_cons_self a l)]
      exact ih v fun r hr => hl r (List.mem_cons_of_mem a hr)
  unfold queueOwnedDeletions
  simp only
  rw [key g.images _ vk (fun r hr w => by simp [h.1 r hr]),
    key g.buffers _ vk (fun r hr w => by simp [h.2 r hr])]

theorem foldl_retireImages (l : List RetireImage2D) (vk : VulkanContext) :
    (l.foldl (fun v ri => v.retireTransientImage2D ri.toTransient) vk) =
      { vk with
        transientImagesInFlight :=
          Function.update vk.transientImagesInFlight vk.frameIndex
            (vk.transientImagesInFlight vk.frameIndex ++
              (l.map RetireImage2D.toTransient).filter fun t => t.image ≠ 0) } := by
  induction l generalizing vk with
  | nil => simp
  | cons a l ih =>
    rw [List.foldl_cons, ih]
    unfold VulkanContext.retireTransientImage2D
    by_cases ha : a.toTransient.image = 0
    · simp [ha]
    · simp [ha]

theorem foldl_retireBuffers (l : List RetireBuffer) (vk : VulkanContext) :
    (l.foldl (fun v rb => v.retireTransientBuffer rb.toTransient) vk) =
      { vk with
        transientBuffersInFlight :=
          Function.update vk.transientBuffersInFlight vk.frameIndex
            (vk.transientBuffersInFlight vk.frameIndex ++
              (l.map RetireBuffer.toTransient).filter fun t => t.buffer ≠ 0) } := by
  induction l generalizing vk with
  | nil => simp
  | cons a l ih =>
    rw [List.foldl_cons, ih]
    unfold VulkanContext.retireTransientBuffer
    by_cases ha : a.toTransient.buffer = 0
    · simp [ha]
    · simp [ha]

theorem retirePooled_eq (g : RenderGraph) (vk : VulkanContext) :
    retirePooled g vk =
      { vk with
        transientImagesInFlight :=
          Function.update vk.transientImagesInFlight vk.frameIndex
            (vk.transientImagesInFlight vk.frameIndex ++
              (g.retireImages.map RetireImage2D.toTransient).filter fun t => t.image ≠ 0)
        transientBuffersInFlight :=
          Function.update vk.transientBuffersInFlight vk.frameIndex
            (vk.transientBuffersInFlight vk.frameIndex ++
              (g.retireBuffers.map RetireBuffer.toTransient).filter fun t => t.buffer ≠ 0) } := by
  show (g.retireBuffers.foldl (fun v rb => v.retireTransientBuffer rb.toTransient)
    (g.retireImages.foldl (fun v ri => v.retireTransientImage2D ri.toTransient) vk)) = _
  rw [foldl_retireBuffers, foldl_retireImages]

end RenderGraph
namespace RenderGraph

theorem end_pool_aux (ab : RenderGraph × VulkanContext) (g : RenderGraph) (vk : VulkanContext)
    (dev : VulkanContext.EndFrameDevice) (g3 : RenderGraph) (vk3 : VulkanContext)
    (h1 : staticPart ab.1 = staticPart g) (h2 : NoOwned ab.1) (h3 : ab.2.poolPart = vk.poolPart)
    (he : (match (retirePooled ab.1 (queueOwnedDeletions ab.1 ab.2)).endFrame dev with
        | none => none
        | some vk3 => some ({ ab.1 with cmdBuf := VK_NULL_HANDLE }, vk3)) = some (g3, vk3)) :
    vk3.transientImagesInFlight =
        Function.update vk.transientImagesInFlight vk.frameIndex
          (vk.transientImagesInFlight vk.frameIndex ++
            (g.retireImages.map RetireImage2D.toTransient).filter fun t => t.image ≠ 0) ∧
      vk3.transientBuffersInFlight =
        Function.update vk.transientBuffersInFlight vk.frameIndex
          (vk.transientBuffersInFlight vk.frameIndex ++
            (g.retireBuffers.map RetireBuffer.toTransient).filter fun t => t.buffer ≠ 0) ∧
      vk3.transientImagesFree = vk.transientImagesFree ∧
      vk3.transientBuffersFree = vk.transientBuffersFree ∧
      vk3.frameDeletion = vk.frameDeletion ∧
      vk3.frameIndex = (vk.frameIndex + 1) % VulkanContext.MAX_FRAMES := by
  rw [queueOwnedDeletions_noOwned _ _ h2, retirePooled_eq] at he
  have hri : ab.1.retireImages = g.retireImages := congrArg (fun p => p.2.2.2.2.1) h1
  have hrb : ab.1.retireBuffers = g.retireBuffers := congrArg (fun p => p.2.2.2.2.2) h1
  have p1 : ab.2.frameIndex = vk.frameIndex := congrArg (fun p => p.1) h3
  have p2 : ab.2.transientImagesFree = vk.transientImagesFree := congrArg (fun p => p.2.1) h3
  have p3 : ab.2.transientBuffersFree = vk.transientBuffersFree :=
    congrArg (fun p => p.2.2.1) h3
  have p4 : ab.2.transientImagesInFlight = vk.transientImagesInFlight :=
    congrArg (fun p => p.2.2.2.1) h3
  have p5 : ab.2.transientBuffersInFlight = vk.transientBuffersInFlight :=
    congrArg (fun p => p.2.2.2.2.1) h3
  have p6 : ab.2.frameDeletion = vk.frameDeletion := congrArg (fun p => p.2.2.2.2.2) h3
  split at he
  · simp at he
  · rename_i v3 hef
    simp only [Option.some.injEq, Prod.mk.injEq] at he
    obtain ⟨-, rfl⟩ := he
    obtain ⟨e1, e2, e3, e4, e5, e6⟩ := VulkanContext.endFrame_poolPart _ v3 dev hef
    simp only at e1 e2 e3 e4 e5 e6
    rw [hri, p1, p4] at e4
    rw [hrb, p1, p5] at e5
    rw [p1] at e1
    exact ⟨e4, e5, e2.trans p2, e3.trans p3, e6.trans p6, e1⟩

/-- What `end` does to the pool in a begun frame none of whose records is `owned`. -/
theorem end_pool (g : RenderGraph) (vk : VulkanContext) (dev : VulkanContext.EndFrameDevice)
    (g3 : RenderGraph) (vk3 : VulkanContext) (hc : g.cmdBuf ≠ 0) (hno : NoOwned g)
    (he : «end» g vk dev = some (g3, vk3)) :
    vk3.transientImagesInFlight =
        Function.update vk.transientImagesInFlight vk.frameIndex
          (vk.transientImagesInFlight vk.frameIndex ++
            (g.retireImages.map RetireImage2D.toTransient).filter fun t => t.image ≠ 0) ∧
      vk3.transientBuffersInFlight =
        Function.update vk.transientBuffersInFlight vk.frameIndex
          (vk.transientBuffersInFlight vk.frameIndex ++
            (g.retireBuffers.map RetireBuffer.toTransient).filter fun t => t.buffer ≠ 0) ∧
      vk3.transientImagesFree = vk.transientImagesFree ∧
      vk3.transientBuffersFree = vk.transientBuffersFree ∧
      vk3.frameDeletion = vk.frameDeletion ∧
      vk3.frameIndex = (vk.frameIndex + 1) % VulkanContext.MAX_FRAMES := by
  unfold «end» at he
  rw [if_neg hc] at he
  by_cases hlt : g.backbufferHandle.id < g.images.length
  · simp only [if_pos hlt] at he
    exact end_pool_aux _ g vk dev g3 vk3 (applyBarriers_staticPart _ _ _ _)
      (applyBarriers_noOwned _ _ _ _ hno) (applyBarriers_poolPart _ _ _ _) he
  · simp only [if_neg hlt] at he
    exact end_pool_aux (g, vk) g vk dev g3 vk3 rfl hno rfl he

/-- What a successful `begin` leaves: no retire records, no owned record, and empty
in-flight lists on the current frame slot. -/
theorem begin_pool (g : RenderGraph) (vk : VulkanContext) (dev : VulkanContext.BeginFrameDevice)
    (cmd : Nat) (g1 : RenderGraph) (vk1 : VulkanContext)
    (h : begin g vk dev = some (cmd, g1, vk1)) (hc : cmd ≠ 0) :
    g1.cmdBuf = cmd ∧ g1.retireImages = [] ∧ g1.retireBuffers = [] ∧ NoOwned g1 ∧
      vk1.frameIndex = vk.frameIndex ∧
      vk1.transientImagesInFlight vk1.frameIndex = [] ∧
      vk1.transientBuffersInFlight vk1.frameIndex = [] ∧
      (∀ s, s ≠ vk.frameIndex →
        vk1.transientImagesInFlight s = vk.transientImagesInFlight s ∧
        vk1.transientBuffersInFlight s = vk.transientBuffersInFlight s) := by
  unfold begin at h
  cases hb : vk.beginFrame dev with
  | none => rw [hb] at h; simp at h
  | some q =>
    obtain ⟨c, v⟩ := q
    rw [hb] at h
    simp only at h
    by_cases hc0 : c = 0
    · rw [if_pos hc0] at h
      simp only [Option.some.injEq, Prod.mk.injEq] at h
      exact absurd h.1.symm hc
    · rw [if_neg hc0] at h
      simp only [Option.some.injEq, Prod.mk.injEq] at h
      obtain ⟨h1, h2, h3⟩ := h
      subst h3
      have hr : vk.framebufferResized = false := by
        by_contra hne
        have ht : vk.framebufferResized = true := by simpa using hne
        exact hc0 (VulkanContext.beginFrame_resized vk dev c v hb ht).1
      obtain ⟨e1, -, e3, -, e5⟩ := VulkanContext.beginFrame_not_resized vk dev c v hb hr
      subst h2
      refine ⟨h1, rfl, rfl, ?_, e1, ?_, ?_, ?_⟩
      · constructor
        · intro r hr
          simp only [importDepth, importBackbuffer, List.nil_append, List.mem_cons,
            List.mem_singleton, List.cons_append, List.not_mem_nil, or_false] at hr
          rcases hr with rfl | rfl <;> rfl
        · intro r hr
          simp [importDepth, importBackbuffer] at hr
      · rw [e3, e1, Function.update_same]
      · rw [e5, e1, Function.update_same]
      · intro s hs
        rw [e3, e5, Function.update_noteq hs, Function.update_noteq hs]
        exact ⟨rfl, rfl⟩

end RenderGraph
namespace RenderGraph

theorem runFrameStep_logged (g : RenderGraph) (vk : VulkanContext) (s : FrameStep) :
    staticPart (runFrameStep (g, vk) s).1 =
        (g.cmdBuf, (runFrameStep (g, vk) s).1.passes, g.backbufferHandle, g.depthHandle,
          g.retireImages, g.retireBuffers) ∧
      (NoOwned g → NoOwned (runFrameStep (g, vk) s).1) ∧
      (runFrameStep (g, vk) s).2.poolPart = vk.poolPart := by
  cases s with
  | addPass name type setup exec => exact ⟨rfl, fun h => h, rfl⟩
  | importBuffer buffer =>
    refine ⟨rfl, fun h => ⟨h.1, ?_⟩, rfl⟩
    intro r hr
    simp only [runFrameStep, importBuffer, List.mem_append, List.mem_singleton] at hr
    rcases hr with hr | rfl
    · exact h.2 r hr
    · rfl
  | execute =>
    refine ⟨?_, execute_noOwned g vk, execute_poolPart g vk⟩
    have h := execute_staticPart g vk
    simp only [runFrameStep]
    unfold staticPart at h ⊢
    simp only [Prod.mk.injEq] at h ⊢
    exact ⟨h.1, trivial, h.2.2.1, h.2.2.2.1, h.2.2.2.2.1, h.2.2.2.2.2⟩

theorem runFrameOp_logged (r r1 : FrameRun) (op : FrameOp) (h : runFrameOp r op = some r1)
    (hl : r.Logged) : r1.Logged ∧ r1.slotPart = r.slotPart := by
  cases op with
  | step s =>
    simp only [runFrameOp, Option.some.injEq] at h
    subst h
    obtain ⟨h1, h2, h3⟩ := runFrameStep_logged r.graph r.vk s
    unfold staticPart at h1
    simp only [Prod.mk.injEq] at h1
    unfold VulkanContext.poolPart at h3
    simp only [Prod.mk.injEq] at h3
    refine ⟨⟨?_, ?_, h2 hl.2.2⟩, ?_⟩
    · show List.map _ (runFrameStep (r.graph, r.vk) s).1.retireImages = r.acquiredImages
      rw [h1.2.2.2.2.1]; exact hl.1
    · show List.map _ (runFrameStep (r.graph, r.vk) s).1.retireBuffers = r.acquiredBuffers
      rw [h1.2.2.2.2.2]; exact hl.2.1
    · unfold FrameRun.slotPart
      simp only [Prod.mk.injEq]
      exact ⟨h1.1, h3.1, h3.2.2.2.1, h3.2.2.2.2.1⟩
  | createTransientImage2D name format extent usage aspect dev =>
    cases ha : r.vk.acquireTransientImage2D name format extent usage aspect dev with
    | none => simp [runFrameOp, ha] at h
    | some q =>
      obtain ⟨t, v⟩ := q
      simp only [runFrameOp, createTransientImage2D, ha, Option.some.injEq] at h
      subst h
      have hk := (VulkanContext.transientImageKeyMatch_iff _ _ _ _ _).1
        (VulkanContext.acquireTransientImage2D_key _ _ _ _ _ _ _ _ _ ha)
      obtain ⟨e1, -, -, e4, e5, -⟩ :=
        VulkanContext.acquireTransientImage2D_rest _ _ _ _ _ _ _ _ _ ha
      refine ⟨⟨?_, hl.2.1, ?_, hl.2.2.2⟩, ?_⟩
      · show List.map _ (r.graph.retireImages ++ [_]) = r.acquiredImages ++ [t]
        rw [List.map_append, hl.1]
        congr 1
        simp only [List.map_cons, List.map_nil, RetireImage2D.toTransient, List.cons.injEq,
          and_true]
        cases t
        simp only at hk
        obtain ⟨rfl, rfl, rfl, rfl⟩ := hk
        rfl
      · intro x hx
        simp only [List.mem_append, List.mem_singleton] at hx
        rcases hx with hx | rfl
        · exact hl.2.2.1 x hx
        · rfl
      · unfold FrameRun.slotPart
        simp only [Prod.mk.injEq]
        exact ⟨trivial, e1, e4, e5⟩
  | createTransientBuffer name size usage memFlags dev =>
    cases ha : r.vk.acquireTransientBuffer name size usage memFlags dev with
    | none => simp [runFrameOp, ha] at h
    | some q =>
      obtain ⟨t, v⟩ := q
      simp only [runFrameOp, createTransientBuffer, ha, Option.some.injEq] at h
      subst h
      have hk := (VulkanContext.transientBufferKeyMatch_iff _ _ _ _).1
        (VulkanContext.acquireTransientBuffer_key _ _ _ _ _ _ _ _ ha)
      obtain ⟨e1, -, -, e4, e5, -⟩ :=
        VulkanContext.acquireTransientBuffer_rest _ _ _ _ _ _ _ _ ha
      refine ⟨⟨hl.1, ?_, hl.2.2.1, ?_⟩, ?_⟩
      · show List.map _ (r.graph.retireBuffers ++ [_]) = r.acquiredBuffers ++ [t]
        rw [List.map_append, hl.2.1]
        congr 1
        simp only [List.map_cons, List.map_nil, RetireBuffer.toTransient, List.cons.injEq,
          and_true]
        cases t
        simp only at hk
        obtain ⟨rfl, rfl, rfl⟩ := hk
        rfl
      · intro x hx
        simp only [List.mem_append, List.mem_singleton] at hx
        rcases hx with hx | rfl
        · exact hl.2.2.2 x hx
        · rfl
      · unfold FrameRun.slotPart
        simp only [Prod.mk.injEq]
        exact ⟨trivial, e1, e4, e5⟩

theorem runFrameOps_logged (ops : List FrameOp) (r r1 : FrameRun)
    (h : runFrameOps r ops = some r1) (hl : r.Logged) :
    r1.Logged ∧ r1.slotPart = r.slotPart := by
  induction ops generalizing r with
  | nil =>
    simp only [runFrameOps, Option.some.injEq] at h
    subst h
    exact ⟨hl, rfl⟩
  | cons op ops ih =>
    unfold runFrameOps at h
    cases ho : runFrameOp r op with
    | none => rw [ho] at h; simp at h
    | some r2 =>
      rw [ho] at h
      obtain ⟨h1, h2⟩ := runFrameOp_logged r r2 op ho hl
      obtain ⟨h3, h4⟩ := ih r2 h h1
      exact ⟨h3, h4.trans h2⟩

end RenderGraph
namespace RenderGraph

/-- C11: in a successfully begun frame, `end` hands every transient image and buffer that
`createTransientImage2D` and `createTransientBuffer` obtained from the pool since `begin` to
the retire operation once, as the very entry (shape key and native objects) the pool
returned. Retire drops an entry whose native image or buffer handle is null; every other
entry ends up, in creation order, on the in-flight list of the frame slot that was current
during the frame, which holds nothing else. The in-flight lists of the other slots, the free
lists and the deletion queues are as they were before `end`, so `end` neither destroys a
transient resource nor frees it for reuse. -/
theorem end_retires_transients (g0 : RenderGraph) (vk0 : VulkanContext)
    (bdev : VulkanContext.BeginFrameDevice) (cmd : Nat) (g1 : RenderGraph) (vk1 : VulkanContext)
    (ops : List FrameOp) (r : FrameRun) (edev : VulkanContext.EndFrameDevice)
    (g3 : RenderGraph) (vk3 : VulkanContext)
    (hbegin : begin g0 vk0 bdev = some (cmd, g1, vk1)) (hcmd : cmd ≠ VK_NULL_HANDLE)
    (hrun : runFrameOps (FrameRun.start g1 vk1) ops = some r)
    (hend : «end» r.graph r.vk edev = some (g3, vk3)) :
    r.vk.frameIndex = vk1.frameIndex ∧
      r.graph.retireImages.map RetireImage2D.toTransient = r.acquiredImages ∧
      r.graph.retireBuffers.map RetireBuffer.toTransient = r.acquiredBuffers ∧
      vk3.transientImagesInFlight vk1.frameIndex =
        r.acquiredImages.filter (fun t => t.image ≠ 0) ∧
      vk3.transientBuffersInFlight vk1.frameIndex =
        r.acquiredBuffers.filter (fun t => t.buffer ≠ 0) ∧
      ((∀ t ∈ r.acquiredImages, t.image ≠ 0) →
        vk3.transientImagesInFlight vk1.frameIndex = r.acquiredImages) ∧
      ((∀ t ∈ r.acquiredBuffers, t.buffer ≠ 0) →
        vk3.transientBuffersInFlight vk1.frameIndex = r.acquiredBuffers) ∧
      (∀ s, s ≠ vk1.frameIndex →
        vk3.transientImagesInFlight s = vk0.transientImagesInFlight s ∧
        vk3.transientBuffersInFlight s = vk0.transientBuffersInFlight s) ∧
      vk3.transientImagesFree = r.vk.transientImagesFree ∧
      vk3.transientBuffersFree = r.vk.transientBuffersFree ∧
      vk3.frameDeletion = r.vk.frameDeletion := by
  obtain ⟨b1, b2, b3, b4, b5, b6, b7, b8⟩ := begin_pool g0 vk0 bdev cmd g1 vk1 hbegin hcmd
  have hl0 : (FrameRun.start g1 vk1).Logged := by
    refine ⟨?_, ?_, b4⟩
    · show List.map _ g1.retireImages = []
      rw [b2]; rfl
    · show List.map _ g1.retireBuffers = []
      rw [b3]; rfl
  obtain ⟨hl, hs⟩ := runFrameOps_logged ops _ r hrun hl0
  unfold FrameRun.slotPart FrameRun.start at hs
  simp only [Prod.mk.injEq] at hs
  obtain ⟨s1, s2, s3, s4⟩ := hs
  have hc : r.graph.cmdBuf ≠ 0 := by rw [s1, b1]; exact hcmd
  obtain ⟨e1, e2, e3, e4, e5, -⟩ := end_pool r.graph r.vk edev g3 vk3 hc hl.2.2 hend
  rw [hl.1, s2, s3] at e1
  rw [hl.2.1, s2, s4] at e2
  have hI : vk3.transientImagesInFlight vk1.frameIndex =
      r.acquiredImages.filter (fun t => t.image ≠ 0) := by
    rw [e1, Function.update_same, b6, List.nil_append]
  have hB : vk3.transientBuffersInFlight vk1.frameIndex =
      r.acquiredBuffers.filter (fun t => t.buffer ≠ 0) := by
    rw [e2, Function.update_same, b7, List.nil_append]
  refine ⟨s2, hl.1, hl.2.1, hI, hB, ?_, ?_, ?_, e3, e4, e5⟩
  · intro hn
    rw [hI, List.filter_eq_self]
    intro t ht
    simpa using hn t ht
  · intro hn
    rw [hB, List.filter_eq_self]
    intro t ht
    simpa using hn t ht
  · intro s hs
    rw [e1, e2, Function.update_noteq hs, Function.update_noteq hs]
    exact b8 s (by rw [← b5]; exact hs)

/-- Witness of C11: a frame on a stocked pool that takes one pooled image and allocates an
image and a buffer. -/
theorem end_retires_transients_witness :
    begin init samplePoolContext sampleBeginDevice =
        some (11, samplePoolFrame.1, samplePoolFrame.2) ∧
      (11 : Nat) ≠ VK_NULL_HANDLE ∧
      runFrameOps (FrameRun.start samplePoolFrame.1 samplePoolFrame.2) samplePoolOps =
        some samplePoolRun ∧
      «end» samplePoolRun.graph samplePoolRun.vk sampleEndDevice =
        some (samplePoolEnded.1, samplePoolEnded.2) ∧
      (∀ t ∈ samplePoolRun.acquiredImages, t.image ≠ 0) ∧
      samplePoolRun.acquiredImages.map (fun t => t.image) = [601, 701] ∧
      samplePoolEnded.2.transientImagesInFlight samplePoolFrame.2.frameIndex =
        samplePoolRun.acquiredImages :=
  ⟨rfl, by decide, rfl, rfl, by decide, by decide,
    (end_retires_transients init samplePoolContext sampleBeginDevice 11 samplePoolFrame.1
      samplePoolFrame.2 samplePoolOps samplePoolRun sampleEndDevice samplePoolEnded.1
      samplePoolEnded.2 rfl (by decide) rfl rfl).2.2.2.2.2.1 (by decide)⟩

end RenderGraph

namespace VulkanContext

end VulkanContext

namespace VulkanContext

theorem runPoolOp_beginFrame (vk vk1 : VulkanContext) (dev : BeginFrameDevice)
    (h : runPoolOp vk (PoolOp.beginFrame dev) = some vk1) :
    ∃ cmd, vk.beginFrame dev = some (cmd, vk1) := by
  simp only [runPoolOp, Option.map_eq_some'] at h
  obtain ⟨⟨cmd, v⟩, h1, h2⟩ := h
  exact ⟨cmd, by rw [h1]; simp only at h2; rw [h2]⟩

theorem runPoolOp_acquireImage (vk vk1 : VulkanContext) (name : String) (format : Nat)
    (extent : VkExtent2D) (usage aspect : Nat) (dev : Option CreatedImage)
    (h : runPoolOp vk (PoolOp.acquireImage name format extent usage aspect dev) = some vk1) :
    ∃ t, vk.acquireTransientImage2D name format extent usage aspect dev = some (t, vk1) := by
  simp only [runPoolOp, Option.map_eq_some'] at h
  obtain ⟨⟨t, v⟩, h1, h2⟩ := h
  exact ⟨t, by rw [h1]; simp only at h2; rw [h2]⟩

theorem runPoolOp_acquireBuffer (vk vk1 : VulkanContext) (name : String)
    (size usage memFlags : Nat) (dev : Option CreatedBuffer)
    (h : runPoolOp vk (PoolOp.acquireBuffer name size usage memFlags dev) = some vk1) :
    ∃ t, vk.acquireTransientBuffer name size usage memFlags dev = some (t, vk1) := by
  simp only [runPoolOp, Option.map_eq_some'] at h
  obtain ⟨⟨t, v⟩, h1, h2⟩ := h
  exact ⟨t, by rw [h1]; simp only at h2; rw [h2]⟩

theorem acquireTransientImage2D_free_subset (vk : VulkanContext) (name : String) (format : Nat)
    (extent : VkExtent2D) (usage aspect : Nat) (dev : Option CreatedImage)
    (t : TransientImage2D) (vk1 : VulkanContext)
    (h : vk.acquireTransientImage2D name format extent usage aspect dev = some (t, vk1)) :
    ∀ x ∈ vk1.transientImagesFree, x ∈ vk.transientImagesFree := by
  rcases acquireTransientImage2D_cases vk name format extent usage aspect dev t vk1 h with
    ⟨i, _, rfl⟩ | ⟨_, c, _, _, rfl⟩
  · exact fun x hx => swapRemove_subset _ _ x hx
  · exact fun x hx => hx

theorem acquireTransientBuffer_free_subset (vk : VulkanContext) (name : String)
    (size usage memFlags : Nat) (dev : Option CreatedBuffer)
    (t : TransientBuffer) (vk1 : VulkanContext)
    (h : vk.acquireTransientBuffer name size usage memFlags dev = some (t, vk1)) :
    ∀ x ∈ vk1.transientBuffersFree, x ∈ vk.transientBuffersFree := by
  rcases acquireTransientBuffer_cases vk name size usage memFlags dev t vk1 h with
    ⟨i, _, rfl⟩ | ⟨_, c, _, _, rfl⟩
  · exact fun x hx => swapRemove_subset _ _ x hx
  · exact fun x hx => hx

/-- One pool operation keeps a retired image away from the free list and from the in-flight
lists of the other slots, unless it retires that image again or begins the slot it waits
on. -/
theorem runPoolOp_image_absent (r : TransientImage2D) (N : Nat) (vk vk1 : VulkanContext)
    (op : PoolOp) (h : runPoolOp vk op = some vk1)
    (ha : r ∉ vk.transientImagesFree ∧ ∀ s, s ≠ N → r ∉ vk.transientImagesInFlight s)
    (hne : op ≠ PoolOp.retireImage r)
    (hb : ∀ dev, op = PoolOp.beginFrame dev → vk.frameIndex ≠ N) :
    r ∉ vk1.transientImagesFree ∧ ∀ s, s ≠ N → r ∉ vk1.transientImagesInFlight s := by
  cases op with
  | beginFrame dev =>
    obtain ⟨cmd, hbf⟩ := runPoolOp_beginFrame vk vk1 dev h
    by_cases hr : vk.framebufferResized = true
    · rw [(beginFrame_resized vk dev cmd vk1 hbf hr).2]
      exact ha
    · obtain ⟨-, e2, e3, -, -⟩ := beginFrame_not_resized vk dev cmd vk1 hbf (by simpa using hr)
      rw [e2, e3]
      refine ⟨?_, ?_⟩
      · rw [List.mem_append]
        rintro (h1 | h1)
        · exact ha.1 h1
        · exact ha.2 _ (hb dev rfl) h1
      · intro s hs
        by_cases hsi : s = vk.frameIndex
        · rw [hsi, Function.update_same]
          exact List.not_mem_nil r
        · rw [Function.update_noteq hsi]
          exact ha.2 s hs
  | endFrame dev =>
    obtain ⟨-, e2, -, e4, -, -⟩ := endFrame_poolPart vk vk1 dev h
    rw [e2, e4]
    exact ha
  | acquireImage name format extent usage aspect dev =>
    obtain ⟨t, hacq⟩ := runPoolOp_acquireImage vk vk1 name format extent usage aspect dev h
    obtain ⟨-, -, -, e4, -, -⟩ := acquireTransientImage2D_rest _ _ _ _ _ _ _ _ _ hacq
    rw [e4]
    exact ⟨fun hm => ha.1 (acquireTransientImage2D_free_subset _ _ _ _ _ _ _ _ _ hacq r hm), ha.2⟩
  | retireImage img =>
    simp only [runPoolOp, Option.some.injEq] at h
    subst h
    unfold retireTransientImage2D
    split_ifs with h0
    · exact ha
    · refine ⟨ha.1, ?_⟩
      intro s hs
      by_cases hsi : s = vk.frameIndex
      · subst hsi
        dsimp only
        rw [Function.update_same, List.mem_append, List.mem_singleton]
        rintro (h1 | h1)
        · exact ha.2 _ hs h1
        · exact hne (by rw [h1])
      · dsimp only
        rw [Function.update_noteq hsi]
        exact ha.2 s hs
  | acquireBuffer name size usage memFlags dev =>
    obtain ⟨t, hacq⟩ := runPoolOp_acquireBuffer vk vk1 name size usage memFlags dev h
    obtain ⟨-, -, e3, e4, -, -⟩ := acquireTransientBuffer_rest _ _ _ _ _ _ _ _ hacq
    rw [e3, e4]
    exact ha
  | retireBuffer buf =>
    simp only [runPoolOp, Option.some.injEq] at h
    subst h
    unfold retireTransientBuffer
    split_ifs <;> exact ha

/-- The same for a retired buffer. -/
theorem runPoolOp_buffer_absent (r : TransientBuffer) (N : Nat) (vk vk1 : VulkanContext)
    (op : PoolOp) (h : runPoolOp vk op = some vk1)
    (ha : r ∉ vk.transientBuffersFree ∧ ∀ s, s ≠ N → r ∉ vk.transientBuffersInFlight s)
    (hne : op ≠ PoolOp.retireBuffer r)
    (hb : ∀ dev, op = PoolOp.beginFrame dev → vk.frameIndex ≠ N) :
    r ∉ vk1.transientBuffersFree ∧ ∀ s, s ≠ N → r ∉ vk1.transientBuffersInFlight s := by
  cases op with
  | beginFrame dev =>
    obtain ⟨cmd, hbf⟩ := runPoolOp_beginFrame vk vk1 dev h
    by_cases hr : vk.framebufferResized = true
    · rw [(beginFrame_resized vk dev cmd vk1 hbf hr).2]
      exact ha
    · obtain ⟨-, -, -, e2, e3⟩ := beginFrame_not_resized vk dev cmd vk1 hbf (by simpa using hr)
      rw [e2, e3]
      refine ⟨?_, ?_⟩
      · rw [List.mem_append]
        rintro (h1 | h1)
        · exact ha.1 h1
        · exact ha.2 _ (hb dev rfl) h1
      · intro s hs
        by_cases hsi : s = vk.frameIndex
        · rw [hsi, Function.update_same]
          exact List.not_mem_nil r
        · rw [Function.update_noteq hsi]
          exact ha.2 s hs
  | endFrame dev =>
    obtain ⟨-, -, e3, -, e5, -⟩ := endFrame_poolPart vk vk1 dev h
    rw [e3, e5]
    exact ha
  | acquireBuffer name size usage memFlags dev =>
    obtain ⟨t, hacq⟩ := runPoolOp_acquireBuffer vk vk1 name size usage memFlags dev h
    obtain ⟨-, -, -, -, e5, -⟩ := acquireTransientBuffer_rest _ _ _ _ _ _ _ _ hacq
    rw [e5]
    exact ⟨fun hm => ha.1 (acquireTransientBuffer_free_subset _ _ _ _ _ _ _ _ hacq r hm), ha.2⟩
  | retireBuffer buf =>
    simp only [runPoolOp, Option.some.injEq] at h
    subst h
    unfold retireTransientBuffer
    split_ifs with h0
    · exact ha
    · refine ⟨ha.1, ?_⟩
      intro s hs
      by_cases hsi : s = vk.frameIndex
      · subst hsi
        dsimp only
        rw [Function.update_same, List.mem_append, List.mem_singleton]
        rintro (h1 | h1)
        · exact ha.2 _ hs h1
        · exact hne (by rw [h1])
      · dsimp only
        rw [Function.update_noteq hsi]
        exact ha.2 s hs
  | acquireImage name format extent usage aspect dev =>
    obtain ⟨t, hacq⟩ := runPoolOp_acquireImage vk vk1 name format extent usage aspect dev h
    obtain ⟨-, -, e3, -, e5, -⟩ := acquireTransientImage2D_rest _ _ _ _ _ _ _ _ _ hacq
    rw [e3, e5]
    exact ha
  | retireImage img =>
    simp only [runPoolOp, Option.some.injEq] at h
    subst h
    unfold retireTransientImage2D
    split_ifs <;> exact ha

theorem beginsSlot_cons_false (N : Nat) (vk : VulkanContext) (op : PoolOp) (ops : List PoolOp)
    (vk1 : VulkanContext) (h : beginsSlot N vk (op :: ops) = false)
    (hr : runPoolOp vk op = some vk1) :
    (∀ dev, op = PoolOp.beginFrame dev → vk.frameIndex ≠ N) ∧ beginsSlot N vk1 ops = false := by
  unfold beginsSlot at h
  rw [hr] at h
  simp only [Bool.or_eq_false_iff] at h
  refine ⟨?_, h.2⟩
  intro dev hd
  subst hd
  simpa using h.1

theorem runPoolOps_image_absent (r : TransientImage2D) (N : Nat) (ops : List PoolOp)
    (vk vk1 : VulkanContext) (h : runPoolOps vk ops = some vk1)
    (ha : r ∉ vk.transientImagesFree ∧ ∀ s, s ≠ N → r ∉ vk.transientImagesInFlight s)
    (hne : PoolOp.retireImage r ∉ ops) (hb : beginsSlot N vk ops = false) :
    r ∉ vk1.transientImagesFree ∧ ∀ s, s ≠ N → r ∉ vk1.transientImagesInFlight s := by
  induction ops generalizing vk with
  | nil =>
    simp only [runPoolOps, Option.some.injEq] at h
    subst h
    exact ha
  | cons op ops ih =>
    unfold runPoolOps at h
    cases ho : runPoolOp vk op with
    | none => rw [ho] at h; simp at h
    | some v =>
      rw [ho] at h
      obtain ⟨hb1, hb2⟩ := beginsSlot_cons_false N vk op ops v hb ho
      exact ih v h
        (runPoolOp_image_absent r N vk v op ho ha
          (fun he => hne (he ▸ List.mem_cons_self _ _)) hb1)
        (fun hm => hne (List.mem_cons_of_mem _ hm)) hb2

theorem runPoolOps_buffer_absent (r : TransientBuffer) (N : Nat) (ops : List PoolOp)
    (vk vk1 : VulkanContext) (h : runPoolOps vk ops = some vk1)
    (ha : r ∉ vk.transientBuffersFree ∧ ∀ s, s ≠ N → r ∉ vk.transientBuffersInFlight s)
    (hne : PoolOp.retireBuffer r ∉ ops) (hb : beginsSlot N vk ops = false) :
    r ∉ vk1.transientBuffersFree ∧ ∀ s, s ≠ N → r ∉ vk1.transientBuffersInFlight s := by
  induction ops generalizing vk with
  | nil =>
    simp only [runPoolOps, Option.some.injEq] at h
    subst h
    exact ha
  | cons op ops ih =>
    unfold runPoolOps at h
    cases ho : runPoolOp vk op with
    | none => rw [ho] at h; simp at h
    | some v =>
      rw [ho] at h
      obtain ⟨hb1, hb2⟩ := beginsSlot_cons_false N vk op ops v hb ho
      exact ih v h
        (runPoolOp_buffer_absent r N vk v op ho ha
          (fun he => hne (he ▸ List.mem_cons_self _ _)) hb1)
        (fun hm => hne (List.mem_cons_of_mem _ hm)) hb2

end VulkanContext

namespace VulkanContext

theorem touchesImageKey_of_match (t : TransientImage2D) (f : Nat) (e : VkExtent2D) (u a : Nat)
    (format : Nat) (extent : VkExtent2D) (usage aspect : Nat)
    (h1 : transientImageKeyMatch t f e u a = true)
    (h2 : transientImageKeyMatch t format extent usage aspect = true) (name : String)
    (dev : Option CreatedImage) :
    PoolOp.touchesImageKey format extent usage aspect (PoolOp.acquireImage name f e u a dev) =
      true := by
  obtain ⟨a1, a2, a3, a4⟩ := (transientImageKeyMatch_iff _ _ _ _ _).1 h1
  obtain ⟨b1, b2, b3, b4⟩ := (transientImageKeyMatch_iff _ _ _ _ _).1 h2
  subst a1 a2 a3 a4
  simp [PoolOp.touchesImageKey, b1, b2, b3, b4]

theorem touchesBufferKey_of_match (t : TransientBuffer) (s u m : Nat)
    (size usage memFlags : Nat)
    (h1 : transientBufferKeyMatch t s u m = true)
    (h2 : transientBufferKeyMatch t size usage memFlags = true) (name : String)
    (dev : Option CreatedBuffer) :
    PoolOp.touchesBufferKey size usage memFlags (PoolOp.acquireBuffer name s u m dev) = true := by
  obtain ⟨a1, a2, a3⟩ := (transientBufferKeyMatch_iff _ _ _ _).1 h1
  obtain ⟨b1, b2, b3⟩ := (transientBufferKeyMatch_iff _ _ _ _).1 h2
  subst a1 a2 a3
  simp [PoolOp.touchesBufferKey, b1, b2, b3]

/-- Every pooled image of the shape is `r`: a pool operation keeps it so when it neither
acquires the shape nor retires another image of the shape. -/
theorem runPoolOp_image_only (r : TransientImage2D) (format : Nat) (extent : VkExtent2D)
    (usage aspect : Nat) (vk vk1 : VulkanContext) (op : PoolOp)
    (h : runPoolOp vk op = some vk1)
    (ho : (∀ t ∈ vk.transientImagesFree,
        transientImageKeyMatch t format extent usage aspect = true → t = r) ∧
      ∀ s, ∀ t ∈ vk.transientImagesInFlight s,
        transientImageKeyMatch t format extent usage aspect = true → t = r)
    (hop : op.touchesImageKey format extent usage aspect = false ∨ op = PoolOp.retireImage r) :
    (∀ t ∈ vk1.transientImagesFree,
        transientImageKeyMatch t format extent usage aspect = true → t = r) ∧
      ∀ s, ∀ t ∈ vk1.transientImagesInFlight s,
        transientImageKeyMatch t format extent usage aspect = true → t = r := by
  cases op with
  | beginFrame dev =>
    obtain ⟨cmd, hbf⟩ := runPoolOp_beginFrame vk vk1 dev h
    by_cases hr : vk.framebufferResized = true
    · rw [(beginFrame_resized vk dev cmd vk1 hbf hr).2]
      exact ho
    · obtain ⟨-, e2, e3, -, -⟩ := beginFrame_not_resized vk dev cmd vk1 hbf (by simpa using hr)
      rw [e2, e3]
      refine ⟨?_, ?_⟩
      · intro t ht
        rw [List.mem_append] at ht
        rcases ht with h1 | h1
        · exact ho.1 t h1
        · exact ho.2 _ t h1
      · intro s t ht
        by_cases hsi : s = vk.frameIndex
        · rw [hsi, Function.update_same] at ht
          exact absurd ht (List.not_mem_nil t)
        · rw [Function.update_noteq hsi] at ht
          exact ho.2 s t ht
  | endFrame dev =>
    obtain ⟨-, e2, -, e4, -, -⟩ := endFrame_poolPart vk vk1 dev h
    rw [e2, e4]
    exact ho
  | acquireImage name f e u a dev =>
    obtain ⟨t, hacq⟩ := runPoolOp_acquireImage vk vk1 name f e u a dev h
    obtain ⟨-, -, -, e4, -, -⟩ := acquireTransientImage2D_rest _ _ _ _ _ _ _ _ _ hacq
    rw [e4]
    exact ⟨fun x hx => ho.1 x (acquireTransientImage2D_free_subset _ _ _ _ _ _ _ _ _ hacq x hx),
      ho.2⟩
  | retireImage img =>
    simp only [runPoolOp, Option.some.injEq] at h
    subst h
    unfold retireTransientImage2D
    split_ifs with h0
    · exact ho
    · refine ⟨ho.1, ?_⟩
      intro s t ht hk
      by_cases hsi : s = vk.frameIndex
      · subst hsi
        dsimp only at ht
        rw [Function.update_same, List.mem_append, List.mem_singleton] at ht
        rcases ht with h1 | h1
        · exact ho.2 _ t h1 hk
        · subst h1
          rcases hop with h2 | h2
          · simp only [PoolOp.touchesImageKey] at h2
            rw [hk] at h2
            exact absurd h2 (by simp)
          · simp only [PoolOp.retireImage.injEq] at h2
            exact h2
      · dsimp only at ht
        rw [Function.update_noteq hsi] at ht
        exact ho.2 s t ht hk
  | acquireBuffer name size usage memFlags dev =>
    obtain ⟨t, hacq⟩ := runPoolOp_acquireBuffer vk vk1 name size usage memFlags dev h
    obtain ⟨-, -, e3, e4, -, -⟩ := acquireTransientBuffer_rest _ _ _ _ _ _ _ _ hacq
    rw [e3, e4]
    exact ho
  | retireBuffer buf =>
    simp only [runPoolOp, Option.some.injEq] at h
    subst h
    unfold retireTransientBuffer
    split_ifs <;> exact ho

/-- An operation inside a frame that does not touch the shape leaves the frame slot and the
resize flag alone, keeps `r` on every in-flight list it was on, and keeps it on the free
list. -/
theorem runPoolOp_image_inFrame (r : TransientImage2D) (format : Nat) (extent : VkExtent2D)
    (usage aspect : Nat) (hrk : transientImageKeyMatch r format extent usage aspect = true)
    (vk vk1 : VulkanContext) (op : PoolOp) (h : runPoolOp vk op = some vk1)
    (hin : op.inFrame = true) (hop : op.touchesImageKey format extent usage aspect = false) :
    vk1.frameIndex = vk.frameIndex ∧ vk1.framebufferResized = vk.framebufferResized ∧
      (∀ s, r ∈ vk.transientImagesInFlight s → r ∈ vk1.transientImagesInFlight s) ∧
      (r ∈ vk.transientImagesFree → r ∈ vk1.transientImagesFree) := by
  cases op with
  | beginFrame dev => simp [PoolOp.inFrame] at hin
  | endFrame dev => simp [PoolOp.inFrame] at hin
  | acquireImage name f e u a dev =>
    obtain ⟨t, hacq⟩ := runPoolOp_acquireImage vk vk1 name f e u a dev h
    obtain ⟨e1, e2, -, e4, -, -⟩ := acquireTransientImage2D_rest _ _ _ _ _ _ _ _ _ hacq
    refine ⟨e1, e2, fun s hs => by rw [e4]; exact hs, ?_⟩
    intro hm
    rcases acquireTransientImage2D_cases vk name f e u a dev t vk1 hacq with
      ⟨i, hf, rfl⟩ | ⟨_, c, _, _, rfl⟩
    · obtain ⟨g1, g2, -⟩ := (findFirst_eq_some_iff _ _ _ _).1 hf
      refine mem_swapRemove _ i t r g1 hm ?_
      intro hrt
      subst hrt
      rw [touchesImageKey_of_match r f e u a format extent usage aspect g2 hrk name dev] at hop
      exact absurd hop (by simp)
    · exact hm
  | retireImage img =>
    simp only [runPoolOp, Option.some.injEq] at h
    subst h
    unfold retireTransientImage2D
    split_ifs with h0
    · exact ⟨rfl, rfl, fun s hs => hs, fun hm => hm⟩
    · refine ⟨rfl, rfl, ?_, fun hm => hm⟩
      intro s hs
      by_cases hsi : s = vk.frameIndex
      · subst hsi
        dsimp only
        rw [Function.update_same, List.mem_append]
        exact Or.inl hs
      · dsimp only
        rw [Function.update_noteq hsi]
        exact hs
  | acquireBuffer name size usage memFlags dev =>
    obtain ⟨t, hacq⟩ := runPoolOp_acquireBuffer vk vk1 name size usage memFlags dev h
    obtain ⟨e1, e2, e3, e4, -, -⟩ := acquireTransientBuffer_rest _ _ _ _ _ _ _ _ hacq
    exact ⟨e1, e2, fun s hs => by rw [e4]; exact hs, fun hm => by rw [e3]; exact hm⟩
  | retireBuffer buf =>
    simp only [runPoolOp, Option.some.injEq] at h
    subst h
    unfold retireTransientBuffer
    split_ifs <;> exact ⟨rfl, rfl, fun s hs => hs, fun hm => hm⟩

/-- The two facts above along a run of operations inside a frame. -/
theorem runPoolOps_image_inFrame (r : TransientImage2D) (format : Nat) (extent : VkExtent2D)
    (usage aspect : Nat) (hrk : transientImageKeyMatch r format extent usage aspect = true)
    (ops : List PoolOp) (vk vk1 : VulkanContext) (h : runPoolOps vk ops = some vk1)
    (hops : ∀ op ∈ ops, op.inFrame = true ∧
      op.touchesImageKey format extent usage aspect = false)
    (ho : (∀ t ∈ vk.transientImagesFree,
        transientImageKeyMatch t format extent usage aspect = true → t = r) ∧
      ∀ s, ∀ t ∈ vk.transientImagesInFlight s,
        transientImageKeyMatch t format extent usage aspect = true → t = r) :
    vk1.frameIndex = vk.frameIndex ∧ vk1.framebufferResized = vk.framebufferResized ∧
      (∀ s, r ∈ vk.transientImagesInFlight s → r ∈ vk1.transientImagesInFlight s) ∧
      (r ∈ vk.transientImagesFree → r ∈ vk1.transientImagesFree) ∧
      ((∀ t ∈ vk1.transientImagesFree,
        transientImageKeyMatch t format extent usage aspect = true → t = r) ∧
      ∀ s, ∀ t ∈ vk1.transientImagesInFlight s,
        transientImageKeyMatch t format extent usage aspect = true → t = r) := by
  induction ops generalizing vk with
  | nil =>
    simp only [runPoolOps, Option.some.injEq] at h
    subst h
    exact ⟨rfl, rfl, fun s hs => hs, fun hm => hm, ho⟩
  | cons op ops ih =>
    unfold runPoolOps at h
    cases hr : runPoolOp vk op with
    | none => rw [hr] at h; simp at h
    | some v =>
      rw [hr] at h
      obtain ⟨hi, ht⟩ := hops op (List.mem_cons_self _ _)
      obtain ⟨a1, a2, a3, a4⟩ :=
        runPoolOp_image_inFrame r format extent usage aspect hrk vk v op hr hi ht
      have ho1 := runPoolOp_image_only r format extent usage aspect vk v op hr ho (Or.inl ht)
      obtain ⟨b1, b2, b3, b4, b5⟩ :=
        ih v h (fun o hm => hops o (List.mem_cons_of_mem _ hm)) ho1
      exact ⟨b1.trans a1, b2.trans a2, fun s hs => b3 s (a3 s hs), fun hm => b4 (a4 hm), b5⟩

end VulkanContext

namespace VulkanContext

theorem beginFrame_frameIndex (vk : VulkanContext) (dev : BeginFrameDevice) (cmd : Nat)
    (vk1 : VulkanContext) (h : vk.beginFrame dev = some (cmd, vk1)) :
    vk1.frameIndex = vk.frameIndex := by
  by_cases hr : vk.framebufferResized = true
  · rw [(beginFrame_resized vk dev cmd vk1 h hr).2]
  · exact (beginFrame_not_resized vk dev cmd vk1 h (by simpa using hr)).1

theorem beginFrame_image_other_slot (vk : VulkanContext) (dev : BeginFrameDevice) (cmd : Nat)
    (vk1 : VulkanContext) (h : vk.beginFrame dev = some (cmd, vk1)) (s : Nat)
    (hs : s ≠ vk.frameIndex) :
    vk1.transientImagesInFlight s = vk.transientImagesInFlight s := by
  by_cases hr : vk.framebufferResized = true
  · rw [(beginFrame_resized vk dev cmd vk1 h hr).2]
  · rw [(beginFrame_not_resized vk dev cmd vk1 h (by simpa using hr)).2.2.1,
      Function.update_noteq hs]

theorem beginFrame_buffer_other_slot (vk : VulkanContext) (dev : BeginFrameDevice) (cmd : Nat)
    (vk1 : VulkanContext) (h : vk.beginFrame dev = some (cmd, vk1)) (s : Nat)
    (hs : s ≠ vk.frameIndex) :
    vk1.transientBuffersInFlight s = vk.transientBuffersInFlight s := by
  by_cases hr : vk.framebufferResized = true
  · rw [(beginFrame_resized vk dev cmd vk1 h hr).2]
  · rw [(beginFrame_not_resized vk dev cmd vk1 h (by simpa using hr)).2.2.2.2,
      Function.update_noteq hs]

theorem runPoolOp_of_beginFrame (vk : VulkanContext) (dev : BeginFrameDevice) (cmd : Nat)
    (vk1 : VulkanContext) (h : vk.beginFrame dev = some (cmd, vk1)) :
    runPoolOp vk (PoolOp.beginFrame dev) = some vk1 := by
  simp [runPoolOp, h]

theorem next_slot_ne (N : Nat) : N ≠ (N + 1) % MAX_FRAMES := by
  unfold MAX_FRAMES
  omega

theorem next_next_slot (N : Nat) (h : N < MAX_FRAMES) :
    ((N + 1) % MAX_FRAMES + 1) % MAX_FRAMES = N := by
  unfold MAX_FRAMES at h ⊢
  omega

/-- The round trip of a pooled image that is the only pooled image of its shape. -/
theorem image_round_trip (vk : VulkanContext) (name : String) (format : Nat)
    (extent : VkExtent2D) (usage aspect : Nat) (dev : Option CreatedImage)
    (r : TransientImage2D) (vk1 : VulkanContext)
    (hacq : vk.acquireTransientImage2D name format extent usage aspect dev = some (r, vk1))
    (hr : r.image ≠ 0) (hslot : vk.frameIndex < MAX_FRAMES)
    (honly : (∀ t ∈ vk1.transientImagesFree,
        transientImageKeyMatch t format extent usage aspect = false) ∧
      ∀ s, ∀ t ∈ vk1.transientImagesInFlight s,
        transientImageKeyMatch t format extent usage aspect = false)
    (A B C : List PoolOp)
    (hABC : ∀ op ∈ A ++ B ++ C, op.inFrame = true ∧
      op.touchesImageKey format extent usage aspect = false)
    (e1 e2 : EndFrameDevice) (b1 b2 : BeginFrameDevice) (c1 c2 : Nat)
    (vA vE1 vB1 vB vE2 vB2 vC : VulkanContext)
    (hA : runPoolOps (vk1.retireTransientImage2D r) A = some vA)
    (hE1 : vA.endFrame e1 = some vE1)
    (hB1 : vE1.beginFrame b1 = some (c1, vB1))
    (hB : runPoolOps vB1 B = some vB)
    (hE2 : vB.endFrame e2 = some vE2)
    (hres : vE2.framebufferResized = false)
    (hB2 : vE2.beginFrame b2 = some (c2, vB2))
    (hC : runPoolOps vB2 C = some vC) :
    vE1.frameIndex ≠ vk.frameIndex ∧ vE2.frameIndex = vk.frameIndex ∧
      ∀ name2 dev2, ∃ vk4,
        vC.acquireTransientImage2D name2 format extent usage aspect dev2 = some (r, vk4) := by
  have hrk := acquireTransientImage2D_key vk name format extent usage aspect dev r vk1 hacq
  have hN : vk1.frameIndex = vk.frameIndex :=
    (acquireTransientImage2D_rest _ _ _ _ _ _ _ _ _ hacq).1
  have hopsA : ∀ op ∈ A, op.inFrame = true ∧
      op.touchesImageKey format extent usage aspect = false :=
    fun op h => hABC op (List.mem_append_left _ (List.mem_append_left _ h))
  have hopsB : ∀ op ∈ B, op.inFrame = true ∧
      op.touchesImageKey format extent usage aspect = false :=
    fun op h => hABC op (List.mem_append_left _ (List.mem_append_right _ h))
  have hopsC : ∀ op ∈ C, op.inFrame = true ∧
      op.touchesImageKey format extent usage aspect = false :=
    fun op h => hABC op (List.mem_append_right _ h)
  -- the retire
  have ho1 : (∀ t ∈ vk1.transientImagesFree,
        transientImageKeyMatch t format extent usage aspect = true → t = r) ∧
      ∀ s, ∀ t ∈ vk1.transientImagesInFlight s,
        transientImageKeyMatch t format extent usage aspect = true → t = r :=
    ⟨fun t ht hk => absurd hk (by rw [honly.1 t ht]; simp),
      fun s t ht hk => absurd hk (by rw [honly.2 s t ht]; simp)⟩
  have ho2 := runPoolOp_image_only r format extent usage aspect vk1 _ (PoolOp.retireImage r)
    rfl ho1 (Or.inr rfl)
  have hin2 : r ∈ (vk1.retireTransientImage2D r).transientImagesInFlight vk.frameIndex := by
    unfold retireTransientImage2D
    rw [if_neg hr]
    dsimp only
    rw [hN, Function.update_same]
    exact List.mem_append_right _ (List.mem_singleton_self r)
  have hN2 : (vk1.retireTransientImage2D r).frameIndex = vk.frameIndex := by
    unfold retireTransientImage2D
    split_ifs <;> exact hN
  -- the rest of the frame
  obtain ⟨a1, -, a3, -, a5⟩ :=
    runPoolOps_image_inFrame r format extent usage aspect hrk A _ vA hA hopsA ho2
  -- the end of the frame
  obtain ⟨f1, f2, -, f4, -, -⟩ := endFrame_poolPart vA vE1 e1 hE1
  have hNE1 : vE1.frameIndex = (vk.frameIndex + 1) % MAX_FRAMES := by rw [f1, a1, hN2]
  have hoE1 : (∀ t ∈ vE1.transientImagesFree,
        transientImageKeyMatch t format extent usage aspect = true → t = r) ∧
      ∀ s, ∀ t ∈ vE1.transientImagesInFlight s,
        transientImageKeyMatch t format extent usage aspect = true → t = r := by
    rw [f2, f4]; exact a5
  have hinE1 : r ∈ vE1.transientImagesInFlight vk.frameIndex := by
    rw [f4]; exact a3 _ hin2
  -- the next frame
  have hne : vk.frameIndex ≠ vE1.frameIndex := by
    rw [hNE1]; exact next_slot_ne _
  have hoB1 := runPoolOp_image_only r format extent usage aspect vE1 vB1 (PoolOp.beginFrame b1)
    (runPoolOp_of_beginFrame vE1 b1 c1 vB1 hB1) hoE1 (Or.inl rfl)
  have hinB1 : r ∈ vB1.transientImagesInFlight vk.frameIndex := by
    rw [beginFrame_image_other_slot vE1 b1 c1 vB1 hB1 _ hne]; exact hinE1
  have hNB1 : vB1.frameIndex = (vk.frameIndex + 1) % MAX_FRAMES := by
    rw [beginFrame_frameIndex vE1 b1 c1 vB1 hB1, hNE1]
  obtain ⟨g1, -, g3, -, g5⟩ :=
    runPoolOps_image_inFrame r format extent usage aspect hrk B vB1 vB hB hopsB hoB1
  obtain ⟨k1, k2, -, k4, -, -⟩ := endFrame_poolPart vB vE2 e2 hE2
  have hNE2 : vE2.frameIndex = vk.frameIndex := by
    rw [k1, g1, hNB1]; exact next_next_slot _ hslot
  have hoE2 : (∀ t ∈ vE2.transientImagesFree,
        transientImageKeyMatch t format extent usage aspect = true → t = r) ∧
      ∀ s, ∀ t ∈ vE2.transientImagesInFlight s,
        transientImageKeyMatch t format extent usage aspect = true → t = r := by
    rw [k2, k4]; exact g5
  have hinE2 : r ∈ vE2.transientImagesInFlight vE2.frameIndex := by
    rw [hNE2, k4]; exact g3 _ hinB1
  -- the slot begins again
  have hoB2 := runPoolOp_image_only r format extent usage aspect vE2 vB2 (PoolOp.beginFrame b2)
    (runPoolOp_of_beginFrame vE2 b2 c2 vB2 hB2) hoE2 (Or.inl rfl)
  have hfB2 : r ∈ vB2.transientImagesFree := by
    rw [(beginFrame_not_resized vE2 b2 c2 vB2 hB2 hres).2.1]
    exact List.mem_append_right _ hinE2
  obtain ⟨-, -, -, m4, m5⟩ :=
    runPoolOps_image_inFrame r format extent usage aspect hrk C vB2 vC hC hopsC hoB2
  have hfC : r ∈ vC.transientImagesFree := m4 hfB2
  refine ⟨by rw [hNE1]; exact (next_slot_ne _).symm, hNE2, ?_⟩
  intro name2 dev2
  unfold acquireTransientImage2D
  cases hf : findFirst (fun a => transientImageKeyMatch a format extent usage aspect)
      vC.transientImagesFree with
  | none =>
    have := (findFirst_eq_none_iff _ _).1 hf r hfC
    simp only at this
    rw [hrk] at this
    exact absurd this (by simp)
  | some q =>
    obtain ⟨i, t⟩ := q
    obtain ⟨q1, q2, -⟩ := (findFirst_eq_some_iff _ _ _ _).1 hf
    have htr : t = r := m5.1 t (List.getElem?_mem q1) q2
    subst htr
    exact ⟨_, rfl⟩

end VulkanContext
namespace VulkanContext

/-- Every pooled buffer of the shape is `r`: a pool operation keeps it so when it neither
acquires the shape nor retires another buffer of the shape. -/
theorem runPoolOp_buffer_only (r : TransientBuffer) (size usage memFlags : Nat)
    (vk vk1 : VulkanContext) (op : PoolOp)
    (h : runPoolOp vk op = some vk1)
    (ho : (∀ t ∈ vk.transientBuffersFree,
        transientBufferKeyMatch t size usage memFlags = true → t = r) ∧
      ∀ s, ∀ t ∈ vk.transientBuffersInFlight s,
        transientBufferKeyMatch t size usage memFlags = true → t = r)
    (hop : op.touchesBufferKey size usage memFlags = false ∨ op = PoolOp.retireBuffer r) :
    (∀ t ∈ vk1.transientBuffersFree,
        transientBufferKeyMatch t size usage memFlags = true → t = r) ∧
      ∀ s, ∀ t ∈ vk1.transientBuffersInFlight s,
        transientBufferKeyMatch t size usage memFlags = true → t = r := by
  cases op with
  | beginFrame dev =>
    obtain ⟨cmd, hbf⟩ := runPoolOp_beginFrame vk vk1 dev h
    by_cases hr : vk.framebufferResized = true
    · rw [(beginFrame_resized vk dev cmd vk1 hbf hr).2]
      exact ho
    · obtain ⟨-, -, -, e2, e3⟩ := beginFrame_not_resized vk dev cmd vk1 hbf (by simpa using hr)
      rw [e2, e3]
      refine ⟨?_, ?_⟩
      · intro t ht
        rw [List.mem_append] at ht
        rcases ht with h1 | h1
        · exact ho.1 t h1
        · exact ho.2 _ t h1
      · intro s t ht
        by_cases hsi : s = vk.frameIndex
        · rw [hsi, Function.update_same] at ht
          exact absurd ht (List.not_mem_nil t)
        · rw [Function.update_noteq hsi] at ht
          exact ho.2 s t ht
  | endFrame dev =>
    obtain ⟨-, -, e3, -, e5, -⟩ := endFrame_poolPart vk vk1 dev h
    rw [e3, e5]
    exact ho
  | acquireBuffer name s u m dev =>
    obtain ⟨t, hacq⟩ := runPoolOp_acquireBuffer vk vk1 name s u m dev h
    obtain ⟨-, -, -, -, e5, -⟩ := acquireTransientBuffer_rest _ _ _ _ _ _ _ _ hacq
    rw [e5]
    exact ⟨fun x hx => ho.1 x (acquireTransientBuffer_free_subset _ _ _ _ _ _ _ _ hacq x hx),
      ho.2⟩
  | retireBuffer buf =>
    simp only [runPoolOp, Option.some.injEq] at h
    subst h
    unfold retireTransientBuffer
    split_ifs with h0
    · exact ho
    · refine ⟨ho.1, ?_⟩
      intro s t ht hk
      by_cases hsi : s = vk.frameIndex
      · subst hsi
        dsimp only at ht
        rw [Function.update_same, List.mem_append, List.mem_singleton] at ht
        rcases ht with h1 | h1
        · exact ho.2 _ t h1 hk
        · subst h1
          rcases hop with h2 | h2
          · simp only [PoolOp.touchesBufferKey] at h2
            rw [hk] at h2
            exact absurd h2 (by simp)
          · simp only [PoolOp.retireBuffer.injEq] at h2
            exact h2
      · dsimp only at ht
        rw [Function.update_noteq hsi] at ht
        exact ho.2 s t ht hk
  | acquireImage name format extent usage aspect dev =>
    obtain ⟨t, hacq⟩ := runPoolOp_acquireImage vk vk1 name format extent usage aspect dev h
    obtain ⟨-, -, e3, -, e5, -⟩ := acquireTransientImage2D_rest _ _ _ _ _ _ _ _ _ hacq
    rw [e3, e5]
    exact ho
  | retireImage img =>
    simp only [runPoolOp, Option.some.injEq] at h
    subst h
    unfold retireTransientImage2D
    split_ifs <;> exact ho

/-- An operation inside a frame that does not touch the shape leaves the frame slot and the
resize flag alone, keeps the buffer `r` on every in-flight list it was on, and keeps it on
the free list. -/
theorem runPoolOp_buffer_inFrame (r : TransientBuffer) (size usage memFlags : Nat)
    (hrk : transientBufferKeyMatch r size usage memFlags = true)
    (vk vk1 : VulkanContext) (op : PoolOp) (h : runPoolOp vk op = some vk1)
    (hin : op.inFrame = true) (hop : op.touchesBufferKey size usage memFlags = false) :
    vk1.frameIndex = vk.frameIndex ∧ vk1.framebufferResized = vk.framebufferResized ∧
      (∀ s, r ∈ vk.transientBuffersInFlight s → r ∈ vk1.transientBuffersInFlight s) ∧
      (r ∈ vk.transientBuffersFree → r ∈ vk1.transientBuffersFree) := by
  cases op with
  | beginFrame dev => simp [PoolOp.inFrame] at hin
  | endFrame dev => simp [PoolOp.inFrame] at hin
  | acquireBuffer name s u m dev =>
    obtain ⟨t, hacq⟩ := runPoolOp_acquireBuffer vk vk1 name s u m dev h
    obtain ⟨e1, e2, -, -, e5, -⟩ := acquireTransientBuffer_rest _ _ _ _ _ _ _ _ hacq
    refine ⟨e1, e2, fun s hs => by rw [e5]; exact hs, ?_⟩
    intro hm
    rcases acquireTransientBuffer_cases vk name s u m dev t vk1 hacq with
      ⟨i, hf, rfl⟩ | ⟨_, c, _, _, rfl⟩
    · obtain ⟨g1, g2, -⟩ := (findFirst_eq_some_iff _ _ _ _).1 hf
      refine mem_swapRemove _ i t r g1 hm ?_
      intro hrt
      subst hrt
      rw [touchesBufferKey_of_match r s u m size usage memFlags g2 hrk name dev] at hop
      exact absurd hop (by simp)
    · exact hm
  | retireBuffer buf =>
    simp only [runPoolOp, Option.some.injEq] at h
    subst h
    unfold retireTransientBuffer
    split_ifs with h0
    · exact ⟨rfl, rfl, fun s hs => hs, fun hm => hm⟩
    · refine ⟨rfl, rfl, ?_, fun hm => hm⟩
      intro s hs
      by_cases hsi : s = vk.frameIndex
      · subst hsi
        dsimp only
        rw [Function.update_same, List.mem_append]
        exact Or.inl hs
      · dsimp only
        rw [Function.update_noteq hsi]
        exact hs
  | acquireImage name format extent usage aspect dev =>
    obtain ⟨t, hacq⟩ := runPoolOp_acquireImage vk vk1 name format extent usage aspect dev h
    obtain ⟨e1, e2, e3, -, e5, -⟩ := acquireTransientImage2D_rest _ _ _ _ _ _ _ _ _ hacq
    exact ⟨e1, e2, fun s hs => by rw [e5]; exact hs, fun hm => by rw [e3]; exact hm⟩
  | retireImage img =>
    simp only [runPoolOp, Option.some.injEq] at h
    subst h
    unfold retireTransientImage2D
    split_ifs <;> exact ⟨rfl, rfl, fun s hs => hs, fun hm => hm⟩

/-- The two facts above along a run of operations inside a frame. -/
theorem runPoolOps_buffer_inFrame (r : TransientBuffer) (size usage memFlags : Nat)
    (hrk : transientBufferKeyMatch r size usage memFlags = true)
    (ops : List PoolOp) (vk vk1 : VulkanContext) (h : runPoolOps vk ops = some vk1)
    (hops : ∀ op ∈ ops, op.inFrame = true ∧ op.touchesBufferKey size usage memFlags = false)
    (ho : (∀ t ∈ vk.transientBuffersFree,
        transientBufferKeyMatch t size usage memFlags = true → t = r) ∧
      ∀ s, ∀ t ∈ vk.transientBuffersInFlight s,
        transientBufferKeyMatch t size usage memFlags = true → t = r) :
    vk1.frameIndex = vk.frameIndex ∧ vk1.framebufferResized = vk.framebufferResized ∧
      (∀ s, r ∈ vk.transientBuffersInFlight s → r ∈ vk1.transientBuffersInFlight s) ∧
      (r ∈ vk.transientBuffersFree → r ∈ vk1.transientBuffersFree) ∧
      ((∀ t ∈ vk1.transientBuffersFree,
        transientBufferKeyMatch t size usage memFlags = true → t = r) ∧
      ∀ s, ∀ t ∈ vk1.transientBuffersInFlight s,
        transientBufferKeyMatch t size usage memFlags = true → t = r) := by
  induction ops generalizing vk with
  | nil =>
    simp only [runPoolOps, Option.some.injEq] at h
    subst h
    exact ⟨rfl, rfl, fun s hs => hs, fun hm => hm, ho⟩
  | cons op ops ih =>
    unfold runPoolOps at h
    cases hr : runPoolOp vk op with
    | none => rw [hr] at h; simp at h
    | some v =>
      rw [hr] at h
      obtain ⟨hi, ht⟩ := hops op (List.mem_cons_self _ _)
      obtain ⟨a1, a2, a3, a4⟩ :=
        runPoolOp_buffer_inFrame r size usage memFlags hrk vk v op hr hi ht
      have ho1 := runPoolOp_buffer_only r size usage memFlags vk v op hr ho (Or.inl ht)
      obtain ⟨b1, b2, b3, b4, b5⟩ :=
        ih v h (fun o hm => hops o (List.mem_cons_of_mem _ hm)) ho1
      exact ⟨b1.trans a1, b2.trans a2, fun s hs => b3 s (a3 s hs), fun hm => b4 (a4 hm), b5⟩

/-- The round trip of a pooled buffer that is the only pooled buffer of its shape. -/
theorem buffer_round_trip (vk : VulkanContext) (name : String) (size usage memFlags : Nat)
    (dev : Option CreatedBuffer) (r : TransientBuffer) (vk1 : VulkanContext)
    (hacq : vk.acquireTransientBuffer name size usage memFlags dev = some (r, vk1))
    (hr : r.buffer ≠ 0) (hslot : vk.frameIndex < MAX_FRAMES)
    (honly : (∀ t ∈ vk1.transientBuffersFree,
        transientBufferKeyMatch t size usage memFlags = false) ∧
      ∀ s, ∀ t ∈ vk1.transientBuffersInFlight s,
        transientBufferKeyMatch t size usage memFlags = false)
    (A B C : List PoolOp)
    (hABC : ∀ op ∈ A ++ B ++ C, op.inFrame = true ∧
      op.touchesBufferKey size usage memFlags = false)
    (e1 e2 : EndFrameDevice) (b1 b2 : BeginFrameDevice) (c1 c2 : Nat)
    (vA vE1 vB1 vB vE2 vB2 vC : VulkanContext)
    (hA : runPoolOps (vk1.retireTransientBuffer r) A = some vA)
    (hE1 : vA.endFrame e1 = some vE1)
    (hB1 : vE1.beginFrame b1 = some (c1, vB1))
    (hB : runPoolOps vB1 B = some vB)
    (hE2 : vB.endFrame e2 = some vE2)
    (hres : vE2.framebufferResized = false)
    (hB2 : vE2.beginFrame b2 = some (c2, vB2))
    (hC : runPoolOps vB2 C = some vC) :
    vE1.frameIndex ≠ vk.frameIndex ∧ vE2.frameIndex = vk.frameIndex ∧
      ∀ name2 dev2, ∃ vk4,
        vC.acquireTransientBuffer name2 size usage memFlags dev2 = some (r, vk4) := by
  have hrk := acquireTransientBuffer_key vk name size usage memFlags dev r vk1 hacq
  have hN : vk1.frameIndex = vk.frameIndex :=
    (acquireTransientBuffer_rest _ _ _ _ _ _ _ _ hacq).1
  have hopsA : ∀ op ∈ A, op.inFrame = true ∧ op.touchesBufferKey size usage memFlags = false :=
    fun op h => hABC op (List.mem_append_left _ (List.mem_append_left _ h))
  have hopsB : ∀ op ∈ B, op.inFrame = true ∧ op.touchesBufferKey size usage memFlags = false :=
    fun op h => hABC op (List.mem_append_left _ (List.mem_append_right _ h))
  have hopsC : ∀ op ∈ C, op.inFrame = true ∧ op.touchesBufferKey size usage memFlags = false :=
    fun op h => hABC op (List.mem_append_right _ h)
  have ho1 : (∀ t ∈ vk1.transientBuffersFree,
        transientBufferKeyMatch t size usage memFlags = true → t = r) ∧
      ∀ s, ∀ t ∈ vk1.transientBuffersInFlight s,
        transientBufferKeyMatch t size usage memFlags = true → t = r :=
    ⟨fun t ht hk => absurd hk (by rw [honly.1 t ht]; simp),
      fun s t ht hk => absurd hk (by rw [honly.2 s t ht]; simp)⟩
  have ho2 := runPoolOp_buffer_only r size usage memFlags vk1 _ (PoolOp.retireBuffer r)
    rfl ho1 (Or.inr rfl)
  have hin2 : r ∈ (vk1.retireTransientBuffer r).transientBuffersInFlight vk.frameIndex := by
    unfold retireTransientBuffer
    rw [if_neg hr]
    dsimp only
    rw [hN, Function.update_same]
    exact List.mem_append_right _ (List.mem_singleton_self r)
  have hN2 : (vk1.retireTransientBuffer r).frameIndex = vk.frameIndex := by
    unfold retireTransientBuffer
    split_ifs <;> exact hN
  obtain ⟨a1, -, a3, -, a5⟩ :=
    runPoolOps_buffer_inFrame r size usage memFlags hrk A _ vA hA hopsA ho2
  obtain ⟨f1, -, f2, -, f4, -⟩ := endFrame_poolPart vA vE1 e1 hE1
  have hNE1 : vE1.frameIndex = (vk.frameIndex + 1) % MAX_FRAMES := by rw [f1, a1, hN2]
  have hoE1 : (∀ t ∈ vE1.transientBuffersFree,
        transientBufferKeyMatch t size usage memFlags = true → t = r) ∧
      ∀ s, ∀ t ∈ vE1.transientBuffersInFlight s,
        transientBufferKeyMatch t size usage memFlags = true → t = r := by
    rw [f2, f4]; exact a5
  have hinE1 : r ∈ vE1.transientBuffersInFlight vk.frameIndex := by
    rw [f4]; exact a3 _ hin2
  have hne : vk.frameIndex ≠ vE1.frameIndex := by
    rw [hNE1]; exact next_slot_ne _
  have hoB1 := runPoolOp_buffer_only r size usage memFlags vE1 vB1 (PoolOp.beginFrame b1)
    (runPoolOp_of_beginFrame vE1 b1 c1 vB1 hB1) hoE1 (Or.inl rfl)
  have hinB1 : r ∈ vB1.transientBuffersInFlight vk.frameIndex := by
    rw [beginFrame_buffer_other_slot vE1 b1 c1 vB1 hB1 _ hne]; exact hinE1
  have hNB1 : vB1.frameIndex = (vk.frameIndex + 1) % MAX_FRAMES := by
    rw [beginFrame_frameIndex vE1 b1 c1 vB1 hB1, hNE1]
  obtain ⟨g1, -, g3, -, g5⟩ :=
    runPoolOps_buffer_inFrame r size usage memFlags hrk B vB1 vB hB hopsB hoB1
  obtain ⟨k1, -, k2, -, k4, -⟩ := endFrame_poolPart vB vE2 e2 hE2
  have hNE2 : vE2.frameIndex = vk.frameIndex := by
    rw [k1, g1, hNB1]; exact next_next_slot _ hslot
  have hoE2 : (∀ t ∈ vE2.transientBuffersFree,
        transientBufferKeyMatch t size usage memFlags = true → t = r) ∧
      ∀ s, ∀ t ∈ vE2.transientBuffersInFlight s,
        transientBufferKeyMatch t size usage memFlags = true → t = r := by
    rw [k2, k4]; exact g5
  have hinE2 : r ∈ vE2.transientBuffersInFlight vE2.frameIndex := by
    rw [hNE2, k4]; exact g3 _ hinB1
  have hoB2 := runPoolOp_buffer_only r size usage memFlags vE2 vB2 (PoolOp.beginFrame b2)
    (runPoolOp_of_beginFrame vE2 b2 c2 vB2 hB2) hoE2 (Or.inl rfl)
  have hfB2 : r ∈ vB2.transientBuffersFree := by
    rw [(beginFrame_not_resized vE2 b2 c2 vB2 hB2 hres).2.2.2.1]
    exact List.mem_append_right _ hinE2
  obtain ⟨-, -, -, m4, m5⟩ :=
    runPoolOps_buffer_inFrame r size usage memFlags hrk C vB2 vC hC hopsC hoB2
  have hfC : r ∈ vC.transientBuffersFree := m4 hfB2
  refine ⟨by rw [hNE1]; exact (next_slot_ne _).symm, hNE2, ?_⟩
  intro name2 dev2
  unfold acquireTransientBuffer
  cases hf : findFirst (fun f => transientBufferKeyMatch f size usage memFlags)
      vC.transientBuffersFree with
  | none =>
    have := (findFirst_eq_none_iff _ _).1 hf r hfC
    simp only at this
    rw [hrk] at this
    exact absurd this (by simp)
  | some q =>
    obtain ⟨i, t⟩ := q
    obtain ⟨q1, q2, -⟩ := (findFirst_eq_some_iff _ _ _ _).1 hf
    have htr : t = r := m5.1 t (List.getElem?_mem q1) q2
    subst htr
    exact ⟨_, rfl⟩

end VulkanContext
namespace VulkanContext

/-- Counterexample to C13: a colour target is allocated and retired in frame slot 0; in frame
slot 1 a second one of the same shape is acquired (the pool has none free, so it is new,
with image handle 701) and retired; no acquire follows until, two frames later, slot 1 has
begun again. The acquire of that shape then returns the first target, image handle 601. -/
theorem pool_round_trip_other_handles :
    sampleHistoryStart.frameIndex = 1 ∧
      sampleHistoryStart.acquireTransientImage2D "b" 97 { width := 800, height := 600 } 0x14
          VK_IMAGE_ASPECT_COLOR_BIT (some { image := 701, memory := 703, view := 702 }) =
        some (sampleSecondImage, sampleHistoryStart) ∧
      runPoolOps sampleHistoryStart (sampleRingOps sampleSecondImage) = some sampleHistoryEnd ∧
      sampleHistoryEnd.frameIndex = 1 ∧
      sampleHistoryEnd.framebufferResized = false ∧
      (sampleHistoryEnd.acquireTransientImage2D "c" 97 { width := 800, height := 600 } 0x14
          VK_IMAGE_ASPECT_COLOR_BIT none).map (fun p => p.1.image) = some 601 ∧
      sampleSecondImage.image = 701 :=
  ⟨rfl, rfl, rfl, rfl, rfl, by decide, rfl⟩

end VulkanContext
namespace VulkanContext

/-- C13 (amended): a resource is acquired in a frame slot and retired in that frame; from
the acquire on it is the only pooled resource of its shape (no free or in-flight entry has
its key) and no operation acquires the shape or retires another resource of the shape; the
frame ends, the other frame slot begins and ends, and the first slot begins again past its
resize test. Then every acquire of the identical shape returns that very resource, native
handles included. Stated for images and for buffers. -/
theorem pool_round_trip (vk vk1 : VulkanContext) (name : String) (A B C : List PoolOp)
    (e1 e2 : EndFrameDevice) (b1 b2 : BeginFrameDevice) (c1 c2 : Nat)
    (vA vE1 vB1 vB vE2 vB2 vC : VulkanContext) (hslot : vk.frameIndex < MAX_FRAMES)
    (hE1 : vA.endFrame e1 = some vE1) (hB1 : vE1.beginFrame b1 = some (c1, vB1))
    (hB : runPoolOps vB1 B = some vB) (hE2 : vB.endFrame e2 = some vE2)
    (hres : vE2.framebufferResized = false) (hB2 : vE2.beginFrame b2 = some (c2, vB2))
    (hC : runPoolOps vB2 C = some vC) :
    (∀ (format : Nat) (extent : VkExtent2D) (usage aspect : Nat) (dev : Option CreatedImage)
        (r : TransientImage2D),
      vk.acquireTransientImage2D name format extent usage aspect dev = some (r, vk1) →
      r.image ≠ 0 →
      ((∀ t ∈ vk1.transientImagesFree,
          transientImageKeyMatch t format extent usage aspect = false) ∧
        ∀ s, ∀ t ∈ vk1.transientImagesInFlight s,
          transientImageKeyMatch t format extent usage aspect = false) →
      (∀ op ∈ A ++ B ++ C, op.inFrame = true ∧
        op.touchesImageKey format extent usage aspect = false) →
      runPoolOps (vk1.retireTransientImage2D r) A = some vA →
      vE1.frameIndex ≠ vk.frameIndex ∧ vE2.frameIndex = vk.frameIndex ∧
        ∀ name2 dev2, ∃ vk4,
          vC.acquireTransientImage2D name2 format extent usage aspect dev2 = some (r, vk4)) ∧
    (∀ (size usage memFlags : Nat) (dev : Option CreatedBuffer) (r : TransientBuffer),
      vk.acquireTransientBuffer name size usage memFlags dev = some (r, vk1) →
      r.buffer ≠ 0 →
      ((∀ t ∈ vk1.transientBuffersFree,
          transientBufferKeyMatch t size usage memFlags = false) ∧
        ∀ s, ∀ t ∈ vk1.transientBuffersInFlight s,
          transientBufferKeyMatch t size usage memFlags = false) →
      (∀ op ∈ A ++ B ++ C, op.inFrame = true ∧
        op.touchesBufferKey size usage memFlags = false) →
      runPoolOps (vk1.retireTransientBuffer r) A = some vA →
      vE1.frameIndex ≠ vk.frameIndex ∧ vE2.frameIndex = vk.frameIndex ∧
        ∀ name2 dev2, ∃ vk4,
          vC.acquireTransientBuffer name2 size usage memFlags dev2 = some (r, vk4)) :=
  ⟨fun format extent usage aspect dev r hacq hr honly hABC hA =>
      image_round_trip vk name format extent usage aspect dev r vk1 hacq hr hslot honly A B C
        hABC e1 e2 b1 b2 c1 c2 vA vE1 vB1 vB vE2 vB2 vC hA hE1 hB1 hB hE2 hres hB2 hC,
    fun size usage memFlags dev r hacq hr honly hABC hA =>
      buffer_round_trip vk name size usage memFlags dev r vk1 hacq hr hslot honly A B C
        hABC e1 e2 b1 b2 c1 c2 vA vE1 vB1 vB vE2 vB2 vC hA hE1 hB1 hB hE2 hres hB2 hC⟩

/-- Witness of C13: on the sample context, whose pool is empty, a colour target is allocated
and retired in frame slot 0 while the frame also allocates and retires a depth target; two
frames later an acquire of the colour shape returns the same target. -/
theorem pool_round_trip_witness :
    RenderGraph.sampleContext.frameIndex < MAX_FRAMES ∧
      sampleTripA.endFrame RenderGraph.sampleEndDevice = some sampleTripE1 ∧
      sampleTripE1.beginFrame RenderGraph.sampleBeginDevice = some (12, sampleTripB1) ∧
      sampleTripB1.endFrame RenderGraph.sampleEndDevice = some sampleTripE2 ∧
      sampleTripE2.framebufferResized = false ∧
      sampleTripE2.beginFrame RenderGraph.sampleBeginDevice = some (11, sampleTripB2) ∧
      RenderGraph.sampleContext.acquireTransientImage2D "hdr" 97 { width := 800, height := 600 } 0x14
          VK_IMAGE_ASPECT_COLOR_BIT (some { image := 601, memory := 603, view := 602 }) =
        some (RenderGraph.samplePooledImage, RenderGraph.sampleContext) ∧
      RenderGraph.samplePooledImage.image ≠ 0 ∧
      runPoolOps (RenderGraph.sampleContext.retireTransientImage2D RenderGraph.samplePooledImage) sampleTripBody =
        some sampleTripA ∧
      ∃ vk4, sampleTripB2.acquireTransientImage2D "hdr" 97 { width := 800, height := 600 } 0x14
          VK_IMAGE_ASPECT_COLOR_BIT none = some (RenderGraph.samplePooledImage, vk4) :=
  ⟨by decide, rfl, rfl, rfl, rfl, rfl, rfl, by decide, rfl,
    ((pool_round_trip RenderGraph.sampleContext RenderGraph.sampleContext "hdr" sampleTripBody [] []
      RenderGraph.sampleEndDevice RenderGraph.sampleEndDevice RenderGraph.sampleBeginDevice RenderGraph.sampleBeginDevice 12 11
      sampleTripA sampleTripE1 sampleTripB1 sampleTripB1 sampleTripE2 sampleTripB2 sampleTripB2
      (by decide) rfl rfl rfl rfl rfl rfl rfl).1 97 { width := 800, height := 600 } 0x14
      VK_IMAGE_ASPECT_COLOR_BIT (some { image := 601, memory := 603, view := 602 })
      RenderGraph.samplePooledImage rfl (by decide)
      ⟨fun t ht => by simp [RenderGraph.sampleContext] at ht,
        fun s t ht => by simp [RenderGraph.sampleContext] at ht⟩
      (by decide) rfl).2.2 "hdr" none⟩

end VulkanContext

namespace VulkanContext

end VulkanContext

section FrustumProofs
variable {F : Type} [LinearOrderedField F]

theorem planeRejects_iff (pl : glm.vec4 F) (bmin bmax : glm.vec3 F) :
    planeRejects pl bmin bmax = true ↔ planeValue pl (positiveVertex pl bmin bmax) < 0 := by
  unfold planeRejects planeValue glm.dot
  simp only [decide_eq_true_eq]

theorem positiveVertex_inBox (pl : glm.vec4 F) (bmin bmax : glm.vec3 F)
    (hx : bmin.x ≤ bmax.x) (hy : bmin.y ≤ bmax.y) (hz : bmin.z ≤ bmax.z) :
    InBox bmin bmax (positiveVertex pl bmin bmax) := by
  unfold InBox positiveVertex
  refine ⟨?_, ?_, ?_, ?_, ?_, ?_⟩ <;> dsimp only <;> split_ifs <;>
    first | exact le_refl _ | assumption

theorem planeValue_le_positiveVertex (pl : glm.vec4 F) (bmin bmax q : glm.vec3 F)
    (hq : InBox bmin bmax q) :
    planeValue pl q ≤ planeValue pl (positiveVertex pl bmin bmax) := by
  obtain ⟨h1, h2, h3, h4, h5, h6⟩ := hq
  have axis : ∀ (a lo hi t : F), lo ≤ t → t ≤ hi → a * t ≤ a * (if a ≥ 0 then hi else lo) := by
    intro a lo hi t hlo hhi
    split_ifs with ha
    · exact mul_le_mul_of_nonneg_left hhi ha
    · exact mul_le_mul_of_nonpos_left hlo (le_of_lt (not_le.1 ha))
  unfold planeValue positiveVertex
  dsimp only
  have ex := axis pl.x bmin.x bmax.x q.x h1 h2
  have ey := axis pl.y bmin.y bmax.y q.y h3 h4
  have ez := axis pl.z bmin.z bmax.z q.z h5 h6
  linarith

theorem planeRejects_iff_forall (pl : glm.vec4 F) (bmin bmax : glm.vec3 F)
    (hx : bmin.x ≤ bmax.x) (hy : bmin.y ≤ bmax.y) (hz : bmin.z ≤ bmax.z) :
    planeRejects pl bmin bmax = true ↔ ∀ q, InBox bmin bmax q → planeValue pl q < 0 := by
  rw [planeRejects_iff]
  constructor
  · intro h q hq
    exact lt_of_le_of_lt (planeValue_le_positiveVertex pl bmin bmax q hq) h
  · intro h
    exact h _ (positiveVertex_inBox pl bmin bmax hx hy hz)

/-- In exact arithmetic: for every list of planes (the six of a frustum in particular) and
every box with `bmin ≤ bmax` on each axis, `frustumIntersectsAABB` returns `false` exactly when some plane
has the whole box strictly on its negative side, that is `n.q + d < 0` at every point `q` of
the box. So a box that lies wholly on the negative side of one plane is rejected, and a box
with a point that is on the non-negative side of every plane is accepted. Arithmetic is
exact, in an ordered field. -/
theorem frustumIntersectsAABB_false_iff (f : FrustumPlanes F) (bmin bmax : glm.vec3 F)
    (hx : bmin.x ≤ bmax.x) (hy : bmin.y ≤ bmax.y) (hz : bmin.z ≤ bmax.z) :
    (frustumIntersectsAABB f bmin bmax = false ↔
        ∃ pl ∈ f.p, ∀ q, InBox bmin bmax q → planeValue pl q < 0) ∧
      (∀ pl ∈ f.p, (∀ q, InBox bmin bmax q → planeValue pl q < 0) →
        frustumIntersectsAABB f bmin bmax = false) ∧
      (∀ q, InBox bmin bmax q → (∀ pl ∈ f.p, 0 ≤ planeValue pl q) →
        frustumIntersectsAABB f bmin bmax = true) := by
  have key : frustumIntersectsAABB f bmin bmax = false ↔
      ∃ pl ∈ f.p, ∀ q, InBox bmin bmax q → planeValue pl q < 0 := by
    unfold frustumIntersectsAABB
    rw [List.all_eq_false]
    constructor
    · rintro ⟨pl, hpl, h⟩
      refine ⟨pl, hpl, (planeRejects_iff_forall pl bmin bmax hx hy hz).1 ?_⟩
      simpa using h
    · rintro ⟨pl, hpl, h⟩
      refine ⟨pl, hpl, ?_⟩
      simpa using (planeRejects_iff_forall pl bmin bmax hx hy hz).2 h
  refine ⟨key, fun pl hpl h => key.2 ⟨pl, hpl, h⟩, ?_⟩
  intro q hq hall
  by_contra hne
  have hf : frustumIntersectsAABB f bmin bmax = false := by simpa using hne
  obtain ⟨pl, hpl, h⟩ := key.1 hf
  exact absurd (h q hq) (not_lt.2 (hall pl hpl))

end FrustumProofs

/-- The planes of the scenario camera and the unit box centered at
(1000,0,-5). -/
theorem frustumIntersectsAABB_false_iff_witness :
    (unitBoxAt { x := 1000, y := 0, z := -5 }).1.x ≤ (unitBoxAt { x := 1000, y := 0, z := -5 }).2.x ∧
    (unitBoxAt { x := 1000, y := 0, z := -5 }).1.y ≤ (unitBoxAt { x := 1000, y := 0, z := -5 }).2.y ∧
    (unitBoxAt { x := 1000, y := 0, z := -5 }).1.z ≤ (unitBoxAt { x := 1000, y := 0, z := -5 }).2.z ∧
    (frustumIntersectsAABB sampleFrustum (unitBoxAt { x := 1000, y := 0, z := -5 }).1
        (unitBoxAt { x := 1000, y := 0, z := -5 }).2 = false ↔
      ∃ pl ∈ sampleFrustum.p, ∀ q,
        InBox (unitBoxAt { x := 1000, y := 0, z := -5 }).1
          (unitBoxAt { x := 1000, y := 0, z := -5 }).2 q → planeValue pl q < 0) :=
  ⟨by norm_num [unitBoxAt], by norm_num [unitBoxAt], by norm_num [unitBoxAt],
    (frustumIntersectsAABB_false_iff sampleFrustum (unitBoxAt { x := 1000, y := 0, z := -5 }).1
      (unitBoxAt { x := 1000, y := 0, z := -5 }).2 (by norm_num [unitBoxAt])
      (by norm_num [unitBoxAt]) (by norm_num [unitBoxAt])).1⟩

section FrustumProofs
variable {F : Type} [LinearOrderedField F]

theorem positiveVertex_divScalar (pl : glm.vec4 F) (len : F) (h : len > 0)
    (bmin bmax : glm.vec3 F) :
    positiveVertex (pl.divScalar len) bmin bmax = positiveVertex pl bmin bmax := by
  have key : ∀ a : F, a / len ≥ 0 ↔ a ≥ 0 := by
    intro a
    constructor
    · intro ha
      by_contra hn
      exact absurd ha (not_le.2 (div_neg_of_neg_of_pos (not_le.1 hn) h))
    · intro ha
      exact div_nonneg ha (le_of_lt h)
  unfold positiveVertex glm.vec4.divScalar
  simp only [key]

theorem planeRejects_normalizePlane (length : glm.vec3 F → F) (pl : glm.vec4 F)
    (bmin bmax : glm.vec3 F) :
    planeRejects (normalizePlane length pl) bmin bmax = planeRejects pl bmin bmax := by
  unfold normalizePlane
  dsimp only
  split_ifs with h
  · have hv : ∀ q : glm.vec3 F, planeValue (pl.divScalar (length { x := pl.x, y := pl.y, z := pl.z })) q =
        planeValue pl q / length { x := pl.x, y := pl.y, z := pl.z } := by
      intro q
      unfold planeValue glm.vec4.divScalar
      dsimp only
      field_simp
    rw [Bool.eq_iff_iff, planeRejects_iff, planeRejects_iff, positiveVertex_divScalar _ _ h, hv]
    constructor
    · intro hlt
      by_contra hn
      exact absurd hlt (not_lt.2 (div_nonneg (not_lt.1 hn) (le_of_lt h)))
    · intro hlt
      exact div_neg_of_neg_of_pos hlt h
  · rfl

/-- Normalizing the planes does not change what `frustumIntersectsAABB` answers. -/
theorem frustumIntersectsAABB_makeFrustumPlanes (length : glm.vec3 F → F) (m : glm.mat4 F)
    (bmin bmax : glm.vec3 F) :
    frustumIntersectsAABB (makeFrustumPlanes length m) bmin bmax =
      frustumIntersectsAABB { p := extractedPlanes m } bmin bmax := by
  unfold frustumIntersectsAABB makeFrustumPlanes
  dsimp only
  rw [List.all_map]
  congr 1
  funext pl
  simp only [Function.comp, planeRejects_normalizePlane]

end FrustumProofs

theorem extractedPlanes_scenario (zeroToOne flipY : Bool) :
    extractedPlanes (scenarioViewProj zeroToOne flipY) =
      [ { x := 1, y := 0, z := -1, w := 0 }, { x := -1, y := 0, z := -1, w := 0 },
        { x := 0, y := if flipY then -1 else 1, z := -1, w := 0 },
        { x := 0, y := if flipY then 1 else -1, z := -1, w := 0 },
        { x := 0, y := 0, z := if zeroToOne then -1999 / 999 else -2000 / 999,
          w := if zeroToOne then -100 / 999 else -200 / 999 },
        { x := 0, y := 0, z := if zeroToOne then 1 / 999 else 2 / 999,
          w := if zeroToOne then 100 / 999 else 200 / 999 } ] := by
  cases zeroToOne <;> cases flipY <;>
    simp [scenarioViewProj, extractedPlanes, glm.perspective] <;> norm_num

theorem planeRejects_eq_false_iff {F : Type} [LinearOrderedField F] (pl : glm.vec4 F)
    (bmin bmax : glm.vec3 F) :
    planeRejects pl bmin bmax = false ↔ 0 ≤ planeValue pl (positiveVertex pl bmin bmax) := by
  rw [← not_lt, ← planeRejects_iff]
  simp

namespace Renderer

theorem take_succ_set {α : Type} (m : List α) (w : Nat) (v : α) (hw : w < m.length) :
    (m.set w v).take (w + 1) = m.take w ++ [v] := by
  induction m generalizing w with
  | nil => simp at hw
  | cons a m ih =>
    cases w with
    | zero => simp
    | succ k =>
      simp only [List.set_cons_succ, List.take_succ_cons, List.cons_append, List.cons.injEq,
        true_and]
      exact ih k (by simpa using hw)

theorem drop_set_of_lt {α : Type} (m : List α) (w k : Nat) (v : α) (h : w < k) :
    (m.set w v).drop k = m.drop k := by
  induction m generalizing w k with
  | nil => simp
  | cons a m ih =>
    cases k with
    | zero => omega
    | succ j =>
      cases w with
      | zero => simp
      | succ i =>
        simp only [List.set_cons_succ, List.drop_succ_cons]
        exact ih i j (by omega)

theorem preFilterStep_of_candidate (tc : Nat) (st : FilterState) (d : DrawItem)
    (h : isCandidate tc d = true) :
    preFilterStep tc st d =
      { written := (st.written + 1) % 2 ^ 32
        mapped := st.mapped.set st.written d.transformIndex
        inBounds := st.inBounds && decide (st.written < st.mapped.length) } := by
  unfold isCandidate at h
  simp only [Bool.and_eq_true, beq_iff_eq, decide_eq_true_eq] at h
  unfold preFilterStep
  rw [if_neg (by simp [h.1]), if_neg (by omega)]

theorem preFilterStep_of_not_candidate (tc : Nat) (st : FilterState) (d : DrawItem)
    (h : isCandidate tc d = false) : preFilterStep tc st d = st := by
  unfold isCandidate at h
  unfold preFilterStep
  by_cases h1 : d.meshId ≠ 0
  · rw [if_pos h1]
  · rw [if_neg h1]
    have h0 : d.meshId = 0 := by simpa using h1
    simp only [h0, beq_self_eq_true, Bool.true_and, decide_eq_false_iff_not, not_lt] at h
    rw [if_pos h]

/-- The pre-filter loop from any state with room for the candidates: it appends their
transform indices at `written`, counts them, and leaves the other cells alone. -/
theorem foldl_preFilterStep (tc : Nat) (draws : List DrawItem) (st : FilterState)
    (h1 : st.written + (draws.filter (isCandidate tc)).length ≤ st.mapped.length)
    (h2 : st.written + (draws.filter (isCandidate tc)).length < 2 ^ 32) :
    (draws.foldl (preFilterStep tc) st).written =
        st.written + (draws.filter (isCandidate tc)).length ∧
      (draws.foldl (preFilterStep tc) st).mapped =
        st.mapped.take st.written ++
          (draws.filter (isCandidate tc)).map (fun d => d.transformIndex) ++
          st.mapped.drop (st.written + (draws.filter (isCandidate tc)).length) ∧
      (draws.foldl (preFilterStep tc) st).inBounds = st.inBounds := by
  induction draws generalizing st with
  | nil => simp
  | cons d ds ih =>
    rw [List.foldl_cons]
    by_cases hc : isCandidate tc d = true
    · rw [List.filter_cons_of_pos hc] at h1 h2 ⊢
      simp only [List.length_cons] at h1 h2 ⊢
      have hw : st.written < st.mapped.length := by omega
      have hmod : (st.written + 1) % 2 ^ 32 = st.written + 1 := Nat.mod_eq_of_lt (by omega)
      rw [preFilterStep_of_candidate tc st d hc, hmod]
      obtain ⟨a1, a2, a3⟩ := ih
        { written := st.written + 1
          mapped := st.mapped.set st.written d.transformIndex
          inBounds := st.inBounds && decide (st.written < st.mapped.length) }
        (by simp only [List.length_set]; omega) (by simp only; omega)
      refine ⟨by rw [a1]; simp only; omega, ?_, by rw [a3]; simp [hw]⟩
      rw [a2]
      simp only [List.map_cons]
      rw [take_succ_set _ _ _ hw, drop_set_of_lt _ _ _ _ (by omega)]
      simp only [List.append_assoc, List.singleton_append]
      congr 3
      omega
    · have hc' : isCandidate tc d = false := by simpa using hc
      rw [List.filter_cons_of_neg hc] at h1 h2 ⊢
      rw [preFilterStep_of_not_candidate tc st d hc']
      exact ih st h1 h2

end Renderer

namespace Renderer

theorem growBuffers_spec (fr : FrameResources) (dc : Nat) (dev : GrowDevice)
    (fr1 : FrameResources) (q : List Nat) (h : growBuffers fr dc dev = some (fr1, q))
    (hmap : fr.drawTransformSsboMapped.length = fr.indirectMaxDraws) :
    fr1.drawTransformSsboMapped.length = fr1.indirectMaxDraws ∧ dc ≤ fr1.indirectMaxDraws ∧
      fr1.indirectMaxDraws =
        (if dc > fr.indirectMaxDraws then grownCapacity dc fr.indirectMaxDraws
         else fr.indirectMaxDraws) := by
  unfold growBuffers at h
  by_cases hg : dc > fr.indirectMaxDraws
  · rw [if_pos hg] at h ⊢
    cases hd : dev.drawTransforms with
    | none => simp [hd] at h
    | some d =>
      cases hi : dev.indirect with
      | none => simp [hd, hi] at h
      | some i =>
        simp only [hd, hi, Option.some.injEq, Prod.mk.injEq] at h
        obtain ⟨rfl, -⟩ := h
        refine ⟨by simp, ?_, rfl⟩
        simp only [grownCapacity]
        exact le_max_left _ _
  · rw [if_neg hg] at h ⊢
    simp only [Option.some.injEq, Prod.mk.injEq] at h
    obtain ⟨rfl, -⟩ := h
    exact ⟨hmap, by omega, rfl⟩

theorem growBuffers_isSome (fr : FrameResources) (dc : Nat) (dev : GrowDevice)
    (h : dc ≤ fr.indirectMaxDraws ∨
      (dev.drawTransforms.isSome = true ∧ dev.indirect.isSome = true)) :
    ∃ p, growBuffers fr dc dev = some p := by
  unfold growBuffers
  by_cases hg : dc > fr.indirectMaxDraws
  · rw [if_pos hg]
    rcases h with h | ⟨h1, h2⟩
    · omega
    · obtain ⟨d, hd⟩ := Option.isSome_iff_exists.1 h1
      obtain ⟨i, hi⟩ := Option.isSome_iff_exists.1 h2
      rw [hd, hi]
      exact ⟨_, rfl⟩
  · rw [if_neg hg]
    exact ⟨_, rfl⟩

/-- What `recordGpuCulling` does in GPU-driven mode on a non-empty draw list. -/
theorem recordGpuCulling_spec {F : Type} (fr : FrameResources) (indexCount : Nat)
    (scene : RenderScene F) (dev : GrowDevice) (hne : scene.draws ≠ [])
    (hlen : scene.draws.length < 2 ^ 32)
    (hmap : fr.drawTransformSsboMapped.length = fr.indirectMaxDraws)
    (hdev : scene.draws.length ≤ fr.indirectMaxDraws ∨
      (dev.drawTransforms.isSome = true ∧ dev.indirect.isSome = true)) :
    ∃ res fr1 q, recordGpuCulling true fr indexCount scene dev = some res ∧
      growBuffers fr scene.draws.length dev = some (fr1, q) ∧
      res.frame.indirectMaxDraws = fr1.indirectMaxDraws ∧
      res.returned = (candidates scene).length ∧
      res.frame.drawTransformSsboMapped =
        candidates scene ++ fr1.drawTransformSsboMapped.drop (candidates scene).length ∧
      res.frame.drawTransformSsboMapped.take (candidates scene).length = candidates scene ∧
      res.frame.drawTransformSsboMapped.length = res.frame.indirectMaxDraws ∧
      res.writesInBounds = true ∧
      (candidates scene ≠ [] →
        res.pushConstants =
            some { drawCount := (candidates scene).length, indexCount := indexCount } ∧
          res.dispatch = some (dispatchGroups (candidates scene).length)) ∧
      (candidates scene = [] → res.pushConstants = none ∧ res.dispatch = none) := by
  have hdc : scene.draws.length % 2 ^ 32 = scene.draws.length := Nat.mod_eq_of_lt hlen
  have hpos : scene.draws.length ≠ 0 := by
    intro h0
    exact hne (List.length_eq_zero.1 h0)
  obtain ⟨⟨fr1, q⟩, hgrow⟩ := growBuffers_isSome fr scene.draws.length dev hdev
  obtain ⟨g1, g2, -⟩ := growBuffers_spec fr _ dev fr1 q hgrow hmap
  have hcl : (scene.draws.filter (isCandidate scene.transforms.length)).length ≤
      scene.draws.length := List.length_filter_le _ _
  have hcand : (candidates scene).length =
      (scene.draws.filter (isCandidate scene.transforms.length)).length := by
    unfold candidates
    rw [List.length_map]
  obtain ⟨p1, p2, p3⟩ := foldl_preFilterStep scene.transforms.length scene.draws
    { written := 0, mapped := fr1.drawTransformSsboMapped, inBounds := true }
    (by simp only [Nat.zero_add]; omega) (by simp only [Nat.zero_add]; omega)
  simp only [Nat.zero_add, List.take_zero, List.nil_append] at p1 p2 p3
  have hrec : recordGpuCulling true fr indexCount scene dev =
      (if (preFilter scene.transforms.length fr1.drawTransformSsboMapped scene.draws).written = 0
        then
          some { returned := 0
                 frame := { fr1 with drawTransformSsboMapped :=
                   (preFilter scene.transforms.length fr1.drawTransformSsboMapped
                     scene.draws).mapped }
                 queuedForDeletion := q
                 writesInBounds :=
                   (preFilter scene.transforms.length fr1.drawTransformSsboMapped
                     scene.draws).inBounds
                 pushConstants := none, dispatch := none }
        else
          some { returned :=
                   (preFilter scene.transforms.length fr1.drawTransformSsboMapped
                     scene.draws).written
                 frame := { fr1 with drawTransformSsboMapped :=
                   (preFilter scene.transforms.length fr1.drawTransformSsboMapped
                     scene.draws).mapped }
                 queuedForDeletion := q
                 writesInBounds :=
                   (preFilter scene.transforms.length fr1.drawTransformSsboMapped
                     scene.draws).inBounds
                 pushConstants := some
                   { drawCount :=
                       (preFilter scene.transforms.length fr1.drawTransformSsboMapped
                         scene.draws).written
                     indexCount := indexCount }
                 dispatch := some (dispatchGroups
                   (preFilter scene.transforms.length fr1.drawTransformSsboMapped
                     scene.draws).written) }) := by
    unfold recordGpuCulling
    simp only [Bool.not_true, Bool.false_eq_true, if_false, hdc, if_neg hpos, hgrow]
  have w1 : (preFilter scene.transforms.length fr1.drawTransformSsboMapped scene.draws).written =
      (candidates scene).length := by rw [hcand]; exact p1
  have w2 : (preFilter scene.transforms.length fr1.drawTransformSsboMapped scene.draws).mapped =
      candidates scene ++ fr1.drawTransformSsboMapped.drop (candidates scene).length := by
    rw [hcand]; exact p2
  have w3 : (preFilter scene.transforms.length fr1.drawTransformSsboMapped
      scene.draws).inBounds = true := p3
  rw [w1, w2, w3] at hrec
  have hlenres : (candidates scene ++
      fr1.drawTransformSsboMapped.drop (candidates scene).length).length =
      fr1.indirectMaxDraws := by
    rw [List.length_append, List.length_drop, g1]
    omega
  by_cases hz : (candidates scene).length = 0
  · rw [if_pos hz] at hrec
    have hnil : candidates scene = [] := List.length_eq_zero.1 hz
    refine ⟨_, fr1, q, hrec, hgrow, rfl, hz.symm, rfl, ?_, hlenres, rfl,
      fun h => absurd hnil h, fun _ => ⟨rfl, rfl⟩⟩
    simp
  · rw [if_neg hz] at hrec
    refine ⟨_, fr1, q, hrec, hgrow, rfl, rfl, rfl, ?_, hlenres, rfl,
      fun _ => ⟨rfl, rfl⟩, fun h => absurd (by rw [h]; rfl) hz⟩
    simp

/-- C17, amended: in GPU-driven mode, for every scene with a non-empty draw list (whose length fits
the 32-bit draw count) and frame resources whose mapped buffer has `indirectMaxDraws` cells,
`recordGpuCulling` returns whenever its growth step does not throw, and then the first cells
of the candidate buffer hold exactly the transform indices of the draws with `meshId == 0`
and `transformIndex < transforms.size()`, in draw-list order; the cells after them are
untouched; every write is inside the buffer; the value returned is the number of such draws;
and when that number is not zero it is also the draw count of the push constants, and the
dispatch is recorded with the group count computed from it. -/
theorem recordGpuCulling_prefilter {F : Type} (fr : FrameResources) (indexCount : Nat)
    (scene : RenderScene F) (dev : GrowDevice) (hne : scene.draws ≠ [])
    (hlen : scene.draws.length < 2 ^ 32)
    (hmap : fr.drawTransformSsboMapped.length = fr.indirectMaxDraws)
    (hdev : scene.draws.length ≤ fr.indirectMaxDraws ∨
      (dev.drawTransforms.isSome = true ∧ dev.indirect.isSome = true)) :
    ∃ res fr1 q, recordGpuCulling true fr indexCount scene dev = some res ∧
      growBuffers fr scene.draws.length dev = some (fr1, q) ∧
      res.returned = (candidates scene).length ∧
      res.frame.drawTransformSsboMapped =
        candidates scene ++ fr1.drawTransformSsboMapped.drop (candidates scene).length ∧
      res.frame.drawTransformSsboMapped.take (candidates scene).length = candidates scene ∧
      res.frame.drawTransformSsboMapped.length = res.frame.indirectMaxDraws ∧
      res.writesInBounds = true ∧
      (candidates scene ≠ [] →
        res.pushConstants =
            some { drawCount := (candidates scene).length, indexCount := indexCount } ∧
          res.dispatch = some (dispatchGroups (candidates scene).length)) ∧
      (candidates scene = [] → res.pushConstants = none ∧ res.dispatch = none) := by
  obtain ⟨res, fr1, q, h1, h2, -, h3⟩ :=
    recordGpuCulling_spec fr indexCount scene dev hne hlen hmap hdev
  exact ⟨res, fr1, q, h1, h2, h3⟩

/-- Witness of C17: the sample scene, of whose six draws four are candidates. -/
theorem recordGpuCulling_prefilter_witness :
    sampleScene.draws ≠ [] ∧ sampleScene.draws.length < 2 ^ 32 ∧
      sampleFrameResources.drawTransformSsboMapped.length =
        sampleFrameResources.indirectMaxDraws ∧
      candidates sampleScene = [2, 0, 1, 0] ∧
      ∃ res fr1 q, recordGpuCulling true sampleFrameResources 36 sampleScene sampleGrowDevice =
          some res ∧
        growBuffers sampleFrameResources sampleScene.draws.length sampleGrowDevice =
          some (fr1, q) ∧
        res.returned = (candidates sampleScene).length ∧
        res.frame.drawTransformSsboMapped =
          candidates sampleScene ++
            fr1.drawTransformSsboMapped.drop (candidates sampleScene).length ∧
        res.frame.drawTransformSsboMapped.take (candidates sampleScene).length =
          candidates sampleScene ∧
        res.frame.drawTransformSsboMapped.length = res.frame.indirectMaxDraws ∧
        res.writesInBounds = true ∧
        (candidates sampleScene ≠ [] →
          res.pushConstants =
              some { drawCount := (candidates sampleScene).length, indexCount := 36 } ∧
            res.dispatch = some (dispatchGroups (candidates sampleScene).length)) ∧
        (candidates sampleScene = [] → res.pushConstants = none ∧ res.dispatch = none) :=
  ⟨by decide, by decide, List.length_replicate 1024 0, by decide,
    recordGpuCulling_prefilter sampleFrameResources 36 sampleScene sampleGrowDevice
      (by decide) (by decide) (List.length_replicate 1024 0) (Or.inl (by decide))⟩

end Renderer

namespace Renderer

theorem growBuffers_capacity (fr : FrameResources) (dc : Nat) (dev : GrowDevice)
    (fr1 : FrameResources) (q : List Nat) (h : growBuffers fr dc dev = some (fr1, q)) :
    fr1.indirectMaxDraws =
      (if dc > fr.indirectMaxDraws then grownCapacity dc fr.indirectMaxDraws
       else fr.indirectMaxDraws) := by
  unfold growBuffers at h
  by_cases hg : dc > fr.indirectMaxDraws
  · rw [if_pos hg] at h ⊢
    cases hd : dev.drawTransforms with
    | none => simp [hd] at h
    | some d =>
      cases hi : dev.indirect with
      | none => simp [hd, hi] at h
      | some i =>
        simp only [hd, hi, Option.some.injEq, Prod.mk.injEq] at h
        obtain ⟨rfl, -⟩ := h
        rfl
  · rw [if_neg hg] at h ⊢
    simp only [Option.some.injEq, Prod.mk.injEq] at h
    obtain ⟨rfl, -⟩ := h
    rfl

/-- The capacity `recordGpuCulling` leaves, in every mode and for every scene. -/
theorem recordGpuCulling_capacity_eq {F : Type} (gpuDriven : Bool) (fr : FrameResources)
    (indexCount : Nat) (scene : RenderScene F) (dev : GrowDevice)
    (hdev : scene.draws.length % 2 ^ 32 ≤ fr.indirectMaxDraws ∨
      (dev.drawTransforms.isSome = true ∧ dev.indirect.isSome = true)) :
    ∃ res, recordGpuCulling gpuDriven fr indexCount scene dev = some res ∧
      res.frame.indirectMaxDraws =
        (if gpuDriven = true ∧ scene.draws.length % 2 ^ 32 > fr.indirectMaxDraws then
          grownCapacity (scene.draws.length % 2 ^ 32) fr.indirectMaxDraws
         else fr.indirectMaxDraws) := by
  unfold recordGpuCulling
  cases gpuDriven with
  | false => exact ⟨_, rfl, by simp⟩
  | true =>
    simp only [Bool.not_true, Bool.false_eq_true, if_false, true_and]
    by_cases h0 : scene.draws.length % 2 ^ 32 = 0
    · rw [if_pos h0]
      refine ⟨_, rfl, ?_⟩
      rw [if_neg (by omega)]
    · rw [if_neg h0]
      obtain ⟨⟨fr1, q⟩, hgrow⟩ := growBuffers_isSome fr _ dev hdev
      have hc := growBuffers_capacity fr _ dev fr1 q hgrow
      rw [hgrow]
      simp only
      split_ifs with h1 h2 h3
      · exact ⟨_, rfl, by rw [if_pos h2] at hc; exact hc⟩
      · exact ⟨_, rfl, by rw [if_neg h2] at hc; exact hc⟩
      · exact ⟨_, rfl, by rw [if_pos h3] at hc; exact hc⟩
      · exact ⟨_, rfl, by rw [if_neg h3] at hc; exact hc⟩

theorem le_grownCapacity (dc cap : Nat) (h : dc > cap) :
    dc ≤ grownCapacity dc cap ∧ cap ≤ grownCapacity dc cap := by
  unfold grownCapacity
  exact ⟨le_max_left _ _, le_trans (le_of_lt h) (le_max_left _ _)⟩

/-- Counterexample to C18: with room for 1024 draws and a scene of 1025 draws none of which
is a candidate, the candidate count (zero) does not exceed the capacity, and yet the call
grows the capacity to 2048. And where the doubling leaves the 32-bit range, the new capacity
is the draw count, not max(count, 2 x old capacity): from 2^31 with 2^31 + 1 draws it is
2^31 + 1. -/
theorem recordGpuCulling_grows_without_candidates :
    candidates sampleRejectedScene = [] ∧
      sampleFrameResources.indirectMaxDraws = 1024 ∧
      (∃ res, recordGpuCulling true sampleFrameResources 36 sampleRejectedScene
          sampleGrowDevice = some res ∧
        res.returned = 0 ∧ res.frame.indirectMaxDraws = 2048) ∧
      grownCapacity (2 ^ 31 + 1) (2 ^ 31) = 2 ^ 31 + 1 ∧
      max (2 ^ 31 + 1) (2 * 2 ^ 31) = 2 ^ 32 := by
  have hl : sampleRejectedScene.draws.length = 1025 := List.length_replicate _ _
  have hc : candidates sampleRejectedScene = [] := by
    unfold candidates
    rw [List.map_eq_nil_iff, List.filter_eq_nil_iff]
    intro d hd
    rw [List.eq_of_mem_replicate hd]
    decide
  refine ⟨hc, rfl, ?_, by decide, by decide⟩
  obtain ⟨res, fr1, q, h1, h2, h3, h4, -⟩ :=
    recordGpuCulling_spec sampleFrameResources 36 sampleRejectedScene sampleGrowDevice
      (by rw [← List.length_pos, hl]; decide) (by rw [hl]; decide)
      (List.length_replicate 1024 0) (Or.inr ⟨rfl, rfl⟩)
  refine ⟨res, h1, by rw [h4, hc]; rfl, ?_⟩
  rw [h3, growBuffers_capacity _ _ _ fr1 q h2, hl]
  decide

/-- C18 (amended): the growth of `recordGpuCulling` is driven by the total number of draws
of the scene, as the 32-bit count `dc` taken before the validity filter, not by the number
of candidates. In GPU-driven mode, when `dc` exceeds the current capacity the call (which
returns unless buffer creation throws) sets the capacity to `max(dc, 2 x old capacity)`
computed in 32 bits, which is the plain `max(dc, 2 x old)` while the old capacity is below
2^31; the new capacity is at least `dc`, hence at least the candidate count when the draw
list fits 32 bits (1024 with 1500 draws becomes 2048). The capacity is never reduced and is
unchanged when `dc` does not exceed it or the renderer is not in GPU-driven mode. -/
theorem recordGpuCulling_capacity {F : Type} (gpuDriven : Bool) (fr : FrameResources)
    (indexCount : Nat) (scene : RenderScene F) (dev : GrowDevice)
    (hdev : scene.draws.length % 2 ^ 32 ≤ fr.indirectMaxDraws ∨
      (dev.drawTransforms.isSome = true ∧ dev.indirect.isSome = true)) :
    ∃ res, recordGpuCulling gpuDriven fr indexCount scene dev = some res ∧
      res.frame.indirectMaxDraws =
        (if gpuDriven = true ∧ scene.draws.length % 2 ^ 32 > fr.indirectMaxDraws then
          grownCapacity (scene.draws.length % 2 ^ 32) fr.indirectMaxDraws
         else fr.indirectMaxDraws) ∧
      fr.indirectMaxDraws ≤ res.frame.indirectMaxDraws ∧
      (gpuDriven = true → scene.draws.length % 2 ^ 32 ≤ res.frame.indirectMaxDraws) ∧
      (gpuDriven = true → scene.draws.length < 2 ^ 32 →
        (candidates scene).length ≤ res.frame.indirectMaxDraws) ∧
      (fr.indirectMaxDraws < 2 ^ 31 →
        grownCapacity (scene.draws.length % 2 ^ 32) fr.indirectMaxDraws =
          max (scene.draws.length % 2 ^ 32) (2 * fr.indirectMaxDraws)) ∧
      grownCapacity 1500 1024 = 2048 := by
  obtain ⟨res, h1, h2⟩ := recordGpuCulling_capacity_eq gpuDriven fr indexCount scene dev hdev
  have hle : fr.indirectMaxDraws ≤ res.frame.indirectMaxDraws := by
    rw [h2]
    split_ifs with h
    · exact (le_grownCapacity _ _ h.2).2
    · exact le_refl _
  have hdc : gpuDriven = true → scene.draws.length % 2 ^ 32 ≤ res.frame.indirectMaxDraws := by
    intro hg
    rw [h2]
    split_ifs with h
    · exact (le_grownCapacity _ _ h.2).1
    · have : ¬ scene.draws.length % 2 ^ 32 > fr.indirectMaxDraws := fun hh => h ⟨hg, hh⟩
      omega
  refine ⟨res, h1, h2, hle, hdc, ?_, ?_, by decide⟩
  · intro hg hlen
    have h3 := hdc hg
    rw [Nat.mod_eq_of_lt hlen] at h3
    have h4 : (candidates scene).length ≤ scene.draws.length := by
      unfold candidates
      rw [List.length_map]
      exact List.length_filter_le _ _
    omega
  · intro hcap
    have hm : (fr.indirectMaxDraws * 2) % 2 ^ 32 = 2 * fr.indirectMaxDraws := by
      rw [Nat.mod_eq_of_lt (by omega), Nat.mul_comm]
    unfold grownCapacity
    rw [hm]

/-- Witness of C18: room for 1024 draws and a scene of 1500 draws. -/
theorem recordGpuCulling_capacity_witness :
    sampleLargeScene.draws.length = 1500 ∧ sampleFrameResources.indirectMaxDraws = 1024 ∧
      ∃ res, recordGpuCulling true sampleFrameResources 36 sampleLargeScene sampleGrowDevice =
          some res ∧
        res.frame.indirectMaxDraws =
          (if true = true ∧
              sampleLargeScene.draws.length % 2 ^ 32 > sampleFrameResources.indirectMaxDraws then
            grownCapacity (sampleLargeScene.draws.length % 2 ^ 32)
              sampleFrameResources.indirectMaxDraws
           else sampleFrameResources.indirectMaxDraws) ∧
        sampleFrameResources.indirectMaxDraws ≤ res.frame.indirectMaxDraws :=
  ⟨List.length_replicate _ _, rfl,
    (recordGpuCulling_capacity true sampleFrameResources 36 sampleLargeScene sampleGrowDevice
      (Or.inr ⟨rfl, rfl⟩)).imp fun _ h => ⟨h.1, h.2.1, h.2.2.1⟩⟩

end Renderer

namespace Renderer

/-- Counterexample to C19: the group count is computed in `uint32_t`, and for the candidate
count 2^32 - 1 the sum `n + 63` wraps to 62, so no workgroup at all is dispatched, where
ceil(n / 64) is 67108864. -/
theorem dispatchGroups_wraps :
    dispatchGroups 4294967295 = 0 ∧ (1 : Nat) ≤ 4294967295 ∧ 4294967295 < 2 ^ 32 ∧
      ¬ (4294967295 ≤ 64 * dispatchGroups 4294967295) ∧
      (4294967295 + 63) / 64 = 67108864 := by
  decide

/-- C19 (amended): for every candidate count `n` with `1 ≤ n ≤ 2^32 - 64` (so that `n + 63`
fits 32 bits), the group count of the dispatch is ceil(n / 64): it covers every candidate
(`n ≤ 64 g`), it is the smallest such count, and fewer than 64 invocations are surplus; for
1200 candidates it is 19. -/
theorem dispatchGroups_ceil (n : Nat) (h1 : 1 ≤ n) (h2 : n ≤ 2 ^ 32 - 64) :
    dispatchGroups n = (n + 63) / 64 ∧ n ≤ 64 * dispatchGroups n ∧
      (∀ g, n ≤ 64 * g → dispatchGroups n ≤ g) ∧ 64 * dispatchGroups n - n < 64 ∧
      1 ≤ dispatchGroups n ∧ dispatchGroups 1200 = 19 := by
  have hd : dispatchGroups n = (n + 63) / 64 := by
    unfold dispatchGroups
    rw [Nat.mod_eq_of_lt (by omega)]
  refine ⟨hd, ?_, ?_, ?_, ?_, by decide⟩
  · rw [hd]; omega
  · intro g hg
    rw [hd]; omega
  · rw [hd]; omega
  · rw [hd]; omega

/-- Witness of C19: 1200 candidates. -/
theorem dispatchGroups_ceil_witness :
    (1 : Nat) ≤ 1200 ∧ 1200 ≤ 2 ^ 32 - 64 ∧ 1200 ≤ 64 * dispatchGroups 1200 ∧
      64 * dispatchGroups 1200 - 1200 < 64 :=
  ⟨by decide, by decide, (dispatchGroups_ceil 1200 (by decide) (by decide)).2.1,
    (dispatchGroups_ceil 1200 (by decide) (by decide)).2.2.2.1⟩

end Renderer

namespace Renderer

theorem sortKey_le_iff (a b : DrawPtr) :
    sortKey a ≤ sortKey b ↔
      a.2.materialId < b.2.materialId ∨
        (a.2.materialId = b.2.materialId ∧
          (a.2.meshId < b.2.meshId ∨
            (a.2.meshId = b.2.meshId ∧ a.2.transformIndex ≤ b.2.transformIndex))) := by
  unfold sortKey
  rw [Prod.Lex.le_iff]
  simp only [ofLex_toLex]
  rw [Prod.Lex.le_iff]

/-- The comparator of the host path is the strict order of the sort key. -/
theorem drawPtrLess_eq_false_iff (a b : DrawPtr) :
    drawPtrLess b a = false ↔ sortKey a ≤ sortKey b := by
  rw [sortKey_le_iff]
  unfold drawPtrLess
  by_cases h1 : b.2.materialId ≠ a.2.materialId
  · rw [if_pos h1]
    simp only [decide_eq_false_iff_not, not_lt]
    constructor
    · intro h; left; omega
    · rintro (h | ⟨h, -⟩) <;> omega
  · rw [if_neg h1]
    have e1 : b.2.materialId = a.2.materialId := by simpa using h1
    by_cases h2 : b.2.meshId ≠ a.2.meshId
    · rw [if_pos h2]
      simp only [decide_eq_false_iff_not, not_lt]
      constructor
      · intro h; right; exact ⟨e1.symm, Or.inl (by omega)⟩
      · rintro (h | ⟨-, h | ⟨h, -⟩⟩) <;> omega
    · rw [if_neg h2]
      have e2 : b.2.meshId = a.2.meshId := by simpa using h2
      simp only [decide_eq_false_iff_not, not_lt]
      constructor
      · intro h; right; exact ⟨e1.symm, Or.inr ⟨e2.symm, h⟩⟩
      · rintro (h | ⟨-, h | ⟨-, h⟩⟩) <;> omega

theorem stableSortByKey_perm (l : List DrawPtr) : (stableSortByKey l).Perm l :=
  List.perm_insertionSort _ l

theorem stableSortByKey_sorted (l : List DrawPtr) :
    ((stableSortByKey l).map sortKey).Pairwise (· ≤ ·) := by
  haveI : IsTotal DrawPtr (fun a b => sortKey a ≤ sortKey b) := ⟨fun a b => le_total _ _⟩
  haveI : IsTrans DrawPtr (fun a b => sortKey a ≤ sortKey b) :=
    ⟨fun a b c h1 h2 => le_trans h1 h2⟩
  have h := List.sorted_insertionSort (fun a b : DrawPtr => sortKey a ≤ sortKey b) l
  rw [List.pairwise_map]
  exact h

/-- Two arrangements of the same draw pointers that are both sorted by the key issue the
same keys in the same order. -/
theorem map_sortKey_eq_of_sorted (l1 l2 : List DrawPtr) (hp : l1.Perm l2)
    (h1 : (l1.map sortKey).Pairwise (· ≤ ·)) (h2 : (l2.map sortKey).Pairwise (· ≤ ·)) :
    l1.map sortKey = l2.map sortKey :=
  List.eq_of_perm_of_sorted (hp.map sortKey) h1 h2

theorem sampleStdSort_perm (lt : DrawPtr → DrawPtr → Bool) (l : List DrawPtr) :
    (sampleStdSort lt l).Perm l :=
  (List.perm_insertionSort _ _).trans (List.reverse_perm l)

theorem sampleStdSort_sorted (l : List DrawPtr) :
    (sampleStdSort drawPtrLess l).Pairwise fun a b => drawPtrLess b a = false := by
  haveI : IsTotal DrawPtr (fun a b => drawPtrLess b a = false) :=
    ⟨fun a b => by
      rw [drawPtrLess_eq_false_iff, drawPtrLess_eq_false_iff]
      exact le_total _ _⟩
  haveI : IsTrans DrawPtr (fun a b => drawPtrLess b a = false) :=
    ⟨fun a b c h1 h2 => by
      rw [drawPtrLess_eq_false_iff] at h1 h2 ⊢
      exact le_trans h1 h2⟩
  exact List.sorted_insertionSort (fun a b : DrawPtr => drawPtrLess b a = false) l.reverse

section
variable {F : Type} [LinearOrderedField F]

theorem mem_hostVisible (length : glm.vec3 F → F) (scene : RenderScene F)
    (boundsMin boundsMax : glm.vec3 F) (i : Nat) (d : DrawItem) :
    (i, d) ∈ hostVisible length scene boundsMin boundsMax ↔
      scene.draws[i]? = some d ∧ d.meshId = 0 ∧
        ∃ m, scene.transforms[d.transformIndex]? = some m ∧
          frustumIntersectsAABB (makeFrustumPlanes length (mulMat scene.proj scene.view))
            (transformAABB m boundsMin boundsMax).1 (transformAABB m boundsMin boundsMax).2 =
              true := by
  unfold hostVisible
  simp only [List.mem_filter, List.mk_mem_enum_iff_getElem?]
  unfold hostVisibleTest
  constructor
  · rintro ⟨h1, h2⟩
    refine ⟨h1, ?_⟩
    by_cases hm : d.meshId ≠ 0
    · rw [if_pos hm] at h2
      exact absurd h2 (by simp)
    · rw [if_neg hm] at h2
      refine ⟨by simpa using hm, ?_⟩
      cases ht : scene.transforms[d.transformIndex]? with
      | none => rw [ht] at h2; exact absurd h2 (by simp)
      | some m => rw [ht] at h2; exact ⟨m, rfl, h2⟩
  · rintro ⟨h1, h2, m, h3, h4⟩
    refine ⟨h1, ?_⟩
    rw [if_neg (by simp [h2]), h3]
    exact h4

theorem hostVisible_nodup (length : glm.vec3 F → F) (scene : RenderScene F)
    (boundsMin boundsMax : glm.vec3 F) :
    ((hostVisible length scene boundsMin boundsMax).map Prod.fst).Nodup := by
  unfold hostVisible
  have hs : ((scene.draws.enum.filter fun pd =>
      hostVisibleTest (makeFrustumPlanes length (mulMat scene.proj scene.view)) scene
        boundsMin boundsMax pd.2).map Prod.fst).Sublist (scene.draws.enum.map Prod.fst) :=
    (List.filter_sublist _).map _
  rw [List.enum_map_fst] at hs
  exact hs.nodup (List.nodup_range _)

end

end Renderer

namespace Renderer

theorem transformAABB_sample (x z : ℚ) :
    transformAABB (translation x 0 z) sampleBoundsMin sampleBoundsMax =
      unitBoxAt { x := x, y := 0, z := z } := by
  have h1 : ∀ a : ℚ, Min.min (-1 / 2 + a) (1 / 2 + a) = -1 / 2 + a := fun a =>
    min_eq_left (by linarith)
  have h2 : ∀ a : ℚ, Max.max (-1 / 2 + a) (1 / 2 + a) = 1 / 2 + a := fun a =>
    max_eq_right (by linarith)
  have h3 : ∀ a : ℚ, Min.min (1 / 2 + a) (-1 / 2 + a) = -1 / 2 + a := fun a =>
    min_eq_right (by linarith)
  have h4 : ∀ a : ℚ, Max.max (1 / 2 + a) (-1 / 2 + a) = 1 / 2 + a := fun a =>
    max_eq_left (by linarith)
  simp only [transformAABB, aabbCorners, glm.mulPoint, glm.min, glm.max, translation, identity,
    sampleBoundsMin, sampleBoundsMax, unitBoxAt, List.tail_cons, List.foldl_cons,
    List.foldl_nil, mul_one, one_mul, zero_mul, add_zero, zero_add, min_self, max_self,
    h1, h2, h3, h4]
  simp only [Prod.mk.injEq, glm.vec3.mk.injEq]
  refine ⟨⟨?_, ?_, ?_⟩, ⟨?_, ?_, ?_⟩⟩ <;> first | (norm_num; done) | ring

end Renderer

namespace Renderer

set_option maxHeartbeats 2000000 in
set_option maxRecDepth 10000 in
theorem hostVisible_sample :
    hostVisible sampleLength sampleScene sampleBoundsMin sampleBoundsMax =
      [ (0, { meshId := 0, materialId := 2, transformIndex := 2 }),
        (2, { meshId := 0, materialId := 1, transformIndex := 0 }),
        (5, { meshId := 0, materialId := 1, transformIndex := 0 }) ] := by
  have hvp : mulMat sampleScene.proj sampleScene.view = scenarioViewProj true true := by
    simp [mulMat, mulVec, sampleScene, identity, scenarioViewProj, glm.perspective]
  have hfr : ∀ bmin bmax : glm.vec3 ℚ,
      frustumIntersectsAABB (makeFrustumPlanes sampleLength (scenarioViewProj true true))
        bmin bmax =
      frustumIntersectsAABB { p := extractedPlanes (scenarioViewProj true true) } bmin bmax :=
    fun bmin bmax => frustumIntersectsAABB_makeFrustumPlanes _ _ _ _
  have v0 : frustumIntersectsAABB { p := extractedPlanes (scenarioViewProj true true) }
      (unitBoxAt { x := 0, y := 0, z := -5 }).1 (unitBoxAt { x := 0, y := 0, z := -5 }).2 =
        true := by
    unfold frustumIntersectsAABB
    rw [extractedPlanes_scenario]
    simp only [List.all_cons, List.all_nil, Bool.and_true, Bool.and_eq_true,
      Bool.not_eq_true', planeRejects_eq_false_iff]
    norm_num [planeValue, positiveVertex, unitBoxAt]
  have v2 : frustumIntersectsAABB { p := extractedPlanes (scenarioViewProj true true) }
      (unitBoxAt { x := 0, y := 0, z := -7 }).1 (unitBoxAt { x := 0, y := 0, z := -7 }).2 =
        true := by
    unfold frustumIntersectsAABB
    rw [extractedPlanes_scenario]
    simp only [List.all_cons, List.all_nil, Bool.and_true, Bool.and_eq_true,
      Bool.not_eq_true', planeRejects_eq_false_iff]
    norm_num [planeValue, positiveVertex, unitBoxAt]
  have v1 : frustumIntersectsAABB { p := extractedPlanes (scenarioViewProj true true) }
      (unitBoxAt { x := 1000, y := 0, z := -5 }).1
      (unitBoxAt { x := 1000, y := 0, z := -5 }).2 = false := by
    unfold frustumIntersectsAABB
    rw [extractedPlanes_scenario, List.all_eq_false]
    refine ⟨{ x := -1, y := 0, z := -1, w := 0 }, by simp, ?_⟩
    rw [Bool.not_eq_true, Bool.not_eq_false', planeRejects_iff]
    norm_num [planeValue, positiveVertex, unitBoxAt]
  unfold hostVisible
  rw [hvp]
  simp [sampleScene, List.enum, List.enumFrom, hostVisibleTest, List.filter,
    transformAABB_sample, hfr, v0, v1, v2]

end Renderer

namespace Renderer

end Renderer

/-! ## Staging exhaustion: proofs -/

namespace Renderer

/-- C21, as the code behaves. When the staging allocation for the vertex data of the scene
mesh comes back empty, `Mesh::create` returns `false`, `Renderer::createScene` drops that
flag and returns normally: nothing aborts, no copy was recorded and the mesh is left with
an index count of zero. Only `createTexture2D` aborts with a diagnostic when its staging
allocation comes back empty. -/
theorem mesh_upload_exhaustion_not_fatal (sceneMesh : Mesh) (up : UploadManager.State)
    (vertexCount indexCount : Nat) (dev : Mesh.CreateDevice) (v i : Nat × Nat)
    (hv : vertexCount ≠ 0) (hi : indexCount ≠ 0)
    (hdv : dev.vertexBuffer = some v) (hdi : dev.indexBuffer = some i)
    (hfull : (UploadManager.alloc up ((Mesh.sizeofVertex * vertexCount) % 2 ^ 64)
      Mesh.alignofVertex).1.cpu = 0) :
    (∃ up1, Mesh.create sceneMesh up vertexCount indexCount dev =
        Outcome.returned (false,
          { vb := v.1, vbMem := v.2, ib := i.1, ibMem := i.2, idxCount := 0 }, up1) ∧
      createSceneMesh sceneMesh up vertexCount indexCount dev =
        Outcome.returned
          ({ vb := v.1, vbMem := v.2, ib := i.1, ibMem := i.2, idxCount := 0 }, up1) ∧
      up1.copies = up.copies) ∧
    (∀ w h : Nat, (UploadManager.alloc up ((w * h * 4) % 2 ^ 64) 4).1.cpu = 0 →
      createTexture2D up w h true =
        Outcome.aborted (stagingDiagnostic w h ((w * h * 4) % 2 ^ 64))) := by
  have hu : UploadManager.uploadToBuffer up v.1 0 ((Mesh.sizeofVertex * vertexCount) % 2 ^ 64)
      Mesh.alignofVertex =
      (false, (UploadManager.alloc up ((Mesh.sizeofVertex * vertexCount) % 2 ^ 64)
        Mesh.alignofVertex).2) := by
    unfold UploadManager.uploadToBuffer
    dsimp only
    rw [if_pos hfull]
  have hc : Mesh.create sceneMesh up vertexCount indexCount dev =
      Outcome.returned (false,
        { vb := v.1, vbMem := v.2, ib := i.1, ibMem := i.2, idxCount := 0 },
        (UploadManager.alloc up ((Mesh.sizeofVertex * vertexCount) % 2 ^ 64)
          Mesh.alignofVertex).2) := by
    unfold Mesh.create
    dsimp only [Mesh.destroy]
    rw [if_neg (by simp [hv, hi]), hdv]
    dsimp only
    rw [hdi]
    dsimp only
    rw [hu]
    rfl
  refine ⟨⟨(UploadManager.alloc up ((Mesh.sizeofVertex * vertexCount) % 2 ^ 64)
      Mesh.alignofVertex).2, hc, ?_, ?_⟩, ?_⟩
  · unfold createSceneMesh
    rw [hc]
  · unfold UploadManager.alloc
    cases up.cur with
    | none => rfl
    | some f =>
      dsimp only
      split <;> rfl
  · intro w h hwh
    unfold createTexture2D
    dsimp only
    rw [if_pos hwh]
    rfl

/-- A mesh of two million vertices (96 MB of vertex data) does not fit the 64 MiB of staging
memory: the scene is created without it, and nothing aborts. -/
theorem mesh_upload_exhaustion_not_fatal_witness :
    (∃ up1, Mesh.create sampleEmptyMesh sampleUpload 2000000 3 sampleMeshDevice =
        Outcome.returned (false,
          { vb := 701, vbMem := 702, ib := 703, ibMem := 704, idxCount := 0 }, up1) ∧
      createSceneMesh sampleEmptyMesh sampleUpload 2000000 3 sampleMeshDevice =
        Outcome.returned
          ({ vb := 701, vbMem := 702, ib := 703, ibMem := 704, idxCount := 0 }, up1) ∧
      up1.copies = sampleUpload.copies) ∧
    (∀ w h : Nat, (UploadManager.alloc sampleUpload ((w * h * 4) % 2 ^ 64) 4).1.cpu = 0 →
      createTexture2D sampleUpload w h true =
        Outcome.aborted (stagingDiagnostic w h ((w * h * 4) % 2 ^ 64))) :=
  mesh_upload_exhaustion_not_fatal sampleEmptyMesh sampleUpload 2000000 3 sampleMeshDevice
    (701, 702) (703, 704) (by decide) (by decide) rfl rfl (by decide)

end Renderer

/-! ## Scopes of `execute`: proofs -/

namespace RenderGraph

theorem applyBarriers_passes (g : RenderGraph) (vk : VulkanContext) (cmd : Nat) (pass : Pass) :
    (applyBarriers g vk cmd pass).1.passes = g.passes := by
  have h := applyBarriers_staticPart g vk cmd pass
  simp only [staticPart, Prod.mk.injEq] at h
  exact h.2.1

/-- The events one iteration of the loop of `execute` appends to the trace, and the value of
`legacyRenderPassOpen` it leaves. -/
theorem executePass_events (dyn : Bool) (st : ExecState) (i : Nat) (p : Pass)
    (hp : st.graph.passes[i]? = some p) :
    (executePass dyn st i).vk.trace =
        st.vk.trace ++
          ([Event.cmdBeginLabel st.graph.cmdBuf p.name] ++
            barrierEvents st.graph.cmdBuf
              (applyBarriers st.graph (st.vk.cmdBeginLabel st.graph.cmdBuf p.name)
                st.graph.cmdBuf p).1.scratchImgBarriers
              (applyBarriers st.graph (st.vk.cmdBeginLabel st.graph.cmdBuf p.name)
                st.graph.cmdBuf p).1.scratchBufBarriers) ++
          (if p.type = PassType.Graphics then
            if dyn = true then
              [Event.beginRendering st.graph.cmdBuf
                (colorAttachmentInfos (applyBarriers st.graph
                  (st.vk.cmdBeginLabel st.graph.cmdBuf p.name) st.graph.cmdBuf p).1 p)
                (depthAttachmentInfo (applyBarriers st.graph
                  (st.vk.cmdBeginLabel st.graph.cmdBuf p.name) st.graph.cmdBuf p).1 p)] ++
                execEvents p st.graph.cmdBuf ++
                [Event.endRendering st.graph.cmdBuf, Event.cmdEndLabel st.graph.cmdBuf]
            else
              (if st.legacyRenderPassOpen = true then []
                else [Event.beginMainPass st.graph.cmdBuf]) ++
                execEvents p st.graph.cmdBuf ++
                (if isGraphicsAt st.graph.passes (i + 1) = true then []
                  else [Event.endMainPass st.graph.cmdBuf]) ++
                [Event.cmdEndLabel st.graph.cmdBuf]
          else execEvents p st.graph.cmdBuf ++ [Event.cmdEndLabel st.graph.cmdBuf]) ∧
      (executePass dyn st i).legacyRenderPassOpen =
        (if p.type = PassType.Graphics then
          if dyn = true then st.legacyRenderPassOpen else isGraphicsAt st.graph.passes (i + 1)
         else st.legacyRenderPassOpen) := by
  have hab := applyBarriers_trace st.graph (st.vk.cmdBeginLabel st.graph.cmdBuf p.name)
    st.graph.cmdBuf p
  have hbl : (st.vk.cmdBeginLabel st.graph.cmdBuf p.name).trace =
      st.vk.trace ++ [Event.cmdBeginLabel st.graph.cmdBuf p.name] := rfl
  rw [hbl] at hab
  have hpass := applyBarriers_passes st.graph (st.vk.cmdBeginLabel st.graph.cmdBuf p.name)
    st.graph.cmdBuf p
  unfold executePass
  simp only [hp]
  generalize applyBarriers st.graph (st.vk.cmdBeginLabel st.graph.cmdBuf p.name)
    st.graph.cmdBuf p = AB at hab hpass ⊢
  have hnext : (match AB.1.passes[i + 1]? with
      | some q => decide (q.type = PassType.Graphics)
      | none => false) = isGraphicsAt st.graph.passes (i + 1) := by
    rw [hpass]
    rfl
  simp only [hnext]
  by_cases hty : p.type = PassType.Graphics
  · simp only [hty, if_true]
    by_cases hdyn : dyn = true
    · simp only [hdyn, if_true]
      refine ⟨?_, trivial⟩
      simp only [VulkanContext.cmdEndLabel, VulkanContext.endRendering, VulkanContext.record,
        invokeExec_trace, VulkanContext.beginRendering, hab, List.append_assoc,
        List.cons_append, List.nil_append, execEvents]
      rfl
    · simp only [hdyn, if_false]
      cases hopen : st.legacyRenderPassOpen <;> cases hn : isGraphicsAt st.graph.passes (i + 1) <;>
        simp only [Bool.not_true, Bool.not_false, if_false, if_true, Bool.false_eq_true,
          VulkanContext.cmdEndLabel, VulkanContext.endMainPass, VulkanContext.record,
          invokeExec_trace, beginMainPass_trace, hab, List.append_assoc, List.cons_append,
          List.nil_append, List.append_nil, execEvents, and_self]
  · simp only [hty, if_false]
    refine ⟨?_, trivial⟩
    simp only [VulkanContext.cmdEndLabel, VulkanContext.record, invokeExec_trace, hab,
      List.append_assoc, List.cons_append, List.nil_append, List.append_nil, execEvents]

theorem applyImageAccesses_images_length (accesses : List ImageAccess)
    (st : RenderGraph × VulkanContext) :
    (applyImageAccesses st accesses).1.images.length = st.1.images.length := by
  unfold applyImageAccesses
  induction accesses generalizing st with
  | nil => rfl
  | cons a l ih => rw [List.foldl_cons, ih, applyImageAccess_images_length]

theorem applyBarriers_images_length (g : RenderGraph) (vk : VulkanContext) (cmd : Nat)
    (pass : Pass) : (applyBarriers g vk cmd pass).1.images.length = g.images.length := by
  rw [applyBarriers_graph, applyBufferAccesses_images, applyImageAccesses_images_length]

theorem executePass_images_length (dyn : Bool) (st : ExecState) (i : Nat) :
    (executePass dyn st i).graph.images.length = st.graph.images.length := by
  unfold executePass
  cases hp : st.graph.passes[i]? with
  | none => rfl
  | some p =>
    have hab := applyBarriers_images_length st.graph
      (st.vk.cmdBeginLabel st.graph.cmdBuf p.name) st.graph.cmdBuf p
    simp only
    split_ifs <;> exact hab

theorem executeUpTo_images_length (g : RenderGraph) (vk : VulkanContext) (n : Nat) :
    (executeUpTo g vk n).graph.images.length = g.images.length := by
  induction n with
  | zero => rfl
  | succ n ih => rw [executeUpTo_succ, executePass_images_length, ih]

end RenderGraph

namespace RenderGraph

theorem mainPassPairs_append (cmd k : Nat) :
    mainPassPairs cmd k ++ [Event.beginMainPass cmd, Event.endMainPass cmd] =
      mainPassPairs cmd (k + 1) := by
  induction k with
  | zero => rfl
  | succ k ih =>
    show Event.beginMainPass cmd :: Event.endMainPass cmd :: (mainPassPairs cmd k ++ _) = _
    rw [ih]
    rfl

theorem mainPassPairs_getLast (cmd k : Nat) :
    (mainPassPairs cmd k).getLast? = none ∨
      (mainPassPairs cmd k).getLast? = some (Event.endMainPass cmd) := by
  cases k with
  | zero => exact Or.inl rfl
  | succ k =>
    right
    rw [← mainPassPairs_append]
    simp

theorem barrierEvents_filter_mainPass (cmd : Nat) (ib : List VkImageMemoryBarrier2)
    (bb : List VkBufferMemoryBarrier2) :
    (barrierEvents cmd ib bb).filter isMainPassEvent = [] := by
  unfold barrierEvents
  split_ifs <;> rfl

theorem execEvents_filter_mainPass (p : Pass) (cmd : Nat) :
    (execEvents p cmd).filter isMainPassEvent = [] := by
  unfold execEvents
  cases p.exec <;> rfl

theorem barrierEvents_not_scope (cmd : Nat) (ib : List VkImageMemoryBarrier2)
    (bb : List VkBufferMemoryBarrier2) :
    ∀ e ∈ barrierEvents cmd ib bb, isScopeEvent e = false ∧ execCallbackOf e = none := by
  unfold barrierEvents
  split_ifs
  · simp
  · simp [isScopeEvent, execCallbackOf]

theorem isGraphicsAt_of_getElem (passes : List Pass) (i : Nat) (p : Pass)
    (hp : passes[i]? = some p) : isGraphicsAt passes i = decide (p.type = PassType.Graphics) := by
  unfold isGraphicsAt
  rw [hp]

theorem isGraphicsAt_length (passes : List Pass) (i : Nat) (h : passes.length ≤ i) :
    isGraphicsAt passes i = false := by
  unfold isGraphicsAt
  rw [List.getElem?_eq_none_iff.mpr h]

theorem range_succ_filter (f : Nat → Bool) (n : Nat) :
    ((List.range (n + 1)).filter f).length =
      ((List.range n).filter f).length + (if f n = true then 1 else 0) := by
  rw [List.range_succ, List.filter_append, List.length_append]
  cases h : f n <;> simp [h]

/-- The loop of `execute` on the legacy path after `n` iterations: the flag, the calls that
begin and end the main render pass so far, and the number of runs begun. -/
theorem executeUpTo_legacy (g : RenderGraph) (vk : VulkanContext)
    (hdyn : vk.useDynamicRendering = false) (n : Nat) (hn : n ≤ g.passes.length) :
    ∃ new k, (executeUpTo g vk n).vk.trace = vk.trace ++ new ∧
      (executeUpTo g vk n).legacyRenderPassOpen =
        (decide (0 < n) && isGraphicsAt g.passes (n - 1) && isGraphicsAt g.passes n) ∧
      new.filter isMainPassEvent =
        mainPassPairs g.cmdBuf k ++
          (if (executeUpTo g vk n).legacyRenderPassOpen = true then
            [Event.beginMainPass g.cmdBuf] else []) ∧
      k + (if (executeUpTo g vk n).legacyRenderPassOpen = true then 1 else 0) =
        ((List.range n).filter (startsRun g.passes)).length := by
  induction n with
  | zero => exact ⟨[], 0, by simp [executeUpTo], rfl, rfl, rfl⟩
  | succ n ih =>
    obtain ⟨new, k, h1, h2, h3, h4⟩ := ih (by omega)
    have hlt : n < g.passes.length := by omega
    obtain ⟨hps, hcmd⟩ := executeUpTo_passes g vk n
    have hp : g.passes[n]? = some (g.passes[n]) := List.getElem?_eq_getElem hlt
    generalize g.passes[n] = p at hp
    have hp1 : (executeUpTo g vk n).graph.passes[n]? = some p := by rw [hps]; exact hp
    obtain ⟨e1, e2⟩ := executePass_events vk.dynamicRenderingEnabled (executeUpTo g vk n) n p hp1
    have hd : vk.dynamicRenderingEnabled = false := hdyn
    rw [hd, hps, hcmd] at e1
    rw [hd, hps] at e2
    simp only [Bool.false_eq_true, if_false] at e1 e2
    generalize hB : barrierEvents g.cmdBuf _ _ = B at e1
    have hBf : B.filter isMainPassEvent = [] := by
      rw [← hB]
      exact barrierEvents_filter_mainPass _ _ _
    rw [executeUpTo_succ, hd]
    have hG := isGraphicsAt_of_getElem g.passes n p hp
    rw [range_succ_filter]
    by_cases hty : p.type = PassType.Graphics
    · have hGn : isGraphicsAt g.passes n = true := by rw [hG]; simpa using hty
      rw [if_pos hty] at e1 e2
      rw [hGn, Bool.and_true] at h2
      have hstart : startsRun g.passes n = !(executeUpTo g vk n).legacyRenderPassOpen := by
        rw [h2]
        unfold startsRun
        rw [hGn]
        cases n with
        | zero => rfl
        | succ m => simp
      rw [e2]
      refine ⟨new ++ (([Event.cmdBeginLabel g.cmdBuf p.name] ++ B) ++
          ((if (executeUpTo g vk n).legacyRenderPassOpen = true then []
              else [Event.beginMainPass g.cmdBuf]) ++
            execEvents p g.cmdBuf ++
            (if isGraphicsAt g.passes (n + 1) = true then []
              else [Event.endMainPass g.cmdBuf]) ++
            [Event.cmdEndLabel g.cmdBuf])),
        (if isGraphicsAt g.passes (n + 1) = true then k else k + 1),
        by rw [e1, h1]; simp only [List.append_assoc], ?_, ?_, ?_⟩
      · simp [hGn]
      · simp only [List.filter_append, h3, hBf, execEvents_filter_mainPass]
        cases hopen : (executeUpTo g vk n).legacyRenderPassOpen <;>
          cases hnx : isGraphicsAt g.passes (n + 1) <;>
          simp [isMainPassEvent, ← mainPassPairs_append]
      · rw [hstart]
        cases hopen : (executeUpTo g vk n).legacyRenderPassOpen <;>
          cases hnx : isGraphicsAt g.passes (n + 1) <;>
          simp [hopen] at h4 ⊢ <;> omega
    · have hGn : isGraphicsAt g.passes n = false := by rw [hG]; simpa using hty
      rw [if_neg hty] at e1 e2
      rw [hGn, Bool.and_false] at h2
      have hstart : startsRun g.passes n = false := by
        unfold startsRun
        rw [hGn]
        rfl
      rw [e2, h2]
      rw [h2] at h3 h4
      refine ⟨new ++ (([Event.cmdBeginLabel g.cmdBuf p.name] ++ B) ++
          (execEvents p g.cmdBuf ++ [Event.cmdEndLabel g.cmdBuf])), k,
        by rw [e1, h1]; simp only [List.append_assoc], ?_, ?_, ?_⟩
      · simp [hGn]
      · simp only [List.filter_append, h3, hBf, execEvents_filter_mainPass]
        simp [isMainPassEvent]
      · rw [hstart]
        simpa using h4

theorem mainPassOpen_of_filter (events : List Event) (cmd k : Nat) (flag : Bool)
    (h : events.filter isMainPassEvent =
      mainPassPairs cmd k ++ (if flag = true then [Event.beginMainPass cmd] else [])) :
    mainPassOpen events = flag := by
  unfold mainPassOpen
  rw [h]
  cases flag with
  | true => simp
  | false =>
    simp only [Bool.false_eq_true, if_false, List.append_nil]
    rcases mainPassPairs_getLast cmd k with h1 | h1 <;> rw [h1]

end RenderGraph

namespace RenderGraph

/-- The events iteration `i` of the loop of `execute` appends, in terms of the graph the loop
started from. -/
theorem executeUpTo_pass_events (g : RenderGraph) (vk : VulkanContext) (i : Nat) (p : Pass)
    (hp : g.passes[i]? = some p) :
    ∃ pre G, (∀ e ∈ pre, isScopeEvent e = false ∧ execCallbackOf e = none) ∧
      pre.filter isMainPassEvent = [] ∧
      G.images.length = g.images.length ∧
      (executeUpTo g vk (i + 1)).vk.trace =
        (executeUpTo g vk i).vk.trace ++ pre ++
          (if p.type = PassType.Graphics then
            if vk.useDynamicRendering = true then
              [Event.beginRendering g.cmdBuf (colorAttachmentInfos G p)
                (depthAttachmentInfo G p)] ++ execEvents p g.cmdBuf ++
                [Event.endRendering g.cmdBuf, Event.cmdEndLabel g.cmdBuf]
            else
              (if (executeUpTo g vk i).legacyRenderPassOpen = true then []
                else [Event.beginMainPass g.cmdBuf]) ++
                execEvents p g.cmdBuf ++
                (if isGraphicsAt g.passes (i + 1) = true then []
                  else [Event.endMainPass g.cmdBuf]) ++
                [Event.cmdEndLabel g.cmdBuf]
          else execEvents p g.cmdBuf ++ [Event.cmdEndLabel g.cmdBuf]) := by
  obtain ⟨hps, hcmd⟩ := executeUpTo_passes g vk i
  have hp1 : (executeUpTo g vk i).graph.passes[i]? = some p := by rw [hps]; exact hp
  obtain ⟨e1, -⟩ := executePass_events vk.dynamicRenderingEnabled (executeUpTo g vk i) i p hp1
  rw [hps, hcmd] at e1
  refine ⟨[Event.cmdBeginLabel g.cmdBuf p.name] ++
      barrierEvents g.cmdBuf
        (applyBarriers (executeUpTo g vk i).graph
          ((executeUpTo g vk i).vk.cmdBeginLabel g.cmdBuf p.name) g.cmdBuf p).1.scratchImgBarriers
        (applyBarriers (executeUpTo g vk i).graph
          ((executeUpTo g vk i).vk.cmdBeginLabel g.cmdBuf p.name) g.cmdBuf p).1.scratchBufBarriers,
    (applyBarriers (executeUpTo g vk i).graph
      ((executeUpTo g vk i).vk.cmdBeginLabel g.cmdBuf p.name) g.cmdBuf p).1, ?_, ?_, ?_, ?_⟩
  · intro e he
    rcases List.mem_append.mp he with he | he
    · rw [List.mem_singleton] at he
      subst he
      exact ⟨rfl, rfl⟩
    · exact barrierEvents_not_scope _ _ _ e he
  · rw [List.filter_append, barrierEvents_filter_mainPass]
    rfl
  · rw [applyBarriers_images_length, executeUpTo_images_length]
  · rw [executeUpTo_succ, e1]
    rfl

/-- On the legacy path, pass `i` begins the main render pass exactly when it is the first
pass of a run of Graphics passes and ends it exactly when it is the last one; while its
callback runs, the main render pass is open exactly when the pass is a Graphics pass. -/
theorem executeUpTo_legacy_pass (g : RenderGraph) (vk : VulkanContext)
    (hdyn : vk.useDynamicRendering = false) (i : Nat) (p : Pass)
    (hp : g.passes[i]? = some p) :
    ∃ before pre, (executeUpTo g vk i).vk.trace = vk.trace ++ before ∧
      (∀ e ∈ pre, isScopeEvent e = false ∧ execCallbackOf e = none) ∧
      (executeUpTo g vk (i + 1)).vk.trace =
        vk.trace ++ before ++ pre ++
          (if startsRun g.passes i = true then [Event.beginMainPass g.cmdBuf] else []) ++
          execEvents p g.cmdBuf ++
          (if endsRun g.passes i = true then [Event.endMainPass g.cmdBuf] else []) ++
          [Event.cmdEndLabel g.cmdBuf] ∧
      mainPassOpen (before ++ pre ++
          (if startsRun g.passes i = true then [Event.beginMainPass g.cmdBuf] else [])) =
        decide (p.type = PassType.Graphics) := by
  have hlt : i < g.passes.length := by
    by_contra hcon
    rw [List.getElem?_eq_none_iff.mpr (by omega)] at hp
    exact Option.noConfusion hp
  obtain ⟨before, k, h1, h2, h3, -⟩ := executeUpTo_legacy g vk hdyn i (by omega)
  obtain ⟨pre, G, hpre, hpref, -, e1⟩ := executeUpTo_pass_events g vk i p hp
  have hG := isGraphicsAt_of_getElem g.passes i p hp
  rw [hdyn] at e1
  simp only [Bool.false_eq_true, if_false] at e1
  refine ⟨before, pre, h1, hpre, ?_, ?_⟩
  · rw [e1, h1]
    by_cases hty : p.type = PassType.Graphics
    · have hGi : isGraphicsAt g.passes i = true := by rw [hG]; simpa using hty
      rw [hGi, Bool.and_true] at h2
      have hstart : startsRun g.passes i = !(executeUpTo g vk i).legacyRenderPassOpen := by
        rw [h2]
        unfold startsRun
        rw [hGi]
        cases i with
        | zero => rfl
        | succ m => simp
      have hend : endsRun g.passes i = !isGraphicsAt g.passes (i + 1) := by
        unfold endsRun
        rw [hGi]
        rfl
      rw [if_pos hty, hstart, hend]
      cases (executeUpTo g vk i).legacyRenderPassOpen <;> cases isGraphicsAt g.passes (i + 1) <;>
        simp
    · have hGi : isGraphicsAt g.passes i = false := by rw [hG]; simpa using hty
      have hstart : startsRun g.passes i = false := by
        unfold startsRun
        rw [hGi]
        rfl
      have hend : endsRun g.passes i = false := by
        unfold endsRun
        rw [hGi]
        rfl
      rw [if_neg hty, hstart, hend]
      simp
  · by_cases hty : p.type = PassType.Graphics
    · have hGi : isGraphicsAt g.passes i = true := by rw [hG]; simpa using hty
      rw [hGi, Bool.and_true] at h2
      have hstart : startsRun g.passes i = !(executeUpTo g vk i).legacyRenderPassOpen := by
        rw [h2]
        unfold startsRun
        rw [hGi]
        cases i with
        | zero => rfl
        | succ m => simp
      rw [decide_eq_true hty]
      apply mainPassOpen_of_filter _ g.cmdBuf k true
      rw [List.filter_append, List.filter_append, h3, hpref, hstart]
      cases (executeUpTo g vk i).legacyRenderPassOpen <;> simp [isMainPassEvent]
    · have hGi : isGraphicsAt g.passes i = false := by rw [hG]; simpa using hty
      rw [hGi, Bool.and_false] at h2
      have hstart : startsRun g.passes i = false := by
        unfold startsRun
        rw [hGi]
        rfl
      rw [decide_eq_false hty]
      apply mainPassOpen_of_filter _ g.cmdBuf k false
      rw [List.filter_append, List.filter_append, h3, hpref, hstart, h2]
      simp

end RenderGraph

namespace RenderGraph

theorem map_getD_range {α : Type} (l : List Nat) (f : Nat → α) :
    (List.range l.length).map (fun ci => f (l.getD ci 0)) = l.map f := by
  apply List.ext_getElem
  · simp
  · intro n h1 h2
    simp only [List.getElem_map, List.getElem_range]
    congr 1
    rw [List.getD_eq_getElem?_getD, List.getElem?_eq_getElem (by simpa using h2)]
    rfl

theorem colorAttachmentInfos_isSome (G : RenderGraph) (p : Pass) :
    (colorAttachmentInfos G p).map (fun a => a.imageView.isSome) =
      p.colorAttachments.map fun id => decide (id < G.images.length) := by
  unfold colorAttachmentInfos
  rw [List.map_map]
  rw [← map_getD_range p.colorAttachments (fun id => decide (id < G.images.length))]
  apply List.map_congr_left
  intro ci _
  simp only [Function.comp, Option.isSome_map]
  generalize p.colorAttachments.getD ci 0 = id
  by_cases h : id < G.images.length
  · rw [List.getElem?_eq_getElem h]
    simp [h]
  · rw [List.getElem?_eq_none_iff.mpr (by omega)]
    simp [h]

theorem depthAttachmentInfo_isSome (G : RenderGraph) (p : Pass) :
    (depthAttachmentInfo G p).map (fun a => a.imageView.isSome) =
      (if p.hasDepth = true then some (decide (p.depthAttachment < G.images.length))
       else none) := by
  unfold depthAttachmentInfo
  by_cases hd : p.hasDepth = true
  · rw [if_pos hd, if_pos hd]
    simp only [Option.map_some', Option.isSome_map]
    by_cases h : p.depthAttachment < G.images.length
    · rw [List.getElem?_eq_getElem h]
      simp [h]
    · rw [List.getElem?_eq_none_iff.mpr (by omega)]
      simp [h]
  · rw [if_neg hd, if_neg hd]
    rfl

end RenderGraph

namespace RenderGraph

/-- C22, as stated, fails for a Graphics pass that declares no attachment: in a begun frame
`execute` still opens and closes a scope around its callback, an attachment scope with no
attachments under dynamic rendering and the main render pass on the legacy path, while the
callback of the Compute pass after it is simply invoked. -/
theorem execute_scopes_bare_graphics_pass :
    (sampleBareGraph.passes.map fun p => (p.type, p.colorAttachments, p.hasDepth)) =
      [(PassType.Graphics, [], false), (PassType.Compute, [], false)] ∧
    sampleBareGraph.cmdBuf = 11 ∧
    (execute sampleBareGraph sampleFrame.2).2.trace =
      [Event.cmdBeginLabel 11 "ui", Event.beginRendering 11 [] none, Event.exec 5 11,
        Event.endRendering 11, Event.cmdEndLabel 11,
        Event.cmdBeginLabel 11 "sim", Event.exec 6 11, Event.cmdEndLabel 11] ∧
    (execute sampleBareGraph sampleLegacyContext).2.trace =
      [Event.cmdBeginLabel 11 "ui", Event.beginMainPass 11, Event.exec 5 11,
        Event.endMainPass 11, Event.cmdEndLabel 11,
        Event.cmdBeginLabel 11 "sim", Event.exec 6 11, Event.cmdEndLabel 11] := by
  decide

/-- C22, amended. In a begun frame, iteration `i` of the loop of `execute` appends, after the
label and the barriers of pass `i` (events that are neither scope calls nor callbacks): for a
Compute pass the invocation of its callback and the end of the label, with no scope call; for
a Graphics pass, whether or not it declares attachments, under dynamic rendering one
`beginRendering` call that carries the declared attachments (none for a pass that declares
none), the callback, and `endRendering`; on the legacy path the callback, preceded by
`beginMainPass` when the pass is the first of a run of adjacent Graphics passes and followed
by `endMainPass` when it is the last of its run. -/
theorem execute_scope_per_graphics_pass (g : RenderGraph) (vk : VulkanContext)
    (hc : g.cmdBuf ≠ 0) (i : Nat) (p : Pass) (hp : g.passes[i]? = some p) :
    execute g vk = ((executeUpTo g vk g.passes.length).graph,
        (executeUpTo g vk g.passes.length).vk) ∧
    ∃ pre G, (∀ e ∈ pre, isScopeEvent e = false ∧ execCallbackOf e = none) ∧
      G.images.length = g.images.length ∧
      (executeUpTo g vk (i + 1)).vk.trace =
        (executeUpTo g vk i).vk.trace ++ pre ++
          (if p.type = PassType.Graphics then
            if vk.useDynamicRendering = true then
              [Event.beginRendering g.cmdBuf (colorAttachmentInfos G p)
                (depthAttachmentInfo G p)] ++ execEvents p g.cmdBuf ++
                [Event.endRendering g.cmdBuf, Event.cmdEndLabel g.cmdBuf]
            else
              (if startsRun g.passes i = true then [Event.beginMainPass g.cmdBuf] else []) ++
                execEvents p g.cmdBuf ++
                (if endsRun g.passes i = true then [Event.endMainPass g.cmdBuf] else []) ++
                [Event.cmdEndLabel g.cmdBuf]
          else execEvents p g.cmdBuf ++ [Event.cmdEndLabel g.cmdBuf]) ∧
      (p.colorAttachments = [] → p.hasDepth = false →
        colorAttachmentInfos G p = [] ∧ depthAttachmentInfo G p = none) := by
  refine ⟨by unfold execute; rw [if_neg hc], ?_⟩
  have hatt : ∀ G : RenderGraph, p.colorAttachments = [] → p.hasDepth = false →
      colorAttachmentInfos G p = [] ∧ depthAttachmentInfo G p = none := by
    intro G h1 h2
    unfold colorAttachmentInfos depthAttachmentInfo
    rw [h1, h2]
    exact ⟨rfl, rfl⟩
  by_cases hdyn : vk.useDynamicRendering = true
  · obtain ⟨pre, G, hpre, -, hG, e1⟩ := executeUpTo_pass_events g vk i p hp
    refine ⟨pre, G, hpre, hG, ?_, hatt G⟩
    rw [e1]
    by_cases hty : p.type = PassType.Graphics
    · rw [if_pos hty, if_pos hty, if_pos hdyn, if_pos hdyn]
    · rw [if_neg hty, if_neg hty]
  · have hdyn1 : vk.useDynamicRendering = false := by simpa using hdyn
    obtain ⟨before, pre, h1, hpre, e1, -⟩ := executeUpTo_legacy_pass g vk hdyn1 i p hp
    refine ⟨pre, g, hpre, rfl, ?_, hatt g⟩
    rw [e1, h1]
    by_cases hty : p.type = PassType.Graphics
    · rw [if_pos hty, if_neg hdyn]
      simp only [List.append_assoc]
    · have hG : isGraphicsAt g.passes i = false := by
        rw [isGraphicsAt_of_getElem g.passes i p hp]
        simpa using hty
      have hstart : startsRun g.passes i = false := by
        unfold startsRun
        rw [hG]
        rfl
      have hend : endsRun g.passes i = false := by
        unfold endsRun
        rw [hG]
        rfl
      rw [if_neg hty, hstart, hend]
      simp

/-- The Graphics pass without attachments of the sample frame: its callback runs between
`beginRendering` with no attachments and `endRendering`. -/
theorem execute_scope_per_graphics_pass_witness :
    sampleBareGraph.cmdBuf ≠ 0 ∧
    sampleBareGraph.passes[0]? = some (Pass.fresh "ui" PassType.Graphics [] (some 5)) ∧
    (execute sampleBareGraph sampleFrame.2 =
      ((executeUpTo sampleBareGraph sampleFrame.2 sampleBareGraph.passes.length).graph,
        (executeUpTo sampleBareGraph sampleFrame.2 sampleBareGraph.passes.length).vk) ∧
    ∃ pre G, (∀ e ∈ pre, isScopeEvent e = false ∧ execCallbackOf e = none) ∧
      G.images.length = sampleBareGraph.images.length ∧
      (executeUpTo sampleBareGraph sampleFrame.2 (0 + 1)).vk.trace =
        (executeUpTo sampleBareGraph sampleFrame.2 0).vk.trace ++ pre ++
          (if (Pass.fresh "ui" PassType.Graphics [] (some 5)).type = PassType.Graphics then
            if sampleFrame.2.useDynamicRendering = true then
              [Event.beginRendering sampleBareGraph.cmdBuf
                (colorAttachmentInfos G (Pass.fresh "ui" PassType.Graphics [] (some 5)))
                (depthAttachmentInfo G (Pass.fresh "ui" PassType.Graphics [] (some 5)))] ++
                execEvents (Pass.fresh "ui" PassType.Graphics [] (some 5))
                  sampleBareGraph.cmdBuf ++
                [Event.endRendering sampleBareGraph.cmdBuf,
                  Event.cmdEndLabel sampleBareGraph.cmdBuf]
            else
              (if startsRun sampleBareGraph.passes 0 = true then
                  [Event.beginMainPass sampleBareGraph.cmdBuf] else []) ++
                execEvents (Pass.fresh "ui" PassType.Graphics [] (some 5))
                  sampleBareGraph.cmdBuf ++
                (if endsRun sampleBareGraph.passes 0 = true then
                  [Event.endMainPass sampleBareGraph.cmdBuf] else []) ++
                [Event.cmdEndLabel sampleBareGraph.cmdBuf]
          else execEvents (Pass.fresh "ui" PassType.Graphics [] (some 5))
              sampleBareGraph.cmdBuf ++ [Event.cmdEndLabel sampleBareGraph.cmdBuf]) ∧
      ((Pass.fresh "ui" PassType.Graphics [] (some 5)).colorAttachments = [] →
        (Pass.fresh "ui" PassType.Graphics [] (some 5)).hasDepth = false →
        colorAttachmentInfos G (Pass.fresh "ui" PassType.Graphics [] (some 5)) = [] ∧
          depthAttachmentInfo G (Pass.fresh "ui" PassType.Graphics [] (some 5)) = none)) :=
  ⟨by decide, by decide,
    execute_scope_per_graphics_pass sampleBareGraph sampleFrame.2 (by decide) 0
      (Pass.fresh "ui" PassType.Graphics [] (some 5)) (by decide)⟩

/-- C23, as the code behaves. In a begun frame under dynamic rendering, `execute` looks up
`images[id]` for every colour attachment id and for the depth attachment id of a Graphics
pass without comparing the id to the size of the image table: the views of the
`beginRendering` call are one lookup per declared attachment, and the lookups are all in
range exactly when every declared attachment id is an index of the table. An attachment
handle that is not in the table is not skipped. -/
theorem execute_attachment_lookups_unchecked (g : RenderGraph) (vk : VulkanContext)
    (hc : g.cmdBuf ≠ 0) (hdyn : vk.useDynamicRendering = true) (i : Nat) (p : Pass)
    (hp : g.passes[i]? = some p) (hty : p.type = PassType.Graphics) :
    execute g vk = ((executeUpTo g vk g.passes.length).graph,
        (executeUpTo g vk g.passes.length).vk) ∧
    ∃ pre colorAtts depthAtt,
      (executeUpTo g vk (i + 1)).vk.trace =
        (executeUpTo g vk i).vk.trace ++ pre ++
          [Event.beginRendering g.cmdBuf colorAtts depthAtt] ++ execEvents p g.cmdBuf ++
          [Event.endRendering g.cmdBuf, Event.cmdEndLabel g.cmdBuf] ∧
      (colorAtts.map fun a => a.imageView.isSome) =
        (p.colorAttachments.map fun id => decide (id < g.images.length)) ∧
      (depthAtt.map fun a => a.imageView.isSome) =
        (if p.hasDepth = true then some (decide (p.depthAttachment < g.images.length))
         else none) ∧
      (attachmentLookupsInRange (Event.beginRendering g.cmdBuf colorAtts depthAtt) = true ↔
        (∀ id ∈ p.colorAttachments, id < g.images.length) ∧
          (p.hasDepth = true → p.depthAttachment < g.images.length)) := by
  refine ⟨by unfold execute; rw [if_neg hc], ?_⟩
  obtain ⟨pre, G, -, -, hG, e1⟩ := executeUpTo_pass_events g vk i p hp
  rw [if_pos hty, if_pos hdyn] at e1
  have hcol := colorAttachmentInfos_isSome G p
  have hdep := depthAttachmentInfo_isSome G p
  rw [hG] at hcol hdep
  refine ⟨pre, colorAttachmentInfos G p, depthAttachmentInfo G p, ?_, hcol, hdep, ?_⟩
  · rw [e1]
    simp only [List.append_assoc]
  · have hc1 : (∀ a ∈ colorAttachmentInfos G p, a.imageView.isSome = true) ↔
        ∀ id ∈ p.colorAttachments, id < g.images.length := by
      have h : (∀ b ∈ (colorAttachmentInfos G p).map (fun a => a.imageView.isSome), b = true) ↔
          (∀ b ∈ p.colorAttachments.map (fun id => decide (id < g.images.length)),
            b = true) := by
        rw [hcol]
      simpa [List.mem_map] using h
    have hd1 : (match depthAttachmentInfo G p with
        | some a => a.imageView.isSome
        | none => true) = true ↔
        (p.hasDepth = true → p.depthAttachment < g.images.length) := by
      by_cases hd : p.hasDepth = true
      · rw [if_pos hd] at hdep
        cases hdi : depthAttachmentInfo G p with
        | none => rw [hdi] at hdep; exact Option.noConfusion hdep
        | some a =>
          rw [hdi] at hdep
          simp only [Option.map_some', Option.some.injEq] at hdep
          simp only
          rw [hdep]
          simp [hd]
      · rw [if_neg hd] at hdep
        cases hdi : depthAttachmentInfo G p with
        | none => simp [hd]
        | some a => rw [hdi] at hdep; exact Option.noConfusion hdep
    unfold attachmentLookupsInRange
    rw [Bool.and_eq_true, List.all_eq_true]
    exact and_congr hc1 hd1

/-- The pass of the sample frame whose colour attachment is handle 7, in an image table of
two entries: `execute` performs the lookup `images[7]`. -/
theorem execute_attachment_lookups_unchecked_witness :
    sampleBadHandleGraph.images.length = 2 ∧
    (sampleBadHandleGraph.passes.map fun p => p.colorAttachments) = [[7]] ∧
    (execute sampleBadHandleGraph sampleFrame.2).2.trace.all attachmentLookupsInRange = false ∧
    (execute sampleBadHandleGraph sampleFrame.2 =
      ((executeUpTo sampleBadHandleGraph sampleFrame.2 sampleBadHandleGraph.passes.length).graph,
        (executeUpTo sampleBadHandleGraph sampleFrame.2
          sampleBadHandleGraph.passes.length).vk) ∧
    ∃ pre colorAtts depthAtt,
      (executeUpTo sampleBadHandleGraph sampleFrame.2 (0 + 1)).vk.trace =
        (executeUpTo sampleBadHandleGraph sampleFrame.2 0).vk.trace ++ pre ++
          [Event.beginRendering sampleBadHandleGraph.cmdBuf colorAtts depthAtt] ++
          execEvents (sampleBadHandleGraph.passes.getD 0 (Pass.fresh "" PassType.Compute [] none))
            sampleBadHandleGraph.cmdBuf ++
          [Event.endRendering sampleBadHandleGraph.cmdBuf,
            Event.cmdEndLabel sampleBadHandleGraph.cmdBuf] ∧
      (colorAtts.map fun a => a.imageView.isSome) =
        ((sampleBadHandleGraph.passes.getD 0
            (Pass.fresh "" PassType.Compute [] none)).colorAttachments.map
          fun id => decide (id < sampleBadHandleGraph.images.length)) ∧
      (depthAtt.map fun a => a.imageView.isSome) =
        (if (sampleBadHandleGraph.passes.getD 0
            (Pass.fresh "" PassType.Compute [] none)).hasDepth = true then
          some (decide ((sampleBadHandleGraph.passes.getD 0
            (Pass.fresh "" PassType.Compute [] none)).depthAttachment <
              sampleBadHandleGraph.images.length))
         else none) ∧
      (attachmentLookupsInRange
          (Event.beginRendering sampleBadHandleGraph.cmdBuf colorAtts depthAtt) = true ↔
        (∀ id ∈ (sampleBadHandleGraph.passes.getD 0
            (Pass.fresh "" PassType.Compute [] none)).colorAttachments,
          id < sampleBadHandleGraph.images.length) ∧
          ((sampleBadHandleGraph.passes.getD 0
              (Pass.fresh "" PassType.Compute [] none)).hasDepth = true →
            (sampleBadHandleGraph.passes.getD 0
              (Pass.fresh "" PassType.Compute [] none)).depthAttachment <
                sampleBadHandleGraph.images.length))) :=
  ⟨by decide, by decide, by decide,
    execute_attachment_lookups_unchecked sampleBadHandleGraph sampleFrame.2 (by decide)
      (by decide) 0
      (sampleBadHandleGraph.passes.getD 0 (Pass.fresh "" PassType.Compute [] none))
      (by decide) (by decide)⟩

end RenderGraph

namespace RenderGraph

/-- C24, as stated, fails on a graph whose frame was not begun: the pass list has one run of
Graphics passes, and `execute` returns at once without opening a render-pass scope. -/
theorem execute_without_frame_opens_no_scope :
    (addPass init "sky" PassType.Graphics [] (some 1)).cmdBuf = VK_NULL_HANDLE ∧
    sampleLegacyContext.useDynamicRendering = false ∧
    runCount (addPass init "sky" PassType.Graphics [] (some 1)).passes = 1 ∧
    (execute (addPass init "sky" PassType.Graphics [] (some 1)) sampleLegacyContext).2.trace =
      sampleLegacyContext.trace := by
  decide

/-- C24, amended. In a begun frame on the legacy path, the calls of `execute` that begin and
end the main render pass are the sequence begin, end, begin, end, ... with one pair per
maximal run of adjacent Graphics passes; no render pass is open when `execute` returns.
Iteration `i` of the loop begins the render pass before the callback of pass `i` exactly
when the pass is the first of its run, and ends it after the callback exactly when the pass
is the last of its run; while the callback of a pass runs, the render pass is open exactly
when the pass is a Graphics pass, so never for a Compute pass. -/
theorem execute_legacy_scopes (g : RenderGraph) (vk : VulkanContext) (hc : g.cmdBuf ≠ 0)
    (hdyn : vk.useDynamicRendering = false) :
    ∃ new, (execute g vk).2.trace = vk.trace ++ new ∧
      new.filter isMainPassEvent = mainPassPairs g.cmdBuf (runCount g.passes) ∧
      mainPassOpen new = false ∧
      (executeUpTo g vk g.passes.length).legacyRenderPassOpen = false ∧
      ∀ (i : Nat) (p : Pass), g.passes[i]? = some p →
        ∃ before pre, (executeUpTo g vk i).vk.trace = vk.trace ++ before ∧
          (∀ e ∈ pre, isScopeEvent e = false ∧ execCallbackOf e = none) ∧
          (executeUpTo g vk (i + 1)).vk.trace =
            vk.trace ++ before ++ pre ++
              (if startsRun g.passes i = true then [Event.beginMainPass g.cmdBuf] else []) ++
              execEvents p g.cmdBuf ++
              (if endsRun g.passes i = true then [Event.endMainPass g.cmdBuf] else []) ++
              [Event.cmdEndLabel g.cmdBuf] ∧
          mainPassOpen (before ++ pre ++
              (if startsRun g.passes i = true then [Event.beginMainPass g.cmdBuf] else [])) =
            decide (p.type = PassType.Graphics) := by
  obtain ⟨new, k, h1, h2, h3, h4⟩ := executeUpTo_legacy g vk hdyn g.passes.length (le_refl _)
  have hflag : (executeUpTo g vk g.passes.length).legacyRenderPassOpen = false := by
    rw [h2, isGraphicsAt_length g.passes g.passes.length (le_refl _), Bool.and_false]
  rw [hflag] at h3 h4
  simp only [Bool.false_eq_true, if_false, List.append_nil, Nat.add_zero] at h3 h4
  refine ⟨new, ?_, ?_, ?_, hflag, fun i p hp => executeUpTo_legacy_pass g vk hdyn i p hp⟩
  · unfold execute
    rw [if_neg hc]
    exact h1
  · rw [h3, h4]
    rfl
  · exact mainPassOpen_of_filter new g.cmdBuf k false (by rw [h3]; simp)

/-- The sample frame with the passes sky, opaque (Graphics), post (Compute), ui (Graphics):
two runs, two render passes. -/
theorem execute_legacy_scopes_witness :
    sampleRunsGraph.cmdBuf ≠ 0 ∧ sampleLegacyContext.useDynamicRendering = false ∧
    runCount sampleRunsGraph.passes = 2 ∧
    (execute sampleRunsGraph sampleLegacyContext).2.trace.filter isMainPassEvent =
      [Event.beginMainPass 11, Event.endMainPass 11, Event.beginMainPass 11,
        Event.endMainPass 11] ∧
    ∃ new, (execute sampleRunsGraph sampleLegacyContext).2.trace =
        sampleLegacyContext.trace ++ new ∧
      new.filter isMainPassEvent =
        mainPassPairs sampleRunsGraph.cmdBuf (runCount sampleRunsGraph.passes) ∧
      mainPassOpen new = false ∧
      (executeUpTo sampleRunsGraph sampleLegacyContext
        sampleRunsGraph.passes.length).legacyRenderPassOpen = false ∧
      ∀ (i : Nat) (p : Pass), sampleRunsGraph.passes[i]? = some p →
        ∃ before pre,
          (executeUpTo sampleRunsGraph sampleLegacyContext i).vk.trace =
            sampleLegacyContext.trace ++ before ∧
          (∀ e ∈ pre, isScopeEvent e = false ∧ execCallbackOf e = none) ∧
          (executeUpTo sampleRunsGraph sampleLegacyContext (i + 1)).vk.trace =
            sampleLegacyContext.trace ++ before ++ pre ++
              (if startsRun sampleRunsGraph.passes i = true then
                [Event.beginMainPass sampleRunsGraph.cmdBuf] else []) ++
              execEvents p sampleRunsGraph.cmdBuf ++
              (if endsRun sampleRunsGraph.passes i = true then
                [Event.endMainPass sampleRunsGraph.cmdBuf] else []) ++
              [Event.cmdEndLabel sampleRunsGraph.cmdBuf] ∧
          mainPassOpen (before ++ pre ++
              (if startsRun sampleRunsGraph.passes i = true then
                [Event.beginMainPass sampleRunsGraph.cmdBuf] else [])) =
            decide (p.type = PassType.Graphics) :=
  ⟨by decide, by decide, by decide, by decide,
    execute_legacy_scopes sampleRunsGraph sampleLegacyContext (by decide) (by decide)⟩

end RenderGraph

/-! ## Plane extraction: proofs -/

section FrustumRows
variable {F : Type} [LinearOrderedField F]

theorem planeValue_normalizePlane (length : glm.vec3 F → F) (pl : glm.vec4 F) (x : glm.vec3 F) :
    planeValue (normalizePlane length pl) x = normalizeFactor length pl * planeValue pl x := by
  unfold normalizePlane normalizeFactor planeNormal
  dsimp only
  split_ifs with h
  · simp only [glm.vec4.divScalar, planeValue]
    field_simp
  · rw [one_mul]

theorem normalizeFactor_pos (length : glm.vec3 F → F) (pl : glm.vec4 F) :
    0 < normalizeFactor length pl := by
  unfold normalizeFactor
  split_ifs with h
  · exact one_div_pos.mpr h
  · exact one_pos

theorem dot_self_eq_zero (n : glm.vec3 F) (h : glm.dot n n = 0) : n = { x := 0, y := 0, z := 0 } := by
  unfold glm.dot at h
  have hx := mul_self_nonneg n.x
  have hy := mul_self_nonneg n.y
  have hz := mul_self_nonneg n.z
  have h1 : n.x * n.x = 0 := by linarith
  have h2 : n.y * n.y = 0 := by linarith
  have h3 : n.z * n.z = 0 := by linarith
  cases n with
  | mk x y z =>
    simp only at h1 h2 h3
    rw [mul_self_eq_zero] at h1 h2 h3
    rw [h1, h2, h3]

theorem planeNormal_normalizePlane_unit (length : glm.vec3 F → F) (pl : glm.vec4 F)
    (h0 : 0 ≤ length (planeNormal pl))
    (hsq : length (planeNormal pl) * length (planeNormal pl) =
      glm.dot (planeNormal pl) (planeNormal pl))
    (hne : planeNormal (normalizePlane length pl) ≠ { x := 0, y := 0, z := 0 }) :
    glm.dot (planeNormal (normalizePlane length pl)) (planeNormal (normalizePlane length pl)) =
      1 := by
  by_cases hpos : length (planeNormal pl) > 0
  · have hn : normalizePlane length pl = pl.divScalar (length (planeNormal pl)) := by
      unfold normalizePlane
      dsimp only
      exact if_pos hpos
    rw [hn]
    have hl : length (planeNormal pl) ≠ 0 := ne_of_gt hpos
    generalize length (planeNormal pl) = L at hsq hl
    simp only [glm.dot, planeNormal, glm.vec4.divScalar] at hsq ⊢
    field_simp
    linarith
  · have hz : length (planeNormal pl) = 0 := le_antisymm (not_lt.mp hpos) h0
    have hn : normalizePlane length pl = pl := by
      unfold normalizePlane
      dsimp only
      exact if_neg hpos
    rw [hn] at hne
    rw [hz, mul_zero] at hsq
    exact absurd (dot_self_eq_zero _ hsq.symm) hne

/-- In exact arithmetic, the six planes `makeFrustumPlanes` returns for a matrix `M` are the
row-extracted planes: there are six positive factors, one per plane, such that at every
point `x` the signed values `n . x + d` of the planes left, right, bottom, top, near, far are
these factors times `c.w + c.x`, `c.w - c.x`, `c.w + c.y`, `c.w - c.y`, `c.w + c.z`,
`c.w - c.z` of the clip coordinates `c = M * (x, 1)`; and every returned plane whose normal
is not zero has a normal of squared length one. The arithmetic is exact (an ordered field);
`length` is assumed to be the Euclidean length on the normals of the six extracted rows. -/
theorem makeFrustumPlanes_extracts_rows (length : glm.vec3 F → F) (M : glm.mat4 F)
    (hlen : ∀ pl ∈ extractedPlanes M, 0 ≤ length (planeNormal pl) ∧
      length (planeNormal pl) * length (planeNormal pl) =
        glm.dot (planeNormal pl) (planeNormal pl)) :
    ∃ ks : List F, ks.length = 6 ∧ (∀ k ∈ ks, 0 < k) ∧
      (∀ x : glm.vec3 F,
        ((makeFrustumPlanes length M).p.map fun pl => planeValue pl x) =
          List.zipWith (fun k r => k * r) ks (clipRows (clipCoordinates M x))) ∧
      (∀ pl ∈ (makeFrustumPlanes length M).p, planeNormal pl ≠ { x := 0, y := 0, z := 0 } →
        glm.dot (planeNormal pl) (planeNormal pl) = 1) := by
  refine ⟨(extractedPlanes M).map (normalizeFactor length), rfl, ?_, ?_, ?_⟩
  · intro k hk
    obtain ⟨pl, -, rfl⟩ := List.mem_map.mp hk
    exact normalizeFactor_pos length pl
  · intro x
    simp only [makeFrustumPlanes, extractedPlanes, List.map, List.zipWith, clipRows,
      planeValue_normalizePlane]
    simp only [planeValue, clipCoordinates, Renderer.mulVec]
    refine congrArg₂ _ (by ring) (congrArg₂ _ (by ring) (congrArg₂ _ (by ring)
      (congrArg₂ _ (by ring) (congrArg₂ _ (by ring) (congrArg₂ _ (by ring) rfl)))))
  · intro pl hpl hne
    obtain ⟨pl0, h0, rfl⟩ := List.mem_map.mp hpl
    exact planeNormal_normalizePlane_unit length pl0 (hlen pl0 h0).1 (hlen pl0 h0).2 hne

end FrustumRows

/-- The planes of the identity matrix, with the sum of absolute values for the length (it is
the Euclidean length on the six axis-parallel normals): every plane has factor 1 and a unit
normal. -/
theorem makeFrustumPlanes_extracts_rows_witness :
    (∀ pl ∈ extractedPlanes Renderer.identity, 0 ≤ sampleLength (planeNormal pl) ∧
      sampleLength (planeNormal pl) * sampleLength (planeNormal pl) =
        glm.dot (planeNormal pl) (planeNormal pl)) ∧
    ∃ ks : List ℚ, ks.length = 6 ∧ (∀ k ∈ ks, 0 < k) ∧
      (∀ x : glm.vec3 ℚ,
        ((makeFrustumPlanes sampleLength Renderer.identity).p.map fun pl => planeValue pl x) =
          List.zipWith (fun k r => k * r) ks
            (clipRows (clipCoordinates Renderer.identity x))) ∧
      (∀ pl ∈ (makeFrustumPlanes sampleLength Renderer.identity).p,
        planeNormal pl ≠ { x := 0, y := 0, z := 0 } →
        glm.dot (planeNormal pl) (planeNormal pl) = 1) :=
  have h : ∀ pl ∈ extractedPlanes Renderer.identity, 0 ≤ sampleLength (planeNormal pl) ∧
      sampleLength (planeNormal pl) * sampleLength (planeNormal pl) =
        glm.dot (planeNormal pl) (planeNormal pl) := by
    intro pl hpl
    simp only [extractedPlanes, Renderer.identity, List.mem_cons, List.mem_singleton,
      List.not_mem_nil, or_false] at hpl
    rcases hpl with h | h | h | h | h | h <;> subst h <;>
      norm_num [sampleLength, planeNormal, glm.dot]
  ⟨h, makeFrustumPlanes_extracts_rows sampleLength Renderer.identity h⟩

/-! ## Box transformation: proofs -/

section BoxTransform
variable {F : Type} [LinearOrderedField F]

theorem foldl_min_spec {α : Type} (φ : α → F) (l : List α) (a : F) :
    l.foldl (fun r c => Min.min r (φ c)) a ≤ a ∧
      (∀ c ∈ l, l.foldl (fun r c => Min.min r (φ c)) a ≤ φ c) ∧
      (l.foldl (fun r c => Min.min r (φ c)) a = a ∨
        ∃ c ∈ l, l.foldl (fun r c => Min.min r (φ c)) a = φ c) := by
  induction l generalizing a with
  | nil => exact ⟨le_refl _, fun c hc => absurd hc (List.not_mem_nil c), Or.inl rfl⟩
  | cons b l ih =>
    obtain ⟨h1, h2, h3⟩ := ih (Min.min a (φ b))
    rw [List.foldl_cons]
    refine ⟨le_trans h1 (min_le_left _ _), ?_, ?_⟩
    · intro c hc
      rcases List.mem_cons.mp hc with hc | hc
      · subst hc
        exact le_trans h1 (min_le_right _ _)
      · exact h2 c hc
    · rcases h3 with h3 | ⟨c, hc, h3⟩
      · rcases min_choice a (φ b) with hm | hm
        · left
          rw [h3, hm]
        · right
          exact ⟨b, List.mem_cons_self _ _, by rw [h3, hm]⟩
      · right
        exact ⟨c, List.mem_cons_of_mem _ hc, h3⟩

theorem foldl_max_spec {α : Type} (φ : α → F) (l : List α) (a : F) :
    a ≤ l.foldl (fun r c => Max.max r (φ c)) a ∧
      (∀ c ∈ l, φ c ≤ l.foldl (fun r c => Max.max r (φ c)) a) ∧
      (l.foldl (fun r c => Max.max r (φ c)) a = a ∨
        ∃ c ∈ l, l.foldl (fun r c => Max.max r (φ c)) a = φ c) := by
  induction l generalizing a with
  | nil => exact ⟨le_refl _, fun c hc => absurd hc (List.not_mem_nil c), Or.inl rfl⟩
  | cons b l ih =>
    obtain ⟨h1, h2, h3⟩ := ih (Max.max a (φ b))
    rw [List.foldl_cons]
    refine ⟨le_trans (le_max_left _ _) h1, ?_, ?_⟩
    · intro c hc
      rcases List.mem_cons.mp hc with hc | hc
      · subst hc
        exact le_trans (le_max_right _ _) h1
      · exact h2 c hc
    · rcases h3 with h3 | ⟨c, hc, h3⟩
      · rcases max_choice a (φ b) with hm | hm
        · left
          rw [h3, hm]
        · right
          exact ⟨b, List.mem_cons_self _ _, by rw [h3, hm]⟩
      · right
        exact ⟨c, List.mem_cons_of_mem _ hc, h3⟩

/-- The fold of `transformAABB`, component by component. -/
theorem foldl_minmax_components (f : glm.vec3 F → glm.vec3 F) (l : List (glm.vec3 F))
    (lo hi : glm.vec3 F) :
    (l.foldl (fun out c => (glm.min out.1 (f c), glm.max out.2 (f c))) (lo, hi)) =
      ({ x := l.foldl (fun r c => Min.min r (f c).x) lo.x
         y := l.foldl (fun r c => Min.min r (f c).y) lo.y
         z := l.foldl (fun r c => Min.min r (f c).z) lo.z },
       { x := l.foldl (fun r c => Max.max r (f c).x) hi.x
         y := l.foldl (fun r c => Max.max r (f c).y) hi.y
         z := l.foldl (fun r c => Max.max r (f c).z) hi.z }) := by
  induction l generalizing lo hi with
  | nil => rfl
  | cons b l ih =>
    rw [List.foldl_cons, ih]
    rfl

/-- The box `transformAABB` returns is, per component, the minimum and the maximum over the
eight transformed corners. -/
theorem transformAABB_minmax (m : glm.mat4 F) (inMin inMax : glm.vec3 F) (φ : glm.vec3 F → F)
    (hφ : φ = (fun v => v.x) ∨ φ = (fun v => v.y) ∨ φ = (fun v => v.z)) :
    ((∀ c ∈ aabbCorners inMin inMax,
        φ (transformAABB m inMin inMax).1 ≤ φ (glm.mulPoint m c)) ∧
      ∃ c ∈ aabbCorners inMin inMax,
        φ (transformAABB m inMin inMax).1 = φ (glm.mulPoint m c)) ∧
    ((∀ c ∈ aabbCorners inMin inMax,
        φ (glm.mulPoint m c) ≤ φ (transformAABB m inMin inMax).2) ∧
      ∃ c ∈ aabbCorners inMin inMax,
        φ (transformAABB m inMin inMax).2 = φ (glm.mulPoint m c)) := by
  have key : ∀ (ψ : glm.vec3 F → F) (a : F) (c0 : glm.vec3 F) (t : List (glm.vec3 F)),
      a = ψ (glm.mulPoint m c0) →
      ((∀ c ∈ c0 :: t, t.foldl (fun r c => Min.min r (ψ (glm.mulPoint m c))) a ≤
          ψ (glm.mulPoint m c)) ∧
        ∃ c ∈ c0 :: t, t.foldl (fun r c => Min.min r (ψ (glm.mulPoint m c))) a =
          ψ (glm.mulPoint m c)) ∧
      ((∀ c ∈ c0 :: t, ψ (glm.mulPoint m c) ≤
          t.foldl (fun r c => Max.max r (ψ (glm.mulPoint m c))) a) ∧
        ∃ c ∈ c0 :: t, t.foldl (fun r c => Max.max r (ψ (glm.mulPoint m c))) a =
          ψ (glm.mulPoint m c)) := by
    intro ψ a c0 t ha
    obtain ⟨h1, h2, h3⟩ := foldl_min_spec (fun c => ψ (glm.mulPoint m c)) t a
    obtain ⟨k1, k2, k3⟩ := foldl_max_spec (fun c => ψ (glm.mulPoint m c)) t a
    refine ⟨⟨?_, ?_⟩, ⟨?_, ?_⟩⟩
    · intro c hc
      rcases List.mem_cons.mp hc with hc | hc
      · subst hc
        rw [← ha]
        exact h1
      · exact h2 c hc
    · rcases h3 with h3 | ⟨c, hc, h3⟩
      · exact ⟨c0, List.mem_cons_self _ _, by rw [← ha]; exact h3⟩
      · exact ⟨c, List.mem_cons_of_mem _ hc, h3⟩
    · intro c hc
      rcases List.mem_cons.mp hc with hc | hc
      · subst hc
        rw [← ha]
        exact k1
      · exact k2 c hc
    · rcases k3 with k3 | ⟨c, hc, k3⟩
      · exact ⟨c0, List.mem_cons_self _ _, by rw [← ha]; exact k3⟩
      · exact ⟨c, List.mem_cons_of_mem _ hc, k3⟩
  have ht : transformAABB m inMin inMax =
      ((aabbCorners inMin inMax).tail).foldl
        (fun out c => (glm.min out.1 (glm.mulPoint m c), glm.max out.2 (glm.mulPoint m c)))
        (glm.mulPoint m { x := inMin.x, y := inMin.y, z := inMin.z },
          glm.mulPoint m { x := inMin.x, y := inMin.y, z := inMin.z }) := rfl
  have hcs : aabbCorners inMin inMax =
      { x := inMin.x, y := inMin.y, z := inMin.z } :: (aabbCorners inMin inMax).tail := rfl
  rw [ht, foldl_minmax_components, hcs]
  rcases hφ with h | h | h <;> subst h
  · exact key (fun v => v.x) _ _ _ rfl
  · exact key (fun v => v.y) _ _ _ rfl
  · exact key (fun v => v.z) _ _ _ rfl

/-- An affine expression at a point of a box is at least its value at one of the corners. -/
theorem exists_corner_le (inMin inMax q : glm.vec3 F) (hq : InBox inMin inMax q)
    (a b c d : F) :
    ∃ k ∈ aabbCorners inMin inMax,
      a * k.x + b * k.y + c * k.z + d * 1 ≤ a * q.x + b * q.y + c * q.z + d * 1 := by
  obtain ⟨hx1, hx2, hy1, hy2, hz1, hz2⟩ := hq
  have hx : ∃ kx, (kx = inMin.x ∨ kx = inMax.x) ∧ a * kx ≤ a * q.x := by
    by_cases ha : 0 ≤ a
    · exact ⟨inMin.x, Or.inl rfl, mul_le_mul_of_nonneg_left hx1 ha⟩
    · exact ⟨inMax.x, Or.inr rfl, mul_le_mul_of_nonpos_left hx2 (le_of_lt (not_le.mp ha))⟩
  have hy : ∃ ky, (ky = inMin.y ∨ ky = inMax.y) ∧ b * ky ≤ b * q.y := by
    by_cases hb : 0 ≤ b
    · exact ⟨inMin.y, Or.inl rfl, mul_le_mul_of_nonneg_left hy1 hb⟩
    · exact ⟨inMax.y, Or.inr rfl, mul_le_mul_of_nonpos_left hy2 (le_of_lt (not_le.mp hb))⟩
  have hz : ∃ kz, (kz = inMin.z ∨ kz = inMax.z) ∧ c * kz ≤ c * q.z := by
    by_cases hc : 0 ≤ c
    · exact ⟨inMin.z, Or.inl rfl, mul_le_mul_of_nonneg_left hz1 hc⟩
    · exact ⟨inMax.z, Or.inr rfl, mul_le_mul_of_nonpos_left hz2 (le_of_lt (not_le.mp hc))⟩
  obtain ⟨kx, hkx, lx⟩ := hx
  obtain ⟨ky, hky, ly⟩ := hy
  obtain ⟨kz, hkz, lz⟩ := hz
  refine ⟨{ x := kx, y := ky, z := kz }, ?_, by simp only; linarith⟩
  rcases hkx with h | h <;> rcases hky with h' | h' <;> rcases hkz with h'' | h'' <;>
    subst h <;> subst h' <;> subst h'' <;> simp [aabbCorners]

/-- An affine expression at a point of a box is at most its value at one of the corners. -/
theorem exists_corner_ge (inMin inMax q : glm.vec3 F) (hq : InBox inMin inMax q)
    (a b c d : F) :
    ∃ k ∈ aabbCorners inMin inMax,
      a * q.x + b * q.y + c * q.z + d * 1 ≤ a * k.x + b * k.y + c * k.z + d * 1 := by
  obtain ⟨k, hk, h⟩ := exists_corner_le inMin inMax q hq (-a) (-b) (-c) (-d)
  exact ⟨k, hk, by linarith⟩

/-- In exact arithmetic, the box `transformAABB` returns is the minimum and maximum of the
eight transformed corners of the local box: every transformed corner lies in it, and on each
of the three axes the lower and the upper face are each touched by a transformed corner; so
`outMin <= outMax`, and the image under `m` of every point `q` of the local box lies in the
returned box. The arithmetic is exact (an ordered field). -/
theorem transformAABB_encloses (m : glm.mat4 F) (inMin inMax q : glm.vec3 F)
    (hq : InBox inMin inMax q) :
    (∀ c ∈ aabbCorners inMin inMax,
      InBox (transformAABB m inMin inMax).1 (transformAABB m inMin inMax).2
        (glm.mulPoint m c)) ∧
    ((∃ c ∈ aabbCorners inMin inMax,
        (transformAABB m inMin inMax).1.x = (glm.mulPoint m c).x) ∧
      (∃ c ∈ aabbCorners inMin inMax,
        (transformAABB m inMin inMax).1.y = (glm.mulPoint m c).y) ∧
      (∃ c ∈ aabbCorners inMin inMax,
        (transformAABB m inMin inMax).1.z = (glm.mulPoint m c).z) ∧
      (∃ c ∈ aabbCorners inMin inMax,
        (transformAABB m inMin inMax).2.x = (glm.mulPoint m c).x) ∧
      (∃ c ∈ aabbCorners inMin inMax,
        (transformAABB m inMin inMax).2.y = (glm.mulPoint m c).y) ∧
      (∃ c ∈ aabbCorners inMin inMax,
        (transformAABB m inMin inMax).2.z = (glm.mulPoint m c).z)) ∧
    ((transformAABB m inMin inMax).1.x ≤ (transformAABB m inMin inMax).2.x ∧
      (transformAABB m inMin inMax).1.y ≤ (transformAABB m inMin inMax).2.y ∧
      (transformAABB m inMin inMax).1.z ≤ (transformAABB m inMin inMax).2.z) ∧
    InBox (transformAABB m inMin inMax).1 (transformAABB m inMin inMax).2 (glm.mulPoint m q) := by
  obtain ⟨⟨x1, x2⟩, ⟨x3, x4⟩⟩ := transformAABB_minmax m inMin inMax (fun v => v.x) (Or.inl rfl)
  obtain ⟨⟨y1, y2⟩, ⟨y3, y4⟩⟩ :=
    transformAABB_minmax m inMin inMax (fun v => v.y) (Or.inr (Or.inl rfl))
  obtain ⟨⟨z1, z2⟩, ⟨z3, z4⟩⟩ :=
    transformAABB_minmax m inMin inMax (fun v => v.z) (Or.inr (Or.inr rfl))
  have hc0 : ({ x := inMin.x, y := inMin.y, z := inMin.z } : glm.vec3 F) ∈
      aabbCorners inMin inMax := by simp [aabbCorners]
  refine ⟨fun c hc => ⟨x1 c hc, x3 c hc, y1 c hc, y3 c hc, z1 c hc, z3 c hc⟩,
    ⟨x2, y2, z2, x4, y4, z4⟩,
    ⟨le_trans (x1 _ hc0) (x3 _ hc0), le_trans (y1 _ hc0) (y3 _ hc0),
      le_trans (z1 _ hc0) (z3 _ hc0)⟩, ?_⟩
  obtain ⟨kx, hkx, lx⟩ := exists_corner_le inMin inMax q hq m.c0.x m.c1.x m.c2.x m.c3.x
  obtain ⟨ky, hky, ly⟩ := exists_corner_le inMin inMax q hq m.c0.y m.c1.y m.c2.y m.c3.y
  obtain ⟨kz, hkz, lz⟩ := exists_corner_le inMin inMax q hq m.c0.z m.c1.z m.c2.z m.c3.z
  obtain ⟨jx, hjx, ux⟩ := exists_corner_ge inMin inMax q hq m.c0.x m.c1.x m.c2.x m.c3.x
  obtain ⟨jy, hjy, uy⟩ := exists_corner_ge inMin inMax q hq m.c0.y m.c1.y m.c2.y m.c3.y
  obtain ⟨jz, hjz, uz⟩ := exists_corner_ge inMin inMax q hq m.c0.z m.c1.z m.c2.z m.c3.z
  exact ⟨le_trans (x1 kx hkx) lx, le_trans ux (x3 jx hjx), le_trans (y1 ky hky) ly,
    le_trans uy (y3 jy hjy), le_trans (z1 kz hkz) lz, le_trans uz (z3 jz hjz)⟩

end BoxTransform

/-- The unit cube about the origin under a transform with non-uniform scale and shear: the
returned box is `[7/2, 13/2] x [-3/2, 3/2] x [-1/2, 1/2]` and holds the image of the
centre. -/
theorem transformAABB_encloses_witness :
    InBox Renderer.sampleBoundsMin Renderer.sampleBoundsMax { x := 0, y := 0, z := 0 } ∧
    transformAABB Renderer.sampleShear Renderer.sampleBoundsMin Renderer.sampleBoundsMax =
      ({ x := 7 / 2, y := -3 / 2, z := -1 / 2 }, { x := 13 / 2, y := 3 / 2, z := 1 / 2 }) ∧
    ((∀ c ∈ aabbCorners Renderer.sampleBoundsMin Renderer.sampleBoundsMax,
      InBox (transformAABB Renderer.sampleShear Renderer.sampleBoundsMin
          Renderer.sampleBoundsMax).1
        (transformAABB Renderer.sampleShear Renderer.sampleBoundsMin
          Renderer.sampleBoundsMax).2
        (glm.mulPoint Renderer.sampleShear c)) ∧
    ((∃ c ∈ aabbCorners Renderer.sampleBoundsMin Renderer.sampleBoundsMax,
        (transformAABB Renderer.sampleShear Renderer.sampleBoundsMin
          Renderer.sampleBoundsMax).1.x = (glm.mulPoint Renderer.sampleShear c).x) ∧
      (∃ c ∈ aabbCorners Renderer.sampleBoundsMin Renderer.sampleBoundsMax,
        (transformAABB Renderer.sampleShear Renderer.sampleBoundsMin
          Renderer.sampleBoundsMax).1.y = (glm.mulPoint Renderer.sampleShear c).y) ∧
      (∃ c ∈ aabbCorners Renderer.sampleBoundsMin Renderer.sampleBoundsMax,
        (transformAABB Renderer.sampleShear Renderer.sampleBoundsMin
          Renderer.sampleBoundsMax).1.z = (glm.mulPoint Renderer.sampleShear c).z) ∧
      (∃ c ∈ aabbCorners Renderer.sampleBoundsMin Renderer.sampleBoundsMax,
        (transformAABB Renderer.sampleShear Renderer.sampleBoundsMin
          Renderer.sampleBoundsMax).2.x = (glm.mulPoint Renderer.sampleShear c).x) ∧
      (∃ c ∈ aabbCorners Renderer.sampleBoundsMin Renderer.sampleBoundsMax,
        (transformAABB Renderer.sampleShear Renderer.sampleBoundsMin
          Renderer.sampleBoundsMax).2.y = (glm.mulPoint Renderer.sampleShear c).y) ∧
      (∃ c ∈ aabbCorners Renderer.sampleBoundsMin Renderer.sampleBoundsMax,
        (transformAABB Renderer.sampleShear Renderer.sampleBoundsMin
          Renderer.sampleBoundsMax).2.z = (glm.mulPoint Renderer.sampleShear c).z)) ∧
    ((transformAABB Renderer.sampleShear Renderer.sampleBoundsMin
        Renderer.sampleBoundsMax).1.x ≤
        (transformAABB Renderer.sampleShear Renderer.sampleBoundsMin
          Renderer.sampleBoundsMax).2.x ∧
      (transformAABB Renderer.sampleShear Renderer.sampleBoundsMin
        Renderer.sampleBoundsMax).1.y ≤
        (transformAABB Renderer.sampleShear Renderer.sampleBoundsMin
          Renderer.sampleBoundsMax).2.y ∧
      (transformAABB Renderer.sampleShear Renderer.sampleBoundsMin
        Renderer.sampleBoundsMax).1.z ≤
        (transformAABB Renderer.sampleShear Renderer.sampleBoundsMin
          Renderer.sampleBoundsMax).2.z) ∧
    InBox
      (transformAABB Renderer.sampleShear Renderer.sampleBoundsMin Renderer.sampleBoundsMax).1
      (transformAABB Renderer.sampleShear Renderer.sampleBoundsMin Renderer.sampleBoundsMax).2
      (glm.mulPoint Renderer.sampleShear { x := 0, y := 0, z := 0 })) :=
  ⟨by norm_num [InBox, Renderer.sampleBoundsMin, Renderer.sampleBoundsMax],
    by norm_num [transformAABB, aabbCorners, glm.mulPoint, glm.min, glm.max,
      Renderer.sampleShear, Renderer.sampleBoundsMin, Renderer.sampleBoundsMax],
    transformAABB_encloses Renderer.sampleShear Renderer.sampleBoundsMin
      Renderer.sampleBoundsMax { x := 0, y := 0, z := 0 }
      (by norm_num [InBox, Renderer.sampleBoundsMin, Renderer.sampleBoundsMax])⟩

/-! ## Bounds of the candidate writes: proofs -/

namespace Renderer

/-- The pre-filter loop after its first `k` draws, on a buffer with room for every draw. -/
theorem preFilter_take (tc : Nat) (mapped : List Nat) (draws : List DrawItem) (k : Nat)
    (hcap : draws.length ≤ mapped.length) (hlen : draws.length < 2 ^ 32) :
    (preFilter tc mapped (draws.take k)).written =
        ((draws.take k).filter (isCandidate tc)).length ∧
      (preFilter tc mapped (draws.take k)).inBounds = true ∧
      (preFilter tc mapped (draws.take k)).mapped.length = mapped.length := by
  have h1 : ((draws.take k).filter (isCandidate tc)).length ≤ draws.length :=
    le_trans (List.length_filter_le _ _) (by rw [List.length_take]; exact Nat.min_le_right _ _)
  obtain ⟨p1, p2, p3⟩ := foldl_preFilterStep tc (draws.take k)
    { written := 0, mapped := mapped, inBounds := true }
    (by simp only [Nat.zero_add]; omega) (by simp only [Nat.zero_add]; omega)
  simp only [Nat.zero_add, List.take_zero, List.nil_append] at p1 p2 p3
  refine ⟨p1, p3, ?_⟩
  unfold preFilter
  rw [p2, List.length_append, List.length_map, List.length_drop]
  omega

/-- C27, amended. In GPU-driven mode, for every scene whose draw list fits the 32-bit draw count and
every frame whose mapped buffer has `indirectMaxDraws` cells, `recordGpuCulling` returns
whenever its growth step does not throw, and the capacity after the growth step is at least
the total draw count, also when the growth was triggered by it. At every point of the
pre-filter loop the counter `written` is at most that capacity, and every write
`outT[written]` (one per draw that passes the filter) has `written` below the capacity, the
number of cells of the mapped buffer; the value returned is at most the capacity. -/
theorem recordGpuCulling_writes_in_bounds {F : Type} (fr : FrameResources) (indexCount : Nat)
    (scene : RenderScene F) (dev : GrowDevice)
    (hlen : scene.draws.length < 2 ^ 32)
    (hmap : fr.drawTransformSsboMapped.length = fr.indirectMaxDraws)
    (hdev : scene.draws.length ≤ fr.indirectMaxDraws ∨
      (dev.drawTransforms.isSome = true ∧ dev.indirect.isSome = true)) :
    ∃ res fr1 q, recordGpuCulling true fr indexCount scene dev = some res ∧
      growBuffers fr scene.draws.length dev = some (fr1, q) ∧
      scene.draws.length ≤ fr1.indirectMaxDraws ∧
      fr1.drawTransformSsboMapped.length = fr1.indirectMaxDraws ∧
      (∀ k : Nat,
        (preFilter scene.transforms.length fr1.drawTransformSsboMapped
            (scene.draws.take k)).written ≤ fr1.indirectMaxDraws ∧
          (preFilter scene.transforms.length fr1.drawTransformSsboMapped
            (scene.draws.take k)).inBounds = true ∧
          (preFilter scene.transforms.length fr1.drawTransformSsboMapped
            (scene.draws.take k)).mapped.length = fr1.indirectMaxDraws) ∧
      (∀ (k : Nat) (d : DrawItem), scene.draws[k]? = some d →
        isCandidate scene.transforms.length d = true →
        (preFilter scene.transforms.length fr1.drawTransformSsboMapped
            (scene.draws.take k)).written <
          (preFilter scene.transforms.length fr1.drawTransformSsboMapped
            (scene.draws.take k)).mapped.length) ∧
      res.writesInBounds = true ∧
      res.returned ≤ res.frame.indirectMaxDraws ∧
      (scene.draws ≠ [] → res.frame.indirectMaxDraws = fr1.indirectMaxDraws) := by
  obtain ⟨⟨fr1, q⟩, hgrow⟩ := growBuffers_isSome fr scene.draws.length dev hdev
  obtain ⟨g1, g2, -⟩ := growBuffers_spec fr _ dev fr1 q hgrow hmap
  have hsteps : ∀ k : Nat,
      (preFilter scene.transforms.length fr1.drawTransformSsboMapped
          (scene.draws.take k)).written ≤ fr1.indirectMaxDraws ∧
        (preFilter scene.transforms.length fr1.drawTransformSsboMapped
          (scene.draws.take k)).inBounds = true ∧
        (preFilter scene.transforms.length fr1.drawTransformSsboMapped
          (scene.draws.take k)).mapped.length = fr1.indirectMaxDraws := by
    intro k
    obtain ⟨a1, a2, a3⟩ := preFilter_take scene.transforms.length fr1.drawTransformSsboMapped
      scene.draws k (by omega) hlen
    refine ⟨?_, a2, by rw [a3, g1]⟩
    rw [a1]
    have := List.length_filter_le (isCandidate scene.transforms.length) (scene.draws.take k)
    rw [List.length_take] at this
    omega
  have hwrites : ∀ (k : Nat) (d : DrawItem), scene.draws[k]? = some d →
      isCandidate scene.transforms.length d = true →
      (preFilter scene.transforms.length fr1.drawTransformSsboMapped
          (scene.draws.take k)).written <
        (preFilter scene.transforms.length fr1.drawTransformSsboMapped
          (scene.draws.take k)).mapped.length := by
    intro k d hk hd
    obtain ⟨a1, -, a3⟩ := preFilter_take scene.transforms.length fr1.drawTransformSsboMapped
      scene.draws k (by omega) hlen
    rw [a1, a3, g1]
    have hklt : k < scene.draws.length := by
      by_contra hcon
      rw [List.getElem?_eq_none_iff.mpr (by omega)] at hk
      exact Option.noConfusion hk
    have hsucc : scene.draws.take (k + 1) = scene.draws.take k ++ [d] := by
      rw [List.take_succ, hk]
      rfl
    have h1 := List.length_filter_le (isCandidate scene.transforms.length)
      (scene.draws.take (k + 1))
    rw [hsucc, List.filter_append, List.length_append, List.filter_cons_of_pos hd,
      List.length_append, List.length_take] at h1
    simp only [List.filter_nil, List.length_cons, List.length_nil] at h1
    omega
  by_cases hne : scene.draws = []
  · have hrec : recordGpuCulling true fr indexCount scene dev =
        some { returned := 0, frame := fr, queuedForDeletion := [], writesInBounds := true,
               pushConstants := none, dispatch := none } := by
      unfold recordGpuCulling
      simp [hne]
    exact ⟨_, fr1, q, hrec, hgrow, g2, g1, hsteps, hwrites, rfl, Nat.zero_le _,
      fun h => absurd hne h⟩
  · obtain ⟨res, fr1', q', r1, r2, r3, r4, -, -, -, r8, -, -⟩ :=
      recordGpuCulling_spec fr indexCount scene dev hne hlen hmap hdev
    rw [hgrow] at r2
    simp only [Option.some.injEq, Prod.mk.injEq] at r2
    obtain ⟨rfl, rfl⟩ := r2
    refine ⟨res, fr1, q, r1, hgrow, g2, g1, hsteps, hwrites, r8, ?_, fun _ => r3⟩
    rw [r4, r3]
    unfold candidates
    rw [List.length_map]
    have := List.length_filter_le (isCandidate scene.transforms.length) scene.draws
    omega

/-- The scene of 1500 draws on a frame with room for 1024: the growth is triggered by the
draw count, and all 1500 writes are inside the grown buffer of 2048 cells. -/
theorem recordGpuCulling_writes_in_bounds_witness :
    sampleLargeScene.draws.length = 1500 ∧ sampleFrameResources.indirectMaxDraws = 1024 ∧
    ∃ res fr1 q,
      recordGpuCulling true sampleFrameResources 36 sampleLargeScene sampleGrowDevice =
        some res ∧
      growBuffers sampleFrameResources sampleLargeScene.draws.length sampleGrowDevice =
        some (fr1, q) ∧
      sampleLargeScene.draws.length ≤ fr1.indirectMaxDraws ∧
      fr1.drawTransformSsboMapped.length = fr1.indirectMaxDraws ∧
      (∀ k : Nat,
        (preFilter sampleLargeScene.transforms.length fr1.drawTransformSsboMapped
            (sampleLargeScene.draws.take k)).written ≤ fr1.indirectMaxDraws ∧
          (preFilter sampleLargeScene.transforms.length fr1.drawTransformSsboMapped
            (sampleLargeScene.draws.take k)).inBounds = true ∧
          (preFilter sampleLargeScene.transforms.length fr1.drawTransformSsboMapped
            (sampleLargeScene.draws.take k)).mapped.length = fr1.indirectMaxDraws) ∧
      (∀ (k : Nat) (d : DrawItem), sampleLargeScene.draws[k]? = some d →
        isCandidate sampleLargeScene.transforms.length d = true →
        (preFilter sampleLargeScene.transforms.length fr1.drawTransformSsboMapped
            (sampleLargeScene.draws.take k)).written <
          (preFilter sampleLargeScene.transforms.length fr1.drawTransformSsboMapped
            (sampleLargeScene.draws.take k)).mapped.length) ∧
      res.writesInBounds = true ∧
      res.returned ≤ res.frame.indirectMaxDraws ∧
      (sampleLargeScene.draws ≠ [] → res.frame.indirectMaxDraws = fr1.indirectMaxDraws) :=
  ⟨List.length_replicate _ _, rfl,
    recordGpuCulling_writes_in_bounds sampleFrameResources 36 sampleLargeScene sampleGrowDevice
      (by rw [show sampleLargeScene.draws.length = 1500 from List.length_replicate _ _]
          decide)
      (List.length_replicate 1024 0) (Or.inr ⟨rfl, rfl⟩)⟩

end Renderer

/-! ## Transform indices beyond the upload: proofs -/

namespace Renderer

/-- C28, as the code behaves. The validity filter compares a transform index with
`scene.transforms.size()` only, while `drawFrame` uploads at most `kMaxTransforms = 4096`
matrices. So a draw of the scene mesh whose transform index is at least 4096 and inside
`scene.transforms` passes the filter: in GPU-driven mode `recordGpuCulling` writes its index
into the candidate buffer, and the test of the host path is the frustum test of its box
alone; yet the index is not below the number of matrices uploaded this frame. -/
theorem filter_admits_transform_beyond_upload {F : Type} [LinearOrderedField F]
    (fr : FrameResources) (indexCount : Nat) (scene : RenderScene F) (dev : GrowDevice)
    (d : DrawItem) (hd : d ∈ scene.draws) (hmesh : d.meshId = 0)
    (hlo : kMaxTransforms ≤ d.transformIndex)
    (hhi : d.transformIndex < scene.transforms.length)
    (hlen : scene.draws.length < 2 ^ 32)
    (hmap : fr.drawTransformSsboMapped.length = fr.indirectMaxDraws)
    (hdev : scene.draws.length ≤ fr.indirectMaxDraws ∨
      (dev.drawTransforms.isSome = true ∧ dev.indirect.isSome = true)) :
    uploadedTransformCount scene = 4096 ∧
    ¬ (d.transformIndex < uploadedTransformCount scene) ∧
    isCandidate scene.transforms.length d = true ∧
    (∃ res, recordGpuCulling true fr indexCount scene dev = some res ∧
      d.transformIndex ∈ res.frame.drawTransformSsboMapped.take res.returned) ∧
    (∀ (planes : FrustumPlanes F) (boundsMin boundsMax : glm.vec3 F) (m : glm.mat4 F),
      scene.transforms[d.transformIndex]? = some m →
      hostVisibleTest planes scene boundsMin boundsMax d =
        frustumIntersectsAABB planes (transformAABB m boundsMin boundsMax).1
          (transformAABB m boundsMin boundsMax).2) := by
  have hlo' : 4096 ≤ d.transformIndex := hlo
  have hup : uploadedTransformCount scene = 4096 := by
    unfold uploadedTransformCount kMaxTransforms
    rw [Nat.min_eq_right (by omega)]
    decide
  have hcand : isCandidate scene.transforms.length d = true := by
    unfold isCandidate
    simp [hmesh, hhi]
  have hne : scene.draws ≠ [] := List.ne_nil_of_mem hd
  obtain ⟨res, fr1, q, r1, -, -, r4, -, r6, -⟩ :=
    recordGpuCulling_spec fr indexCount scene dev hne hlen hmap hdev
  refine ⟨hup, by rw [hup]; omega, hcand, ⟨res, r1, ?_⟩, ?_⟩
  · rw [r4, r6]
    unfold candidates
    exact List.mem_map.mpr ⟨d, List.mem_filter.mpr ⟨hd, hcand⟩, rfl⟩
  · intro planes boundsMin boundsMax m hm
    unfold hostVisibleTest
    rw [if_neg (by simp [hmesh]), hm]

/-- A scene of 4097 transforms and one draw with transform index 4096: the index passes the
filter and is written to the candidate buffer, and 4096 matrices (indices 0 to 4095) were
uploaded. -/
theorem filter_admits_transform_beyond_upload_witness :
    sampleManyTransformsScene.transforms.length = 4097 ∧
    sampleManyTransformsScene.draws =
      [{ meshId := 0, materialId := 0, transformIndex := 4096 }] ∧
    uploadedTransformCount sampleManyTransformsScene = 4096 ∧
    ¬ ((4096 : Nat) < uploadedTransformCount sampleManyTransformsScene) ∧
    isCandidate sampleManyTransformsScene.transforms.length
      { meshId := 0, materialId := 0, transformIndex := 4096 } = true ∧
    (∃ res, recordGpuCulling true sampleFrameResources 36 sampleManyTransformsScene
        sampleGrowDevice = some res ∧
      4096 ∈ res.frame.drawTransformSsboMapped.take res.returned) ∧
    (∀ (planes : FrustumPlanes ℚ) (boundsMin boundsMax : glm.vec3 ℚ) (m : glm.mat4 ℚ),
      sampleManyTransformsScene.transforms[4096]? = some m →
      hostVisibleTest planes sampleManyTransformsScene boundsMin boundsMax
          { meshId := 0, materialId := 0, transformIndex := 4096 } =
        frustumIntersectsAABB planes (transformAABB m boundsMin boundsMax).1
          (transformAABB m boundsMin boundsMax).2) :=
  ⟨List.length_replicate _ _, rfl,
    filter_admits_transform_beyond_upload sampleFrameResources 36 sampleManyTransformsScene
      sampleGrowDevice { meshId := 0, materialId := 0, transformIndex := 4096 }
      (List.mem_singleton.mpr rfl) rfl (by decide)
      (by rw [show sampleManyTransformsScene.transforms.length = 4097 from
            List.length_replicate _ _]
          decide)
      (by decide) (List.length_replicate 1024 0) (Or.inl (by decide))⟩

end Renderer

/-! ## OBJ loading: proofs -/

namespace ObjLoader

theorem read_inBounds_iff (arr : ObjArray) (idx : Int) (n : Nat) :
    (∀ r ∈ (if fixIndex idx n ≥ 0 then
        [({ array := arr, index := (fixIndex idx n).toNat, size := n } : ArrayRead)]
        else []), r.inBounds = true) ↔ idx ≤ n := by
  unfold fixIndex
  by_cases h1 : idx > 0
  · rw [if_pos h1, if_pos (by omega)]
    simp only [List.mem_singleton, forall_eq, ArrayRead.inBounds, decide_eq_true_eq]
    omega
  · rw [if_neg h1]
    by_cases h2 : idx < 0
    · rw [if_pos h2]
      by_cases h3 : (n : Int) + idx ≥ 0
      · rw [if_pos h3]
        simp only [List.mem_singleton, forall_eq, ArrayRead.inBounds, decide_eq_true_eq]
        omega
      · rw [if_neg h3]
        simp only [List.not_mem_nil, false_implies, implies_true, true_iff]
        omega
    · rw [if_neg h2, if_neg (by omega)]
      simp only [List.not_mem_nil, false_implies, implies_true, true_iff]
      omega

section
variable {F : Type} [LinearOrderedField F]

/-- C29, as the code behaves. For a face token whose key is not in `dedup`, `emit` reads
`pos`, `uv` and `nrm` at every position that `fixIndex` maps to a non-negative number, and
compares none of them with the size of its array. A positive index `i` becomes `i - 1`, a
negative one `count + i`, and 0 (or a negative index below `-count`) yields no read; so the
reads are all in bounds exactly when no index of the token exceeds the current size of its
array, and a token that names a vertex beyond those defined so far makes `emit` read
`pos[i - 1]` outside the array. -/
theorem emit_reads_unchecked (parseInt : List Char → Option Int) (st : LoadState F)
    (t : List Char) (k : Key) (hk : parseVertexTriplet parseInt t = some k)
    (hnew : st.dedup.lookup k = none) :
    ∃ idx st1, emit parseInt st t = some (idx, st1) ∧
      st1.reads = st.reads ++ emitReads st k ∧
      ((∀ r ∈ emitReads st k, r.inBounds = true) ↔
        (k.v ≤ st.pos.length ∧ k.vt ≤ st.uv.length ∧ k.vn ≤ st.nrm.length)) ∧
      ((st.pos.length : Int) < k.v →
        ({ array := ObjArray.pos, index := (k.v - 1).toNat, size := st.pos.length } :
            ArrayRead) ∈ st1.reads ∧
          ¬ ((k.v - 1).toNat < st.pos.length)) := by
  have he : ∃ st1, emit parseInt st t = some (st.vertices.length % 2 ^ 32, st1) ∧
      st1.reads = st.reads ++ emitReads st k := by
    unfold emit
    rw [hk]
    simp only [hnew]
    exact ⟨_, rfl, rfl⟩
  obtain ⟨st1, he1, he2⟩ := he
  refine ⟨st.vertices.length % 2 ^ 32, st1, he1, he2, ?_, ?_⟩
  · unfold emitReads
    simp only [List.forall_mem_append, read_inBounds_iff, and_assoc]
  · intro hv
    refine ⟨?_, by omega⟩
    rw [he2]
    apply List.mem_append_right
    unfold emitReads
    have hf : fixIndex k.v st.pos.length = k.v - 1 := by
      unfold fixIndex
      rw [if_pos (by omega)]
    rw [hf, if_pos (by omega)]
    simp

end

/-- The file `v 0 0 0`, `f 2 2 2`: `loadObj` returns `true` after `emit` has read `pos[1]` in
an array of one element. -/
theorem emit_reads_unchecked_witness :
    parseVertexTriplet sampleParseInt ['2'] = some { v := 2, vt := 0, vn := 0 } ∧
    ((loadObj sampleParseInt sampleObjLines).map fun r => (r.1, r.2.reads)) =
      some (true, [{ array := ObjArray.pos, index := 1, size := 1 }]) ∧
    ∃ idx st1, emit sampleParseInt sampleObjState ['2'] = some (idx, st1) ∧
      st1.reads = sampleObjState.reads ++ emitReads sampleObjState { v := 2, vt := 0, vn := 0 } ∧
      ((∀ r ∈ emitReads sampleObjState { v := 2, vt := 0, vn := 0 }, r.inBounds = true) ↔
        ((2 : Int) ≤ sampleObjState.pos.length ∧ (0 : Int) ≤ sampleObjState.uv.length ∧
          (0 : Int) ≤ sampleObjState.nrm.length)) ∧
      ((sampleObjState.pos.length : Int) < 2 →
        ({ array := ObjArray.pos, index := ((2 : Int) - 1).toNat,
           size := sampleObjState.pos.length } : ArrayRead) ∈ st1.reads ∧
          ¬ (((2 : Int) - 1).toNat < sampleObjState.pos.length)) :=
  ⟨by decide, by decide,
    emit_reads_unchecked sampleParseInt sampleObjState ['2'] { v := 2, vt := 0, vn := 0 }
      (by decide) (by decide)⟩

end ObjLoader

/-! ## glTF scene traversal: proofs -/

namespace GltfLoader

theorem foldl_children_none (nodes : List Node) (depth : Nat) (cs : List (Option Int)) :
    cs.foldl
      (fun acc c =>
        match acc, c with
        | none, _ => none
        | some s, none => some s
        | some s, some ci => gatherNodeRecursive nodes depth ci s)
      none = none := by
  induction cs with
  | nil => rfl
  | cons c cs ih => rw [List.foldl_cons]; exact ih

/-- The recursion never returns from a node that is the start of an endless chain of first
children. -/
theorem gatherNodeRecursive_descends (nodes : List Node) (S : Int → Prop)
    (hS : ∀ i, S i → 0 ≤ i ∧ ∃ node j rest, nodes[i.toNat]? = some node ∧
      node.isObj = true ∧ node.meshOk = true ∧ node.children = some (some j :: rest) ∧ S j)
    (depth : Nat) (i : Int) (st : GatherState) (hi : S i) (hok : st.ok = true) :
    gatherNodeRecursive nodes depth i st = none := by
  induction depth generalizing i st with
  | zero => rfl
  | succ depth ih =>
    obtain ⟨h0, node, j, rest, hn, hobj, hmesh, hch, hj⟩ := hS i hi
    have hlt : i.toNat < nodes.length := by
      by_contra hcon
      rw [List.getElem?_eq_none_iff.mpr (by omega)] at hn
      exact Option.noConfusion hn
    unfold gatherNodeRecursive
    rw [if_neg (by simp [hok]), if_neg (by omega)]
    simp only [hn, hobj, hmesh, hch, Bool.not_true, Bool.false_eq_true, if_false,
      List.foldl_cons]
    rw [ih j { ok := st.ok, visited := st.visited ++ [i.toNat] } hj hok]
    exact foldl_children_none nodes depth rest

theorem foldl_children_isSome (nodes : List Node) (depth : Nat) (cs : List (Option Int))
    (h : ∀ c s, some c ∈ cs → (gatherNodeRecursive nodes depth c s).isSome = true)
    (s0 : GatherState) :
    (cs.foldl
      (fun acc c =>
        match acc, c with
        | none, _ => none
        | some s, none => some s
        | some s, some ci => gatherNodeRecursive nodes depth ci s)
      (some s0)).isSome = true := by
  induction cs generalizing s0 with
  | nil => rfl
  | cons c cs ih =>
    rw [List.foldl_cons]
    cases c with
    | none => exact ih (fun c s hc => h c s (List.mem_cons_of_mem _ hc)) s0
    | some ci =>
      have h1 := h ci s0 (List.mem_cons_self _ _)
      obtain ⟨s1, hs1⟩ := Option.isSome_iff_exists.mp h1
      simp only [hs1]
      exact ih (fun c s hc => h c s (List.mem_cons_of_mem _ hc)) s1

/-- On a node table whose child relation has a rank that decreases from a node to each of
its children, the recursion returns within depth `rank i + 1`. -/
theorem gatherNodeRecursive_returns (nodes : List Node) (rank : Int → Nat)
    (hrank : ∀ (i : Int) (node : Node) (cs : List (Option Int)) (c : Int), 0 ≤ i →
      nodes[i.toNat]? = some node → node.children = some cs → some c ∈ cs → rank c < rank i)
    (depth : Nat) (i : Int) (st : GatherState) (hd : rank i < depth) :
    (gatherNodeRecursive nodes depth i st).isSome = true := by
  induction depth generalizing i st with
  | zero => omega
  | succ depth ih =>
    unfold gatherNodeRecursive
    by_cases hok : st.ok = true
    · rw [if_neg (by simp [hok])]
      by_cases hr : i < 0 ∨ i.toNat ≥ nodes.length
      · rw [if_pos hr]
        rfl
      · rw [if_neg hr]
        cases hn : nodes[i.toNat]? with
        | none => rfl
        | some node =>
          simp only
          by_cases hobj : node.isObj = true
          · rw [if_neg (by simp [hobj])]
            by_cases hmesh : node.meshOk = true
            · rw [if_neg (by simp [hmesh])]
              cases hch : node.children with
              | none => rfl
              | some cs =>
                simp only
                apply foldl_children_isSome
                intro c s hc
                have := hrank i node cs c (by omega) hn hch hc
                exact ih c s (by omega)
            · rw [if_pos (by simp [hmesh])]
              rfl
          · rw [if_pos (by simp [hobj])]
            rfl
    · rw [if_pos (by simp [hok])]
      rfl

/-- C30, as the code behaves. `gatherNodeRecursive` keeps no record of the nodes it is
visiting and has no depth limit. On a node table in which a node is the start of an endless
chain of first children (each node of a set `S` is an object whose mesh is gathered and
whose first child is again in `S`: a node that lists itself, or a node whose first child
leads back to it), the call for such a node does not return at any recursion depth, and
neither does the root loop of `loadGltfScene`. The recursion does return on every node table
whose child relation is well-founded (a rank decreases from each node to its children). -/
theorem gatherNodeRecursive_cycle_never_returns (nodes : List Node) (S : Int → Prop)
    (hS : ∀ i, S i → 0 ≤ i ∧ ∃ node j rest, nodes[i.toNat]? = some node ∧
      node.isObj = true ∧ node.meshOk = true ∧ node.children = some (some j :: rest) ∧ S j)
    (i : Int) (hi : S i) :
    (∀ (depth : Nat) (st : GatherState), st.ok = true →
      gatherNodeRecursive nodes depth i st = none) ∧
    (∀ (depth : Nat) (roots : List (Option Int)),
      gatherRoots nodes depth (some i :: roots) = none) ∧
    (∀ (table : List Node) (rank : Int → Nat),
      (∀ (a : Int) (node : Node) (cs : List (Option Int)) (c : Int), 0 ≤ a →
        table[a.toNat]? = some node → node.children = some cs → some c ∈ cs →
        rank c < rank a) →
      ∀ (a : Int) (st : GatherState),
        (gatherNodeRecursive table (rank a + 1) a st).isSome = true) := by
  refine ⟨fun depth st hok => gatherNodeRecursive_descends nodes S hS depth i st hi hok, ?_,
    fun table rank hrank a st =>
      gatherNodeRecursive_returns table rank hrank (rank a + 1) a st (Nat.lt_succ_self _)⟩
  intro depth roots
  unfold gatherRoots
  rw [List.foldl_cons]
  simp only
  rw [gatherNodeRecursive_descends nodes S hS depth i _ hi rfl]
  induction roots with
  | nil => rfl
  | cons r roots ih => rw [List.foldl_cons]; exact ih

/-- The node table of one node that lists itself as its child: the traversal from root 0
returns at no depth, while the traversal of the sample tree returns at depth 3. -/
theorem gatherNodeRecursive_cycle_never_returns_witness :
    gatherRoots sampleTreeNodes 3 [some 0] = some { ok := true, visited := [0, 1, 3, 2] } ∧
    (∀ i : Int, i = 0 → 0 ≤ i ∧ ∃ node j rest, sampleCyclicNodes[i.toNat]? = some node ∧
      node.isObj = true ∧ node.meshOk = true ∧ node.children = some (some j :: rest) ∧
      j = 0) ∧
    ((∀ (depth : Nat) (st : GatherState), st.ok = true →
      gatherNodeRecursive sampleCyclicNodes depth 0 st = none) ∧
    (∀ (depth : Nat) (roots : List (Option Int)),
      gatherRoots sampleCyclicNodes depth (some 0 :: roots) = none) ∧
    (∀ (table : List Node) (rank : Int → Nat),
      (∀ (a : Int) (node : Node) (cs : List (Option Int)) (c : Int), 0 ≤ a →
        table[a.toNat]? = some node → node.children = some cs → some c ∈ cs →
        rank c < rank a) →
      ∀ (a : Int) (st : GatherState),
        (gatherNodeRecursive table (rank a + 1) a st).isSome = true)) :=
  have h : ∀ i : Int, i = 0 → 0 ≤ i ∧ ∃ node j rest,
      sampleCyclicNodes[i.toNat]? = some node ∧ node.isObj = true ∧ node.meshOk = true ∧
        node.children = some (some j :: rest) ∧ j = 0 := by
    intro i hi
    subst hi
    exact ⟨le_refl _, _, 0, [], rfl, rfl, rfl, rfl, rfl⟩
  ⟨by decide, h,
    gatherNodeRecursive_cycle_never_returns sampleCyclicNodes (fun i => i = 0) h 0 rfl⟩

end GltfLoader

/-! ## The barriers of a pass on the command stream -/

namespace RenderGraph

theorem applyImageAccess_scratch_append (st : RenderGraph × VulkanContext) (a : ImageAccess) :
    ∃ own, (applyImageAccess st a).1.scratchImgBarriers = st.1.scratchImgBarriers ++ own := by
  cases hres : st.1.images[a.id]? with
  | none =>
    rw [applyImageAccess_out_of_range st a (List.getElem?_eq_none_iff.mp hres)]
    exact ⟨[], (List.append_nil _).symm⟩
  | some res =>
    rw [applyImageAccess_in_range st a res hres]
    split_ifs
    · exact ⟨[], (List.append_nil _).symm⟩
    · exact ⟨_, rfl⟩

theorem applyImageAccesses_scratch_append (l : List ImageAccess)
    (st : RenderGraph × VulkanContext) :
    ∃ later, (applyImageAccesses st l).1.scratchImgBarriers =
      st.1.scratchImgBarriers ++ later := by
  induction l generalizing st with
  | nil => exact ⟨[], (List.append_nil _).symm⟩
  | cons a l ih =>
    obtain ⟨own, h1⟩ := applyImageAccess_scratch_append st a
    obtain ⟨later, h2⟩ := ih (applyImageAccess st a)
    refine ⟨own ++ later, ?_⟩
    rw [applyImageAccesses_cons, h2, h1, List.append_assoc]

/-- C1. Let an access `a` of a pass have an id that is an index of the image table, and let
`st` be the state of the image loop of `applyBarriers` when it reaches `a` (`res` is the
record of the image then). The image barriers of the pass are those of the accesses before
`a`, then the barriers `own` of `a`, then those of the accesses after it, and `own` is one
barrier (naming the image, its recorded and requested masks and its old and new layout)
exactly when the current layout differs from the layout the usage requires, or the recorded
access mask contains a write bit, or the requested access mask contains a write bit; it is
empty exactly when the layout is the same and neither mask contains a write bit (a read
after a read with the same layout). `applyBarriers` issues one `cmdPipelineBarrier2` call
that carries these image barriers and the buffer barriers of the pass, unless both lists are
empty; so when `a` needs a barrier the call is issued and carries it. -/
theorem applyBarriers_image_barrier_iff (g : RenderGraph) (vk : VulkanContext) (cmd : Nat)
    (pass : Pass) (pre post : List ImageAccess) (a : ImageAccess)
    (st : RenderGraph × VulkanContext) (res : ImageResource)
    (hsplit : pass.images = pre ++ a :: post)
    (hst : applyImageAccesses
      ({ g with scratchImgBarriers := [], scratchBufBarriers := [] }, vk) pre = st)
    (hres : st.1.images[a.id]? = some res) :
    ∃ own later,
      (applyBarriers g vk cmd pass).1.scratchImgBarriers =
        st.1.scratchImgBarriers ++ own ++ later ∧
      (applyImageAccess st a).1.scratchImgBarriers = st.1.scratchImgBarriers ++ own ∧
      (own = [{ srcStageMask := res.lastStage
                srcAccessMask := res.lastAccess
                dstStageMask := (stagesAccessForImageUse a.use a.write).stage
                dstAccessMask := (stagesAccessForImageUse a.use a.write).access
                oldLayout := curLayout st.2 res
                newLayout := (stagesAccessForImageUse a.use a.write).layout
                image := res.image
                aspectMask := (stagesAccessForImageUse a.use a.write).aspect }] ↔
        (curLayout st.2 res ≠ (stagesAccessForImageUse a.use a.write).layout ∨
          res.lastAccess &&& imageWriteBits ≠ 0 ∨
          (stagesAccessForImageUse a.use a.write).access &&& imageWriteBits ≠ 0)) ∧
      (own = [] ↔
        (curLayout st.2 res = (stagesAccessForImageUse a.use a.write).layout ∧
          res.lastAccess &&& imageWriteBits = 0 ∧
          (stagesAccessForImageUse a.use a.write).access &&& imageWriteBits = 0)) ∧
      (applyBarriers g vk cmd pass).2.trace =
        vk.trace ++
          (if (st.1.scratchImgBarriers ++ own ++ later).isEmpty &&
              (applyBarriers g vk cmd pass).1.scratchBufBarriers.isEmpty then []
           else [Event.cmdPipelineBarrier2 cmd (st.1.scratchImgBarriers ++ own ++ later)
              (applyBarriers g vk cmd pass).1.scratchBufBarriers]) ∧
      ((curLayout st.2 res ≠ (stagesAccessForImageUse a.use a.write).layout ∨
          res.lastAccess &&& imageWriteBits ≠ 0 ∨
          (stagesAccessForImageUse a.use a.write).access &&& imageWriteBits ≠ 0) →
        (applyBarriers g vk cmd pass).2.trace =
          vk.trace ++
            [Event.cmdPipelineBarrier2 cmd
              (st.1.scratchImgBarriers ++
                [{ srcStageMask := res.lastStage
                   srcAccessMask := res.lastAccess
                   dstStageMask := (stagesAccessForImageUse a.use a.write).stage
                   dstAccessMask := (stagesAccessForImageUse a.use a.write).access
                   oldLayout := curLayout st.2 res
                   newLayout := (stagesAccessForImageUse a.use a.write).layout
                   image := res.image
                   aspectMask := (stagesAccessForImageUse a.use a.write).aspect }] ++ later)
              (applyBarriers g vk cmd pass).1.scratchBufBarriers]) := by
  have hfinal : (applyBarriers g vk cmd pass).1.scratchImgBarriers =
      (applyImageAccesses (applyImageAccess st a) post).1.scratchImgBarriers := by
    rw [applyBarriers_scratchImgBarriers, hsplit, applyImageAccesses_append,
      applyImageAccesses_cons, hst]
  obtain ⟨later, hlater⟩ := applyImageAccesses_scratch_append post (applyImageAccess st a)
  have htrace := applyBarriers_trace g vk cmd pass
  unfold barrierEvents at htrace
  by_cases hc : curLayout st.2 res = (stagesAccessForImageUse a.use a.write).layout ∧
      ¬ (res.lastAccess &&& imageWriteBits ≠ 0 ∨
          (stagesAccessForImageUse a.use a.write).access &&& imageWriteBits ≠ 0)
  · have hown : (applyImageAccess st a).1.scratchImgBarriers = st.1.scratchImgBarriers := by
      rw [applyImageAccess_in_range st a res hres, if_pos hc]
    have h2 : res.lastAccess &&& imageWriteBits = 0 := by
      by_contra h; exact hc.2 (Or.inl h)
    have h3 : (stagesAccessForImageUse a.use a.write).access &&& imageWriteBits = 0 := by
      by_contra h; exact hc.2 (Or.inr h)
    have hL : (applyBarriers g vk cmd pass).1.scratchImgBarriers =
        st.1.scratchImgBarriers ++ [] ++ later := by
      rw [hfinal, hlater, hown, List.append_nil]
    refine ⟨[], later, hL, by rw [hown, List.append_nil], ?_, ?_, ?_, ?_⟩
    · constructor
      · intro e
        exact absurd e (List.cons_ne_nil _ _).symm
      · rintro (h | h | h)
        · exact absurd hc.1 h
        · exact absurd h2 h
        · exact absurd h3 h
    · exact ⟨fun _ => ⟨hc.1, h2, h3⟩, fun _ => rfl⟩
    · rw [htrace, hL]
    · rintro (h | h | h)
      · exact absurd hc.1 h
      · exact absurd h2 h
      · exact absurd h3 h
  · have hown : (applyImageAccess st a).1.scratchImgBarriers = st.1.scratchImgBarriers ++
        [{ srcStageMask := res.lastStage
           srcAccessMask := res.lastAccess
           dstStageMask := (stagesAccessForImageUse a.use a.write).stage
           dstAccessMask := (stagesAccessForImageUse a.use a.write).access
           oldLayout := curLayout st.2 res
           newLayout := (stagesAccessForImageUse a.use a.write).layout
           image := res.image
           aspectMask := (stagesAccessForImageUse a.use a.write).aspect }] := by
      rw [applyImageAccess_in_range st a res hres, if_neg hc]
    have hneed : curLayout st.2 res ≠ (stagesAccessForImageUse a.use a.write).layout ∨
        res.lastAccess &&& imageWriteBits ≠ 0 ∨
        (stagesAccessForImageUse a.use a.write).access &&& imageWriteBits ≠ 0 := by
      by_contra hn
      simp only [not_or, not_not] at hn
      exact hc ⟨hn.1, fun h => h.elim (fun h => h hn.2.1) (fun h => h hn.2.2)⟩
    have hL : (applyBarriers g vk cmd pass).1.scratchImgBarriers =
        st.1.scratchImgBarriers ++
          [{ srcStageMask := res.lastStage
             srcAccessMask := res.lastAccess
             dstStageMask := (stagesAccessForImageUse a.use a.write).stage
             dstAccessMask := (stagesAccessForImageUse a.use a.write).access
             oldLayout := curLayout st.2 res
             newLayout := (stagesAccessForImageUse a.use a.write).layout
             image := res.image
             aspectMask := (stagesAccessForImageUse a.use a.write).aspect }] ++ later := by
      rw [hfinal, hlater, hown]
    have hne : (st.1.scratchImgBarriers ++
          [({ srcStageMask := res.lastStage
              srcAccessMask := res.lastAccess
              dstStageMask := (stagesAccessForImageUse a.use a.write).stage
              dstAccessMask := (stagesAccessForImageUse a.use a.write).access
              oldLayout := curLayout st.2 res
              newLayout := (stagesAccessForImageUse a.use a.write).layout
              image := res.image
              aspectMask := (stagesAccessForImageUse a.use a.write).aspect } :
            VkImageMemoryBarrier2)] ++ later).isEmpty = false := by
      simp
    refine ⟨_, later, hL, hown, ?_, ?_, ?_, ?_⟩
    · exact ⟨fun _ => hneed, fun _ => rfl⟩
    · constructor
      · intro e
        exact absurd e (List.cons_ne_nil _ _)
      · rintro ⟨h1, h2, h3⟩
        exact absurd ⟨h1, fun h => h.elim (fun h => h h2) (fun h => h h3)⟩ hc
    · rw [htrace, hL]
    · intro _
      rw [htrace, hL, hne]
      rfl

end RenderGraph

namespace RenderGraph

/-- A pass that reads image 0 of the sample graph as a sampled image while its layout is still
undefined: one barrier to the read-only layout, carried by the one synchronization call. -/
theorem applyBarriers_image_barrier_iff_witness :
    sampleReadPass.images = [] ++ sampleSampledRead :: [] ∧
    sampleLoopStart.1.images[sampleSampledRead.id]? = some sampleImage ∧
    (applyBarriers sampleGraph sampleContext 11 sampleReadPass).2.trace =
      [Event.cmdPipelineBarrier2 11
        [{ srcStageMask := 1, srcAccessMask := 0, dstStageMask := 2176,
           dstAccessMask := 4294967328, oldLayout := 0, newLayout := 5, image := 401,
           aspectMask := 1 }] []] ∧
    ∃ own later,
      (applyBarriers sampleGraph sampleContext 11 sampleReadPass).1.scratchImgBarriers =
        sampleLoopStart.1.scratchImgBarriers ++ own ++ later ∧
      (applyImageAccess sampleLoopStart sampleSampledRead).1.scratchImgBarriers =
        sampleLoopStart.1.scratchImgBarriers ++ own ∧
      (own = [{ srcStageMask := sampleImage.lastStage
                srcAccessMask := sampleImage.lastAccess
                dstStageMask :=
                  (stagesAccessForImageUse sampleSampledRead.use sampleSampledRead.write).stage
                dstAccessMask :=
                  (stagesAccessForImageUse sampleSampledRead.use sampleSampledRead.write).access
                oldLayout := curLayout sampleLoopStart.2 sampleImage
                newLayout :=
                  (stagesAccessForImageUse sampleSampledRead.use sampleSampledRead.write).layout
                image := sampleImage.image
                aspectMask :=
                  (stagesAccessForImageUse sampleSampledRead.use
                    sampleSampledRead.write).aspect }] ↔
        (curLayout sampleLoopStart.2 sampleImage ≠
            (stagesAccessForImageUse sampleSampledRead.use sampleSampledRead.write).layout ∨
          sampleImage.lastAccess &&& imageWriteBits ≠ 0 ∨
          (stagesAccessForImageUse sampleSampledRead.use sampleSampledRead.write).access &&&
            imageWriteBits ≠ 0)) ∧
      (own = [] ↔
        (curLayout sampleLoopStart.2 sampleImage =
            (stagesAccessForImageUse sampleSampledRead.use sampleSampledRead.write).layout ∧
          sampleImage.lastAccess &&& imageWriteBits = 0 ∧
          (stagesAccessForImageUse sampleSampledRead.use sampleSampledRead.write).access &&&
            imageWriteBits = 0)) ∧
      (applyBarriers sampleGraph sampleContext 11 sampleReadPass).2.trace =
        sampleContext.trace ++
          (if (sampleLoopStart.1.scratchImgBarriers ++ own ++ later).isEmpty &&
              (applyBarriers sampleGraph sampleContext 11
                sampleReadPass).1.scratchBufBarriers.isEmpty then []
           else [Event.cmdPipelineBarrier2 11
              (sampleLoopStart.1.scratchImgBarriers ++ own ++ later)
              (applyBarriers sampleGraph sampleContext 11
                sampleReadPass).1.scratchBufBarriers]) ∧
      ((curLayout sampleLoopStart.2 sampleImage ≠
            (stagesAccessForImageUse sampleSampledRead.use sampleSampledRead.write).layout ∨
          sampleImage.lastAccess &&& imageWriteBits ≠ 0 ∨
          (stagesAccessForImageUse sampleSampledRead.use sampleSampledRead.write).access &&&
            imageWriteBits ≠ 0) →
        (applyBarriers sampleGraph sampleContext 11 sampleReadPass).2.trace =
          sampleContext.trace ++
            [Event.cmdPipelineBarrier2 11
              (sampleLoopStart.1.scratchImgBarriers ++
                [{ srcStageMask := sampleImage.lastStage
                   srcAccessMask := sampleImage.lastAccess
                   dstStageMask :=
                     (stagesAccessForImageUse sampleSampledRead.use
                       sampleSampledRead.write).stage
                   dstAccessMask :=
                     (stagesAccessForImageUse sampleSampledRead.use
                       sampleSampledRead.write).access
                   oldLayout := curLayout sampleLoopStart.2 sampleImage
                   newLayout :=
                     (stagesAccessForImageUse sampleSampledRead.use
                       sampleSampledRead.write).layout
                   image := sampleImage.image
                   aspectMask :=
                     (stagesAccessForImageUse sampleSampledRead.use
                       sampleSampledRead.write).aspect }] ++ later)
              (applyBarriers sampleGraph sampleContext 11
                sampleReadPass).1.scratchBufBarriers]) :=
  ⟨rfl, rfl, by decide,
    applyBarriers_image_barrier_iff sampleGraph sampleContext 11 sampleReadPass [] []
      sampleSampledRead sampleLoopStart sampleImage rfl rfl rfl⟩

end RenderGraph

namespace RenderGraph

theorem applyImageAccess_records (st : RenderGraph × VulkanContext) (ia : ImageAccess)
    (res : ImageResource) (hres : st.1.images[ia.id]? = some res) :
    ∃ res1, (applyImageAccess st ia).1.images[ia.id]? = some res1 ∧
      res1.lastStage = (stagesAccessForImageUse ia.use ia.write).stage ∧
      res1.lastAccess = (stagesAccessForImageUse ia.use ia.write).access ∧
      res1.aspectMask = (stagesAccessForImageUse ia.use ia.write).aspect ∧
      curLayout (applyImageAccess st ia).2 res1 =
        (stagesAccessForImageUse ia.use ia.write).layout ∧
      res1.externalLayoutPtr = res.externalLayoutPtr := by
  have hlt := lt_length_of_getElem?_eq_some hres
  rw [applyImageAccess_in_range st ia res hres]
  split_ifs with hc
  · refine ⟨_, List.getElem?_set_self hlt, rfl, rfl, rfl, ?_, rfl⟩
    have := hc.1
    simpa [curLayout] using this
  · refine ⟨_, List.getElem?_set_self hlt, rfl, rfl, rfl, ?_, ?_⟩
    · cases hp : res.externalLayoutPtr with
      | none => simp [curLayout, hp]
      | some p => simp [curLayout, hp, VulkanContext.storeLayout]
    · cases hp : res.externalLayoutPtr <;> simp [hp]

theorem applyBufferAccess_records (g : RenderGraph) (ba : BufferAccess) (res : BufferResource)
    (hres : g.buffers[ba.id]? = some res) :
    ∃ res1, (applyBufferAccess g ba).buffers[ba.id]? = some res1 ∧
      res1.lastStage = (stagesAccessForBufferUse ba.use ba.write).stage ∧
      res1.lastAccess = (stagesAccessForBufferUse ba.use ba.write).access := by
  have hlt := lt_length_of_getElem?_eq_some hres
  rw [applyBufferAccess_in_range g ba res hres]
  split_ifs with h0 hc
  · exact ⟨_, List.getElem?_set_self hlt, rfl, rfl⟩
  · exact ⟨res, hres, hc.2.1, hc.2.2⟩
  · exact ⟨_, List.getElem?_set_self hlt, rfl, rfl⟩

theorem applyBarriers_buffers (g : RenderGraph) (vk : VulkanContext) (cmd : Nat) (pass : Pass) :
    (applyBarriers g vk cmd pass).1.buffers =
      (applyBufferAccesses
        (applyImageAccesses ({ g with scratchImgBarriers := [], scratchBufBarriers := [] }, vk)
          pass.images).1 pass.buffers).buffers := by
  rw [applyBarriers_graph]

/-- C5. Let `applyBarriers` run on a pass, let `a` be one of its image accesses with an id
that is an index of the image table, and let `st` be the state of the image loop when it
reaches `a`. After the iteration for `a`, whether or not it appended a barrier, the record of
the image holds the stage mask, access mask and aspect the usage table gives for `a`, and
the current layout of the image (the external cell when the record has one, else its own
layout) is the layout the table requires. When no later access of the pass names the same
image, this is the record `applyBarriers` leaves behind, the layout included when the record
owns its layout; when `a` is the last image access of the pass, the current layout after
`applyBarriers` is the required one also through an external cell. Likewise for a buffer
access `b`: after its iteration, and after `applyBarriers` when no later access names the
same buffer, the record holds the stage and access masks the table gives for `b`. -/
theorem applyBarriers_records_state :
    (∀ (g : RenderGraph) (vk : VulkanContext) (cmd : Nat) (pass : Pass)
        (pre post : List ImageAccess) (a : ImageAccess) (st : RenderGraph × VulkanContext)
        (res : ImageResource),
      pass.images = pre ++ a :: post →
      applyImageAccesses
        ({ g with scratchImgBarriers := [], scratchBufBarriers := [] }, vk) pre = st →
      st.1.images[a.id]? = some res →
      (∃ res1, (applyImageAccess st a).1.images[a.id]? = some res1 ∧
        res1.lastStage = (stagesAccessForImageUse a.use a.write).stage ∧
        res1.lastAccess = (stagesAccessForImageUse a.use a.write).access ∧
        res1.aspectMask = (stagesAccessForImageUse a.use a.write).aspect ∧
        curLayout (applyImageAccess st a).2 res1 =
          (stagesAccessForImageUse a.use a.write).layout) ∧
      ((∀ x ∈ post, x.id ≠ a.id) →
        ∃ res1, (applyBarriers g vk cmd pass).1.images[a.id]? = some res1 ∧
          res1.lastStage = (stagesAccessForImageUse a.use a.write).stage ∧
          res1.lastAccess = (stagesAccessForImageUse a.use a.write).access ∧
          res1.aspectMask = (stagesAccessForImageUse a.use a.write).aspect ∧
          (res.externalLayoutPtr = none →
            curLayout (applyBarriers g vk cmd pass).2 res1 =
              (stagesAccessForImageUse a.use a.write).layout)) ∧
      (post = [] →
        ∃ res1, (applyBarriers g vk cmd pass).1.images[a.id]? = some res1 ∧
          res1.lastStage = (stagesAccessForImageUse a.use a.write).stage ∧
          res1.lastAccess = (stagesAccessForImageUse a.use a.write).access ∧
          res1.aspectMask = (stagesAccessForImageUse a.use a.write).aspect ∧
          curLayout (applyBarriers g vk cmd pass).2 res1 =
            (stagesAccessForImageUse a.use a.write).layout)) ∧
    (∀ (g : RenderGraph) (vk : VulkanContext) (cmd : Nat) (pass : Pass)
        (pre post : List BufferAccess) (b : BufferAccess) (gst : RenderGraph)
        (res : BufferResource),
      pass.buffers = pre ++ b :: post →
      applyBufferAccesses
        (applyImageAccesses ({ g with scratchImgBarriers := [], scratchBufBarriers := [] }, vk)
          pass.images).1 pre = gst →
      gst.buffers[b.id]? = some res →
      (∃ res1, (applyBufferAccess gst b).buffers[b.id]? = some res1 ∧
        res1.lastStage = (stagesAccessForBufferUse b.use b.write).stage ∧
        res1.lastAccess = (stagesAccessForBufferUse b.use b.write).access) ∧
      ((∀ x ∈ post, x.id ≠ b.id) →
        ∃ res1, (applyBarriers g vk cmd pass).1.buffers[b.id]? = some res1 ∧
          res1.lastStage = (stagesAccessForBufferUse b.use b.write).stage ∧
          res1.lastAccess = (stagesAccessForBufferUse b.use b.write).access)) := by
  refine ⟨?_, ?_⟩
  · intro g vk cmd pass pre post a st res hsplit hst hres
    obtain ⟨res1, r1, r2, r3, r4, r5, r6⟩ := applyImageAccess_records st a res hres
    have himg : (applyBarriers g vk cmd pass).1.images =
        (applyImageAccesses (applyImageAccess st a) post).1.images := by
      rw [applyBarriers_images, hsplit, applyImageAccesses_append, applyImageAccesses_cons, hst]
    have hcell : (applyBarriers g vk cmd pass).2.layoutCell =
        (applyImageAccesses (applyImageAccess st a) post).2.layoutCell := by
      rw [applyBarriers_vk_layoutCell, hsplit, applyImageAccesses_append,
        applyImageAccesses_cons, hst]
    refine ⟨⟨res1, r1, r2, r3, r4, r5⟩, ?_, ?_⟩
    · intro hpost
      refine ⟨res1, ?_, r2, r3, r4, ?_⟩
      · rw [himg, applyImageAccesses_getElem?_ne post _ a.id hpost]
        exact r1
      · intro hnone
        have hp1 : res1.externalLayoutPtr = none := by rw [r6, hnone]
        have h5 := r5
        unfold curLayout at h5 ⊢
        rw [hp1] at h5 ⊢
        exact h5
    · intro hnil
      subst hnil
      refine ⟨res1, ?_, r2, r3, r4, ?_⟩
      · rw [himg]
        exact r1
      · have h5 := r5
        unfold curLayout at h5 ⊢
        rw [hcell]
        exact h5
  · intro g vk cmd pass pre post b gst res hsplit hst hres
    obtain ⟨res1, r1, r2, r3⟩ := applyBufferAccess_records gst b res hres
    refine ⟨⟨res1, r1, r2, r3⟩, ?_⟩
    intro hpost
    refine ⟨res1, ?_, r2, r3⟩
    rw [applyBarriers_buffers, hsplit, applyBufferAccesses_append, applyBufferAccesses_cons,
      hst, applyBufferAccesses_getElem?_ne post _ b.id hpost]
    exact r1

end RenderGraph

namespace RenderGraph

/-- A colour-attachment write of image 0 of the sample graph, and a storage write of its
buffer 0: the records `applyBarriers` leaves behind hold the masks and the layout of the
usage table. -/
theorem applyBarriers_records_state_witness :
    ((applyBarriers sampleGraph sampleContext 11 sampleColorPass).1.images.map fun r =>
      (r.lastStage, r.lastAccess, r.aspectMask, r.layout)) = [(1024, 256, 1, 2)] ∧
    ((applyBarriers sampleGraph sampleContext 11 sampleWritePass).1.buffers.map fun r =>
      (r.lastStage, r.lastAccess)) = [(2184, 96)] ∧
    (∃ res1,
      (applyBarriers sampleGraph sampleContext 11 sampleColorPass).1.images[
        sampleColorWrite.id]? = some res1 ∧
      res1.lastStage =
        (stagesAccessForImageUse sampleColorWrite.use sampleColorWrite.write).stage ∧
      res1.lastAccess =
        (stagesAccessForImageUse sampleColorWrite.use sampleColorWrite.write).access ∧
      res1.aspectMask =
        (stagesAccessForImageUse sampleColorWrite.use sampleColorWrite.write).aspect ∧
      curLayout (applyBarriers sampleGraph sampleContext 11 sampleColorPass).2 res1 =
        (stagesAccessForImageUse sampleColorWrite.use sampleColorWrite.write).layout) ∧
    (∃ res1,
      (applyBarriers sampleGraph sampleContext 11 sampleWritePass).1.buffers[
        sampleStorageWrite.id]? = some res1 ∧
      res1.lastStage =
        (stagesAccessForBufferUse sampleStorageWrite.use sampleStorageWrite.write).stage ∧
      res1.lastAccess =
        (stagesAccessForBufferUse sampleStorageWrite.use sampleStorageWrite.write).access) :=
  ⟨by decide, by decide,
    (applyBarriers_records_state.1 sampleGraph sampleContext 11 sampleColorPass [] []
      sampleColorWrite sampleLoopStart sampleImage rfl rfl rfl).2.2 rfl,
    (applyBarriers_records_state.2 sampleGraph sampleContext 11 sampleWritePass [] []
      sampleStorageWrite
      (applyImageAccesses sampleLoopStart sampleWritePass.images).1
      { buffer := 501, memory := 0, lastStage := 1, lastAccess := 0, owned := false,
        pooled := false } rfl rfl rfl).2 (fun x hx => absurd hx (List.not_mem_nil x))⟩

end RenderGraph

/-! ## The transient pool: first match by key fields -/

namespace VulkanContext

theorem transientImageKeyMatch_iff_fields (a : TransientImage2D) (format : Nat)
    (extent : VkExtent2D) (usage aspect : Nat) :
    transientImageKeyMatch a format extent usage aspect = true ↔
      a.format = format ∧ a.extent.width = extent.width ∧ a.extent.height = extent.height ∧
        a.usage = usage ∧ a.aspect = aspect := by
  unfold transientImageKeyMatch
  simp only [Bool.and_eq_true, beq_iff_eq]
  tauto

theorem transientImageKeyMatch_false_iff (a : TransientImage2D) (format : Nat)
    (extent : VkExtent2D) (usage aspect : Nat) :
    transientImageKeyMatch a format extent usage aspect = false ↔
      ¬ (a.format = format ∧ a.extent.width = extent.width ∧ a.extent.height = extent.height ∧
        a.usage = usage ∧ a.aspect = aspect) := by
  rw [← transientImageKeyMatch_iff_fields, Bool.not_eq_true]

theorem transientBufferKeyMatch_false_iff (f : TransientBuffer) (size usage memFlags : Nat) :
    transientBufferKeyMatch f size usage memFlags = false ↔
      ¬ (f.size = size ∧ f.usage = usage ∧ f.memFlags = memFlags) := by
  rw [← transientBufferKeyMatch_iff, Bool.not_eq_true]

/-- C12: `acquireTransientImage2D` and `acquireTransientBuffer` hand out the first free entry
whose key fields equal the request. If entry `i` of the free list has the requested format,
width, height, usage and aspect (resp. size, usage and memory flags) and every earlier entry
differs from the request in some key field, the call returns entry `i` and leaves the free
list without exactly that entry (the last entry takes its place, a permutation of the list
with entry `i` erased). If every free entry differs from the request in some key field, the
context is unchanged and the result is the newly created resource with the requested key
(nothing when the creation throws). In either case the returned resource has the requested
key and is either an entry of the free list or the newly created one. -/
theorem acquireTransient_first_match (vk : VulkanContext) (name : String) :
    (∀ (format : Nat) (extent : VkExtent2D) (usage aspect : Nat) (dev : Option CreatedImage),
      (∀ i r, vk.transientImagesFree[i]? = some r →
        (r.format = format ∧ r.extent.width = extent.width ∧ r.extent.height = extent.height ∧
          r.usage = usage ∧ r.aspect = aspect) →
        (∀ j x, j < i → vk.transientImagesFree[j]? = some x →
          ¬ (x.format = format ∧ x.extent.width = extent.width ∧
            x.extent.height = extent.height ∧ x.usage = usage ∧ x.aspect = aspect)) →
        vk.acquireTransientImage2D name format extent usage aspect dev =
            some (r, { vk with transientImagesFree := swapRemove vk.transientImagesFree i }) ∧
          (swapRemove vk.transientImagesFree i).Perm (vk.transientImagesFree.eraseIdx i)) ∧
      ((∀ x ∈ vk.transientImagesFree,
          ¬ (x.format = format ∧ x.extent.width = extent.width ∧
            x.extent.height = extent.height ∧ x.usage = usage ∧ x.aspect = aspect)) →
        vk.acquireTransientImage2D name format extent usage aspect dev =
          dev.map fun c =>
            ({ format := format, extent := extent, usage := usage, aspect := aspect,
               image := c.image, view := c.view, memory := c.memory }, vk)) ∧
      (∀ t vk1, vk.acquireTransientImage2D name format extent usage aspect dev = some (t, vk1) →
        (t.format = format ∧ t.extent.width = extent.width ∧ t.extent.height = extent.height ∧
          t.usage = usage ∧ t.aspect = aspect) ∧
        (t ∈ vk.transientImagesFree ∨
          ∃ c, dev = some c ∧ t.image = c.image ∧ t.view = c.view ∧ t.memory = c.memory ∧
            vk1.transientImagesFree = vk.transientImagesFree))) ∧
    (∀ (size usage memFlags : Nat) (dev : Option CreatedBuffer),
      (∀ i r, vk.transientBuffersFree[i]? = some r →
        (r.size = size ∧ r.usage = usage ∧ r.memFlags = memFlags) →
        (∀ j x, j < i → vk.transientBuffersFree[j]? = some x →
          ¬ (x.size = size ∧ x.usage = usage ∧ x.memFlags = memFlags)) →
        vk.acquireTransientBuffer name size usage memFlags dev =
            some (r, { vk with transientBuffersFree := swapRemove vk.transientBuffersFree i }) ∧
          (swapRemove vk.transientBuffersFree i).Perm (vk.transientBuffersFree.eraseIdx i)) ∧
      ((∀ x ∈ vk.transientBuffersFree,
          ¬ (x.size = size ∧ x.usage = usage ∧ x.memFlags = memFlags)) →
        vk.acquireTransientBuffer name size usage memFlags dev =
          dev.map fun c =>
            ({ size := size, usage := usage, memFlags := memFlags, buffer := c.buffer,
               memory := c.memory }, vk)) ∧
      (∀ t vk1, vk.acquireTransientBuffer name size usage memFlags dev = some (t, vk1) →
        (t.size = size ∧ t.usage = usage ∧ t.memFlags = memFlags) ∧
        (t ∈ vk.transientBuffersFree ∨
          ∃ c, dev = some c ∧ t.buffer = c.buffer ∧ t.memory = c.memory ∧
            vk1.transientBuffersFree = vk.transientBuffersFree))) := by
  have hc := acquireTransient_match_cases vk name
  refine ⟨fun format extent usage aspect dev => ⟨?_, ?_, ?_⟩,
    fun size usage memFlags dev => ⟨?_, ?_, ?_⟩⟩
  · intro i r h1 h2 h3
    exact (hc.1 format extent usage aspect dev).1 i r h1
      ((transientImageKeyMatch_iff_fields _ _ _ _ _).2 h2)
      (fun j x hj hx => (transientImageKeyMatch_false_iff _ _ _ _ _).2 (h3 j x hj hx))
  · intro h
    exact (hc.1 format extent usage aspect dev).2.1
      (fun x hx => (transientImageKeyMatch_false_iff _ _ _ _ _).2 (h x hx))
  · intro t vk1 h
    refine ⟨(transientImageKeyMatch_iff_fields _ _ _ _ _).1
      (acquireTransientImage2D_key vk name format extent usage aspect dev t vk1 h), ?_⟩
    rcases acquireTransientImage2D_cases vk name format extent usage aspect dev t vk1 h with
      ⟨i, hf, _⟩ | ⟨_, c, hd, ht, hv⟩
    · exact Or.inl (List.mem_iff_getElem?.2 ⟨_, ((findFirst_eq_some_iff _ _ _ _).1 hf).1⟩)
    · refine Or.inr ⟨c, hd, ?_, ?_, ?_, ?_⟩
      · rw [ht]
      · rw [ht]
      · rw [ht]
      · rw [hv]
  · intro i r h1 h2 h3
    exact (hc.2 size usage memFlags dev).1 i r h1
      ((transientBufferKeyMatch_iff _ _ _ _).2 h2)
      (fun j x hj hx => (transientBufferKeyMatch_false_iff _ _ _ _).2 (h3 j x hj hx))
  · intro h
    exact (hc.2 size usage memFlags dev).2.1
      (fun x hx => (transientBufferKeyMatch_false_iff _ _ _ _).2 (h x hx))
  · intro t vk1 h
    refine ⟨(transientBufferKeyMatch_iff _ _ _ _).1
      (acquireTransientBuffer_key vk name size usage memFlags dev t vk1 h), ?_⟩
    rcases acquireTransientBuffer_cases vk name size usage memFlags dev t vk1 h with
      ⟨i, hf, _⟩ | ⟨_, c, hd, ht, hv⟩
    · exact Or.inl (List.mem_iff_getElem?.2 ⟨_, ((findFirst_eq_some_iff _ _ _ _).1 hf).1⟩)
    · refine Or.inr ⟨c, hd, ?_, ?_, ?_⟩
      · rw [ht]
      · rw [ht]
      · rw [hv]

end VulkanContext

namespace VulkanContext

/-- Witness of C12: on the sample pool the colour target and the 4096-byte buffer are each
the second free entry and the first of their shape; the call returns them and the last
entry takes their place. A request no free entry matches creates a new resource. -/
theorem acquireTransient_first_match_witness :
    ((sampleFreePool.acquireTransientImage2D "hdr" 97 { width := 800, height := 600 } 0x14 1
          none).map fun p => (p.1, p.2.transientImagesFree, p.2.transientBuffersFree)) =
        some (RenderGraph.samplePooledImage, [RenderGraph.samplePooledDepth, sampleSecondImage],
          [samplePooledSmallBuffer, RenderGraph.samplePooledBuffer, sampleSecondBuffer]) ∧
      ((sampleFreePool.acquireTransientBuffer "cull" 4096 0x20 1 none).map
          fun p => (p.1, p.2.transientImagesFree, p.2.transientBuffersFree)) =
        some (RenderGraph.samplePooledBuffer,
          [RenderGraph.samplePooledDepth, RenderGraph.samplePooledImage, sampleSecondImage],
          [samplePooledSmallBuffer, sampleSecondBuffer]) ∧
      ((sampleFreePool.acquireTransientBuffer "cull" 512 0x20 1
          (some { buffer := 901, memory := 902 })).map
          fun p => (p.1, p.2.transientBuffersFree)) =
        some ({ size := 512, usage := 0x20, memFlags := 1, buffer := 901, memory := 902 },
          [samplePooledSmallBuffer, RenderGraph.samplePooledBuffer, sampleSecondBuffer]) ∧
      sampleFreePool.acquireTransientImage2D "hdr" 97 { width := 800, height := 600 } 0x14 1
          none =
        some (RenderGraph.samplePooledImage,
          { sampleFreePool with
            transientImagesFree := swapRemove sampleFreePool.transientImagesFree 1 }) ∧
      sampleFreePool.acquireTransientBuffer "cull" 4096 0x20 1 none =
        some (RenderGraph.samplePooledBuffer,
          { sampleFreePool with
            transientBuffersFree := swapRemove sampleFreePool.transientBuffersFree 1 }) ∧
      sampleFreePool.acquireTransientBuffer "cull" 512 0x20 1
          (some { buffer := 901, memory := 902 }) =
        some ({ size := 512, usage := 0x20, memFlags := 1, buffer := 901, memory := 902 },
          sampleFreePool) :=
  ⟨by decide, by decide, by decide,
    ((((acquireTransient_first_match sampleFreePool "hdr").1 97
      { width := 800, height := 600 } 0x14 1 none).1 1 RenderGraph.samplePooledImage rfl
      (by decide)
      (fun j x hj hx => by
        have hj0 : j = 0 := by omega
        subst hj0
        have hx0 : RenderGraph.samplePooledDepth = x := by
          simpa [sampleFreePool] using hx
        subst hx0
        decide))).1,
    ((((acquireTransient_first_match sampleFreePool "cull").2 4096 0x20 1 none).1 1
      RenderGraph.samplePooledBuffer rfl (by decide)
      (fun j x hj hx => by
        have hj0 : j = 0 := by omega
        subst hj0
        have hx0 : samplePooledSmallBuffer = x := by
          simpa [sampleFreePool] using hx
        subst hx0
        decide))).1,
    (((acquireTransient_first_match sampleFreePool "cull").2 512 0x20 1
      (some { buffer := 901, memory := 902 })).2.1
      (fun x hx => by
        have hx1 : x = samplePooledSmallBuffer ∨ x = RenderGraph.samplePooledBuffer ∨
            x = sampleSecondBuffer := by
          simpa [sampleFreePool] using hx
        rcases hx1 with rfl | rfl | rfl <;> decide))⟩

end VulkanContext

/-! ## The pre-filter on draw lists beyond the 32-bit draw count -/

namespace Renderer

theorem recordGpuCulling_of_truncated_zero {F : Type} (fr : FrameResources) (indexCount : Nat)
    (scene : RenderScene F) (dev : GrowDevice) (h : scene.draws.length % 2 ^ 32 = 0) :
    recordGpuCulling true fr indexCount scene dev =
      some { returned := 0, frame := fr, queuedForDeletion := [], writesInBounds := true,
             pushConstants := none, dispatch := none } := by
  unfold recordGpuCulling
  rw [if_neg (by simp)]
  dsimp only
  rw [if_pos h]

theorem filter_isCandidate_replicate (tc n : Nat) (d : DrawItem)
    (h : isCandidate tc d = true) :
    (List.replicate n d).filter (isCandidate tc) = List.replicate n d :=
  List.filter_eq_self.2 fun x hx => by rw [List.eq_of_mem_replicate hx]; exact h

theorem foldl_preFilterStep_inBounds_false (tc : Nat) (draws : List DrawItem) (st : FilterState)
    (h : st.inBounds = false) : (draws.foldl (preFilterStep tc) st).inBounds = false := by
  induction draws generalizing st with
  | nil => exact h
  | cons d ds ih =>
    rw [List.foldl_cons]
    apply ih
    unfold preFilterStep
    split_ifs
    · exact h
    · exact h
    · simp only [h, Bool.false_and]

theorem preFilter_replicate_fill (tc cap : Nat) (d : DrawItem) (mapped : List Nat)
    (hc : isCandidate tc d = true) (hcap : cap < 2 ^ 32) (hm : mapped.length = cap) :
    (preFilter tc mapped (List.replicate cap d)).written = cap ∧
      (preFilter tc mapped (List.replicate cap d)).mapped.length = cap ∧
      (preFilter tc mapped (List.replicate cap d)).inBounds = true := by
  have hf := filter_isCandidate_replicate tc cap d hc
  obtain ⟨p1, p2, p3⟩ := foldl_preFilterStep tc (List.replicate cap d)
    { written := 0, mapped := mapped, inBounds := true }
    (by rw [hf, List.length_replicate]; simp only [Nat.zero_add]; omega)
    (by rw [hf, List.length_replicate]; simp only [Nat.zero_add]; omega)
  rw [hf, List.length_replicate] at p1 p2
  simp only [Nat.zero_add] at p1 p2 p3
  unfold preFilter
  refine ⟨p1, ?_, p3⟩
  rw [p2]
  simp only [List.take_zero, List.nil_append, List.length_append, List.length_map,
    List.length_replicate, List.length_drop]
  omega

theorem preFilter_replicate_overflow (tc cap n : Nat) (d : DrawItem) (mapped : List Nat)
    (hc : isCandidate tc d = true) (hcap : cap < 2 ^ 32) (hm : mapped.length = cap)
    (hn : cap < n) : (preFilter tc mapped (List.replicate n d)).inBounds = false := by
  obtain ⟨p1, p2, -⟩ := preFilter_replicate_fill tc cap d mapped hc hcap hm
  have hsplit : List.replicate n d =
      List.replicate cap d ++ d :: List.replicate (n - cap - 1) d := by
    have hn1 : n = cap + ((n - cap - 1) + 1) := by omega
    conv_lhs => rw [hn1, List.replicate_add, List.replicate_succ]
  unfold preFilter at p1 p2 ⊢
  rw [hsplit, List.foldl_append, List.foldl_cons]
  apply foldl_preFilterStep_inBounds_false
  rw [preFilterStep_of_candidate tc _ d hc]
  simp only [p1, p2, lt_self_iff_false, decide_False, Bool.and_false]

/-- C17, counterexample: a scene of `2^32` draws, every one a valid draw of the scene mesh,
has a non-empty draw list and `2^32` candidates, yet `recordGpuCulling` sees the truncated
draw count 0 and returns 0 at once: nothing is written to the candidate buffer and nothing
is dispatched. -/
theorem recordGpuCulling_truncated_count_filters_nothing :
    sampleWrapScene.draws ≠ [] ∧
      sampleWrapScene.draws.length = 2 ^ 32 ∧
      (candidates sampleWrapScene).length = 2 ^ 32 ∧
      recordGpuCulling true sampleFrameResources 36 sampleWrapScene sampleGrowDevice =
        some { returned := 0, frame := sampleFrameResources, queuedForDeletion := [],
               writesInBounds := true, pushConstants := none, dispatch := none } := by
  have hl : sampleWrapScene.draws.length = 2 ^ 32 := List.length_replicate _ _
  refine ⟨?_, hl, ?_, ?_⟩
  · intro h
    rw [h] at hl
    exact absurd hl (by decide)
  · unfold candidates
    rw [List.length_map]
    have hd : sampleWrapScene.draws =
        List.replicate (2 ^ 32) { meshId := 0, materialId := 0, transformIndex := 0 } := rfl
    rw [hd, filter_isCandidate_replicate _ _ _ (by decide), List.length_replicate]
  · exact recordGpuCulling_of_truncated_zero _ _ _ _ (by rw [hl]; exact Nat.mod_self _)

/-- The call on a draw list whose truncated count is not zero and does not exceed the
capacity: nothing grows, and the result reports the pre-filter on the buffers as they are. -/
theorem recordGpuCulling_no_growth {F : Type} (fr : FrameResources) (indexCount : Nat)
    (scene : RenderScene F) (dev : GrowDevice) (h0 : scene.draws.length % 2 ^ 32 ≠ 0)
    (hcap : ¬ scene.draws.length % 2 ^ 32 > fr.indirectMaxDraws) :
    ∃ res, recordGpuCulling true fr indexCount scene dev = some res ∧
      res.writesInBounds =
        (preFilter scene.transforms.length fr.drawTransformSsboMapped scene.draws).inBounds ∧
      res.frame.indirectMaxDraws = fr.indirectMaxDraws := by
  have hgrow : growBuffers fr (scene.draws.length % 2 ^ 32) dev = some (fr, []) := by
    unfold growBuffers
    rw [if_neg hcap]
  unfold recordGpuCulling
  rw [if_neg (by simp)]
  dsimp only
  rw [if_neg h0, hgrow]
  dsimp only
  split_ifs
  · exact ⟨_, rfl, rfl, rfl⟩
  · exact ⟨_, rfl, rfl, rfl⟩

/-- C27, counterexample: with `2^32 + 1024` draws of the scene mesh on a frame with room for
1024 draws, the truncated draw count is 1024, so the growth step leaves the buffers as they
are; the first 1024 draws fill the 1024 mapped cells, draw 1024 is a candidate too, and its
write `outT[1024]` is outside the buffer. -/
theorem recordGpuCulling_truncated_count_writes_out_of_bounds :
    sampleFrameResources.drawTransformSsboMapped.length = sampleFrameResources.indirectMaxDraws ∧
      sampleFrameResources.indirectMaxDraws = 1024 ∧
      sampleOverflowScene.draws.length = 2 ^ 32 + 1024 ∧
      growBuffers sampleFrameResources (sampleOverflowScene.draws.length % 2 ^ 32)
          sampleGrowDevice = some (sampleFrameResources, []) ∧
      (preFilter sampleOverflowScene.transforms.length
          sampleFrameResources.drawTransformSsboMapped
          (sampleOverflowScene.draws.take 1024)).written = 1024 ∧
      (preFilter sampleOverflowScene.transforms.length
          sampleFrameResources.drawTransformSsboMapped
          (sampleOverflowScene.draws.take 1024)).mapped.length = 1024 ∧
      (∃ d, sampleOverflowScene.draws[1024]? = some d ∧
        isCandidate sampleOverflowScene.transforms.length d = true) ∧
      (preFilter sampleOverflowScene.transforms.length
          sampleFrameResources.drawTransformSsboMapped
          (sampleOverflowScene.draws.take 1025)).inBounds = false ∧
      ∃ res, recordGpuCulling true sampleFrameResources 36 sampleOverflowScene sampleGrowDevice =
          some res ∧
        res.writesInBounds = false ∧ res.frame.indirectMaxDraws = 1024 := by
  have hd : sampleOverflowScene.draws =
      List.replicate (2 ^ 32 + 1024) { meshId := 0, materialId := 0, transformIndex := 0 } := rfl
  have hl : sampleOverflowScene.draws.length = 2 ^ 32 + 1024 := by
    rw [hd, List.length_replicate]
  have hmod : sampleOverflowScene.draws.length % 2 ^ 32 = 1024 := by
    rw [hl, Nat.add_mod_left]
    rfl
  have hmapped : sampleFrameResources.drawTransformSsboMapped.length = 1024 :=
    List.length_replicate _ _
  have hmax : sampleFrameResources.indirectMaxDraws = 1024 := rfl
  have htc : isCandidate sampleOverflowScene.transforms.length
      { meshId := 0, materialId := 0, transformIndex := 0 } = true := by decide
  have hgrow : growBuffers sampleFrameResources (sampleOverflowScene.draws.length % 2 ^ 32)
      sampleGrowDevice = some (sampleFrameResources, []) := by
    unfold growBuffers
    rw [if_neg (by rw [hmod, hmax]; exact lt_irrefl 1024)]
  have htake : ∀ k, k ≤ 2 ^ 32 + 1024 → sampleOverflowScene.draws.take k =
      List.replicate k { meshId := 0, materialId := 0, transformIndex := 0 } := by
    intro k hk
    rw [hd, List.take_replicate, Nat.min_eq_left hk]
  obtain ⟨f1, f2, -⟩ := preFilter_replicate_fill sampleOverflowScene.transforms.length 1024
    { meshId := 0, materialId := 0, transformIndex := 0 }
    sampleFrameResources.drawTransformSsboMapped htc (by norm_num) hmapped
  have hover := preFilter_replicate_overflow sampleOverflowScene.transforms.length 1024
    (2 ^ 32 + 1024) { meshId := 0, materialId := 0, transformIndex := 0 }
    sampleFrameResources.drawTransformSsboMapped htc (by norm_num) hmapped (by norm_num)
  rw [← hd] at hover
  obtain ⟨res, r1, r2, r3⟩ := recordGpuCulling_no_growth sampleFrameResources 36
    sampleOverflowScene sampleGrowDevice (by rw [hmod]; decide)
    (by rw [hmod, hmax]; exact lt_irrefl 1024)
  refine ⟨hmapped, hmax, hl, hgrow, ?_, ?_, ⟨_, ?_, htc⟩, ?_, res, r1, ?_, ?_⟩
  · rw [htake 1024 (by norm_num)]
    exact f1
  · rw [htake 1024 (by norm_num)]
    exact f2
  · rw [hd, List.getElem?_replicate, if_pos (by norm_num)]
  · rw [htake 1025 (by norm_num)]
    exact preFilter_replicate_overflow _ 1024 1025 _ _ htc (by norm_num) hmapped (by norm_num)
  · rw [r2]
    exact hover
  · rw [r3, hmax]

end Renderer


/-! ## Binary32 rounding: proofs -/

namespace Binary32

theorem ulpExpAux_of_lt (fuel f : Nat) (h : f < 2 ^ 24) : ulpExpAux fuel f = 0 := by
  cases fuel with
  | zero => rfl
  | succ n =>
    unfold ulpExpAux
    rw [if_pos h]

theorem ulpExpAux_le (fuel f : Nat) : ulpExpAux fuel f ≤ fuel := by
  induction fuel generalizing f with
  | zero => simp [ulpExpAux]
  | succ n ih =>
    unfold ulpExpAux
    split_ifs
    · omega
    · have := ih (f / 2)
      omega

theorem ulpExpAux_mono (fuel : Nat) {f g : Nat} (h : f ≤ g) :
    ulpExpAux fuel f ≤ ulpExpAux fuel g := by
  induction fuel generalizing f g with
  | zero => simp [ulpExpAux]
  | succ n ih =>
    unfold ulpExpAux
    split_ifs with h1 h2 h2
    · exact le_refl _
    · exact Nat.zero_le _
    · omega
    · have := ih (Nat.div_le_div_right (c := 2) h)
      omega

/-- Above `2^24` units the spacing exponent `e` is positive and `2^(e+23) ≤ f`. -/
theorem ulpExpAux_lower (fuel f : Nat) (hf : 2 ^ 24 ≤ f) (hfuel : 0 < fuel) :
    0 < ulpExpAux fuel f ∧ 2 ^ (ulpExpAux fuel f + 23) ≤ f := by
  induction fuel generalizing f with
  | zero => omega
  | succ n ih =>
    unfold ulpExpAux
    rw [if_neg (by omega)]
    refine ⟨by omega, ?_⟩
    by_cases h2 : f / 2 < 2 ^ 24
    · rw [ulpExpAux_of_lt n _ h2]
      exact hf
    · rcases Nat.eq_zero_or_pos n with h0 | h0
      · subst h0
        exact hf
      · obtain ⟨-, i2⟩ := ih (f / 2) (by omega) h0
        calc 2 ^ (ulpExpAux n (f / 2) + 1 + 23) = 2 ^ (ulpExpAux n (f / 2) + 23) * 2 := by ring
          _ ≤ f / 2 * 2 := Nat.mul_le_mul_right 2 i2
          _ ≤ f := Nat.div_mul_le_self f 2

/-- Below the cap of the fuel the magnitude lies under the end of its binade. -/
theorem ulpExpAux_upper (fuel f : Nat) (h : ulpExpAux fuel f < fuel) :
    f < 2 ^ (ulpExpAux fuel f + 24) := by
  induction fuel generalizing f with
  | zero => omega
  | succ n ih =>
    unfold ulpExpAux at h ⊢
    by_cases h1 : f < 2 ^ 24
    · rw [if_pos h1]
      exact h1
    · rw [if_neg h1] at h ⊢
      have i2 := ih (f / 2) (by omega)
      have : f < (f / 2 + 1) * 2 := by omega
      calc f < (f / 2 + 1) * 2 := this
        _ ≤ 2 ^ (ulpExpAux n (f / 2) + 24) * 2 := Nat.mul_le_mul_right 2 i2
        _ = 2 ^ (ulpExpAux n (f / 2) + 1 + 24) := by ring

theorem nearest_ge (a b e : Nat) : a / (b * 2 ^ e) * 2 ^ e ≤ nearest a b e := by
  unfold nearest
  apply Nat.mul_le_mul_right
  dsimp only
  split_ifs <;> omega

theorem nearest_le (a b e : Nat) : nearest a b e ≤ (a / (b * 2 ^ e) + 1) * 2 ^ e := by
  unfold nearest
  apply Nat.mul_le_mul_right
  dsimp only
  split_ifs <;> omega

theorem nearest_mono (a a1 b e : Nat) (hb : 0 < b) (h : a ≤ a1) :
    nearest a b e ≤ nearest a1 b e := by
  have hs : 0 < b * 2 ^ e := Nat.mul_pos hb (Nat.two_pow_pos e)
  rcases Nat.lt_or_ge (a / (b * 2 ^ e)) (a1 / (b * 2 ^ e)) with hk | hk
  · calc nearest a b e ≤ (a / (b * 2 ^ e) + 1) * 2 ^ e := nearest_le a b e
      _ ≤ a1 / (b * 2 ^ e) * 2 ^ e := Nat.mul_le_mul_right _ hk
      _ ≤ nearest a1 b e := nearest_ge a1 b e
  · have hk2 : a / (b * 2 ^ e) = a1 / (b * 2 ^ e) :=
      le_antisymm (Nat.div_le_div_right h) hk
    have hr : a % (b * 2 ^ e) ≤ a1 % (b * 2 ^ e) := by
      have e1 := Nat.div_add_mod a (b * 2 ^ e)
      have e2 := Nat.div_add_mod a1 (b * 2 ^ e)
      rw [hk2] at e1
      omega
    unfold nearest
    apply Nat.mul_le_mul_right
    dsimp only
    rw [hk2]
    split_ifs <;> omega

/-- Rounding of magnitudes is monotone; overflow counts as the largest result. -/
theorem roundMag_mono (a a1 b : Nat) (hb : 0 < b) (h : a ≤ a1) :
    nearest a b (ulpExp (a / b)) ≤ nearest a1 b (ulpExp (a1 / b)) := by
  have hf : a / b ≤ a1 / b := Nat.div_le_div_right h
  have he : ulpExp (a / b) ≤ ulpExp (a1 / b) := ulpExpAux_mono 254 hf
  rcases Nat.eq_or_lt_of_le he with heq | hlt
  · rw [heq]
    exact nearest_mono a a1 b _ hb h
  · set e := ulpExp (a / b) with he0
    set e1 := ulpExp (a1 / b) with he1
    have hcap : e1 ≤ 254 := ulpExpAux_le 254 _
    have hup : a / b < 2 ^ (e + 24) := ulpExpAux_upper 254 (a / b) (by
      show ulpExp (a / b) < 254
      omega)
    have hbig : 2 ^ 24 ≤ a1 / b := by
      by_contra hc
      have : e1 = 0 := ulpExpAux_of_lt 254 _ (by omega)
      omega
    obtain ⟨-, hlow⟩ := ulpExpAux_lower 254 (a1 / b) hbig (by norm_num)
    have hk : a / (b * 2 ^ e) + 1 ≤ 2 ^ 24 := by
      rw [← Nat.div_div_eq_div_mul]
      have : a / b / 2 ^ e < 2 ^ 24 := by
        rw [Nat.div_lt_iff_lt_mul (Nat.two_pow_pos e)]
        calc a / b < 2 ^ (e + 24) := hup
          _ = 2 ^ 24 * 2 ^ e := by ring
      omega
    have hk1 : 2 ^ 23 ≤ a1 / (b * 2 ^ e1) := by
      rw [← Nat.div_div_eq_div_mul, Nat.le_div_iff_mul_le (Nat.two_pow_pos e1)]
      calc 2 ^ 23 * 2 ^ e1 = 2 ^ (e1 + 23) := by ring
        _ ≤ a1 / b := hlow
    calc nearest a b e ≤ (a / (b * 2 ^ e) + 1) * 2 ^ e := nearest_le a b e
      _ ≤ 2 ^ 24 * 2 ^ e := Nat.mul_le_mul_right _ hk
      _ = 2 ^ 23 * 2 ^ (e + 1) := by ring
      _ ≤ 2 ^ 23 * 2 ^ e1 := Nat.mul_le_mul_left _ (Nat.pow_le_pow_right (by norm_num) hlt)
      _ ≤ a1 / (b * 2 ^ e1) * 2 ^ e1 := Nat.mul_le_mul_right _ hk1
      _ ≤ nearest a1 b e1 := nearest_ge a1 b e1

end Binary32

namespace Binary32

theorem nearest_zero (b e : Nat) (hb : 0 < b) : nearest 0 b e = 0 := by
  have hs : 0 < b * 2 ^ e := Nat.mul_pos hb (Nat.two_pow_pos e)
  unfold nearest
  simp only [Nat.zero_div, Nat.zero_mod, Nat.mul_zero]
  rw [if_pos hs]
  exact Nat.zero_mul _

theorem round_zero (s : Bool) (b : Nat) (hb : 0 < b) : round s 0 b = finite s 0 := by
  unfold round roundMag
  simp only [Nat.zero_div, nearest_zero _ _ hb]
  rw [if_pos (by positivity)]

theorem units_true (m : Nat) : units true m = -(m : Int) := rfl

theorem units_false (m : Nat) : units false m = (m : Int) := rfl

theorem le_chain {x y z : Binary32} (h1 : le x y = true) (h2 : le y z = true) :
    le x z = true := by
  cases x <;> cases y <;> cases z <;> simp_all [le]
  · exact Int.le_trans h1 h2
  · rename_i a b c
    cases a <;> cases b <;> cases c <;> simp_all

theorem lt_of_le_lt {x y z : Binary32} (h1 : le x y = true) (h2 : lt y z = true) :
    lt x z = true := by
  cases x <;> cases y <;> cases z <;> simp_all [le, lt]
  exact Int.lt_of_le_of_lt h1 h2

theorem le_of_lt_true {x y : Binary32} (h : lt x y = true) : le x y = true := by
  cases x <;> cases y <;> simp_all [le, lt]
  exact Int.le_of_lt h

/-- Rounding is monotone in the signed value. -/
theorem round_mono (s s1 : Bool) (a a1 b : Nat) (hb : 0 < b)
    (h : units s a ≤ units s1 a1) : le (round s a b) (round s1 a1 b) = true := by
  have key : ∀ x y : Nat, x ≤ y →
      nearest x b (ulpExp (x / b)) ≤ nearest y b (ulpExp (y / b)) :=
    fun x y hxy => roundMag_mono x y b hb hxy
  cases s <;> cases s1
  · rw [units_false, units_false] at h
    have hm := key a a1 (by omega)
    unfold round roundMag
    dsimp only
    split_ifs <;> simp only [le, decide_eq_true_eq, units_false] <;> simp <;> omega
  · rw [units_false, units_true] at h
    have ha : a = 0 := by omega
    have ha1 : a1 = 0 := by omega
    subst ha ha1
    rw [round_zero _ _ hb, round_zero _ _ hb]
    simp [le, units]
  · unfold round roundMag
    dsimp only
    split_ifs <;> simp only [le, decide_eq_true_eq, units_false, units_true]
    all_goals first | omega | simp
  · rw [units_true, units_true] at h
    have hm := key a1 a (by omega)
    unfold round roundMag
    dsimp only
    split_ifs <;> simp only [le, decide_eq_true_eq, units_true] <;> simp <;> omega

theorem units_mul (s t : Bool) (m n : Nat) :
    units (xor s t) (m * n) = units s m * units t n := by
  cases s <;> cases t <;> simp [units]

theorem mul_finite (s t : Bool) (m n : Nat) :
    mul (finite s m) (finite t n) = round (xor s t) (m * n) (2 ^ 149) := rfl

/-- The sum of two finite values is the rounding of their exact sum. -/
theorem add_finite (s t : Bool) (m n : Nat) :
    ∃ sg, add (finite s m) (finite t n) = round sg (units s m + units t n).natAbs 1 ∧
      units sg (units s m + units t n).natAbs = units s m + units t n := by
  unfold add
  dsimp only
  by_cases hz : units s m + units t n = 0
  · rw [if_pos hz, hz]
    refine ⟨s && t, ?_, ?_⟩
    · rw [Int.natAbs_zero, round_zero _ _ Nat.one_pos]
    · simp [units]
  · rw [if_neg hz]
    refine ⟨decide (units s m + units t n < 0), rfl, ?_⟩
    by_cases hneg : units s m + units t n < 0
    · simp only [hneg, decide_True, units_true]
      omega
    · simp only [hneg, decide_False, units_false]
      omega

/-- Addition of finite values is monotone in both operands. -/
theorem add_mono_finite (s t s1 t1 : Bool) (m n m1 n1 : Nat)
    (h1 : units s m ≤ units s1 m1) (h2 : units t n ≤ units t1 n1) :
    le (add (finite s m) (finite t n)) (add (finite s1 m1) (finite t1 n1)) = true := by
  obtain ⟨sg, e1, u1⟩ := add_finite s t m n
  obtain ⟨sg1, e2, u2⟩ := add_finite s1 t1 m1 n1
  rw [e1, e2]
  exact round_mono _ _ _ _ 1 Nat.one_pos (by rw [u1, u2]; omega)

/-- Multiplication by a finite factor of non-negative sign is monotone. -/
theorem mul_mono_finite_nonneg (s t t1 : Bool) (m n n1 : Nat) (hs : 0 ≤ units s m)
    (h : units t n ≤ units t1 n1) :
    le (mul (finite s m) (finite t n)) (mul (finite s m) (finite t1 n1)) = true := by
  rw [mul_finite, mul_finite]
  apply round_mono _ _ _ _ _ (by positivity)
  rw [units_mul, units_mul]
  exact Int.mul_le_mul_of_nonneg_left h hs

/-- Multiplication by a finite factor of non-positive sign is antitone. -/
theorem mul_mono_finite_nonpos (s t t1 : Bool) (m n n1 : Nat) (hs : units s m ≤ 0)
    (h : units t n ≤ units t1 n1) :
    le (mul (finite s m) (finite t1 n1)) (mul (finite s m) (finite t n)) = true := by
  rw [mul_finite, mul_finite]
  apply round_mono _ _ _ _ _ (by positivity)
  rw [units_mul, units_mul]
  exact Int.mul_le_mul_of_nonpos_left hs h

end Binary32

/-! ## Frustum test in binary32: proofs -/

namespace Binary32

theorem round_cases (s : Bool) (a b : Nat) :
    (∃ m, round s a b = finite s m) ∨ round s a b = inf s := by
  unfold round
  cases roundMag a b with
  | none => exact Or.inr rfl
  | some m => exact Or.inl ⟨m, rfl⟩

theorem add_finite_cases (s t : Bool) (m n : Nat) :
    (∃ sg k, add (finite s m) (finite t n) = finite sg k) ∨
      ∃ sg, add (finite s m) (finite t n) = inf sg := by
  obtain ⟨sg, e, -⟩ := add_finite s t m n
  rw [e]
  rcases round_cases sg (units s m + units t n).natAbs 1 with ⟨k, h⟩ | h
  · exact Or.inl ⟨sg, k, h⟩
  · exact Or.inr ⟨sg, h⟩

theorem mul_finite_cases (s t : Bool) (m n : Nat) :
    (∃ k, mul (finite s m) (finite t n) = finite (xor s t) k) ∨
      mul (finite s m) (finite t n) = inf (xor s t) :=
  round_cases _ _ _

theorem le_neginf (x : Binary32) (hx : x ≠ nan) : le (inf true) x = true := by
  cases x with
  | finite s m => rfl
  | inf s => rfl
  | nan => exact absurd rfl hx

theorem eq_of_le_neginf {a : Binary32} (h : le a (inf true) = true) : a = inf true := by
  cases a with
  | finite s m => simp [le] at h
  | inf s => simpa [le] using h
  | nan => simp [le] at h

theorem cases_of_le_finite {a : Binary32} {s : Bool} {m : Nat}
    (h : le a (finite s m) = true) :
    a = inf true ∨ ∃ s0 m0, a = finite s0 m0 ∧ units s0 m0 ≤ units s m := by
  cases a with
  | finite s0 m0 => exact Or.inr ⟨s0, m0, rfl, by simpa [le] using h⟩
  | inf s0 =>
    left
    simpa [le] using h
  | nan => simp [le] at h

theorem cases_of_finite_le {a : Binary32} {s : Bool} {m : Nat}
    (h : le (finite s m) a = true) :
    a = inf false ∨ ∃ s0 m0, a = finite s0 m0 ∧ units s m ≤ units s0 m0 := by
  cases a with
  | finite s0 m0 => exact Or.inr ⟨s0, m0, rfl, by simpa [le] using h⟩
  | inf s0 =>
    left
    simpa [le] using h
  | nan => simp [le] at h

theorem add_nan_left (x : Binary32) : add nan x = nan := by
  cases x <;> rfl

theorem add_nan_right (x : Binary32) : add x nan = nan := by
  cases x <;> rfl

theorem add_posinf_left (x : Binary32) :
    add (inf false) x = nan ∨ add (inf false) x = inf false := by
  cases x with
  | finite s m => exact Or.inr rfl
  | inf s => cases s <;> simp [add]
  | nan => exact Or.inl rfl

theorem add_posinf_right (x : Binary32) :
    add x (inf false) = nan ∨ add x (inf false) = inf false := by
  cases x with
  | finite s m => exact Or.inr rfl
  | inf s => cases s <;> simp [add]
  | nan => exact Or.inl rfl

theorem below_add {a a1 b b1 : Binary32} (ha : Below a a1) (hb : Below b b1) :
    Below (add a b) (add a1 b1) := by
  unfold Below at *
  rcases ha with ha | ha | ha
  · left
    rw [ha, add_nan_left]
  · rw [ha]
    rcases add_posinf_left b1 with h | h
    · exact Or.inl h
    · exact Or.inr (Or.inl h)
  rcases hb with hb | hb | hb
  · left
    rw [hb, add_nan_right]
  · rw [hb]
    rcases add_posinf_right a1 with h | h
    · exact Or.inl h
    · exact Or.inr (Or.inl h)
  cases a1 with
  | nan => left; rw [add_nan_left]
  | inf s1 =>
    cases s1 with
    | false =>
      rcases add_posinf_left b1 with h | h
      · exact Or.inl h
      · exact Or.inr (Or.inl h)
    | true =>
      have hae := eq_of_le_neginf ha
      subst hae
      cases b1 with
      | nan => left; rfl
      | inf t1 =>
        cases t1 with
        | false => left; rfl
        | true =>
          have hbe := eq_of_le_neginf hb
          subst hbe
          right; right; rfl
      | finite t1 n1 =>
        right; right
        rcases cases_of_le_finite hb with hbe | ⟨t, n, hbe, -⟩
        · subst hbe; rfl
        · subst hbe; rfl
  | finite s1 m1 =>
    cases b1 with
    | nan => left; rw [add_nan_right]
    | inf t1 =>
      cases t1 with
      | false => right; left; rfl
      | true =>
        have hbe := eq_of_le_neginf hb
        subst hbe
        right; right
        rcases cases_of_le_finite ha with hae | ⟨s, m, hae, -⟩
        · subst hae; rfl
        · subst hae; rfl
    | finite t1 n1 =>
      have hne : add (finite s1 m1) (finite t1 n1) ≠ nan := by
        rcases add_finite_cases s1 t1 m1 n1 with ⟨sg, k, h⟩ | ⟨sg, h⟩ <;> rw [h] <;> simp
      right; right
      rcases cases_of_le_finite ha with hae | ⟨s, m, hae, hsm⟩
      · subst hae
        rcases cases_of_le_finite hb with hbe | ⟨t, n, hbe, -⟩
        · subst hbe
          exact le_neginf _ hne
        · subst hbe
          exact le_neginf _ hne
      · subst hae
        rcases cases_of_le_finite hb with hbe | ⟨t, n, hbe, htn⟩
        · subst hbe
          exact le_neginf _ hne
        · subst hbe
          exact add_mono_finite s t s1 t1 m n m1 n1 hsm htn

theorem below_refl (x : Binary32) : Below x x := by
  unfold Below
  cases x with
  | finite s m => right; right; simp [le]
  | inf s => cases s <;> simp [le]
  | nan => left; rfl

theorem mul_nan_left (x : Binary32) : mul nan x = nan := by
  cases x <;> rfl

theorem exists_of_isFinite {x : Binary32} (h : IsFinite x) : ∃ s m, x = finite s m := by
  cases x with
  | finite s m => exact ⟨s, m, rfl⟩
  | inf s => exact absurd h (by simp [IsFinite])
  | nan => exact absurd h (by simp [IsFinite])

/-- A value between two finite values is finite. -/
theorem finite_of_between {lo hi q : Binary32} (hlo : IsFinite lo) (hhi : IsFinite hi)
    (h1 : le lo q = true) (h2 : le q hi = true) :
    ∃ sl ml sh mh t k, lo = finite sl ml ∧ hi = finite sh mh ∧ q = finite t k ∧
      units sl ml ≤ units t k ∧ units t k ≤ units sh mh := by
  obtain ⟨sl, ml, rfl⟩ := exists_of_isFinite hlo
  obtain ⟨sh, mh, rfl⟩ := exists_of_isFinite hhi
  rcases cases_of_le_finite h2 with hq | ⟨t, k, hq, hk⟩
  · subst hq
    simp [le] at h1
  · subst hq
    exact ⟨sl, ml, sh, mh, t, k, rfl, rfl, rfl, by simpa [le] using h1, hk⟩

/-- The product of a plane coefficient with a coordinate of a point of the box stays below
the product with the coordinate the test selects. -/
theorem below_mul_select (n q lo hi : Binary32) (hlo : IsFinite lo) (hhi : IsFinite hi)
    (h1 : le lo q = true) (h2 : le q hi = true) :
    Below (mul n q) (mul n (if le zero n = true then hi else lo)) := by
  obtain ⟨sl, ml, sh, mh, t, k, rfl, rfl, rfl, hlk, hkh⟩ := finite_of_between hlo hhi h1 h2
  unfold Below
  cases n with
  | nan =>
    left
    rw [mul_nan_left]
  | finite s m =>
    right; right
    by_cases hs : 0 ≤ units s m
    · have hz : le zero (finite s m) = true := by
        simp only [le, zero, units_false, decide_eq_true_eq]
        exact_mod_cast hs
      rw [if_pos hz]
      exact mul_mono_finite_nonneg s t sh m k mh hs hkh
    · have hz : ¬ (le zero (finite s m) = true) := by
        simp only [le, zero, units_false, decide_eq_true_eq]
        intro h
        exact hs (by exact_mod_cast h)
      rw [if_neg hz]
      exact mul_mono_finite_nonpos s sl t m ml k (by omega) hlk
  | inf s =>
    cases s with
    | false =>
      rw [if_pos (by rfl)]
      by_cases hm : mh = 0
      · left
        simp [mul, hm]
      · cases sh with
        | false =>
          right; left
          simp [mul, hm]
        | true =>
          right; right
          rw [units_true] at hkh
          have hk : k ≠ 0 := by
            intro h0
            subst h0
            cases t <;> simp [units] at hkh <;> omega
          have ht : t = true := by
            cases t with
            | true => rfl
            | false =>
              rw [units_false] at hkh
              omega
          subst ht
          simp [mul, hm, hk, le]
    | true =>
      rw [if_neg (by simp [le, zero])]
      by_cases hm : ml = 0
      · left
        simp [mul, hm]
      · cases sl with
        | true =>
          right; left
          simp [mul, hm]
        | false =>
          right; right
          rw [units_false] at hlk
          have hk : k ≠ 0 := by
            intro h0
            subst h0
            cases t <;> simp [units] at hlk <;> omega
          have ht : t = false := by
            cases t with
            | false => rfl
            | true =>
              rw [units_true] at hlk
              omega
          subst ht
          simp [mul, hm, hk, le]

theorem lt_zero_of_below {v v1 : Binary32} (h : Below v v1) (h1 : lt v1 zero = true) :
    lt v zero = true := by
  rcases h with h | h | h
  · rw [h] at h1
    simp [lt] at h1
  · rw [h] at h1
    simp [lt, zero] at h1
  · exact lt_of_le_lt h h1

end Binary32

namespace Binary32

theorem le_self_of_isFinite {x : Binary32} (h : IsFinite x) : le x x = true := by
  obtain ⟨s, m, rfl⟩ := exists_of_isFinite h
  simp [le]

theorem positiveVertex_inBox_computed (pl : glm.vec4 Binary32) (bmin bmax : glm.vec3 Binary32)
    (hmin : vec3Finite bmin) (hmax : vec3Finite bmax)
    (hbox : le bmin.x bmax.x = true ∧ le bmin.y bmax.y = true ∧ le bmin.z bmax.z = true) :
    InBox bmin bmax (positiveVertex pl bmin bmax) := by
  obtain ⟨a1, a2, a3⟩ := hmin
  obtain ⟨b1, b2, b3⟩ := hmax
  obtain ⟨c1, c2, c3⟩ := hbox
  unfold InBox positiveVertex
  dsimp only
  refine ⟨?_, ?_, ?_, ?_, ?_, ?_⟩ <;> split_ifs <;>
    first
      | assumption
      | exact le_self_of_isFinite a1 | exact le_self_of_isFinite a2
      | exact le_self_of_isFinite a3 | exact le_self_of_isFinite b1
      | exact le_self_of_isFinite b2 | exact le_self_of_isFinite b3

/-- The plane value at a point of the box stays below the value at the tested corner. -/
theorem planeValue_below (pl : glm.vec4 Binary32) (bmin bmax q : glm.vec3 Binary32)
    (hmin : vec3Finite bmin) (hmax : vec3Finite bmax) (hq : InBox bmin bmax q) :
    Below (planeValue pl q) (planeValue pl (positiveVertex pl bmin bmax)) := by
  obtain ⟨a1, a2, a3⟩ := hmin
  obtain ⟨b1, b2, b3⟩ := hmax
  obtain ⟨q1, q2, q3, q4, q5, q6⟩ := hq
  unfold planeValue dot positiveVertex
  dsimp only
  exact below_add
    (below_add
      (below_add (below_mul_select pl.x q.x bmin.x bmax.x a1 b1 q1 q2)
        (below_mul_select pl.y q.y bmin.y bmax.y a2 b2 q3 q4))
      (below_mul_select pl.z q.z bmin.z bmax.z a3 b3 q5 q6))
    (below_refl pl.w)

theorem planeRejects_iff_computed (pl : glm.vec4 Binary32) (bmin bmax : glm.vec3 Binary32)
    (hmin : vec3Finite bmin) (hmax : vec3Finite bmax)
    (hbox : le bmin.x bmax.x = true ∧ le bmin.y bmax.y = true ∧ le bmin.z bmax.z = true) :
    planeRejects pl bmin bmax = true ↔
      ∀ q, InBox bmin bmax q → lt (planeValue pl q) zero = true := by
  constructor
  · intro h q hq
    exact lt_zero_of_below (planeValue_below pl bmin bmax q hmin hmax hq) h
  · intro h
    exact h _ (positiveVertex_inBox_computed pl bmin bmax hmin hmax hbox)

theorem frustumIntersectsAABB_eq_false_iff (f : FrustumPlanes Binary32)
    (bmin bmax : glm.vec3 Binary32) :
    frustumIntersectsAABB f bmin bmax = false ↔
      ∃ pl ∈ f.p, planeRejects pl bmin bmax = true := by
  unfold frustumIntersectsAABB
  rw [List.all_eq_false]
  simp only [Bool.not_eq_true, Bool.not_eq_false_eq_eq_true, Bool.not_eq_true', Bool.not_not]
  constructor
  · rintro ⟨pl, h1, h2⟩
    exact ⟨pl, h1, by simpa using h2⟩
  · rintro ⟨pl, h1, h2⟩
    exact ⟨pl, h1, by simpa using h2⟩

end Binary32

namespace Binary32

/-- C15, amended, in binary32: for every list of planes (the six of a frustum in particular) and every
box with finite corners and `bmin <= bmax` on each axis, `frustumIntersectsAABB` returns
`false` exactly when some plane has the whole box on its negative side as the code computes
it: the binary32 value of `dot(n, q) + d` is below zero at every binary32 point `q` of the
box. So a box that is, in this sense, wholly on the negative side of one plane is rejected,
and a box with a point at which no plane computes a value below zero is accepted. -/
theorem frustumIntersectsAABB_rejects_iff (f : FrustumPlanes Binary32)
    (bmin bmax : glm.vec3 Binary32) (hmin : vec3Finite bmin) (hmax : vec3Finite bmax)
    (hbox : le bmin.x bmax.x = true ∧ le bmin.y bmax.y = true ∧ le bmin.z bmax.z = true) :
    (frustumIntersectsAABB f bmin bmax = false ↔
        ∃ pl ∈ f.p, ∀ q, InBox bmin bmax q → lt (planeValue pl q) zero = true) ∧
      (∀ pl ∈ f.p, (∀ q, InBox bmin bmax q → lt (planeValue pl q) zero = true) →
        frustumIntersectsAABB f bmin bmax = false) ∧
      (∀ q, InBox bmin bmax q → (∀ pl ∈ f.p, lt (planeValue pl q) zero = false) →
        frustumIntersectsAABB f bmin bmax = true) := by
  have key : frustumIntersectsAABB f bmin bmax = false ↔
      ∃ pl ∈ f.p, ∀ q, InBox bmin bmax q → lt (planeValue pl q) zero = true := by
    rw [frustumIntersectsAABB_eq_false_iff]
    constructor
    · rintro ⟨pl, hpl, h⟩
      exact ⟨pl, hpl, (planeRejects_iff_computed pl bmin bmax hmin hmax hbox).1 h⟩
    · rintro ⟨pl, hpl, h⟩
      exact ⟨pl, hpl, (planeRejects_iff_computed pl bmin bmax hmin hmax hbox).2 h⟩
  refine ⟨key, fun pl hpl h => key.2 ⟨pl, hpl, h⟩, ?_⟩
  intro q hq hall
  by_contra hne
  have hf : frustumIntersectsAABB f bmin bmax = false := by simpa using hne
  obtain ⟨pl, hpl, h⟩ := key.1 hf
  have hlt := h q hq
  rw [hall pl hpl] at hlt
  exact absurd hlt (by decide)

set_option maxRecDepth 20000 in
/-- Witness of C15: the unit box at the origin lies wholly on the negative side of the plane
`x - 2 = 0` and is rejected; the same box is accepted by the planes that reject nothing. -/
theorem frustumIntersectsAABB_rejects_iff_witness :
    vec3Finite sampleOrigin ∧ vec3Finite sampleUnitCorner ∧
      (le sampleOrigin.x sampleUnitCorner.x = true ∧ le sampleOrigin.y sampleUnitCorner.y = true ∧
        le sampleOrigin.z sampleUnitCorner.z = true) ∧
      frustumIntersectsAABB sampleFarFrustum sampleOrigin sampleUnitCorner = false ∧
      planeValue sampleFarPlane (positiveVertex sampleFarPlane sampleOrigin sampleUnitCorner) =
        ofScaled true 1 0 ∧
      frustumIntersectsAABB { p := [sampleOpenPlane, sampleOpenPlane] } sampleOrigin
        sampleUnitCorner = true ∧
      (frustumIntersectsAABB sampleFarFrustum sampleOrigin sampleUnitCorner = false ↔
        ∃ pl ∈ sampleFarFrustum.p, ∀ q, InBox sampleOrigin sampleUnitCorner q →
          lt (planeValue pl q) zero = true) :=
  ⟨⟨trivial, trivial, trivial⟩, ⟨trivial, trivial, trivial⟩, by decide, by decide, by decide,
    by decide,
    (frustumIntersectsAABB_rejects_iff sampleFarFrustum sampleOrigin sampleUnitCorner
      ⟨trivial, trivial, trivial⟩ ⟨trivial, trivial, trivial⟩ (by decide)).1⟩

end Binary32

set_option maxRecDepth 20000 in
/-- C15, counterexample: the box from `(0, 0, 0)` to `(1, 3 * 2^-25, 0)` lies wholly on the
negative side of the plane `x + y - (1 + 2^-23) = 0` (at its corner nearest to the plane the
exact value is `-2^-25`), and in exact arithmetic the function returns `false`. In binary32
the sum `1 + 3 * 2^-25` rounds to `1 + 2^-23`, the computed value at that corner is `0.0`,
no plane rejects the box and `frustumIntersectsAABB` returns `true`. -/
theorem frustumIntersectsAABB_rounding_accepts_negative_box :
    Binary32.sampleRoundingFrustum.p.length = 6 ∧
      Binary32.vec3ToRat Binary32.sampleOrigin = { x := 0, y := 0, z := 0 } ∧
      Binary32.vec3ToRat Binary32.sampleThinCorner = { x := 1, y := 3 / 2 ^ 25, z := 0 } ∧
      Binary32.vec4ToRat Binary32.sampleRoundingPlane =
        { x := 1, y := 1, z := 0, w := -(1 + 1 / 2 ^ 23) } ∧
      (∀ q : glm.vec3 ℚ,
        InBox (Binary32.vec3ToRat Binary32.sampleOrigin)
          (Binary32.vec3ToRat Binary32.sampleThinCorner) q →
        planeValue (Binary32.vec4ToRat Binary32.sampleRoundingPlane) q < 0) ∧
      frustumIntersectsAABB
          { p := Binary32.sampleRoundingFrustum.p.map Binary32.vec4ToRat }
          (Binary32.vec3ToRat Binary32.sampleOrigin)
          (Binary32.vec3ToRat Binary32.sampleThinCorner) = false ∧
      Binary32.add Binary32.one (Binary32.ofScaled false 3 (-25)) =
        Binary32.ofScaled false (2 ^ 23 + 1) (-23) ∧
      Binary32.planeValue Binary32.sampleRoundingPlane
          (Binary32.positiveVertex Binary32.sampleRoundingPlane Binary32.sampleOrigin
            Binary32.sampleThinCorner) = Binary32.zero ∧
      Binary32.frustumIntersectsAABB Binary32.sampleRoundingFrustum Binary32.sampleOrigin
        Binary32.sampleThinCorner = true := by
  have h1 : Binary32.vec3ToRat Binary32.sampleOrigin = { x := 0, y := 0, z := 0 } := by
    norm_num [Binary32.vec3ToRat, Binary32.sampleOrigin, Binary32.toRat, Binary32.zero,
      Binary32.units]
  have h2 : Binary32.vec3ToRat Binary32.sampleThinCorner =
      { x := 1, y := 3 / 2 ^ 25, z := 0 } := by
    norm_num [Binary32.vec3ToRat, Binary32.sampleThinCorner, Binary32.toRat, Binary32.zero,
      Binary32.one, Binary32.ofScaled, Binary32.units, show Int.toNat 124 = 124 from rfl,
      show Int.toNat 126 = 126 from rfl]
  have h3 : Binary32.vec4ToRat Binary32.sampleRoundingPlane =
      { x := 1, y := 1, z := 0, w := -(1 + 1 / 2 ^ 23) } := by
    norm_num [Binary32.vec4ToRat, Binary32.sampleRoundingPlane, Binary32.toRat, Binary32.zero,
      Binary32.one, Binary32.ofScaled, Binary32.units, show Int.toNat 124 = 124 from rfl,
      show Int.toNat 126 = 126 from rfl]
  have h4 : ∀ q : glm.vec3 ℚ,
      InBox (Binary32.vec3ToRat Binary32.sampleOrigin)
        (Binary32.vec3ToRat Binary32.sampleThinCorner) q →
      planeValue (Binary32.vec4ToRat Binary32.sampleRoundingPlane) q < 0 := by
    intro q hq
    rw [h1, h2] at hq
    rw [h3]
    obtain ⟨-, q2, -, q4, -, -⟩ := hq
    unfold planeValue
    dsimp only at q2 q4 ⊢
    norm_num at q4 ⊢
    linarith
  refine ⟨rfl, h1, h2, h3, h4, ?_, by decide, by decide, by decide⟩
  rw [h1, h2]
  simp only [Binary32.sampleRoundingFrustum, List.map_cons, h3]
  norm_num [frustumIntersectsAABB, planeRejects, positiveVertex, glm.dot]

/-! ## Box transformation in binary32: proofs -/

namespace Binary32

theorem isFinite_of_between {lo x hi : Binary32} (h : Between lo x hi) : IsFinite x := by
  obtain ⟨h1, h2, h3, h4⟩ := h
  obtain ⟨_, _, _, _, t, k, -, -, rfl, -, -⟩ := finite_of_between h1 h2 h3 h4
  trivial

theorem add_isFinite_inv {x y : Binary32} (h : IsFinite (add x y)) : IsFinite x ∧ IsFinite y := by
  cases x <;> cases y <;> simp_all [add, IsFinite]
  rename_i s t
  by_cases hst : s = t
  · simp [hst, IsFinite] at h
  · simp [hst, IsFinite] at h

theorem mul_isFinite_inv {x y : Binary32} (h : IsFinite (mul x y)) : IsFinite x ∧ IsFinite y := by
  cases x <;> cases y <;> simp_all [mul, IsFinite]
  all_goals
    split_ifs at h <;> simp [IsFinite] at h

theorem add_mono_of_isFinite {a a1 b b1 : Binary32} (ha : IsFinite a) (ha1 : IsFinite a1)
    (hb : IsFinite b) (hb1 : IsFinite b1) (h1 : le a a1 = true) (h2 : le b b1 = true) :
    le (add a b) (add a1 b1) = true := by
  obtain ⟨s, m, rfl⟩ := exists_of_isFinite ha
  obtain ⟨s1, m1, rfl⟩ := exists_of_isFinite ha1
  obtain ⟨t, n, rfl⟩ := exists_of_isFinite hb
  obtain ⟨t1, n1, rfl⟩ := exists_of_isFinite hb1
  exact add_mono_finite s t s1 t1 m n m1 n1 (by simpa [le] using h1) (by simpa [le] using h2)

/-- A sum of values between finite bounds lies between the sums of the bounds, when these are
finite. -/
theorem between_add {l1 x1 h1 l2 x2 h2 : Binary32} (b1 : Between l1 x1 h1)
    (b2 : Between l2 x2 h2) (hl : IsFinite (add l1 l2)) (hh : IsFinite (add h1 h2)) :
    Between (add l1 l2) (add x1 x2) (add h1 h2) :=
  ⟨hl, hh,
    add_mono_of_isFinite b1.1 (isFinite_of_between b1) b2.1 (isFinite_of_between b2) b1.2.2.1
      b2.2.2.1,
    add_mono_of_isFinite (isFinite_of_between b1) b1.2.1 (isFinite_of_between b2) b2.2.1
      b1.2.2.2 b2.2.2.2⟩

/-- The product of a finite coefficient with a coordinate between `lo` and `hi` lies between
the products with the two ends, taken in the order the sign of the coefficient gives. -/
theorem between_mul (a lo q hi : Binary32) (ha : IsFinite a) (hlo : IsFinite lo)
    (hhi : IsFinite hi) (h1 : le lo q = true) (h2 : le q hi = true)
    (f1 : IsFinite (mul a (if le zero a = true then lo else hi)))
    (f2 : IsFinite (mul a (if le zero a = true then hi else lo))) :
    Between (mul a (if le zero a = true then lo else hi)) (mul a q)
      (mul a (if le zero a = true then hi else lo)) := by
  obtain ⟨sl, ml, sh, mh, t, k, rfl, rfl, rfl, hlk, hkh⟩ := finite_of_between hlo hhi h1 h2
  obtain ⟨s, m, rfl⟩ := exists_of_isFinite ha
  by_cases hs : 0 ≤ units s m
  · have hz : le zero (finite s m) = true := by
      simp only [le, zero, units_false, decide_eq_true_eq]
      exact_mod_cast hs
    rw [if_pos hz] at f1 f2 ⊢
    rw [if_pos hz]
    exact ⟨f1, f2, mul_mono_finite_nonneg s sl t m ml k hs hlk,
      mul_mono_finite_nonneg s t sh m k mh hs hkh⟩
  · have hz : ¬ (le zero (finite s m) = true) := by
      simp only [le, zero, units_false, decide_eq_true_eq]
      intro h
      exact hs (by exact_mod_cast h)
    rw [if_neg hz] at f1 f2 ⊢
    rw [if_neg hz]
    exact ⟨f1, f2, mul_mono_finite_nonpos s t sh m k mh (by omega) hkh,
      mul_mono_finite_nonpos s sl t m ml k (by omega) hlk⟩

theorem between_self {x : Binary32} (h : IsFinite x) : Between x x x :=
  ⟨h, h, le_self_of_isFinite h, le_self_of_isFinite h⟩

theorem rowPoint_isFinite_inv {a b c d : Binary32} {q : glm.vec3 Binary32}
    (h : IsFinite (rowPoint a b c d q)) :
    IsFinite (add (mul a q.x) (mul b q.y)) ∧ IsFinite (add (mul c q.z) (mul d one)) ∧
      IsFinite (mul a q.x) ∧ IsFinite (mul b q.y) ∧ IsFinite (mul c q.z) ∧
      IsFinite (mul d one) ∧ IsFinite a ∧ IsFinite b ∧ IsFinite c ∧ IsFinite d := by
  unfold rowPoint at h
  obtain ⟨h1, h2⟩ := add_isFinite_inv h
  obtain ⟨h3, h4⟩ := add_isFinite_inv h1
  obtain ⟨h5, h6⟩ := add_isFinite_inv h2
  exact ⟨h1, h2, h3, h4, h5, h6, (mul_isFinite_inv h3).1, (mul_isFinite_inv h4).1,
    (mul_isFinite_inv h5).1, (mul_isFinite_inv h6).1⟩

theorem corner_mem (inMin inMax : glm.vec3 Binary32) (bx by1 bz : Prop) [Decidable bx]
    [Decidable by1] [Decidable bz] :
    ({ x := if bx then inMax.x else inMin.x, y := if by1 then inMax.y else inMin.y,
       z := if bz then inMax.z else inMin.z } : glm.vec3 Binary32) ∈
      aabbCorners inMin inMax := by
  unfold aabbCorners
  split_ifs <;> simp

theorem corner_mem_low (inMin inMax : glm.vec3 Binary32) (bx by1 bz : Prop) [Decidable bx]
    [Decidable by1] [Decidable bz] :
    ({ x := if bx then inMin.x else inMax.x, y := if by1 then inMin.y else inMax.y,
       z := if bz then inMin.z else inMax.z } : glm.vec3 Binary32) ∈
      aabbCorners inMin inMax := by
  unfold aabbCorners
  split_ifs <;> simp

/-- A component of the image of a point of the box lies between the same component of the
images of two corners, when this component is finite at every corner. -/
theorem rowPoint_between (a b c d : Binary32) (inMin inMax q : glm.vec3 Binary32)
    (hmin : vec3Finite inMin) (hmax : vec3Finite inMax) (hq : InBox inMin inMax q)
    (hfin : ∀ k ∈ aabbCorners inMin inMax, IsFinite (rowPoint a b c d k)) :
    ∃ cl ∈ aabbCorners inMin inMax, ∃ ch ∈ aabbCorners inMin inMax,
      Between (rowPoint a b c d cl) (rowPoint a b c d q) (rowPoint a b c d ch) := by
  obtain ⟨a1, a2, a3⟩ := hmin
  obtain ⟨b1, b2, b3⟩ := hmax
  obtain ⟨q1, q2, q3, q4, q5, q6⟩ := hq
  have hlo := corner_mem_low inMin inMax (le zero a = true) (le zero b = true)
    (le zero c = true)
  have hhi := corner_mem inMin inMax (le zero a = true) (le zero b = true) (le zero c = true)
  obtain ⟨l1, l2, l3, l4, l5, l6, fa, fb, fc, -⟩ := rowPoint_isFinite_inv (hfin _ hlo)
  obtain ⟨u1, u2, u3, u4, u5, u6, -⟩ := rowPoint_isFinite_inv (hfin _ hhi)
  refine ⟨_, hlo, _, hhi, ?_⟩
  unfold rowPoint
  exact between_add
    (between_add (between_mul a inMin.x q.x inMax.x fa a1 b1 q1 q2 l3 u3)
      (between_mul b inMin.y q.y inMax.y fb a2 b2 q3 q4 l4 u4) l1 u1)
    (between_add (between_mul c inMin.z q.z inMax.z fc a3 b3 q5 q6 l5 u5)
      (between_self l6) l2 u2)
    (hfin _ hlo) (hfin _ hhi)

theorem le_of_not_lt {x y : Binary32} (hx : IsFinite x) (hy : IsFinite y)
    (h : ¬ (lt y x = true)) : le x y = true := by
  obtain ⟨s, m, rfl⟩ := exists_of_isFinite hx
  obtain ⟨t, n, rfl⟩ := exists_of_isFinite hy
  simp only [lt, le, decide_eq_true_eq] at h ⊢
  omega

theorem min_spec {x y : Binary32} (hx : IsFinite x) (hy : IsFinite y) :
    IsFinite (min x y) ∧ le (min x y) x = true ∧ le (min x y) y = true ∧
      (min x y = x ∨ min x y = y) := by
  unfold min
  by_cases h : lt y x = true
  · rw [if_pos h]
    exact ⟨hy, le_of_lt_true h, le_self_of_isFinite hy, Or.inr rfl⟩
  · rw [if_neg h]
    exact ⟨hx, le_self_of_isFinite hx, le_of_not_lt hx hy h, Or.inl rfl⟩

theorem max_spec {x y : Binary32} (hx : IsFinite x) (hy : IsFinite y) :
    IsFinite (max x y) ∧ le x (max x y) = true ∧ le y (max x y) = true ∧
      (max x y = x ∨ max x y = y) := by
  unfold max
  by_cases h : lt x y = true
  · rw [if_pos h]
    exact ⟨hy, le_of_lt_true h, le_self_of_isFinite hy, Or.inr rfl⟩
  · rw [if_neg h]
    exact ⟨hx, le_self_of_isFinite hx, le_of_not_lt hy hx h, Or.inl rfl⟩

theorem foldl_min_finite {α : Type} (φ : α → Binary32) (l : List α) (a : Binary32)
    (ha : IsFinite a) (hl : ∀ c ∈ l, IsFinite (φ c)) :
    IsFinite (l.foldl (fun r c => min r (φ c)) a) ∧
      le (l.foldl (fun r c => min r (φ c)) a) a = true ∧
      (∀ c ∈ l, le (l.foldl (fun r c => min r (φ c)) a) (φ c) = true) ∧
      (l.foldl (fun r c => min r (φ c)) a = a ∨
        ∃ c ∈ l, l.foldl (fun r c => min r (φ c)) a = φ c) := by
  induction l generalizing a with
  | nil =>
    exact ⟨ha, le_self_of_isFinite ha, fun c hc => absurd hc (List.not_mem_nil c), Or.inl rfl⟩
  | cons b l ih =>
    obtain ⟨m1, m2, m3, m4⟩ := min_spec ha (hl b (List.mem_cons_self _ _))
    obtain ⟨h0, h1, h2, h3⟩ := ih (min a (φ b)) m1
      (fun c hc => hl c (List.mem_cons_of_mem _ hc))
    rw [List.foldl_cons]
    refine ⟨h0, le_chain h1 m2, ?_, ?_⟩
    · intro c hc
      rcases List.mem_cons.mp hc with hc | hc
      · subst hc
        exact le_chain h1 m3
      · exact h2 c hc
    · rcases h3 with h3 | ⟨c, hc, h3⟩
      · rcases m4 with hm | hm
        · left
          rw [h3, hm]
        · right
          exact ⟨b, List.mem_cons_self _ _, by rw [h3, hm]⟩
      · right
        exact ⟨c, List.mem_cons_of_mem _ hc, h3⟩

theorem foldl_max_finite {α : Type} (φ : α → Binary32) (l : List α) (a : Binary32)
    (ha : IsFinite a) (hl : ∀ c ∈ l, IsFinite (φ c)) :
    IsFinite (l.foldl (fun r c => max r (φ c)) a) ∧
      le a (l.foldl (fun r c => max r (φ c)) a) = true ∧
      (∀ c ∈ l, le (φ c) (l.foldl (fun r c => max r (φ c)) a) = true) ∧
      (l.foldl (fun r c => max r (φ c)) a = a ∨
        ∃ c ∈ l, l.foldl (fun r c => max r (φ c)) a = φ c) := by
  induction l generalizing a with
  | nil =>
    exact ⟨ha, le_self_of_isFinite ha, fun c hc => absurd hc (List.not_mem_nil c), Or.inl rfl⟩
  | cons b l ih =>
    obtain ⟨m1, m2, m3, m4⟩ := max_spec ha (hl b (List.mem_cons_self _ _))
    obtain ⟨h0, h1, h2, h3⟩ := ih (max a (φ b)) m1
      (fun c hc => hl c (List.mem_cons_of_mem _ hc))
    rw [List.foldl_cons]
    refine ⟨h0, le_chain m2 h1, ?_, ?_⟩
    · intro c hc
      rcases List.mem_cons.mp hc with hc | hc
      · subst hc
        exact le_chain m3 h1
      · exact h2 c hc
    · rcases h3 with h3 | ⟨c, hc, h3⟩
      · rcases m4 with hm | hm
        · left
          rw [h3, hm]
        · right
          exact ⟨b, List.mem_cons_self _ _, by rw [h3, hm]⟩
      · right
        exact ⟨c, List.mem_cons_of_mem _ hc, h3⟩

end Binary32

namespace Binary32

/-- The fold of `transformAABB`, component by component. -/
theorem foldl_vec3MinMax_components (f : glm.vec3 Binary32 → glm.vec3 Binary32)
    (l : List (glm.vec3 Binary32)) (lo hi : glm.vec3 Binary32) :
    (l.foldl (fun out c => (vec3Min out.1 (f c), vec3Max out.2 (f c))) (lo, hi)) =
      ({ x := l.foldl (fun r c => min r (f c).x) lo.x
         y := l.foldl (fun r c => min r (f c).y) lo.y
         z := l.foldl (fun r c => min r (f c).z) lo.z },
       { x := l.foldl (fun r c => max r (f c).x) hi.x
         y := l.foldl (fun r c => max r (f c).y) hi.y
         z := l.foldl (fun r c => max r (f c).z) hi.z }) := by
  induction l generalizing lo hi with
  | nil => rfl
  | cons b l ih =>
    rw [List.foldl_cons, ih]
    rfl

/-- The box `transformAABB` returns is, per component, the minimum and the maximum over the
eight computed corners, when these are finite. -/
theorem transformAABB_componentwise (m : glm.mat4 Binary32) (inMin inMax : glm.vec3 Binary32)
    (φ : glm.vec3 Binary32 → Binary32)
    (hφ : φ = (fun v => v.x) ∨ φ = (fun v => v.y) ∨ φ = (fun v => v.z))
    (hfin : ∀ c ∈ aabbCorners inMin inMax, IsFinite (φ (mulPoint m c))) :
    ((∀ c ∈ aabbCorners inMin inMax,
        le (φ (transformAABB m inMin inMax).1) (φ (mulPoint m c)) = true) ∧
      ∃ c ∈ aabbCorners inMin inMax,
        φ (transformAABB m inMin inMax).1 = φ (mulPoint m c)) ∧
    ((∀ c ∈ aabbCorners inMin inMax,
        le (φ (mulPoint m c)) (φ (transformAABB m inMin inMax).2) = true) ∧
      ∃ c ∈ aabbCorners inMin inMax,
        φ (transformAABB m inMin inMax).2 = φ (mulPoint m c)) := by
  have key : ∀ (ψ : glm.vec3 Binary32 → Binary32) (a : Binary32) (c0 : glm.vec3 Binary32)
      (t : List (glm.vec3 Binary32)),
      a = ψ (mulPoint m c0) → (∀ c ∈ c0 :: t, IsFinite (ψ (mulPoint m c))) →
      ((∀ c ∈ c0 :: t, le (t.foldl (fun r c => min r (ψ (mulPoint m c))) a)
          (ψ (mulPoint m c)) = true) ∧
        ∃ c ∈ c0 :: t, t.foldl (fun r c => min r (ψ (mulPoint m c))) a =
          ψ (mulPoint m c)) ∧
      ((∀ c ∈ c0 :: t, le (ψ (mulPoint m c))
          (t.foldl (fun r c => max r (ψ (mulPoint m c))) a) = true) ∧
        ∃ c ∈ c0 :: t, t.foldl (fun r c => max r (ψ (mulPoint m c))) a =
          ψ (mulPoint m c)) := by
    intro ψ a c0 t ha hf
    have hfa : IsFinite a := by
      rw [ha]
      exact hf c0 (List.mem_cons_self _ _)
    have hft : ∀ c ∈ t, IsFinite (ψ (mulPoint m c)) :=
      fun c hc => hf c (List.mem_cons_of_mem _ hc)
    obtain ⟨-, h1, h2, h3⟩ := foldl_min_finite (fun c => ψ (mulPoint m c)) t a hfa hft
    obtain ⟨-, k1, k2, k3⟩ := foldl_max_finite (fun c => ψ (mulPoint m c)) t a hfa hft
    refine ⟨⟨?_, ?_⟩, ⟨?_, ?_⟩⟩
    · intro c hc
      rcases List.mem_cons.mp hc with hc | hc
      · subst hc
        rw [← ha]
        exact h1
      · exact h2 c hc
    · rcases h3 with h3 | ⟨c, hc, h3⟩
      · exact ⟨c0, List.mem_cons_self _ _, by rw [← ha]; exact h3⟩
      · exact ⟨c, List.mem_cons_of_mem _ hc, h3⟩
    · intro c hc
      rcases List.mem_cons.mp hc with hc | hc
      · subst hc
        rw [← ha]
        exact k1
      · exact k2 c hc
    · rcases k3 with k3 | ⟨c, hc, k3⟩
      · exact ⟨c0, List.mem_cons_self _ _, by rw [← ha]; exact k3⟩
      · exact ⟨c, List.mem_cons_of_mem _ hc, k3⟩
  have ht : transformAABB m inMin inMax =
      ((aabbCorners inMin inMax).tail).foldl
        (fun out c => (vec3Min out.1 (mulPoint m c), vec3Max out.2 (mulPoint m c)))
        (mulPoint m { x := inMin.x, y := inMin.y, z := inMin.z },
          mulPoint m { x := inMin.x, y := inMin.y, z := inMin.z }) := rfl
  have hcs : aabbCorners inMin inMax =
      { x := inMin.x, y := inMin.y, z := inMin.z } :: (aabbCorners inMin inMax).tail := rfl
  rw [ht, foldl_vec3MinMax_components]
  rw [hcs] at hfin ⊢
  rcases hφ with h | h | h <;> subst h
  · exact key (fun v => v.x) _ _ _ rfl hfin
  · exact key (fun v => v.y) _ _ _ rfl hfin
  · exact key (fun v => v.z) _ _ _ rfl hfin

/-- C26, amended, in binary32. For every matrix and every local box with finite corners whose eight
transformed corners are finite as the code computes them, the box `transformAABB` returns is
the componentwise minimum and maximum of the eight computed corners: every computed corner
lies in it, and on each of the three axes the lower and the upper face are each touched by a
computed corner; so `outMin <= outMax`; and the image of every binary32 point `q` of the
local box, computed as the code computes the corners, lies in the returned box. -/
theorem transformAABB_encloses_computed (m : glm.mat4 Binary32)
    (inMin inMax q : glm.vec3 Binary32) (hmin : vec3Finite inMin) (hmax : vec3Finite inMax)
    (hq : InBox inMin inMax q)
    (hfin : ∀ c ∈ aabbCorners inMin inMax, vec3Finite (mulPoint m c)) :
    (∀ c ∈ aabbCorners inMin inMax,
      InBox (transformAABB m inMin inMax).1 (transformAABB m inMin inMax).2 (mulPoint m c)) ∧
    ((∃ c ∈ aabbCorners inMin inMax,
        (transformAABB m inMin inMax).1.x = (mulPoint m c).x) ∧
      (∃ c ∈ aabbCorners inMin inMax,
        (transformAABB m inMin inMax).1.y = (mulPoint m c).y) ∧
      (∃ c ∈ aabbCorners inMin inMax,
        (transformAABB m inMin inMax).1.z = (mulPoint m c).z) ∧
      (∃ c ∈ aabbCorners inMin inMax,
        (transformAABB m inMin inMax).2.x = (mulPoint m c).x) ∧
      (∃ c ∈ aabbCorners inMin inMax,
        (transformAABB m inMin inMax).2.y = (mulPoint m c).y) ∧
      (∃ c ∈ aabbCorners inMin inMax,
        (transformAABB m inMin inMax).2.z = (mulPoint m c).z)) ∧
    (le (transformAABB m inMin inMax).1.x (transformAABB m inMin inMax).2.x = true ∧
      le (transformAABB m inMin inMax).1.y (transformAABB m inMin inMax).2.y = true ∧
      le (transformAABB m inMin inMax).1.z (transformAABB m inMin inMax).2.z = true) ∧
    InBox (transformAABB m inMin inMax).1 (transformAABB m inMin inMax).2 (mulPoint m q) := by
  obtain ⟨⟨x1, x2⟩, ⟨x3, x4⟩⟩ := transformAABB_componentwise m inMin inMax (fun v => v.x)
    (Or.inl rfl) (fun c hc => (hfin c hc).1)
  obtain ⟨⟨y1, y2⟩, ⟨y3, y4⟩⟩ := transformAABB_componentwise m inMin inMax (fun v => v.y)
    (Or.inr (Or.inl rfl)) (fun c hc => (hfin c hc).2.1)
  obtain ⟨⟨z1, z2⟩, ⟨z3, z4⟩⟩ := transformAABB_componentwise m inMin inMax (fun v => v.z)
    (Or.inr (Or.inr rfl)) (fun c hc => (hfin c hc).2.2)
  have hc0 : ({ x := inMin.x, y := inMin.y, z := inMin.z } : glm.vec3 Binary32) ∈
      aabbCorners inMin inMax := by simp [aabbCorners]
  refine ⟨fun c hc => ⟨x1 c hc, x3 c hc, y1 c hc, y3 c hc, z1 c hc, z3 c hc⟩,
    ⟨x2, y2, z2, x4, y4, z4⟩,
    ⟨le_chain (x1 _ hc0) (x3 _ hc0), le_chain (y1 _ hc0) (y3 _ hc0),
      le_chain (z1 _ hc0) (z3 _ hc0)⟩, ?_⟩
  obtain ⟨kx, hkx, jx, hjx, -, -, lx, ux⟩ := rowPoint_between m.c0.x m.c1.x m.c2.x m.c3.x
    inMin inMax q hmin hmax hq (fun c hc => (hfin c hc).1)
  obtain ⟨ky, hky, jy, hjy, -, -, ly, uy⟩ := rowPoint_between m.c0.y m.c1.y m.c2.y m.c3.y
    inMin inMax q hmin hmax hq (fun c hc => (hfin c hc).2.1)
  obtain ⟨kz, hkz, jz, hjz, -, -, lz, uz⟩ := rowPoint_between m.c0.z m.c1.z m.c2.z m.c3.z
    inMin inMax q hmin hmax hq (fun c hc => (hfin c hc).2.2)
  exact ⟨le_chain (x1 kx hkx) lx, le_chain ux (x3 jx hjx), le_chain (y1 ky hky) ly,
    le_chain uy (y3 jy hjy), le_chain (z1 kz hkz) lz, le_chain uz (z3 jz hjz)⟩

end Binary32

namespace Binary32

set_option maxRecDepth 20000 in
/-- Witness of C26: the cube of edge 1 about the origin under a transform with non-uniform
scale and shear: the returned box is `[7/2, 13/2] x [-3/2, 3/2] x [-1/2, 1/2]` and holds the
computed image of the centre. -/
theorem transformAABB_encloses_computed_witness :
    vec3Finite sampleBoundsMin ∧ vec3Finite sampleBoundsMax ∧
    InBox sampleBoundsMin sampleBoundsMax sampleOrigin ∧
    (∀ c ∈ aabbCorners sampleBoundsMin sampleBoundsMax, vec3Finite (mulPoint sampleShear c)) ∧
    transformAABB sampleShear sampleBoundsMin sampleBoundsMax =
      ({ x := ofScaled false 7 (-1), y := ofScaled true 3 (-1), z := ofScaled true 1 (-1) },
       { x := ofScaled false 13 (-1), y := ofScaled false 3 (-1), z := ofScaled false 1 (-1) }) ∧
    mulPoint sampleShear sampleOrigin = { x := ofScaled false 5 0, y := zero, z := zero } ∧
    InBox (transformAABB sampleShear sampleBoundsMin sampleBoundsMax).1
      (transformAABB sampleShear sampleBoundsMin sampleBoundsMax).2
      (mulPoint sampleShear sampleOrigin) :=
  ⟨by decide, by decide, by decide, by decide, by decide, by decide,
    (transformAABB_encloses_computed sampleShear sampleBoundsMin sampleBoundsMax sampleOrigin
      (by decide) (by decide) (by decide) (by decide)).2.2.2⟩

end Binary32

set_option maxRecDepth 20000 in
/-- C26, counterexample. Under the translation by `(1, 0, 0)` the box from `(0, 0, 0)` to
`(2^-24, 0, 0)` has the corner images `1` and `1 + 2^-24` on the x axis; in binary32 the
second rounds to `1.0`, so `transformAABB` returns `outMin.x = outMax.x = 1`, and the exact
image of the corner `(2^-24, 0, 0)`, a point of the local box, lies outside the returned
box. And with the first row `(2^100, -2^100, 0, 0)` the first corner `(2^30, 2^30, 0)` of the
box from `(2^30, 2^30, 0)` to `(2^31, 2^31, 0)` has the image `inf - inf`, a NaN, which
`glm::min` and `glm::max` keep: `outMin.x <= outMax.x` is false. -/
theorem transformAABB_rounding_loses_point :
    Binary32.transformAABB Binary32.sampleShift Binary32.sampleOrigin
        Binary32.sampleSliverCorner =
      ({ x := Binary32.one, y := Binary32.zero, z := Binary32.zero },
       { x := Binary32.one, y := Binary32.zero, z := Binary32.zero }) ∧
    InBox (Binary32.vec3ToRat Binary32.sampleOrigin)
      (Binary32.vec3ToRat Binary32.sampleSliverCorner)
      (Binary32.vec3ToRat Binary32.sampleSliverCorner) ∧
    (glm.mulPoint (Binary32.mat4ToRat Binary32.sampleShift)
      (Binary32.vec3ToRat Binary32.sampleSliverCorner)).x = 1 + 1 / 2 ^ 24 ∧
    (Binary32.vec3ToRat (Binary32.transformAABB Binary32.sampleShift Binary32.sampleOrigin
      Binary32.sampleSliverCorner).2).x = 1 ∧
    ¬ InBox
      (Binary32.vec3ToRat (Binary32.transformAABB Binary32.sampleShift Binary32.sampleOrigin
        Binary32.sampleSliverCorner).1)
      (Binary32.vec3ToRat (Binary32.transformAABB Binary32.sampleShift Binary32.sampleOrigin
        Binary32.sampleSliverCorner).2)
      (glm.mulPoint (Binary32.mat4ToRat Binary32.sampleShift)
        (Binary32.vec3ToRat Binary32.sampleSliverCorner)) ∧
    Binary32.vec3Finite Binary32.sampleFarCorner ∧ Binary32.vec3Finite Binary32.sampleFartherCorner ∧
    Binary32.InBox Binary32.sampleFarCorner Binary32.sampleFartherCorner Binary32.sampleFarCorner ∧
    (Binary32.mulPoint Binary32.sampleHugeRow Binary32.sampleFarCorner).x = Binary32.nan ∧
    (Binary32.transformAABB Binary32.sampleHugeRow Binary32.sampleFarCorner
      Binary32.sampleFartherCorner).1.x = Binary32.nan ∧
    (Binary32.transformAABB Binary32.sampleHugeRow Binary32.sampleFarCorner
      Binary32.sampleFartherCorner).2.x = Binary32.nan ∧
    Binary32.le
      (Binary32.transformAABB Binary32.sampleHugeRow Binary32.sampleFarCorner
        Binary32.sampleFartherCorner).1.x
      (Binary32.transformAABB Binary32.sampleHugeRow Binary32.sampleFarCorner
        Binary32.sampleFartherCorner).2.x = false := by
  have ht : Binary32.transformAABB Binary32.sampleShift Binary32.sampleOrigin
        Binary32.sampleSliverCorner =
      ({ x := Binary32.one, y := Binary32.zero, z := Binary32.zero },
       { x := Binary32.one, y := Binary32.zero, z := Binary32.zero }) := by decide
  have h0 : Binary32.vec3ToRat Binary32.sampleOrigin = { x := 0, y := 0, z := 0 } := by
    norm_num [Binary32.vec3ToRat, Binary32.sampleOrigin, Binary32.toRat, Binary32.zero,
      Binary32.units]
  have h1 : Binary32.vec3ToRat Binary32.sampleSliverCorner =
      { x := 1 / 2 ^ 24, y := 0, z := 0 } := by
    norm_num [Binary32.vec3ToRat, Binary32.sampleSliverCorner, Binary32.toRat, Binary32.zero,
      Binary32.ofScaled, Binary32.units, show Int.toNat 125 = 125 from rfl]
  have hm : Binary32.mat4ToRat Binary32.sampleShift =
      { c0 := { x := 1, y := 0, z := 0, w := 0 }, c1 := { x := 0, y := 1, z := 0, w := 0 },
        c2 := { x := 0, y := 0, z := 1, w := 0 }, c3 := { x := 1, y := 0, z := 0, w := 1 } } := by
    norm_num [Binary32.mat4ToRat, Binary32.vec4ToRat, Binary32.sampleShift, Binary32.toRat,
      Binary32.zero, Binary32.one, Binary32.units]
  have hone : Binary32.toRat Binary32.one = 1 := by
    norm_num [Binary32.toRat, Binary32.one, Binary32.units]
  have hx : (glm.mulPoint (Binary32.mat4ToRat Binary32.sampleShift)
      (Binary32.vec3ToRat Binary32.sampleSliverCorner)).x = 1 + 1 / 2 ^ 24 := by
    rw [hm, h1]
    norm_num [glm.mulPoint]
  refine ⟨ht, ?_, hx, ?_, ?_, by decide, by decide, by decide, by decide, by decide, by decide,
    by decide⟩
  · rw [h0, h1]
    norm_num [InBox]
  · rw [ht]
    exact hone
  · rw [ht]
    intro hbox
    have h2 := hbox.2.1
    rw [hx] at h2
    simp only [Binary32.vec3ToRat, hone] at h2
    norm_num at h2

/-! ## Plane extraction in binary32: proofs -/

section
variable {F : Type} [LinearOrderedField F]

/-- The signed values of the six extracted rows at a point are the six clip-space
expressions of the point. -/
theorem planeValue_extractedPlanes (M : glm.mat4 F) (x : glm.vec3 F) :
    (extractedPlanes M).map (fun pl => planeValue pl x) = clipRows (clipCoordinates M x) := by
  simp only [extractedPlanes, List.map, clipRows]
  simp only [planeValue, clipCoordinates, Renderer.mulVec]
  refine congrArg₂ _ (by ring) (congrArg₂ _ (by ring) (congrArg₂ _ (by ring)
    (congrArg₂ _ (by ring) (congrArg₂ _ (by ring) (congrArg₂ _ (by ring) rfl)))))

end

theorem zipWith_map_map {α β γ δ : Type} (f : β → γ → δ) (g : α → β) (h : α → γ)
    (l : List α) : List.zipWith f (l.map g) (l.map h) = l.map fun a => f (g a) (h a) := by
  induction l with
  | nil => rfl
  | cons a l ih => simp only [List.map_cons, List.zipWith_cons_cons, ih]

namespace Binary32

theorem toRat_eq_unitsOf (x : Binary32) : toRat x = (unitsOf x : ℚ) / 2 ^ 149 := by
  cases x <;> simp [toRat, unitsOf]

theorem toRat_add_of_exact {a b : Binary32} (h : ExactAdd a b) :
    toRat (add a b) = toRat a + toRat b := by
  rw [toRat_eq_unitsOf, toRat_eq_unitsOf a, toRat_eq_unitsOf b, h.2]
  push_cast
  ring

theorem toRat_sub_of_exact {a b : Binary32} (h : ExactSub a b) :
    toRat (sub a b) = toRat a - toRat b := by
  rw [toRat_eq_unitsOf, toRat_eq_unitsOf a, toRat_eq_unitsOf b, h.2]
  push_cast
  ring

theorem toRat_mul_of_exact {a b : Binary32} (h : ExactMul a b) :
    toRat (mul a b) = toRat a * toRat b := by
  have h2 : ((unitsOf (mul a b) : ℚ)) * 2 ^ 149 = (unitsOf a : ℚ) * (unitsOf b : ℚ) := by
    have h3 := congrArg (fun z : Int => (z : ℚ)) h.2
    simp only [Int.cast_mul, Int.cast_natCast, Nat.cast_pow, Nat.cast_ofNat] at h3
    exact h3
  rw [toRat_eq_unitsOf, toRat_eq_unitsOf a, toRat_eq_unitsOf b]
  field_simp
  linarith

theorem toRat_div_of_exact {a b : Binary32} (h : ExactDiv a b) (hb : toRat b ≠ 0) :
    toRat (div a b) = toRat a / toRat b := by
  have h2 : ((unitsOf (div a b) : ℚ)) * (unitsOf b : ℚ) = (unitsOf a : ℚ) * 2 ^ 149 := by
    have h3 := congrArg (fun z : Int => (z : ℚ)) h.2
    simp only [Int.cast_mul, Int.cast_natCast, Nat.cast_pow, Nat.cast_ofNat] at h3
    exact h3
  rw [toRat_eq_unitsOf b] at hb
  have hb2 : (unitsOf b : ℚ) ≠ 0 := by
    intro h0
    rw [h0] at hb
    simp at hb
  rw [toRat_eq_unitsOf, toRat_eq_unitsOf a, toRat_eq_unitsOf b]
  field_simp
  linarith

theorem toRat_sqrt_of_exact {a : Binary32} (h : ExactSqrt a) :
    toRat (sqrt a) * toRat (sqrt a) = toRat a := by
  have h2 : ((unitsOf (sqrt a) : ℚ)) * (unitsOf (sqrt a) : ℚ) = (unitsOf a : ℚ) * 2 ^ 149 := by
    have h3 := congrArg (fun z : Int => (z : ℚ)) h.2
    simp only [Int.cast_mul, Int.cast_natCast, Nat.cast_pow, Nat.cast_ofNat] at h3
    exact h3
  rw [toRat_eq_unitsOf, toRat_eq_unitsOf a]
  field_simp
  linarith

theorem toRat_round_nonneg (a b : Nat) : 0 ≤ toRat (round false a b) := by
  rcases round_cases false a b with ⟨m, h⟩ | h
  · rw [h]
    simp only [toRat, units_false]
    positivity
  · rw [h]
    simp [toRat]

theorem toRat_sqrt_nonneg (x : Binary32) : 0 ≤ toRat (sqrt x) := by
  cases x with
  | nan => simp [sqrt, toRat]
  | inf s => cases s <;> simp [sqrt, toRat]
  | finite s m =>
    simp only [sqrt]
    split_ifs with hm hs
    · cases s <;> simp [toRat, units]
    · simp [toRat]
    · exact toRat_round_nonneg _ _
    · exact toRat_round_nonneg _ _

theorem lt_zero_iff_toRat_pos {x : Binary32} (h : IsFinite x) :
    lt zero x = true ↔ 0 < toRat x := by
  obtain ⟨s, m, rfl⟩ := exists_of_isFinite h
  simp only [lt, zero, units_false, decide_eq_true_eq, toRat]
  constructor
  · intro hpos
    have : (0 : ℚ) < ((units s m : Int) : ℚ) := by exact_mod_cast hpos
    positivity
  · intro hpos
    have h2 : (0 : ℚ) < ((units s m : Int) : ℚ) := by
      by_contra hn
      have hle : ((units s m : Int) : ℚ) ≤ 0 := not_lt.mp hn
      have : ((units s m : Int) : ℚ) / 2 ^ 149 ≤ 0 :=
        div_nonpos_of_nonpos_of_nonneg hle (by positivity)
      linarith
    exact_mod_cast h2

end Binary32

/-- The normalization of a plane in binary32, when none of its operations rounds, is the
exact normalization of the plane by the real value of the computed length. -/
theorem normalizePlane_toRat_of_exact (pl : glm.vec4 Binary32)
    (h : Binary32.NormalizeExact pl) :
    0 ≤ Binary32.toRat (Binary32.length { x := pl.x, y := pl.y, z := pl.z }) ∧
      Binary32.toRat (Binary32.length { x := pl.x, y := pl.y, z := pl.z }) *
          Binary32.toRat (Binary32.length { x := pl.x, y := pl.y, z := pl.z }) =
        glm.dot (planeNormal (Binary32.vec4ToRat pl)) (planeNormal (Binary32.vec4ToRat pl)) ∧
      Binary32.vec4ToRat (Binary32.normalizePlane pl) =
        normalizePlane
          (fun _ => Binary32.toRat (Binary32.length { x := pl.x, y := pl.y, z := pl.z }))
          (Binary32.vec4ToRat pl) ∧
      Binary32.vec4Finite (Binary32.normalizePlane pl) := by
  obtain ⟨mx, my, mz, a1, a2, sq, fw, hdiv⟩ := h
  have hlen : Binary32.length { x := pl.x, y := pl.y, z := pl.z } =
      Binary32.sqrt (Binary32.dot { x := pl.x, y := pl.y, z := pl.z }
        { x := pl.x, y := pl.y, z := pl.z }) := rfl
  have hdot : Binary32.toRat (Binary32.dot { x := pl.x, y := pl.y, z := pl.z }
      { x := pl.x, y := pl.y, z := pl.z }) =
      glm.dot (planeNormal (Binary32.vec4ToRat pl)) (planeNormal (Binary32.vec4ToRat pl)) := by
    unfold Binary32.dot
    dsimp only
    rw [Binary32.toRat_add_of_exact a2, Binary32.toRat_add_of_exact a1,
      Binary32.toRat_mul_of_exact mx, Binary32.toRat_mul_of_exact my,
      Binary32.toRat_mul_of_exact mz]
    rfl
  have hsq := Binary32.toRat_sqrt_of_exact sq
  rw [← hlen, hdot] at hsq
  have hfl : Binary32.IsFinite (Binary32.length { x := pl.x, y := pl.y, z := pl.z }) := by
    rw [hlen]
    exact sq.1
  have h0 : 0 ≤ Binary32.toRat (Binary32.length { x := pl.x, y := pl.y, z := pl.z }) := by
    rw [hlen]
    exact Binary32.toRat_sqrt_nonneg _
  refine ⟨h0, hsq, ?_⟩
  by_cases hlt : Binary32.lt Binary32.zero
      (Binary32.length { x := pl.x, y := pl.y, z := pl.z }) = true
  · have hpos := (Binary32.lt_zero_iff_toRat_pos hfl).1 hlt
    have hne : Binary32.toRat (Binary32.length { x := pl.x, y := pl.y, z := pl.z }) ≠ 0 :=
      ne_of_gt hpos
    obtain ⟨d1, d2, d3, d4⟩ := hdiv hlt
    have hn : Binary32.normalizePlane pl =
        Binary32.divScalar pl (Binary32.length { x := pl.x, y := pl.y, z := pl.z }) := by
      unfold Binary32.normalizePlane
      dsimp only
      rw [if_pos hlt]
    rw [hn]
    refine ⟨?_, d1.1, d2.1, d3.1, d4.1⟩
    unfold normalizePlane
    dsimp only
    rw [if_pos hpos]
    unfold Binary32.divScalar Binary32.vec4ToRat glm.vec4.divScalar
    dsimp only
    rw [Binary32.toRat_div_of_exact d1 hne, Binary32.toRat_div_of_exact d2 hne,
      Binary32.toRat_div_of_exact d3 hne, Binary32.toRat_div_of_exact d4 hne]
  · have hnpos : ¬ (Binary32.toRat (Binary32.length { x := pl.x, y := pl.y, z := pl.z }) > 0) :=
      fun hp => hlt ((Binary32.lt_zero_iff_toRat_pos hfl).2 hp)
    have hn : Binary32.normalizePlane pl = pl := by
      unfold Binary32.normalizePlane
      dsimp only
      rw [if_neg hlt]
    rw [hn]
    refine ⟨?_, (Binary32.mul_isFinite_inv mx.1).1, (Binary32.mul_isFinite_inv my.1).1,
      (Binary32.mul_isFinite_inv mz.1).1, fw⟩
    unfold normalizePlane
    dsimp only
    rw [if_neg hnpos]

/-- The six extracted rows in binary32, when no sum or difference rounds, are the exact
extracted rows of the matrix of the real values. -/
theorem extractedRows_toRat_of_exact (M : glm.mat4 Binary32) (h : Binary32.RowsExact M) :
    (Binary32.extractedRows M).map Binary32.vec4ToRat =
      extractedPlanes (Binary32.mat4ToRat M) := by
  obtain ⟨a0, b0, c0, d0, e0, f0⟩ := h M.c0 (by simp)
  obtain ⟨a1, b1, c1, d1, e1, f1⟩ := h M.c1 (by simp)
  obtain ⟨a2, b2, c2, d2, e2, f2⟩ := h M.c2 (by simp)
  obtain ⟨a3, b3, c3, d3, e3, f3⟩ := h M.c3 (by simp)
  simp only [Binary32.extractedRows, extractedPlanes, List.map, Binary32.vec4ToRat,
    Binary32.mat4ToRat,
    Binary32.toRat_add_of_exact a0, Binary32.toRat_sub_of_exact b0,
    Binary32.toRat_add_of_exact c0, Binary32.toRat_sub_of_exact d0,
    Binary32.toRat_add_of_exact e0, Binary32.toRat_sub_of_exact f0,
    Binary32.toRat_add_of_exact a1, Binary32.toRat_sub_of_exact b1,
    Binary32.toRat_add_of_exact c1, Binary32.toRat_sub_of_exact d1,
    Binary32.toRat_add_of_exact e1, Binary32.toRat_sub_of_exact f1,
    Binary32.toRat_add_of_exact a2, Binary32.toRat_sub_of_exact b2,
    Binary32.toRat_add_of_exact c2, Binary32.toRat_sub_of_exact d2,
    Binary32.toRat_add_of_exact e2, Binary32.toRat_sub_of_exact f2,
    Binary32.toRat_add_of_exact a3, Binary32.toRat_sub_of_exact b3,
    Binary32.toRat_add_of_exact c3, Binary32.toRat_sub_of_exact d3,
    Binary32.toRat_add_of_exact e3, Binary32.toRat_sub_of_exact f3]

namespace RenderGraph

theorem applyBufferAccess_scratch_append (g : RenderGraph) (a : BufferAccess) :
    ∃ own, (applyBufferAccess g a).scratchBufBarriers = g.scratchBufBarriers ++ own := by
  cases hres : g.buffers[a.id]? with
  | none =>
    rw [applyBufferAccess_out_of_range g a (List.getElem?_eq_none_iff.mp hres)]
    exact ⟨[], (List.append_nil _).symm⟩
  | some res =>
    rw [applyBufferAccess_in_range g a res hres]
    split_ifs
    · exact ⟨[], (List.append_nil _).symm⟩
    · exact ⟨[], (List.append_nil _).symm⟩
    · exact ⟨_, rfl⟩

theorem applyBufferAccesses_scratch_append (l : List BufferAccess) (g : RenderGraph) :
    ∃ later, (applyBufferAccesses g l).scratchBufBarriers = g.scratchBufBarriers ++ later := by
  induction l generalizing g with
  | nil => exact ⟨[], (List.append_nil _).symm⟩
  | cons a l ih =>
    obtain ⟨own, h1⟩ := applyBufferAccess_scratch_append g a
    obtain ⟨later, h2⟩ := ih (applyBufferAccess g a)
    refine ⟨own ++ later, ?_⟩
    rw [applyBufferAccesses_cons, h2, h1, List.append_assoc]

/-- When a pass has a barrier in one of its lists, `applyBarriers` issues the
synchronization call with both lists. -/
theorem applyBarriers_trace_of_barrier (g : RenderGraph) (vk : VulkanContext) (cmd : Nat)
    (pass : Pass)
    (h : (applyBarriers g vk cmd pass).1.scratchImgBarriers ≠ [] ∨
      (applyBarriers g vk cmd pass).1.scratchBufBarriers ≠ []) :
    (applyBarriers g vk cmd pass).2.trace =
      vk.trace ++ [Event.cmdPipelineBarrier2 cmd (applyBarriers g vk cmd pass).1.scratchImgBarriers
        (applyBarriers g vk cmd pass).1.scratchBufBarriers] := by
  rw [applyBarriers_trace]
  unfold barrierEvents
  rw [if_neg]
  intro hb
  rw [Bool.and_eq_true, List.isEmpty_iff, List.isEmpty_iff] at hb
  rcases h with h | h
  · exact h hb.1
  · exact h hb.2

/-- C2, amended. When the buffer loop of `applyBarriers` processes an access whose id is an
index of the buffer table: a buffer whose recorded access mask is zero gets no barrier and
its record takes the requested stage and access masks; a buffer whose recorded access mask
is not zero gets one barrier exactly when the recorded or the requested access mask
contains a write bit, or the requested stage mask or access mask differs from the recorded
one, and otherwise the barrier list is left as it was. For every pass in whose buffer loop
the access is reached in this state, the buffer barriers of the pass are the list after the
access followed by the barriers of the later accesses, and `applyBarriers` issues one
`cmdPipelineBarrier2` call that carries them together with the image barriers of the pass,
unless both lists are empty; so when the access needs a barrier the call is issued and
carries it. -/
theorem applyBarriers_buffer_barrier_iff (g : RenderGraph) (ba : BufferAccess)
    (res : BufferResource) (hres : g.buffers[ba.id]? = some res) :
    (res.lastAccess = 0 →
      (applyBufferAccess g ba).scratchBufBarriers = g.scratchBufBarriers ∧
      (applyBufferAccess g ba).buffers = g.buffers.set ba.id
        { res with
          lastStage := (stagesAccessForBufferUse ba.use ba.write).stage
          lastAccess := (stagesAccessForBufferUse ba.use ba.write).access }) ∧
    (res.lastAccess ≠ 0 →
      ((applyBufferAccess g ba).scratchBufBarriers = g.scratchBufBarriers ++
          [{ srcStageMask := res.lastStage
             srcAccessMask := res.lastAccess
             dstStageMask := (stagesAccessForBufferUse ba.use ba.write).stage
             dstAccessMask := (stagesAccessForBufferUse ba.use ba.write).access
             buffer := res.buffer }] ↔
        (res.lastAccess &&& bufferWriteBits ≠ 0 ∨
          (stagesAccessForBufferUse ba.use ba.write).access &&& bufferWriteBits ≠ 0 ∨
          res.lastStage ≠ (stagesAccessForBufferUse ba.use ba.write).stage ∨
          res.lastAccess ≠ (stagesAccessForBufferUse ba.use ba.write).access)) ∧
      ((applyBufferAccess g ba).scratchBufBarriers = g.scratchBufBarriers ↔
        (res.lastAccess &&& bufferWriteBits = 0 ∧
          (stagesAccessForBufferUse ba.use ba.write).access &&& bufferWriteBits = 0 ∧
          res.lastStage = (stagesAccessForBufferUse ba.use ba.write).stage ∧
          res.lastAccess = (stagesAccessForBufferUse ba.use ba.write).access))) ∧
    (∀ (g0 : RenderGraph) (vk : VulkanContext) (cmd : Nat) (pass : Pass)
        (pre post : List BufferAccess),
      pass.buffers = pre ++ ba :: post →
      applyBufferAccesses
        (applyImageAccesses ({ g0 with scratchImgBarriers := [], scratchBufBarriers := [] }, vk)
          pass.images).1 pre = g →
      ∃ later,
        (applyBarriers g0 vk cmd pass).1.scratchBufBarriers =
          (applyBufferAccess g ba).scratchBufBarriers ++ later ∧
        (applyBarriers g0 vk cmd pass).2.trace =
          vk.trace ++ barrierEvents cmd (applyBarriers g0 vk cmd pass).1.scratchImgBarriers
            ((applyBufferAccess g ba).scratchBufBarriers ++ later) ∧
        (res.lastAccess ≠ 0 →
          (res.lastAccess &&& bufferWriteBits ≠ 0 ∨
            (stagesAccessForBufferUse ba.use ba.write).access &&& bufferWriteBits ≠ 0 ∨
            res.lastStage ≠ (stagesAccessForBufferUse ba.use ba.write).stage ∨
            res.lastAccess ≠ (stagesAccessForBufferUse ba.use ba.write).access) →
          (applyBarriers g0 vk cmd pass).2.trace =
            vk.trace ++
              [Event.cmdPipelineBarrier2 cmd (applyBarriers g0 vk cmd pass).1.scratchImgBarriers
                (g.scratchBufBarriers ++
                  [{ srcStageMask := res.lastStage
                     srcAccessMask := res.lastAccess
                     dstStageMask := (stagesAccessForBufferUse ba.use ba.write).stage
                     dstAccessMask := (stagesAccessForBufferUse ba.use ba.write).access
                     buffer := res.buffer }] ++ later)])) := by
  obtain ⟨k1, k2⟩ := applyBufferAccess_barrier_iff g ba res hres
  refine ⟨k1, k2, ?_⟩
  intro g0 vk cmd pass pre post hsplit hst
  have hfinal : (applyBarriers g0 vk cmd pass).1 =
      applyBufferAccesses (applyBufferAccess g ba) post := by
    rw [applyBarriers_graph, hsplit, applyBufferAccesses_append, applyBufferAccesses_cons, hst]
  obtain ⟨later, hlater⟩ := applyBufferAccesses_scratch_append post (applyBufferAccess g ba)
  have hL : (applyBarriers g0 vk cmd pass).1.scratchBufBarriers =
      (applyBufferAccess g ba).scratchBufBarriers ++ later := by
    rw [hfinal, hlater]
  refine ⟨later, hL, ?_, ?_⟩
  · rw [applyBarriers_trace, hL]
  · intro h0 hneed
    have hown := (k2 h0).1.2 hneed
    rw [applyBarriers_trace_of_barrier g0 vk cmd pass (Or.inr (by
      rw [hL, hown]
      simp)), hL, hown]

/-- C3, amended. Let `R` be a tracked image and let the last access of `R` that pass `P1`
declares be a write as colour or depth attachment; if the next pass `P2` declares an access
of `R` (a read, also one whose required layout is the one `P1` left `R` in), then the image
barriers of `P2` contain a barrier for `R` whose source access mask is the write access of
`P1`, and applying the barriers of `P2` issues the `cmdPipelineBarrier2` call that carries
the barrier lists of `P2`. Likewise let `R` be a tracked buffer and let the last access of
`R` that `P1` declares be a write as storage or transfer buffer; if `P2` declares an access
of `R`, the buffer barriers of `P2` contain a barrier for `R` whose source access mask is
that write access, and the call is issued with them. -/
theorem write_then_read_barrier :
    (∀ (g : RenderGraph) (vk : VulkanContext) (cmd : Nat) (P1 P2 : Pass) (R : Nat)
        (res0 : ImageResource) (use1 : ImageUse) (pre1 post1 : List ImageAccess)
        (a2 : ImageAccess) (pre2 post2 : List ImageAccess),
      g.images[R]? = some res0 →
      (use1 = ImageUse.ColorAttachment ∨ use1 = ImageUse.DepthAttachment) →
      P1.images = pre1 ++ { id := R, use := use1, write := true } :: post1 →
      (∀ x ∈ post1, x.id ≠ R) →
      P2.images = pre2 ++ a2 :: post2 →
      a2.id = R →
      (∀ x ∈ pre2, x.id ≠ R) →
      (∃ b ∈ (applyBarriers (applyBarriers g vk cmd P1).1 (applyBarriers g vk cmd P1).2 cmd
          P2).1.scratchImgBarriers,
        b.image = res0.image ∧
        b.srcAccessMask = (stagesAccessForImageUse use1 true).access ∧
        b.dstAccessMask = (stagesAccessForImageUse a2.use a2.write).access ∧
        b.newLayout = (stagesAccessForImageUse a2.use a2.write).layout) ∧
      (applyBarriers (applyBarriers g vk cmd P1).1 (applyBarriers g vk cmd P1).2 cmd
          P2).2.trace =
        (applyBarriers g vk cmd P1).2.trace ++
          [Event.cmdPipelineBarrier2 cmd
            (applyBarriers (applyBarriers g vk cmd P1).1 (applyBarriers g vk cmd P1).2 cmd
              P2).1.scratchImgBarriers
            (applyBarriers (applyBarriers g vk cmd P1).1 (applyBarriers g vk cmd P1).2 cmd
              P2).1.scratchBufBarriers]) ∧
    (∀ (g : RenderGraph) (vk : VulkanContext) (cmd : Nat) (P1 P2 : Pass) (R : Nat)
        (res0 : BufferResource) (use1 : BufferUse) (pre1 post1 : List BufferAccess)
        (a2 : BufferAccess) (pre2 post2 : List BufferAccess),
      g.buffers[R]? = some res0 →
      (use1 = BufferUse.Storage ∨ use1 = BufferUse.Transfer) →
      P1.buffers = pre1 ++ { id := R, use := use1, write := true } :: post1 →
      (∀ x ∈ post1, x.id ≠ R) →
      P2.buffers = pre2 ++ a2 :: post2 →
      a2.id = R →
      (∀ x ∈ pre2, x.id ≠ R) →
      (∃ b ∈ (applyBarriers (applyBarriers g vk cmd P1).1 (applyBarriers g vk cmd P1).2 cmd
          P2).1.scratchBufBarriers,
        b.buffer = res0.buffer ∧
        b.srcAccessMask = (stagesAccessForBufferUse use1 true).access ∧
        b.dstAccessMask = (stagesAccessForBufferUse a2.use a2.write).access) ∧
      (applyBarriers (applyBarriers g vk cmd P1).1 (applyBarriers g vk cmd P1).2 cmd
          P2).2.trace =
        (applyBarriers g vk cmd P1).2.trace ++
          [Event.cmdPipelineBarrier2 cmd
            (applyBarriers (applyBarriers g vk cmd P1).1 (applyBarriers g vk cmd P1).2 cmd
              P2).1.scratchImgBarriers
            (applyBarriers (applyBarriers g vk cmd P1).1 (applyBarriers g vk cmd P1).2 cmd
              P2).1.scratchBufBarriers]) := by
  refine ⟨?_, ?_⟩
  · intro g vk cmd P1 P2 R res0 use1 pre1 post1 a2 pre2 post2 hres huse h1 hpost1 h2 ha2 hpre2
    obtain ⟨b, hb, hrest⟩ := write_then_read_barrier_lists.1 g vk cmd P1 P2 R res0 use1 pre1
      post1 a2 pre2 post2 hres huse h1 hpost1 h2 ha2 hpre2
    exact ⟨⟨b, hb, hrest⟩, applyBarriers_trace_of_barrier _ _ cmd P2
      (Or.inl (List.ne_nil_of_mem hb))⟩
  · intro g vk cmd P1 P2 R res0 use1 pre1 post1 a2 pre2 post2 hres huse h1 hpost1 h2 ha2 hpre2
    obtain ⟨b, hb, hrest⟩ := write_then_read_barrier_lists.2 g vk cmd P1 P2 R res0 use1 pre1
      post1 a2 pre2 post2 hres huse h1 hpost1 h2 ha2 hpre2
    exact ⟨⟨b, hb, hrest⟩, applyBarriers_trace_of_barrier _ _ cmd P2
      (Or.inr (List.ne_nil_of_mem hb))⟩

end RenderGraph

namespace RenderGraph

/-- Witness of C2, amended: an indirect read of the buffer a storage write was recorded for;
the first access of the imported buffer by the writing pass issued no call, the read issues
the call with the one barrier. -/
theorem applyBarriers_buffer_barrier_iff_witness :
    ({ sampleAfterWrite.1 with scratchImgBarriers := [], scratchBufBarriers := [] } :
        RenderGraph).buffers[sampleIndirectRead.id]? =
      some { buffer := 501, memory := 0, lastStage := 2184, lastAccess := 96, owned := false,
             pooled := false } ∧
    sampleIndirectPass.buffers = [] ++ sampleIndirectRead :: [] ∧
    (applyBarriers sampleGraph sampleContext 11 sampleWritePass).2.trace = [] ∧
    (applyBarriers sampleAfterWrite.1 sampleAfterWrite.2 11 sampleIndirectPass).2.trace =
      [Event.cmdPipelineBarrier2 11 []
        [{ srcStageMask := 2184, srcAccessMask := 96, dstStageMask := 2, dstAccessMask := 1,
           buffer := 501 }]] ∧
    ∃ later,
      (applyBarriers sampleAfterWrite.1 sampleAfterWrite.2 11
          sampleIndirectPass).1.scratchBufBarriers =
        (applyBufferAccess
          { sampleAfterWrite.1 with scratchImgBarriers := [], scratchBufBarriers := [] }
          sampleIndirectRead).scratchBufBarriers ++ later ∧
      (applyBarriers sampleAfterWrite.1 sampleAfterWrite.2 11 sampleIndirectPass).2.trace =
        sampleAfterWrite.2.trace ++
          barrierEvents 11
            (applyBarriers sampleAfterWrite.1 sampleAfterWrite.2 11
              sampleIndirectPass).1.scratchImgBarriers
            ((applyBufferAccess
              { sampleAfterWrite.1 with scratchImgBarriers := [], scratchBufBarriers := [] }
              sampleIndirectRead).scratchBufBarriers ++ later) :=
  ⟨by decide, by decide, by decide, by decide,
    match (applyBarriers_buffer_barrier_iff
      { sampleAfterWrite.1 with scratchImgBarriers := [], scratchBufBarriers := [] }
      sampleIndirectRead
      { buffer := 501, memory := 0, lastStage := 2184, lastAccess := 96, owned := false,
        pooled := false } (by decide)).2.2 sampleAfterWrite.1 sampleAfterWrite.2 11
      sampleIndirectPass [] [] (by decide) rfl with
    | ⟨later, h1, h2, _⟩ => ⟨later, h1, h2⟩⟩

/-- Witness of C3, amended: a colour-attachment write followed by a sampled read; the read
issues the call with the barrier from the write access to the sampled read. -/
theorem write_then_read_barrier_witness :
    sampleGraph.images[(0 : Nat)]? = some sampleImage ∧
    (applyBarriers sampleAfterColor.1 sampleAfterColor.2 11 sampleReadPass).2.trace =
      sampleAfterColor.2.trace ++
        [Event.cmdPipelineBarrier2 11
          [{ srcStageMask := 1024, srcAccessMask := 256, dstStageMask := 2176,
             dstAccessMask := 4294967328, oldLayout := 2, newLayout := 5, image := 401,
             aspectMask := 1 }] []] ∧
    (∃ b ∈ (applyBarriers (applyBarriers sampleGraph sampleContext 11 sampleColorPass).1
        (applyBarriers sampleGraph sampleContext 11 sampleColorPass).2 11
        sampleReadPass).1.scratchImgBarriers,
      b.image = sampleImage.image ∧
      b.srcAccessMask = (stagesAccessForImageUse ImageUse.ColorAttachment true).access ∧
      b.dstAccessMask = (stagesAccessForImageUse sampleSampledRead.use
        sampleSampledRead.write).access ∧
      b.newLayout = (stagesAccessForImageUse sampleSampledRead.use
        sampleSampledRead.write).layout) ∧
    (applyBarriers (applyBarriers sampleGraph sampleContext 11 sampleColorPass).1
        (applyBarriers sampleGraph sampleContext 11 sampleColorPass).2 11
        sampleReadPass).2.trace =
      (applyBarriers sampleGraph sampleContext 11 sampleColorPass).2.trace ++
        [Event.cmdPipelineBarrier2 11
          (applyBarriers (applyBarriers sampleGraph sampleContext 11 sampleColorPass).1
            (applyBarriers sampleGraph sampleContext 11 sampleColorPass).2 11
            sampleReadPass).1.scratchImgBarriers
          (applyBarriers (applyBarriers sampleGraph sampleContext 11 sampleColorPass).1
            (applyBarriers sampleGraph sampleContext 11 sampleColorPass).2 11
            sampleReadPass).1.scratchBufBarriers] :=
  ⟨rfl, by decide,
    write_then_read_barrier.1 sampleGraph sampleContext 11 sampleColorPass sampleReadPass 0
      sampleImage ImageUse.ColorAttachment [] [] sampleSampledRead [] []
      rfl (Or.inl rfl) (by decide) (by simp) (by decide) rfl (by simp)⟩

end RenderGraph
